import Mathlib

/-!
Mini22 transceiver firmware (`mini22.c`): embedding and verified properties.

The target is an ATmega644P compiled with avr-gcc: `int` is 16 bits, `long` is
32 bits, `unsigned char` is 8 bits, pointers are 16 bits, `double` is the 32-bit
IEEE format.  Machine integers are embedded as `Int` / `Nat` with the wrap-around
written out; the floating-point products of the tuning words are embedded with
their rounding to 24 significant bits.
-/

namespace Mini22

/-! ## Machine integers -/

/-- Conversion to a C `long`: the 32-bit two's complement value with the bit pattern of `x`. -/
def toLong (x : Int) : Int := (x + 2147483648) % 4294967296 - 2147483648

/-- Conversion to a C `int` (16 bits on AVR). -/
def toInt16 (x : Int) : Int := (x + 32768) % 65536 - 32768

/-- Conversion to a C `unsigned long` (32 bits). -/
def toULong (x : Int) : Nat := (x % 4294967296).toNat

/-- Conversion to a C `unsigned int` (16 bits on AVR). -/
def toUInt16 (x : Int) : Nat := (x % 65536).toNat

/-- Conversion to a C `unsigned char`. -/
def toUChar (x : Int) : Nat := (x % 256).toNat

/-! ## EEPROM -/

/-- EEPROM contents: a byte for every address (a cell holds its value modulo 256). -/
abbrev EEPROM := Nat → Nat

/-- Byte read `eeprom_read_byte((uint8_t*)adr)`. -/
def eeprom_read_byte (e : EEPROM) (adr : Nat) : Nat := e adr % 256

/-- Byte write `eeprom_write_byte((uint8_t*)adr, v)`: only the cell `adr` changes. -/
def eeprom_write_byte (e : EEPROM) (adr : Nat) (v : Nat) : EEPROM :=
  fun a => if a = adr then v % 256 else e a

/-- Address denoted by `(uint8_t*)start_adr + k` with 16-bit pointers. -/
def eeAddr (start_adr : Int) (k : Nat) : Nat := ((start_adr + (k : Int)) % 65536).toNat

/-- Embedding of `store_frequency(long f, int memplace)`.  The argument is converted to `long`
on entry; `>>` on a signed value is the arithmetic shift (floor division); the
`cli()` / `sei()` pair and the `eeprom_is_ready()` busy-waits have no effect on the
contents written. -/
def store_frequency (f : Int) (memplace : Int) (e : EEPROM) : EEPROM :=
  let f : Int := toLong f
  let start_adr : Int := toInt16 (memplace * 4)
  let hiword : Int := f / 65536
  let loword : Int := toLong (f - toLong (hiword * 65536))
  let hmsb : Nat := toUChar (hiword / 256)
  let hlsb : Nat := toUChar (toLong (hiword - toInt16 ((hmsb : Int) * 256)))
  let lmsb : Nat := toUChar (loword / 256)
  let llsb : Nat := toUChar (toLong (loword - toInt16 ((lmsb : Int) * 256)))
  let e1 := eeprom_write_byte e (eeAddr start_adr 0) hmsb
  let e2 := eeprom_write_byte e1 (eeAddr start_adr 1) hlsb
  let e3 := eeprom_write_byte e2 (eeAddr start_adr 2) lmsb
  eeprom_write_byte e3 (eeAddr start_adr 3) llsb

/-- Embedding of `unsigned long load_frequency(int memplace)`.  The sum is formed in `long`
(the third product in `unsigned int`) and converted to `unsigned long` on return. -/
def load_frequency (memplace : Int) (e : EEPROM) : Nat :=
  let start_adr : Int := toInt16 (memplace * 4)
  let hmsb : Nat := eeprom_read_byte e (eeAddr start_adr 0)
  let hlsb : Nat := eeprom_read_byte e (eeAddr start_adr 1)
  let lmsb : Nat := eeprom_read_byte e (eeAddr start_adr 2)
  let llsb : Nat := eeprom_read_byte e (eeAddr start_adr 3)
  let rf : Int :=
    toLong (toLong (toLong (toLong (16777216 * (hmsb : Int)) + toLong (65536 * (hlsb : Int)))
      + (toUInt16 (256 * (lmsb : Int)) : Int)) + (llsb : Int))
  toULong rf

/-- Embedding of `store_last_mem`. -/
def store_last_mem (mem : Int) (e : EEPROM) : EEPROM := eeprom_write_byte e 127 (toUChar mem)

/-- Embedding of `store_last_vfo`. -/
def store_last_vfo (vfo : Int) (e : EEPROM) : EEPROM := eeprom_write_byte e 128 (toUChar vfo)

/-- Embedding of `load_last_mem`. -/
def load_last_mem (e : EEPROM) : Int := (eeprom_read_byte e 127 : Int)

/-- Embedding of `load_last_vfo`. -/
def load_last_vfo (e : EEPROM) : Int := (eeprom_read_byte e 128 : Int)

/-- Embedding of `is_mem_freq_ok(unsigned long f)`. -/
def is_mem_freq_ok (f : Nat) : Int :=
  if f ≥ 13900000 ∧ f ≤ 14400000 then 1 else 0

/-- The frequency slots of the EEPROM layout comment: memories 0..15, VFO A/B at 16/17,
scan edges at 33/34, LO frequencies at 35/36. -/
def documentedSlot (m : Nat) : Prop := m ≤ 17 ∨ (33 ≤ m ∧ m ≤ 36)

instance (m : Nat) : Decidable (documentedSlot m) := by
  unfold documentedSlot; infer_instance

/-! ## Global variables -/

/-- Element `a[i]` of a two-element C array held as a pair. -/
def get2 {α : Type} (a : α × α) (i : Int) : α := if i = 0 then a.1 else a.2

/-- Array update `a[i] = v` of a two-element C array held as a pair. -/
def set2 {α : Type} (a : α × α) (i : Int) (v : α) : α × α :=
  if i = 0 then (v, a.2) else (a.1, v)

/-- The global variables of `mini22.c` (section V A R I A B L E S). `int` and `long`
variables are `Int`, `unsigned long` variables are `Nat`. -/
structure Globals where
  tuningknob : Int
  tuningcount : Int
  runseconds10 : Nat
  f_vfo : Nat × Nat
  vfo_x : Int
  vfo_y : Int
  f_lo : Int × Int
  sideband : Int
  last_memplace : Int
  last_mem : Int
  s_threshold : Int
  scanfreq : Int × Int
  smax : Int
  runseconds10s : Int
  deriving DecidableEq, Repr

/-- The initial values given by the C initialisers (zero where there is none). -/
def initGlobals : Globals :=
  { tuningknob := 0, tuningcount := 0, runseconds10 := 0, f_vfo := (0, 0), vfo_x := 0,
    vfo_y := 0, f_lo := (9000600, 8998200), sideband := 0, last_memplace := 0, last_mem := 0,
    s_threshold := 30, scanfreq := (0, 0), smax := 0, runseconds10s := 0 }

/-! ## Start-up loading in `main` -/

/-- State of `main` after the start-up loading code: the globals, the local `cur_vfo`
and the EEPROM. -/
structure BootState where
  g : Globals
  cur_vfo : Int
  e : EEPROM

/-- Body of the loop `for(t1 = 0; t1 < 2; t1++)` that loads the LO frequencies
(`f_lo` is `long`, so the loaded `unsigned long` is converted). -/
def boot_lo_step (t1 : Int) (s : BootState) : BootState :=
  let v : Int := toLong (load_frequency (35 + t1) s.e)
  let f_lo := set2 s.g.f_lo t1 v
  let f_lo :=
    if get2 f_lo t1 < 8995000 ∨ get2 f_lo t1 > 9005000 then
      (if t1 = 0 then set2 f_lo t1 9001500
       else if t1 = 1 then set2 f_lo t1 8998500
       else f_lo)
    else f_lo
  { s with g := { s.g with f_lo := f_lo } }

/-- Body of the loop `for(t1 = 0; t1 < 2; t1++)` that loads the VFO frequencies; an
out-of-band value is replaced by 14220000 and written back to the slot. -/
def boot_vfo_step (t1 : Int) (s : BootState) : BootState :=
  let f_vfo := set2 s.g.f_vfo t1 (load_frequency (16 + t1) s.e)
  if is_mem_freq_ok (get2 f_vfo t1) = 0 then
    let f_vfo := set2 f_vfo t1 14220000
    { s with g := { s.g with f_vfo := f_vfo },
             e := store_frequency ((get2 f_vfo t1 : Nat) : Int) (16 + t1) s.e }
  else
    { s with g := { s.g with f_vfo := f_vfo } }

/-- First part of the start-up loading code of `main`: scan threshold, scan edge
frequencies (`scanfreq` is `long`) and last memory place.  The calls of `show_mem_freq`
that follow only drive the display and are left out. -/
def boot_scalars (g : Globals) (e : EEPROM) : BootState :=
  -- Load scan threshold
  let s_threshold : Int := (eeprom_read_byte e 129 : Int)
  let s_threshold : Int := if s_threshold < 0 ∨ s_threshold > 80 then 30 else s_threshold
  -- Load scan edge frequencies
  let sf0 : Int := toLong (load_frequency 33 e)
  let sf0 : Int := if is_mem_freq_ok (toULong sf0) = 0 then 14100000 else sf0
  let sf1 : Int := toLong (load_frequency 34 e)
  let sf1 : Int := if is_mem_freq_ok (toULong sf1) = 0 then 14300000 else sf1
  -- Load last stored frequency
  let last_memplace : Int := load_last_mem e
  let last_memplace : Int := if last_memplace < 0 ∨ last_memplace > 15 then 0 else last_memplace
  { g := { g with s_threshold := s_threshold, scanfreq := (sf0, sf1),
                  last_memplace := last_memplace },
    cur_vfo := 0, e := e }

/-- The statements `cur_vfo = load_last_vfo(); if(cur_vfo < 0 || cur_vfo > 1) cur_vfo = 0;`. -/
def boot_cur_vfo (s : BootState) : BootState :=
  let cur_vfo : Int := load_last_vfo s.e
  let cur_vfo : Int := if cur_vfo < 0 ∨ cur_vfo > 1 then 0 else cur_vfo
  { s with cur_vfo := cur_vfo }

/-- The start-up loading code of `main` (from "Load scan threshold" to the end of the
VFO loop), in program order: scalars and scan edges, the LO loop for `t1 = 0, 1`, the last
VFO, the VFO loop for `t1 = 0, 1`. -/
def boot_load (g : Globals) (e : EEPROM) : BootState :=
  boot_vfo_step 1 (boot_vfo_step 0 (boot_cur_vfo
    (boot_lo_step 1 (boot_lo_step 0 (boot_scalars g e)))))

/-- The band window accepted by `is_mem_freq_ok`. -/
def inBand (v : Nat) : Prop := 13900000 ≤ v ∧ v ≤ 14400000

instance (v : Nat) : Decidable (inBand v) := by
  unfold inBand; infer_instance

/-- The window the start-up code accepts for an LO frequency. -/
def inLoBand (v : Nat) : Prop := 8995000 ≤ v ∧ v ≤ 9005000

instance (v : Nat) : Decidable (inLoBand v) := by
  unfold inLoBand; infer_instance

/-! ## Floating point

On the target (avr-gcc) `double` is the 32-bit IEEE format: 24 significant bits, every
result rounded to the nearest representable value, ties to the even mantissa.  The values
that occur in the tuning words are whole numbers or a whole number divided by a power of
two, so they are embedded with `Nat` arithmetic. -/

/-- The quotient `n / d` rounded to the nearest whole number, ties to the even one. -/
def rneDiv (n d : Nat) : Nat :=
  if 2 * (n % d) < d then n / d
  else if 2 * (n % d) > d then n / d + 1
  else if n / d % 2 = 0 then n / d else n / d + 1

/-- The number of binary digits of `n`, for `n < 2^fuel`. -/
def bitLength : Nat → Nat → Nat
  | 0, _ => 0
  | fuel + 1, n => if n = 0 then 0 else bitLength fuel (n / 2) + 1

/-- Rounding of the whole number `n < 2^64` to 24 significant bits: the pair `(m, s)` stands
for the value `m * 2^s`, where `s` is the number of digits dropped. -/
def f32_round (n : Nat) : Nat × Nat :=
  (rneDiv n (2 ^ (bitLength 64 n - 24)), bitLength 64 n - 24)

/-- The conversion of an `unsigned long` to `double`; the result is a whole number. -/
def f32_of_ulong (u : Nat) : Nat := (f32_round u).1 * 2 ^ (f32_round u).2

/-- The `double` product of the whole number `x` and the constant `c / 2^k`, converted to an
integer type: the exact product `x * c / 2^k` is rounded to 24 significant bits and then
truncated. -/
def f32_mul_trunc (x c k : Nat) : Nat :=
  (f32_round (x * c)).1 * 2 ^ (f32_round (x * c)).2 / 2 ^ k

/-- The mantissa of the literal 10.73741824 as a `double`: the literal is
1073741824 / 100000000 and lies between 2^3 and 2^4, so its 24 significant bits are those of
the literal times 2^20. -/
def K1_mant : Nat := rneDiv (1073741824 * 2 ^ 20) 100000000

/-- The mantissa of the literal 3.579139413 as a `double`: the literal is
3579139413 / 1000000000 and lies between 2^1 and 2^2, so its 24 significant bits are those of
the literal times 2^22. -/
def K2_mant : Nat := rneDiv (3579139413 * 2 ^ 22) 1000000000

/-! ## DDS 1 (AD9951): bit-serial transfer on PORTB -/

/-- Line `IO_UD` of DDS 1 (PB0). -/
def DDS1_IO_UD : Nat := 1

/-- Line `SDIO` of DDS 1 (PB1). -/
def DDS1_SDIO : Nat := 2

/-- Line `SCLK` of DDS 1 (PB2). -/
def DDS1_SCLK : Nat := 4

/-- The intermediate frequency `INTERFREQUENCY`. -/
def INTERFREQUENCY : Nat := 9000000

/-- An 8-bit output port register together with the chronological list of the values
written to it. -/
structure Wire where
  port : Nat
  log : List Nat
  deriving DecidableEq, Repr

/-- The statement `PORT |= mask;`. -/
def Wire.setBits (w : Wire) (mask : Nat) : Wire :=
  { port := w.port ||| mask, log := w.log ++ [w.port ||| mask] }

/-- The statement `PORT &= ~(mask);` on an 8-bit register. -/
def Wire.clearBits (w : Wire) (mask : Nat) : Wire :=
  { port := w.port &&& (255 - mask), log := w.log ++ [w.port &&& (255 - mask)] }

/-- Embedding of `spi1_send_bit(int sbit)`: SCLK low, SDIO set or erased, SCLK high. -/
def spi1_send_bit (sbit : Nat) (w : Wire) : Wire :=
  let w := w.clearBits DDS1_SCLK
  let w := if sbit ≠ 0 then w.setBits DDS1_SDIO else w.clearBits DDS1_SDIO
  w.setBits DDS1_SCLK

/-- The loop `for(t = 0; t < n; t++) { spi1_send_bit(v & x); x >>= 1; }` with `n`
iterations left. -/
def spi1_send_loop (v : Nat) : Nat → Nat → Wire → Wire
  | 0, _, w => w
  | n + 1, x, w => spi1_send_loop v n (x >>> 1) (spi1_send_bit (v &&& x) w)

/-- The loop of `set_frequency1` over the four bytes of the tuning word, with `n` iterations
left: `resultbyte = (fword & comparebyte) >> shiftbyte; comparebyte >>= 8; shiftbyte -= 8;`
followed by the inner loop over the eight bits starting with `x = (1 << 7)`.  After the last
iteration `shiftbyte` (-8 in C) is not used any more. -/
def spi1_send_fword (fword : Nat) : Nat → Nat → Nat → Wire → Wire
  | 0, _, _, w => w
  | n + 1, comparebyte, shiftbyte, w =>
      let resultbyte := (fword &&& comparebyte) >>> shiftbyte
      spi1_send_fword fword n (comparebyte >>> 8) (shiftbyte - 8)
        (spi1_send_loop resultbyte 8 128 w)

/-- The tuning word of `set_frequency1`: the statement
`fword = (unsigned long) (f + INTERFREQUENCY ± 1300) * 10.73741824;`.  The sum is formed in
`unsigned long` and converted to `double`, the product is a `double` and is truncated by the
assignment to the `unsigned long` variable `fword`.  A product of 2^32 or more has no
defined conversion; it is reduced modulo 2^32 here. -/
def tuning_word1 (sideband : Int) (frequency : Int) : Nat :=
  let f : Nat := toULong frequency
  if sideband = 0 then
    f32_mul_trunc (f32_of_ulong (toULong ((f : Int) + (INTERFREQUENCY : Int) + 1300)))
      K1_mant 20 % 4294967296
  else
    f32_mul_trunc (f32_of_ulong (toULong ((f : Int) + (INTERFREQUENCY : Int) - 1300)))
      K1_mant 20 % 4294967296

/-- Embedding of `set_frequency1(long frequency)`; the global `sideband` is a parameter. -/
def set_frequency1 (sideband : Int) (frequency : Int) (w : Wire) : Wire :=
  let fword := tuning_word1 sideband frequency
  -- Start transfer to DDS
  let w := w.clearBits DDS1_IO_UD
  -- Send instruction bit to set frequency by frequency tuning word
  let w := spi1_send_loop 0x04 8 128 w
  -- Calculate and transfer the 4 bytes of the tuning word to DDS
  let w := spi1_send_fword fword 4 0xFF000000 24 w
  -- End transfer sequence
  w.setBits DDS1_IO_UD

/-- What the receiving chip clocks in: the level of SDIO (bit 1) at every rising edge of
SCLK (bit 2) in a chronological list of port values; `prev` is the port value before the
first write. -/
def sclkRisingBits : Nat → List Nat → List Bool
  | _, [] => []
  | prev, v :: rest =>
      if !prev.testBit 2 && v.testBit 2 then v.testBit 1 :: sclkRisingBits v rest
      else sclkRisingBits v rest

/-- The low `n` bits of `x`, most significant first. -/
def msbFirst : Nat → Nat → List Bool
  | 0, _ => []
  | n + 1, x => x.testBit n :: msbFirst n x

/-- Last value of a chronological log, or `p` when nothing has been written. -/
def lastOr : Nat → List Nat → Nat
  | p, [] => p
  | _, v :: rest => lastOr v rest

/-- State of a DDS 1 transfer in progress, seen from the chip: the port register holds the
last value written, the first write was `h`, the bits clocked in so far are `bits`, and
`IO_UD` (bit 0) has been low in every value written. -/
structure Dds1Sent (p0 : Nat) (h : Nat) (w : Wire) (bits : List Bool) : Prop where
  last : lastOr p0 w.log = w.port
  head : w.log.head? = some h
  bits_eq : sclkRisingBits p0 w.log = bits
  ioud : ∀ v ∈ w.log, v.testBit 0 = false
  port_ioud : w.port.testBit 0 = false

/-- The bits presented by the loop `spi1_send_loop v n x`: one for each of the masks
`x, x >> 1, ...`. -/
def loopBits (v : Nat) : Nat → Nat → List Bool
  | 0, _ => []
  | n + 1, x => decide (v &&& x ≠ 0) :: loopBits v n (x >>> 1)

/-! ## DDS 2 (AD9834): bit-serial transfer on PORTC -/

/-- Line `FSYNC` of DDS 2 (PC0). -/
def DDS_FSYNC : Nat := 1

/-- Line `SDATA` of DDS 2 (PC1). -/
def DDS_SDATA : Nat := 2

/-- Line `SCLK` of DDS 2 (PC2). -/
def DDS_SCLK : Nat := 4

/-- Embedding of `spi2_start`: SCLK high, then FSYNC low. -/
def spi2_start (w : Wire) : Wire :=
  (w.setBits DDS_SCLK).clearBits DDS_FSYNC

/-- Embedding of `spi2_stop`: FSYNC high. -/
def spi2_stop (w : Wire) : Wire :=
  w.setBits DDS_FSYNC

/-- Embedding of `spi2_send_bit(int sbit)`: SDATA set or cleared, SCLK high, SCLK low. -/
def spi2_send_bit (sbit : Nat) (w : Wire) : Wire :=
  let w := if sbit ≠ 0 then w.setBits DDS_SDATA else w.clearBits DDS_SDATA
  let w := w.setBits DDS_SCLK
  w.clearBits DDS_SCLK

/-- The tuning word of `set_frequency2` as the bit pattern of the `long` variable `fword1`:
the statements `fword0 = (double) 3.579139413 * f; fword1 = (long) fword0;`.  The
`unsigned long` argument is converted to `double`, the product is a `double` and is
truncated by the conversion to `long`.  A product of 2^31 or more has no defined
conversion; it is reduced modulo 2^32 here. -/
def tuning_word2 (f : Int) : Nat :=
  f32_mul_trunc (f32_of_ulong (toULong f)) K2_mant 22 % 4294967296

/-- The initial contents `{0, 1, 0, ..., 0}` of the arrays `l` and `m`. -/
def lm_init : List Nat := [0, 1, 0, 0, 0, 0, 0, 0, 0, 0, 0, 0, 0, 0, 0, 0]

/-- The loop `for(t1 = ..; ..; t1++) { if(fword1 & x) a[t1] = 1; x >>= 1; }` with `n`
iterations left. -/
def fill_bits (fword1 : Nat) : Nat → Nat → Nat → List Nat → List Nat
  | 0, _, _, a => a
  | n + 1, t1, x, a =>
      fill_bits fword1 n (t1 + 1) (x >>> 1) (if fword1 &&& x ≠ 0 then a.set t1 1 else a)

/-- The array `l` of `set_frequency2`: filled from index 2 with the mask starting at
`1 << 13`. -/
def lword (fword1 : Nat) : List Nat := fill_bits fword1 14 2 (1 <<< 13) lm_init

/-- The array `m` of `set_frequency2`: filled from index 2 with the mask starting at
`1L << 27`. -/
def mword (fword1 : Nat) : List Nat := fill_bits fword1 14 2 (1 <<< 27) lm_init

/-- The loop `for(t1 = 15; t1 >= 0; t1--) spi2_send_bit(0x2000 & (1 << t1));` with `n`
iterations left (so `t1 = n - 1`). -/
def spi2_send_ctrl : Nat → Wire → Wire
  | 0, w => w
  | n + 1, w => spi2_send_ctrl n (spi2_send_bit (0x2000 &&& (1 <<< n)) w)

/-- The loop `for(t1 = 0; t1 < 16; t1++) spi2_send_bit(a[t1]);` with `n` iterations left. -/
def spi2_send_array (a : List Nat) : Nat → Nat → Wire → Wire
  | 0, _, w => w
  | n + 1, t1, w => spi2_send_array a n (t1 + 1) (spi2_send_bit (a.getD t1 0) w)

/-- Embedding of `set_frequency2(unsigned long f)`. -/
def set_frequency2 (f : Int) (w : Wire) : Wire :=
  let fword1 := tuning_word2 f
  let l := lword fword1
  let m := mword fword1
  -- Send start command
  let w := spi2_start w
  let w := spi2_send_ctrl 16 w
  let w := spi2_stop w
  -- L-WORD
  let w := spi2_start w
  let w := spi2_send_array l 16 0 w
  let w := spi2_stop w
  -- M-WORD
  let w := spi2_start w
  let w := spi2_send_array m 16 0 w
  spi2_stop w

/-- Receiver state of DDS 2: the previous port value, the bits of the frame in progress
and the completed frames. -/
structure Dds2Rx where
  prev : Nat
  cur : List Bool
  done : List (List Bool)
  deriving DecidableEq, Repr

/-- One port write seen by DDS 2.  A frame begins when FSYNC (bit 0) falls and ends when it
rises; while FSYNC is low, SDATA (bit 1) is clocked in at every falling edge of SCLK
(bit 2). -/
def rxStep (r : Dds2Rx) (v : Nat) : Dds2Rx :=
  if v.testBit 0 then
    if !r.prev.testBit 0 then { prev := v, cur := [], done := r.done ++ [r.cur] }
    else { prev := v, cur := r.cur, done := r.done }
  else if r.prev.testBit 0 then { prev := v, cur := [], done := r.done }
  else if r.prev.testBit 2 && !v.testBit 2 then
    { prev := v, cur := r.cur ++ [v.testBit 1], done := r.done }
  else { prev := v, cur := r.cur, done := r.done }

/-- The receiver run over a chronological log, starting from port value `p0`. -/
def rxRun (p0 : Nat) (log : List Nat) : Dds2Rx :=
  log.foldl rxStep { prev := p0, cur := [], done := [] }

/-- The frames DDS 2 has received completely. -/
def dds2Frames (p0 : Nat) (log : List Nat) : List (List Bool) := (rxRun p0 log).done

/-- The low `n` bits of `x`, least significant first. -/
def lsbFirst (n : Nat) (x : Nat) : List Bool := (msbFirst n x).reverse

/-- The 14 data bits of a 16-bit sub-word array (indices 2..15, most significant first)
as a number. -/
def subword_data (a : List Nat) : Nat := (a.drop 2).foldl (fun acc b => 2 * acc + b) 0

/-- The values the loop `fill_bits` stores: one (0 or 1) for each of the masks
`x, x >> 1, ...`. -/
def loopVals (v : Nat) : Nat → Nat → List Nat
  | 0, _ => []
  | n + 1, x => (if v &&& x ≠ 0 then 1 else 0) :: loopVals v n (x >>> 1)

/-- State of a DDS 2 transfer seen from the chip: the receiver has followed the port up to
its present value, holds `cur` as the frame in progress and `done` as completed frames. -/
structure Dds2Rcvd (p0 : Nat) (w : Wire) (cur : List Bool) (done : List (List Bool)) :
    Prop where
  prev_eq : (rxRun p0 w.log).prev = w.port
  cur_eq : (rxRun p0 w.log).cur = cur
  done_eq : (rxRun p0 w.log).done = done

/-- The bits presented by the loop `spi2_send_ctrl n`. -/
def ctrlBits : Nat → List Bool
  | 0 => []
  | n + 1 => decide (0x2000 &&& (1 <<< n) ≠ 0) :: ctrlBits n

/-- The bits presented by the loop `spi2_send_array a n t1`. -/
def arrBits (a : List Nat) : Nat → Nat → List Bool
  | 0, _ => []
  | n + 1, t1 => decide (a.getD t1 0 ≠ 0) :: arrBits a n (t1 + 1)

/-- The tuning word a receiver reassembles from the 14 data bits of the two sub-words that
`set_frequency2` produces: `M * 2^14 + L`. -/
def reconstructed_word (f : Int) : Nat :=
  subword_data (mword (tuning_word2 f)) * 16384 + subword_data (lword (tuning_word2 f))

/-- The constant 3.579139413 of `set_frequency2`, taken exactly. -/
def K2_code : ℚ := 3579139413 / 1000000000

/-- The ratio 2^28 / 75,000,000 the constant stands for (`268435456 / 75000000` in the
source comment). -/
def K2_ideal : ℚ := 268435456 / 75000000

/-- The constant 10.73741824 of `set_frequency1`, taken exactly (it equals
2^32 / 400,000,000). -/
def K1 : ℚ := 1073741824 / 100000000

/-! ## Interrupt handlers -/

/-- The raw 2-bit encoder sample `(PIND & 0x0C) >> 2` read by the encoder handler. -/
def graySample (pind : Nat) : Nat := (pind &&& 0x0C) >>> 2

/-- Embedding of `ISR(INT0_vect)`, the rotary encoder handler; `pind` is the value read from
`PIND`.  `tuningcount++` is 16-bit `int` arithmetic. -/
def INT0_vect (pind : Nat) (g : Globals) : Globals :=
  let gray : Nat := (pind &&& 0x0C) >>> 2
  let state : Nat := (gray >>> 1) ^^^ gray
  let g : Globals :=
    if state = 0 ∨ state = 2 then
      { g with tuningknob := 1, tuningcount := toInt16 (g.tuningcount + 1) }
    else g
  if state = 1 ∨ state = 3 then
    { g with tuningknob := -1, tuningcount := toInt16 (g.tuningcount + 1) }
  else g

/-- Embedding of `ISR(TIMER1_OVF_vect)` (the reload of `TCNT1` is a timer register write). -/
def TIMER1_OVF_vect (g : Globals) : Globals :=
  { g with runseconds10 := (g.runseconds10 + 1) % 4294967296, tuningcount := 0 }

/-- The globals after the encoder handler has run once for each `PIND` value of a list. -/
def isr_run : List Nat → Globals → Globals
  | [], g => g
  | p :: rest, g => isr_run rest (INT0_vect p g)

/-- The direction flag `tuningknob` left by each run of the encoder handler over a list of
`PIND` values. -/
def isr_flags : List Nat → Globals → List Int
  | [], _ => []
  | p :: rest, g => (INT0_vect p g).tuningknob :: isr_flags rest (INT0_vect p g)

/-- The direction flags when the handler runs only on a change of PD2 (bit 2 of `PIND`), the
pin of INT0, which `main` enables with `EIMSK = (1 << INT0)` and sets to trigger on any pin
change with `EICRA = (1 << ISC00)`; `prev` is the `PIND` value before the first sample. -/
def int0_flags : Nat → List Nat → Globals → List Int
  | _, [], _ => []
  | prev, p :: rest, g =>
      if prev.testBit 2 ≠ p.testBit 2 then
        (INT0_vect p g).tuningknob :: int0_flags p rest (INT0_vect p g)
      else int0_flags p rest g


/-! ## Keys, menu and scan: the environment seen through `get_adc` -/

/-- The key levels `key_value[]` of `get_keys`. -/
def key_value : List Int := [86, 31, 50, 38]

/-- The `for` loop of `get_keys` over the remaining entries of `key_value`, at index `t1`:
the first entry with `adcval > key_value[t1] - 3 && adcval < key_value[t1] + 3` returns
`t1 + 1`; when the entries are exhausted the function returns 0. -/
def get_keys_loop (adcval : Int) : List Int → Int → Int
  | [], _ => 0
  | kv :: rest, t1 =>
      if adcval > kv - 3 ∧ adcval < kv + 3 then t1 + 1
      else get_keys_loop adcval rest (t1 + 1)

/-- Embedding of `int get_keys(void)` as a function of the value `adcval = get_adc(0)`. -/
def get_keys (adcval : Int) : Int := get_keys_loop adcval key_value 0

/-- What the environment presents during one call of `get_adc`: the conversion result the
keypad channel (ADC0) and the S-meter channel (ADC2) would give, the number of TIMER1
overflow interrupts (100 ms ticks) and the `PIND` samples of the encoder interrupts served
while the call runs (it busy-waits for 6 ms). -/
structure Poll where
  adc0 : Int
  adc2 : Int
  ticks : Nat
  enc : List Nat
  deriving DecidableEq, Repr

/-- The calls recorded while the menu and scan code runs, in program order.  `load` records
the calls of `load_frequency` written in the embedded statements; the call inside the
display routine `show_mem_addr` is not recorded.  `nav` is not a call: it records the values
of `key` and `menu_pos` at the `switch(key)` of `navigate_thru_item_list(menu, ...)`. -/
inductive Ev where
  | keys (k : Int)
  | adc2 (v : Int)
  | load (m : Int)
  | setf1 (f : Nat)
  | nav (menu : Int) (key : Int) (pos : Int)
  deriving DecidableEq, Repr

/-- The machine as seen by the menu and scan code: globals, EEPROM, the polls still to come
and the calls made so far (oldest first). -/
structure Sys where
  g : Globals
  e : EEPROM
  input : List Poll
  trace : List Ev

/-- Appending a call to the record. -/
def Sys.log (s : Sys) (ev : Ev) : Sys := { s with trace := s.trace ++ [ev] }

/-- The timer handler run `n` times. -/
def irq_ticks : Nat → Globals → Globals
  | 0, g => g
  | n + 1, g => irq_ticks n (TIMER1_OVF_vect g)

/-- The interrupts served during one poll: the encoder samples, then the timer ticks. -/
def irq (p : Poll) (g : Globals) : Globals := irq_ticks p.ticks (isr_run p.enc g)

/-- A call of `get_keys()`: consumes one poll, serves its interrupts, records the result.
`none` when no poll is left. -/
def call_get_keys (s : Sys) : Option (Int × Sys) :=
  match s.input with
  | [] => none
  | p :: rest =>
      some (get_keys p.adc0,
        { g := irq p s.g, e := s.e, input := rest, trace := s.trace ++ [Ev.keys (get_keys p.adc0)] })

/-- A call of `get_adc(2)`: consumes one poll, serves its interrupts, records the value. -/
def call_get_adc2 (s : Sys) : Option (Int × Sys) :=
  match s.input with
  | [] => none
  | p :: rest =>
      some (p.adc2,
        { g := irq p s.g, e := s.e, input := rest, trace := s.trace ++ [Ev.adc2 p.adc2] })

/-- Outcome of running a piece of code with a bound on the number of loop iterations:
`done` with the state reached, `starved` when a poll was needed and none was left (with the
machine at that point), `nofuel` when the iteration bound was used up. -/
inductive Out (σ : Type) where
  | done (s : σ)
  | starved (s : Sys)
  | nofuel

/-- Sequencing: run `f` on the state reached. -/
def Out.bind {σ τ : Type} (o : Out σ) (f : σ → Out τ) : Out τ :=
  match o with
  | .done s => f s
  | .starved s => .starved s
  | .nofuel => .nofuel

/-- The value returned, when the code returned. -/
def Out.ret {σ : Type} (o : Out (σ × Sys)) : Option σ :=
  match o with
  | .done r => some r.1
  | _ => none

/-- The machine at the end of the run, when there is one (`done` or `starved`). -/
def Out.sys {σ : Type} (o : Out (σ × Sys)) : Option Sys :=
  match o with
  | .done r => some r.2
  | .starved s => some s
  | .nofuel => none

/-- The loop `while(get_keys());`. -/
def drain_keys : Nat → Sys → Out Sys
  | 0, _ => .nofuel
  | n + 1, s =>
      match call_get_keys s with
      | none => .starved s
      | some (k, s1) => if k ≠ 0 then drain_keys n s1 else .done s1

/-- Embedding of `void show_meter(int sv0)` on the globals (the LCD writes are omitted). -/
def show_meter (sv0 : Int) (g : Globals) : Globals :=
  let sv : Int := toInt16 (sv0 + (sv0 >>> 1))
  let sv : Int := if sv > 83 then 83 else sv
  if sv > g.smax then { g with smax := sv, runseconds10s := toLong g.runseconds10 } else g

/-- Embedding of `void reset_smax(void)` on the globals (the LCD writes are omitted). -/
def reset_smax (g : Globals) : Globals :=
  { g with runseconds10s := toLong g.runseconds10, smax := 0 }

/-! ## Menu -/

/-- The locals of `navigate_thru_item_list` together with the machine. -/
structure Nav where
  sys : Sys
  menu_pos : Int
  key : Int

/-- The statement `key = get_keys();` of `navigate_thru_item_list`. -/
def Nav.read_key (s : Nav) : Out Nav :=
  match call_get_keys s.sys with
  | none => .starved s.sys
  | some (k, sys1) => .done { s with sys := sys1, key := k }

/-- The two `if(tuningknob ...)` statements in the loop body of `navigate_thru_item_list`
(the calls of `print_menu_item_list` are LCD writes and omitted). -/
def nav_turn (maxitems : Int) (s : Nav) : Nav :=
  let s1 : Nav :=
    if s.sys.g.tuningknob ≤ -1 then
      { s with
        menu_pos := if s.menu_pos < maxitems then toInt16 (s.menu_pos + 1) else 0,
        sys := { s.sys with g := { s.sys.g with tuningknob := 0 } } }
    else s
  if s1.sys.g.tuningknob ≥ 1 then
    { s1 with
      menu_pos := if s1.menu_pos > 0 then toInt16 (s1.menu_pos - 1) else maxitems,
      sys := { s1.sys with g := { s1.sys.g with tuningknob := 0 } } }
  else s1

/-- The loop `while(key == 0) { ...; key = get_keys(); }` of `navigate_thru_item_list`. -/
def nav_loop (maxitems : Int) : Nat → Nav → Out Nav
  | 0, _ => .nofuel
  | n + 1, s =>
      if s.key = 0 then (Nav.read_key (nav_turn maxitems s)).bind (nav_loop maxitems n)
      else .done s

/-- The `switch(key)` of `navigate_thru_item_list` with the final `return -1`. -/
def nav_switch (key : Int) (menu_pos : Int) : Int :=
  if key = 1 then -1
  else if key = 2 then menu_pos
  else if key = 3 then -3
  else -1

/-- Embedding of `int navigate_thru_item_list(int m, int maxitems)`: the value returned and
the machine.  The values of `key` and `menu_pos` at the `switch` are recorded as a `nav`
entry. -/
def navigate_thru_item_list (fuel : Nat) (m : Int) (maxitems : Int) (sys : Sys) :
    Out (Int × Sys) :=
  (Nav.read_key { sys := sys, menu_pos := 0, key := 0 }).bind fun s =>
  (nav_loop maxitems fuel s).bind fun s =>
  (drain_keys fuel s.sys).bind fun sys1 =>
  .done (nav_switch s.key s.menu_pos, sys1.log (Ev.nav m s.key s.menu_pos))

/-- The array `menu_items[]` of `menux`. -/
def menu_items : List Int := [3, 1, 3, 1, 2]

/-- One group of `menux`: the optional `while(get_keys());` and the call
`navigate_thru_item_list(menu, menu_items[menu])`. -/
def menux_group (fuel : Nat) (menu : Nat) (drain : Bool) (sys : Sys) : Out (Int × Sys) :=
  (if drain then drain_keys fuel sys else .done sys).bind fun sys1 =>
  navigate_thru_item_list fuel menu (menu_items.getD menu 0) sys1

/-- The statement following each navigation in `menux`:
`if(result > -1) return(menu * 10 + result); else switch(result) { case -3: return -3; ... }`,
with `rest` the code after it. -/
def menux_result (menu : Int) (r : Int × Sys) (rest : Sys → Out (Int × Sys)) :
    Out (Int × Sys) :=
  if r.1 > -1 then .done (toInt16 (toInt16 (menu * 10) + r.1), r.2)
  else if r.1 = -3 then .done (-3, r.2)
  else rest r.2

/-- Embedding of `long menux(long f, int c_vfo)` (neither parameter is used by the body):
the five groups in program order; group 1 is the only one not preceded by
`while(get_keys());`. -/
def menux (fuel : Nat) (sys : Sys) : Out (Int × Sys) :=
  (menux_group fuel 0 true sys).bind fun r => menux_result 0 r fun sys =>
  (menux_group fuel 1 false sys).bind fun r => menux_result 1 r fun sys =>
  (menux_group fuel 2 true sys).bind fun r => menux_result 2 r fun sys =>
  (menux_group fuel 3 true sys).bind fun r => menux_result 3 r fun sys =>
  (menux_group fuel 4 true sys).bind fun r => menux_result 4 r fun sys =>
  .done (-2, sys)

/-! ## Scan -/

/-- The constant `MAXMEM`. -/
def MAXMEM : Nat := 15

/-- The locals of `scan` together with the machine. -/
structure Scan where
  sys : Sys
  t1 : Int
  key : Int
  sval : Int
  f0 : Int
  f1 : Int
  df : Int
  runsecsold10scan : Int
  scan_skip : List Int

/-- The statement `key = get_keys();`. -/
def Scan.read_key (s : Scan) : Out Scan :=
  match call_get_keys s.sys with
  | none => .starved s.sys
  | some (k, sys1) => .done { s with sys := sys1, key := k }

/-- The statements `sval = get_adc(2); show_meter(sval);`. -/
def Scan.sample (s : Scan) : Out Scan :=
  match call_get_adc2 s.sys with
  | none => .starved s.sys
  | some (v, sys1) => .done { s with sys := { sys1 with g := show_meter v sys1.g }, sval := v }

/-- The statement `runsecsold10scan = runseconds10;`. -/
def Scan.mark_time (s : Scan) : Scan :=
  { s with runsecsold10scan := toLong s.sys.g.runseconds10 }

/-- The loop `while(get_keys());` inside `scan`. -/
def Scan.drain (fuel : Nat) (s : Scan) : Out Scan :=
  (drain_keys fuel s.sys).bind fun sys1 => .done { s with sys := sys1 }

/-- The condition `runseconds10 < runsecsold10scan + d`: the sum is formed in `long` and
converted to `unsigned long` for the comparison. -/
def time_before (s : Scan) (d : Int) : Prop :=
  s.sys.g.runseconds10 < toULong (toLong (s.runsecsold10scan + d))

instance (s : Scan) (d : Int) : Decidable (time_before s d) := by
  unfold time_before; infer_instance

/-- The loop `while(runseconds10 < runsecsold10scan + 1 && !key) { key = get_keys(); }`. -/
def scan_tick_wait : Nat → Scan → Out Scan
  | 0, _ => .nofuel
  | n + 1, s =>
      if time_before s 1 ∧ s.key = 0 then s.read_key.bind (scan_tick_wait n)
      else .done s

/-- The loop `while(sval > s_threshold && !key) { ... }` of the memory scan. -/
def scan_mem_dwell : Nat → Scan → Out Scan
  | 0, _ => .nofuel
  | n + 1, s =>
      if s.sval > s.sys.g.s_threshold ∧ s.key = 0 then
        ((s.mark_time.read_key.bind (scan_tick_wait n)).bind Scan.sample).bind (scan_mem_dwell n)
      else .done s

/-- The loop `while(runseconds10 < runsecsold10scan + 20 && !key) { ... }` of the memory
scan. -/
def scan_mem_hold : Nat → Scan → Out Scan
  | 0, _ => .nofuel
  | n + 1, s =>
      if time_before s 20 ∧ s.key = 0 then
        (s.read_key.bind Scan.sample).bind (scan_mem_hold n)
      else .done s

/-- The statement `f0 = load_frequency(t1);` (the `unsigned long` result is converted to
`long`). -/
def scan_mem_load (s : Scan) : Scan :=
  { s with f0 := toLong (load_frequency s.t1 s.sys.e), sys := s.sys.log (Ev.load s.t1) }

/-- The test `is_mem_freq_ok(f0) && !scan_skip[t1]`. -/
def scan_mem_usable (s : Scan) : Prop :=
  is_mem_freq_ok (toULong s.f0) ≠ 0 ∧ s.scan_skip.getD s.t1.toNat 0 = 0

instance (s : Scan) : Decidable (scan_mem_usable s) := by
  unfold scan_mem_usable; infer_instance

/-- The call `set_frequency1(f0);` of the memory scan (`f0` is converted to the
`unsigned long` parameter). -/
def scan_mem_program (s : Scan) : Scan :=
  { s with sys := s.sys.log (Ev.setf1 (toULong s.f0)) }

/-- The body of the slot loop of the memory scan up to and including the
`while(get_keys());` that follows the `if`/`else`.  The display routines `show_frequency`
and `show_mem_addr` are omitted; `show_mem_addr` reads the slot once more with
`load_frequency` for the display, and that call is not recorded. -/
def scan_mem_listen (fuel : Nat) (s : Scan) : Out Scan :=
  (if scan_mem_usable (scan_mem_load s) then
      ((scan_mem_program (scan_mem_load s)).sample.bind (scan_mem_dwell fuel)).bind fun s1 =>
        scan_mem_hold fuel s1.mark_time
    else (scan_mem_load s).read_key).bind (Scan.drain fuel)

/-- The end of the body of the slot loop:
`if(key == 4) { scan_skip[t1] = 1; key = 0; } t1++; reset_smax();`. -/
def scan_mem_next (s : Scan) : Scan :=
  let s1 : Scan :=
    if s.key = 4 then { s with scan_skip := s.scan_skip.set s.t1.toNat 1, key := 0 } else s
  { s1 with t1 := toInt16 (s1.t1 + 1), sys := { s1.sys with g := reset_smax s1.sys.g } }

/-- The body of the slot loop of the memory scan. -/
def scan_mem_slot (fuel : Nat) (s : Scan) : Out Scan :=
  (scan_mem_listen fuel s).bind fun s1 => .done (scan_mem_next s1)

/-- The loop `while(t1 < 15 && !key) { ... }` of the memory scan. -/
def scan_mem_pass : Nat → Scan → Out Scan
  | 0, _ => .nofuel
  | n + 1, s =>
      if s.t1 < 15 ∧ s.key = 0 then (scan_mem_slot n s).bind (scan_mem_pass n)
      else .done s

/-- The loop `while(key != 1 && key != 2) { t1 = 0; ... }` of the memory scan. -/
def scan_mem_passes : Nat → Scan → Out Scan
  | 0, _ => .nofuel
  | n + 1, s =>
      if s.key ≠ 1 ∧ s.key ≠ 2 then
        (scan_mem_pass n { s with t1 := 0 }).bind (scan_mem_passes n)
      else .done s

/-- The loop `while(sval > s_threshold && !get_keys()) { ... }` of the band scan; the key
value read in the condition is not stored. -/
def scan_band_dwell : Nat → Scan → Out Scan
  | 0, _ => .nofuel
  | n + 1, s =>
      if s.sval > s.sys.g.s_threshold then
        match call_get_keys s.sys with
        | none => .starved s.sys
        | some (k, sys1) =>
            if k = 0 then
              (((({ s with sys := sys1 } : Scan).mark_time.read_key).bind
                (scan_tick_wait n)).bind Scan.sample).bind (scan_band_dwell n)
            else .done { s with sys := sys1 }
      else .done s

/-- The loop `while(f0 + df <= f1 && !key) { ... }` of the band scan. -/
def scan_band_sweep : Nat → Scan → Out Scan
  | 0, _ => .nofuel
  | n + 1, s =>
      if toLong (s.f0 + s.df) ≤ s.f1 ∧ s.key = 0 then
        (((({ s with
              sys := s.sys.log (Ev.setf1 (toULong (toLong (s.f0 + s.df)))),
              df := toLong (s.df + 100) } : Scan).sample).bind
          (scan_band_dwell n)).bind Scan.read_key).bind (scan_band_sweep n)
      else .done s

/-- The loop `while(!key) { f0 = scanfreq[0]; f1 = scanfreq[1]; df = 0; ... }` of the band
scan. -/
def scan_band_sweeps : Nat → Scan → Out Scan
  | 0, _ => .nofuel
  | n + 1, s =>
      if s.key = 0 then
        (scan_band_sweep n
          { s with f0 := s.sys.g.scanfreq.1, f1 := s.sys.g.scanfreq.2, df := 0 }).bind
          (scan_band_sweeps n)
      else .done s

/-- The loop `for(t1 = 0; t1 < MAXMEM; t1++) { scan_skip[t1] = 0; }` with `n` iterations to
go. -/
def scan_skip_clear : Nat → Nat → List Int → List Int
  | 0, _, a => a
  | n + 1, t1, a => scan_skip_clear n (t1 + 1) (a.set t1 0)

/-- The locals of `scan` after the declarations and the clearing loop.  `stack` is the
content of the automatic array `scan_skip[MAXMEM]` on entry; the locals without initialiser
(`f0`, `f1`, `df`, `sval`) are written before they are read and start here as 0. -/
def scan_entry (stack : List Int) (sys : Sys) : Scan :=
  { sys := sys, t1 := MAXMEM, key := 0, sval := 0, f0 := 0, f1 := 0, df := 0,
    runsecsold10scan := 0, scan_skip := scan_skip_clear MAXMEM 0 stack }

/-- The end of the memory scan, after the loops:
`t1--; while(get_keys()); if(key == 2) return(t1); else return(-1);`. -/
def scan_mem_finish (fuel : Nat) (s1 : Scan) : Out (Int × Sys) :=
  (Scan.drain fuel { s1 with t1 := toInt16 (s1.t1 - 1) }).bind fun s2 =>
  .done (if s2.key = 2 then s2.t1 else -1, s2.sys)

/-- The loops of the memory scan resumed at the test of the slot loop: the rest of the
current pass, then the further passes. -/
def scan_mem_resume (fuel : Nat) (s : Scan) : Out Scan :=
  (scan_mem_pass fuel s).bind (scan_mem_passes fuel)

/-- The memory scan, `if(!mode) { ... }`, from the state after the first
`while(get_keys());`. -/
def scan_mem (fuel : Nat) (s : Scan) : Out (Int × Sys) :=
  (scan_mem_passes fuel { s with key := 0 }).bind (scan_mem_finish fuel)

/-- The band scan, `if(mode == 1) { ... }`. -/
def scan_band (fuel : Nat) (s : Scan) : Out (Int × Sys) :=
  (scan_band_sweeps fuel s).bind fun s1 =>
  (Scan.drain fuel s1).bind fun s2 =>
  .done (if s2.key = 2 then toLong (s2.f0 + s2.df) else -1, s2.sys)

/-- Embedding of `long scan(int mode)`; `stack` is the content of the automatic array
`scan_skip` on entry.  The calls `set_frequency1(f)` are recorded, their port writes are
those of `set_frequency1`. -/
def scan (fuel : Nat) (mode : Int) (stack : List Int) (sys : Sys) : Out (Int × Sys) :=
  (Scan.drain fuel (scan_entry stack sys)).bind fun s =>
  if mode = 0 then scan_mem fuel s
  else if mode = 1 then scan_band fuel s
  else .done (-1, s.sys)

/-! ## Properties of runs -/

/-- A property of every observable end of a run: `Q` of the state when the code ran to its
end, `P` of the machine when it stopped for lack of input. -/
@[irreducible]
def Out.All {σ : Type} (P : Sys → Prop) (Q : σ → Prop) : Out σ → Prop
  | .done s => Q s
  | .starved s => P s
  | .nofuel => True

/-- The machine `s1` is reached from `s` by code that leaves the EEPROM, the threshold and
the scan limits alone and records only calls satisfying `p`. -/
def Sys.Ext (p : Ev → Prop) (s s1 : Sys) : Prop :=
  s1.e = s.e ∧ s1.g.s_threshold = s.g.s_threshold ∧ s1.g.scanfreq = s.g.scanfreq ∧
    ∃ new, s1.trace = s.trace ++ new ∧ ∀ ev ∈ new, p ev

/-- The `nav` entries of a record. -/
def navOnly : List Ev → List Ev
  | [] => []
  | Ev.nav m k p :: rest => Ev.nav m k p :: navOnly rest
  | _ :: rest => navOnly rest

/-- The entries are the navigations of the groups `g`, `g + 1`, ... in this order, each
ended by a key that moves on to the next group (key 1, or key 4 which falls through the
`switch` to the same `return -1`). -/
def advances : Nat → List Ev → Prop
  | _, [] => True
  | g, ev :: rest => (∃ p, ev = Ev.nav g 1 p ∨ ev = Ev.nav g 4 p) ∧ advances (g + 1) rest

/-- One clockwise detent seen by the loop body of `navigate_thru_item_list`: the encoder
handler has left the flag at -1 and the two `if` statements run. -/
def nav_cw (maxitems : Int) (s : Nav) : Nav :=
  nav_turn maxitems { s with sys := { s.sys with g := { s.sys.g with tuningknob := -1 } } }

/-! ## Concrete machines used in examples -/

/-- An EEPROM whose cells are all 0. -/
def eeZero : EEPROM := fun _ => 0

/-- A machine with the initial globals, the given EEPROM and polls, and an empty record. -/
def sysOf (e : EEPROM) (inp : List Poll) : Sys :=
  { g := initGlobals, e := e, input := inp, trace := [] }

/-- A poll with the given keypad and S-meter readings during which one 100 ms tick and no
encoder interrupt occurs. -/
def pollOf (a0 : Int) (a2 : Int) : Poll := { adc0 := a0, adc2 := a2, ticks := 1, enc := [] }

/-- The navigation state at VFO item 3 with the encoder flag at -1. -/
def navAt3 : Nav :=
  { sys := { g := { initGlobals with tuningknob := -1 }, e := eeZero, input := [], trace := [] },
    menu_pos := 3, key := 0 }

/-! ## Statement of the menu contract -/

/-- What a return value `r` of the menu means in terms of the navigations recorded from
group `g0` on: the groups before the last navigation were each left by a key that moves on
(`pre`), and either the last navigation, in group `g`, ended with key 2 on item `i` of the
group and `r = 10 * g + i`; or it ended with key 3 and `r = -3`; or all groups up to group 4
were left by a key that moves on and `r = -2`. -/
def menuDone (navs : List Ev) (r : Int) (g0 : Nat) : Prop :=
  ∃ pre, advances g0 pre ∧
    ((∃ i, navs = pre ++ [Ev.nav ((g0 + pre.length : Nat) : Int) 2 i] ∧ g0 + pre.length ≤ 4 ∧
        0 ≤ i ∧ i ≤ menu_items.getD (g0 + pre.length) 0 ∧
        r = 10 * ((g0 + pre.length : Nat) : Int) + i) ∨
     (∃ i, navs = pre ++ [Ev.nav ((g0 + pre.length : Nat) : Int) 3 i] ∧ g0 + pre.length ≤ 4 ∧
        r = -3) ∨
     (navs = pre ∧ g0 + pre.length = 5 ∧ r = -2))

/-- A menu run on which the first key read is released and the next key pressed is key 2
after one clockwise detent: polls for the drain, the first key read, the detent, key 2, and
its release. -/
def menuInput : List Poll :=
  [pollOf 0 0, pollOf 0 0, { adc0 := 0, adc2 := 0, ticks := 0, enc := [4] }, pollOf 31 0,
   pollOf 31 0, pollOf 0 0]

/-- The entry is a call of `get_keys`. -/
def isKeys (ev : Ev) : Prop := ∃ k, ev = Ev.keys k

/-! ## The menu as a reading of the input -/

/-- How a run of the menu ends, in the words of the return contract: confirm (key 2) was
pressed with item `i` selected in group `g`; quit (key 3) was pressed in group `g`; or the
last group was advanced past. -/
inductive MenuEnd where
  | confirm (g : Nat) (i : Int)
  | quit (g : Nat)
  | past
  deriving DecidableEq, Repr

/-- The value the return contract assigns to an ending: `10 * g + i`, the quit sentinel -3,
and -2. -/
def MenuEnd.value : MenuEnd → Int
  | .confirm g i => 10 * (g : Int) + i
  | .quit _ => -3
  | .past => -2

/-- The group of an ending is one of the five groups and the item one of its items (group
sizes 4, 2, 4, 2, 3, that is, last items `menu_items` = 3, 1, 3, 1, 2). -/
def MenuEnd.inRange : MenuEnd → Prop
  | .confirm g i => g ≤ 4 ∧ 0 ≤ i ∧ i ≤ menu_items.getD g 0
  | .quit g => g ≤ 4
  | .past => True

/-- The encoder flag after the interrupts served during one poll, given the flag before:
the direction of the last encoder step of the poll, or the flag before when there is
none. -/
def pollFlag (fl : Int) (p : Poll) : Int :=
  (irq p { initGlobals with tuningknob := fl }).tuningknob

/-- The item selected after the flag `fl` has been acted on, in a group whose last item is
`maxitems`: one item further round the group for a negative flag, one item back for a
positive flag. -/
def menuTurn (maxitems pos fl : Int) : Int :=
  if fl ≤ -1 then (pos + 1) % (maxitems + 1)
  else if fl ≥ 1 then (pos - 1) % (maxitems + 1)
  else pos

/-- Waiting for the keys to be released: polls are consumed up to and including the first
one on which `get_keys` reports no key.  The result is the encoder flag then pending and the
polls left; `none` when the input ends first. -/
def menuRelease : Int → List Poll → Option (Int × List Poll)
  | _, [] => none
  | fl, p :: rest =>
      if get_keys p.adc0 ≠ 0 then menuRelease (pollFlag fl p) rest
      else some (pollFlag fl p, rest)

/-- Selecting in a group whose last item is `maxitems`, with item `pos` selected and the
flag `fl` pending: the first poll on which `get_keys` reports a key is the press of that key
with the item then selected; a poll without a key moves the selection by the flag it
leaves.  The result is the key, the item, the flag pending and the polls left. -/
def menuSelect (maxitems : Int) :
    Int → Int → List Poll → Option (Int × Int × Int × List Poll)
  | _, _, [] => none
  | pos, fl, p :: rest =>
      if get_keys p.adc0 ≠ 0 then some (get_keys p.adc0, pos, pollFlag fl p, rest)
      else menuSelect maxitems (menuTurn maxitems pos (pollFlag fl p)) 0 rest

/-- One group: the wait for the release of the keys where the group has one, the selection
starting at item 0, and the wait for the release of the key pressed. -/
def menuGroup (maxitems : Int) (wait : Bool) (fl : Int) (input : List Poll) :
    Option (Int × Int × Int × List Poll) :=
  (if wait then menuRelease fl input else some (fl, input)).bind fun a =>
  (menuSelect maxitems 0 a.1 a.2).bind fun b =>
  (menuRelease b.2.2.1 b.2.2.2).bind fun c =>
  some (b.1, b.2.1, c.1, c.2)

/-- The menu from a list of groups on (group number, last item, whether the group waits for
the release of the keys first): key 2 confirms the selected item, key 3 quits, any other
key advances to the next group. -/
def menuFrom : List (Nat × Int × Bool) → Int → List Poll → Option MenuEnd
  | [], _, _ => some MenuEnd.past
  | (g, maxitems, wait) :: more, fl, input =>
      (menuGroup maxitems wait fl input).bind fun b =>
      if b.1 = 2 then some (MenuEnd.confirm g b.2.1)
      else if b.1 = 3 then some (MenuEnd.quit g)
      else menuFrom more b.2.2.1 b.2.2.2

/-- The five groups of the menu: VFO, MEMO, SCAN, LO and SPLIT; every group but the second
waits for the release of the keys first. -/
def menuGroups : List (Nat × Int × Bool) :=
  [(0, 3, true), (1, 1, false), (2, 3, true), (3, 1, true), (4, 2, true)]

/-- The ending of the menu read off the input: `fl` is the encoder flag pending on entry. -/
def menuEnd (fl : Int) (input : List Poll) : Option MenuEnd := menuFrom menuGroups fl input

/-! ## Reading the record of a scan -/

/-- The entry is a read of the environment: a call of `get_keys` or of `get_adc(2)`. -/
def isInput (ev : Ev) : Prop := (∃ k, ev = Ev.keys k) ∨ (∃ v, ev = Ev.adc2 v)

/-- The slot most recently loaded after one more entry, `c` before it. -/
def slotStep (c : Option Int) (ev : Ev) : Option Int :=
  match ev with
  | Ev.load m => some m
  | _ => c

/-- The slot most recently loaded at the end of the record `tr`, starting from `c`: the slot
the memory scan is on. -/
def curSlotFrom (c : Option Int) (tr : List Ev) : Option Int := tr.foldl slotStep c

/-- The slot the memory scan is on at the end of the record. -/
def curSlot (tr : List Ev) : Option Int := curSlotFrom none tr

/-- The first key other than 0 reported since the most recent load, after one more entry. -/
def keyStep (k : Int) (ev : Ev) : Int :=
  match ev with
  | Ev.load _ => 0
  | Ev.keys x => if k ≠ 0 then k else x
  | _ => k

/-- The first key other than 0 that `get_keys` reported since the most recent load (0 when
there is none): the key read while the scan is on the current slot. -/
def keySinceLoad (tr : List Ev) : Int := tr.foldl keyStep 0

/-- For each call of `set_frequency1` in the record, the slot the scan was on at the call
(`c` at the start of the record). -/
def progSlots : Option Int → List Ev → List (Option Int)
  | _, [] => []
  | _, Ev.load m :: rest => progSlots (some m) rest
  | c, Ev.setf1 _ :: rest => c :: progSlots c rest
  | c, _ :: rest => progSlots c rest

/-- The slots loaded, in order. -/
def loadsOf : List Ev → List Int
  | [] => []
  | Ev.load m :: rest => m :: loadsOf rest
  | _ :: rest => loadsOf rest

/-- The frequencies passed to `set_frequency1`, in order. -/
def progsOf : List Ev → List Nat
  | [] => []
  | Ev.setf1 f :: rest => f :: progsOf rest
  | _ :: rest => progsOf rest

/-- The S-meter samples taken, in order. -/
def samplesOf : List Ev → List Int
  | [] => []
  | Ev.adc2 v :: rest => v :: samplesOf rest
  | _ :: rest => samplesOf rest

/-- The part of a record that follows the first call of `get_keys` that reported a key;
`none` when no call reported one. -/
def afterKey : List Ev → Option (List Ev)
  | [] => none
  | Ev.keys k :: rest => if k ≠ 0 then some rest else afterKey rest
  | _ :: rest => afterKey rest

/-- Inside the processing of one slot: `s1` is reached from `s` recording only calls that
satisfy `p`, on the same slot with the same skip flags. -/
def InSlot (p : Ev → Prop) (s s1 : Scan) : Prop :=
  Sys.Ext p s.sys s1.sys ∧ s1.t1 = s.t1 ∧ s1.scan_skip = s.scan_skip ∧ s1.f0 = s.f0

/-- The variable `key` holds the first key other than 0 read on the current slot. -/
def Held (s : Scan) : Prop := keySinceLoad s.sys.trace = s.key

/-- The calls recorded for one slot after its load, for the state `s` at the start of the
slot: on a usable slot the call `set_frequency1(f0)` followed by reads of the environment;
on a slot that fails `is_mem_freq_ok(f0) && !scan_skip[t1]` calls of `get_keys` only. -/
def SlotRest (s : Scan) (rest : List Ev) : Prop :=
  (scan_mem_usable (scan_mem_load s) →
    ∃ more, rest = Ev.setf1 (toULong (scan_mem_load s).f0) :: more ∧ ∀ ev ∈ more, isInput ev) ∧
  (¬ scan_mem_usable (scan_mem_load s) → ∀ ev ∈ rest, isKeys ev)

/-- The machine `sys1` is reached from the start `s` of a slot during or at the end of the
processing of that slot. -/
def SlotSeg (s : Scan) (sys1 : Sys) : Prop :=
  sys1.e = s.sys.e ∧ sys1.g.s_threshold = s.sys.g.s_threshold ∧
    sys1.g.scanfreq = s.sys.g.scanfreq ∧
    ∃ rest, sys1.trace = s.sys.trace ++ Ev.load s.t1 :: rest ∧ SlotRest s rest

/-- The record of `sys1` extends that of `sys` by calls `new` with the property `G`. -/
def TraceExt (G : List Ev → Prop) (sys sys1 : Sys) : Prop :=
  ∃ new, sys1.trace = sys.trace ++ new ∧ G new

/-- The skip flags only grow from `s` to `s1`: same length, and a flag that is set stays
set. -/
def SkipMono (s s1 : Scan) : Prop :=
  s1.scan_skip.length = s.scan_skip.length ∧
    ∀ i, s.scan_skip.getD i 0 ≠ 0 → s1.scan_skip.getD i 0 ≠ 0

/-- When `key` is not 0, it is the first key other than 0 read on the slot the scan is on,
which is slot `t1 - 1`. -/
def KeyOnSlot (s : Scan) : Prop :=
  s.key ≠ 0 → curSlot s.sys.trace = some (s.t1 - 1) ∧ keySinceLoad s.sys.trace = s.key

/-- An EEPROM in which only memory slot 15 (cells 60..63) holds a frequency, 14,200,000 Hz
(bytes 0x00 0xD8 0xAC 0xC0); every other cell is 0. -/
def ee15 : EEPROM := fun a => if a = 61 then 0xD8 else if a = 62 then 0xAC else if a = 63 then 0xC0 else 0

/-- The machine for a memory scan over `ee15` with 33 polls during which no key is pressed
and the S-meter reads 0. -/
def sys15 : Sys := sysOf ee15 (List.replicate 33 (pollOf 0 0))

/-- The invariant of the memory scan loops used for the result: `t1` is in 0..15, and when
`key` is 1 or 2 it is the first key other than 0 read on slot `t1 - 1`, the slot the scan
is on. -/
def ResultInv (s : Scan) : Prop :=
  0 ≤ s.t1 ∧ s.t1 ≤ 15 ∧
    ((s.key = 1 ∨ s.key = 2) →
      1 ≤ s.t1 ∧ curSlot s.sys.trace = some (s.t1 - 1) ∧ keySinceLoad s.sys.trace = s.key)

/-- All slots loaded in the record are in 0..14. -/
def LoadsBelow15 (new : List Ev) : Prop := ∀ m, Ev.load m ∈ new → 0 ≤ m ∧ m ≤ 14

/-- A machine for a memory scan over an empty EEPROM on which key 2 is pressed while the
scan is on slot 3 and released afterwards. -/
def sysConfirm3 : Sys :=
  sysOf eeZero (List.replicate 7 (pollOf 0 0) ++ [pollOf 31 0, pollOf 31 0, pollOf 0 0, pollOf 0 0])

/-- Slot `t` is not programmed in the record `new`: no call of `set_frequency1` is made
while the scan is on slot `t`, whatever slot `c` it was on at the start of `new`. -/
def NotProgrammed (t : Int) (new : List Ev) : Prop := ∀ c, some t ∉ progSlots c new

/-- The invariant of the memory scan loops used for the skip flag of slot `t`: `t1` is not
negative and the flag of slot `t` is set. -/
def SkipInv (t : Nat) (s : Scan) : Prop := 0 ≤ s.t1 ∧ s.scan_skip.getD t 0 ≠ 0

/-- An EEPROM with 14,100,000 Hz in memory slot 0 (cells 0..3: 0x00 0xD7 0x26 0x20), nothing
valid in slot 1 and 14,200,000 Hz in slot 2 (cells 8..11: 0x00 0xD8 0xAC 0xC0); every other
cell is 0. -/
def ee012 : EEPROM := fun a =>
  if a = 1 then 0xD7 else if a = 2 then 0x26 else if a = 3 then 0x20
  else if a = 9 then 0xD8 else if a = 10 then 0xAC else if a = 11 then 0xC0 else 0

/-- The locals of `scan` at the test of the slot loop, on slot `t1` with `key` as given,
the skip flags `skip` and the machine `sys`. -/
def scanAt (sys : Sys) (t1 : Int) (key : Int) (skip : List Int) : Scan :=
  { sys := sys, t1 := t1, key := key, sval := 0, f0 := 0, f1 := 0, df := 0,
    runsecsold10scan := 0, scan_skip := skip }

/-- A poll without key, with the S-meter at 0, during which 20 ticks of 100 ms pass. -/
def pollLong : Poll := { adc0 := 0, adc2 := 0, ticks := 20, enc := [] }

/-- The state at the end of the body of the slot loop on slot 2 of `ee012` in which key 4 has
been read; 32 polls without key follow. -/
def scanSkip2 : Scan :=
  scanAt (sysOf ee012 (List.replicate 32 pollLong)) 2 4 (List.replicate 15 0)

/-- The skip flags with only the flag of slot 2 set. -/
def skipOnly2 : List Int := [0, 0, 1, 0, 0, 0, 0, 0, 0, 0, 0, 0, 0, 0, 0]

/-- A poll without key, with the S-meter at `a2`, during which 20 ticks of 100 ms pass. -/
def pollTicks (a2 : Int) : Poll := { adc0 := 0, adc2 := a2, ticks := 20, enc := [] }

/-- The state at the test of the slot loop on slot 0 of `ee012` with slot 2 flagged skip and
the threshold at 30; no key is pressed, the first S-meter sample is 40 and the following
ones are 20. -/
def scanFlagged2 : Scan :=
  scanAt (sysOf ee012 (pollTicks 40 :: List.replicate 9 (pollTicks 20))) 0 0 skipOnly2

/-- No key is pressed and every S-meter sample is above `thr` in all the polls to come, and
the threshold is `thr`. -/
def AboveInv (thr : Int) (s : Scan) : Prop :=
  s.key = 0 ∧ s.sys.g.s_threshold = thr ∧
    ∀ p ∈ s.sys.input, get_keys p.adc0 = 0 ∧ p.adc2 > thr

/-- The machine for a memory scan over `ee012` with 40 polls, one tick of 100 ms each,
during which no key is pressed and the S-meter reads 40, above the threshold 30. -/
def sysDwell : Sys := sysOf ee012 (List.replicate 40 (pollOf 0 40))

/-- The state of the memory scan on slot 0 of `ee012` at the start of the 20-tick loop, with
the elapsed time marked; polls of 20 ticks each without key follow. -/
def scanHold : Scan :=
  (scanAt (sysOf ee012 (List.replicate 4 pollLong)) 0 0 (List.replicate 15 0)).mark_time

/-- The machine for a band scan from 14,100,000 Hz to 14,300,000 Hz on which the confirm
key 2 is pressed at the first key read of the sweep and released afterwards. -/
def sysBand : Sys :=
  { g := { initGlobals with scanfreq := (14100000, 14300000) }, e := eeZero,
    input := [pollOf 0 0, pollOf 0 0, pollOf 31 0, pollOf 0 0], trace := [] }

/-- Inside the body of the sweep loop of the band scan: `s1` is reached from `s` by reads of
the environment only, with `f0` and `df` unchanged. -/
def InBand (s s1 : Scan) : Prop :=
  Sys.Ext isInput s.sys s1.sys ∧ s1.f0 = s.f0 ∧ s1.df = s.df

/-- The frequency most recently passed to `set_frequency1` is 100 Hz below `f0 + df`
(as `unsigned long` values). -/
def StepAhead (s : Scan) : Prop :=
  (progsOf s.sys.trace).getLast? = some (toULong (toLong (s.f0 + s.df) - 100))

/-- The state at the test of the slot loop on slot 3 of an empty EEPROM; key 2 is pressed at
the next poll and released afterwards. -/
def scanOn3 : Scan :=
  scanAt (sysOf eeZero [pollOf 31 0, pollOf 0 0, pollOf 0 0]) 3 0 (List.replicate 15 0)

/-- The state in which the body of the slot loop started in `scanOn3` leaves its
`while(get_keys());`. -/
def scanOn3End : Scan :=
  match scan_mem_listen 5 scanOn3 with
  | .done s1 => s1
  | _ => scanOn3

/-- The machine at the end of the run continued from `scanSkip2` over its 32 polls. -/
def scanSkip2End : Sys :=
  match ((scan_mem_resume 100 (scan_mem_next scanSkip2)).bind (scan_mem_finish 100)).sys with
  | some sys1 => sys1
  | none => scanSkip2.sys


/-! ## The main loop: tuning, split and TX/RX switching -/

/-- Embedding of `int calc_tuningfactor(void)`: `(tuningcount * tuningcount) << 1`, formed in
16-bit `int` arithmetic. -/
def calc_tuningfactor (g : Globals) : Int :=
  toInt16 (toInt16 (g.tuningcount * g.tuningcount) * 2)

/-- The locals of `main` used by the tuning, split and TX/RX code, together with the
machine. -/
structure Main where
  sys : Sys
  cur_vfo : Int
  split : Int
  txrx : Int
  txrx_old : Int

/-- The statements `tuningknob = 0; set_frequency1(f_vfo[cur_vfo]);` that follow the update
`f_vfo[cur_vfo] = f` in both tuning branches of `main` (the LCD write is omitted). -/
def main_retune (f : Nat) (m : Main) : Main :=
  { m with
    sys := { m.sys with
      g := { m.sys.g with f_vfo := set2 m.sys.g.f_vfo m.cur_vfo f, tuningknob := 0 },
      trace := m.sys.trace ++ [Ev.setf1 f] } }

/-- The tuning code of the main loop:
`if(tuningknob <= -1) { f_vfo[cur_vfo] += calc_tuningfactor(); ... }`
`if(tuningknob >= 1) { f_vfo[cur_vfo] -= calc_tuningfactor(); ... }`.
The `int` result is converted to `unsigned long` and the sum or difference is formed modulo
2^32. -/
def main_tune (m : Main) : Main :=
  let m1 : Main :=
    if m.sys.g.tuningknob ≤ -1 then
      main_retune
        (toULong (((get2 m.sys.g.f_vfo m.cur_vfo : Nat) : Int) + calc_tuningfactor m.sys.g)) m
    else m
  if m1.sys.g.tuningknob ≥ 1 then
    main_retune
      (toULong (((get2 m1.sys.g.f_vfo m1.cur_vfo : Nat) : Int) - calc_tuningfactor m1.sys.g)) m1
  else m1

/-- Menu action 30 of `main`:
`split = 1; if(cur_vfo == 0) { vfo_x = 0; vfo_y = 1; } else { vfo_x = 1; vfo_y = 0; }`. -/
def main_action30 (m : Main) : Main :=
  { m with
    split := 1,
    sys := { m.sys with
      g := if m.cur_vfo = 0 then { m.sys.g with vfo_x := 0, vfo_y := 1 }
           else { m.sys.g with vfo_x := 1, vfo_y := 0 } } }

/-- The TX/RX detection of the main loop; `pind` is the value read from `PIND` (PD0 is
bit 0).  In the split branch the source calls `set_frequency1(cur_vfo)`: the argument is the
VFO index, converted to the `unsigned long` parameter. -/
def main_txrx (pind : Nat) (m : Main) : Main :=
  let m1 : Main := { m with txrx := if pind &&& 1 = 0 then 0 else 1 }
  if m1.txrx_old ≠ m1.txrx then
    let m2 : Main :=
      { m1 with txrx_old := m1.txrx,
                sys := { m1.sys with g := show_meter 0 m1.sys.g } }
    if m2.split ≠ 0 then
      let cv : Int := if m2.txrx ≠ 0 then m2.sys.g.vfo_y else m2.sys.g.vfo_x
      { m2 with cur_vfo := cv, sys := m2.sys.log (Ev.setf1 (toULong cv)) }
    else m2
  else m1

/-! ## Dialogs -/

/-- The locals shared by the dialogs (`key` and the value being edited) together with the
machine. -/
structure Dlg where
  sys : Sys
  key : Int
  val : Int

/-- The statement `key = get_keys();` of a dialog. -/
def Dlg.read_key (d : Dlg) : Out Dlg :=
  match call_get_keys d.sys with
  | none => .starved d.sys
  | some (k, sys1) => .done { d with sys := sys1, key := k }

/-- The statement `tuningknob = 0;`. -/
def Sys.knob_clear (s : Sys) : Sys := { s with g := { s.g with tuningknob := 0 } }

/-- The loop `while(!key) { ...; key = get_keys(); }` of a dialog, `turn` being the two
`if(tuningknob ...)` statements of its body. -/
def dlg_loop (turn : Dlg → Dlg) : Nat → Dlg → Out Dlg
  | 0, _ => .nofuel
  | n + 1, d =>
      if d.key = 0 then (Dlg.read_key (turn d)).bind (dlg_loop turn n)
      else .done d

/-- The state reached, when the code ran to its end. -/
def Out.result {σ : Type} (o : Out σ) : Option σ :=
  match o with
  | .done s => some s
  | _ => none

/-- Whether the iteration bound was used up. -/
def Out.stuck {σ : Type} (o : Out σ) : Bool :=
  match o with
  | .nofuel => true
  | _ => false

/-- The two `if(tuningknob ...)` statements of `set_scan_threshold` (`thresh` is `val`). -/
def thresh_turn (d : Dlg) : Dlg :=
  let d1 : Dlg :=
    if d.sys.g.tuningknob ≤ -1 then
      let t : Int := if d.val < 80 then toInt16 (d.val + 1) else d.val
      { d with val := t,
               sys := { d.sys with g := { show_meter t d.sys.g with tuningknob := 0 } } }
    else d
  if d1.sys.g.tuningknob ≥ 1 then
    let t : Int := if d1.val > 0 then toInt16 (d1.val - 1) else d1.val
    { d1 with val := t,
              sys := { d1.sys with g := { show_meter t d1.sys.g with tuningknob := 0 } } }
  else d1

/-- The end of `set_scan_threshold`:
`if(key == 2) { s_threshold = thresh; eeprom_write_byte((uint8_t*)129, s_threshold); }`. -/
def set_scan_threshold_end (d : Dlg) : Sys :=
  if d.key = 2 then
    { d.sys with g := { d.sys.g with s_threshold := d.val },
                 e := eeprom_write_byte d.sys.e 129 (toUChar d.val) }
  else d.sys

/-- Embedding of `void set_scan_threshold(void)`; the result carries the locals at the end
(`key` is the key that ended the dialog). -/
def set_scan_threshold (fuel : Nat) (sys : Sys) : Out Dlg :=
  (dlg_loop thresh_turn fuel
    { sys := { sys with g := show_meter sys.g.s_threshold sys.g }, key := 0,
      val := sys.g.s_threshold }).bind fun d =>
  .done { d with sys := set_scan_threshold_end d }

/-- The two `if(tuningknob ...)` statements of `set_scan_frequency` (`f1` is `val`); the
calls `set_frequency1(f1)` are recorded. -/
def scanfreq_turn (d : Dlg) : Dlg :=
  let d1 : Dlg :=
    if d.sys.g.tuningknob ≤ -1 then
      let f : Int := if d.val < 14400000 then toLong (d.val + 100) else d.val
      { d with val := f, sys := (d.sys.log (Ev.setf1 (toULong f))).knob_clear }
    else d
  if d1.sys.g.tuningknob ≥ 1 then
    let f : Int := if d1.val > 0 then toLong (d1.val - 100) else d1.val
    { d1 with val := f, sys := (d1.sys.log (Ev.setf1 (toULong f))).knob_clear }
  else d1

/-- The end of `set_scan_frequency(fpos, f0)`:
`if(key == 2) { store_frequency(f1, 33 + fpos); scanfreq[fpos] = f1; return f1; } return 0;`. -/
def set_scan_frequency_end (fpos : Int) (d : Dlg) : Int × Sys :=
  if d.key = 2 then
    (d.val,
      { d.sys with e := store_frequency d.val (toInt16 (33 + fpos)) d.sys.e,
                   g := { d.sys.g with scanfreq := set2 d.sys.g.scanfreq fpos d.val } })
  else (0, d.sys)

/-- Embedding of `long set_scan_frequency(int fpos, long f0)`. -/
def set_scan_frequency (fuel : Nat) (fpos : Int) (f0 : Int) (sys : Sys) : Out (Int × Sys) :=
  (dlg_loop scanfreq_turn fuel { sys := sys, key := 0, val := toLong f0 }).bind fun d =>
  .done (set_scan_frequency_end fpos d)

/-- The statement `scanfreq[fpos] = set_scan_frequency(fpos, f_vfo[cur_vfo]);` of menu
action 22. -/
def main_scan_edge (fuel : Nat) (fpos : Int) (cur_vfo : Int) (sys : Sys) : Out Sys :=
  (set_scan_frequency fuel fpos ((get2 sys.g.f_vfo cur_vfo : Nat) : Int) sys).bind fun r =>
  .done { r.2 with g := { r.2.g with scanfreq := set2 r.2.g.scanfreq fpos r.1 } }

/-- Menu action 22 of `main`: the two scan edges are entered one after the other. -/
def main_action22 (fuel : Nat) (cur_vfo : Int) (sys : Sys) : Out Sys :=
  (main_scan_edge fuel 0 cur_vfo sys).bind (main_scan_edge fuel 1 cur_vfo)

/-- The two `if(tuningknob ...)` statements of `set_lo_freq` (`f` is `val`; the port writes
of `set_frequency2(f)` are those of `set_frequency2`). -/
def lo_turn (d : Dlg) : Dlg :=
  let d1 : Dlg :=
    if d.sys.g.tuningknob ≤ -1 then
      { d with val := toLong (d.val + 10), sys := d.sys.knob_clear }
    else d
  if d1.sys.g.tuningknob ≥ 1 then
    { d1 with val := toLong (d1.val - 10), sys := d1.sys.knob_clear }
  else d1

/-- The end of `set_lo_freq(sb)`:
`if(key == 2) { f_lo[sb] = f; store_frequency(f, 35 + sb); } else { set_frequency2(f_lo[sb]); }`. -/
def set_lo_freq_end (sb : Int) (d : Dlg) : Sys :=
  if d.key = 2 then
    { d.sys with g := { d.sys.g with f_lo := set2 d.sys.g.f_lo sb d.val },
                 e := store_frequency d.val (toInt16 (35 + sb)) d.sys.e }
  else d.sys

/-- Embedding of `void set_lo_freq(int sb)`; the result carries the locals at the end (`key`
is the key that ended the dialog, `val` the frequency shown last). -/
def set_lo_freq (fuel : Nat) (sb : Int) (sys : Sys) : Out Dlg :=
  (Dlg.read_key { sys := sys, key := 0, val := get2 sys.g.f_lo sb }).bind fun d0 =>
  (dlg_loop lo_turn fuel d0).bind fun d =>
  .done { d with sys := set_lo_freq_end sb d }

/-- The statements `if(is_mem_freq_ok(load_frequency(mem_addr))) {`
`set_frequency1(load_frequency(mem_addr)); }` of the memory dialogs (`mem_addr` is `val`);
`recall_mem_freq` has a further call `show_frequency(load_frequency(mem_addr))` inside the
braces (`shown`).  Every call of `load_frequency` and `set_frequency1` written in these
statements is recorded; the call of `load_frequency` inside `show_mem_addr`, which the
dialogs run before them, is not. -/
def mem_program (shown : Bool) (d : Dlg) : Dlg :=
  let sys1 : Sys := d.sys.log (Ev.load d.val)
  if is_mem_freq_ok (load_frequency d.val sys1.e) ≠ 0 then
    let sys2 : Sys := (sys1.log (Ev.load d.val)).log (Ev.setf1 (load_frequency d.val sys1.e))
    { d with sys := if shown then sys2.log (Ev.load d.val) else sys2 }
  else { d with sys := sys1 }

/-- The two `if(tuningknob ...)` statements of `recall_mem_freq` and `save_mem_freq`. -/
def mem_turn (shown : Bool) (d : Dlg) : Dlg :=
  let d1 : Dlg :=
    if d.sys.g.tuningknob ≥ 1 then
      mem_program shown
        { d with val := if d.val > 0 then toInt16 (d.val - 1) else MAXMEM,
                 sys := d.sys.knob_clear }
    else d
  if d1.sys.g.tuningknob ≤ -1 then
    mem_program shown
      { d1 with val := if d1.val < MAXMEM then toInt16 (d1.val + 1) else 0,
                sys := d1.sys.knob_clear }
  else d1

/-- The end of `recall_mem_freq`, from the `switch(key)` on. -/
def recall_mem_freq_end (fuel : Nat) (d : Dlg) : Out (Int × Sys) :=
  if d.key = 2 ∧ is_mem_freq_ok (load_frequency d.val d.sys.e) ≠ 0 then
    .done (toLong (load_frequency d.val (store_last_mem d.val d.sys.e)),
      { d.sys with e := store_last_mem d.val d.sys.e,
                   trace := d.sys.trace ++ [Ev.load d.val, Ev.load d.val] })
  else
    (drain_keys fuel (if d.key = 2 then d.sys.log (Ev.load d.val) else d.sys)).bind fun s1 =>
    .done (0, s1)

/-- Embedding of `long recall_mem_freq(void)`. -/
def recall_mem_freq (fuel : Nat) (sys : Sys) : Out (Int × Sys) :=
  (dlg_loop (mem_turn true) fuel (mem_program true { sys := sys, key := 0, val := 0 })).bind
    (recall_mem_freq_end fuel)

/-- The end of `save_mem_freq(f, mem)`, from the `switch(key)` on. -/
def save_mem_freq_end (fuel : Nat) (f : Int) (d : Dlg) : Out (Int × Sys) :=
  if d.key = 2 then
    .done (d.val,
      { d.sys with e := store_frequency f d.val (store_last_mem d.val d.sys.e) })
  else (drain_keys fuel d.sys).bind fun s1 => .done (-1, s1)

/-- Embedding of `int save_mem_freq(long f, int mem)`.  The entry code is
`set_frequency1(load_frequency(mem_addr));` without a test. -/
def save_mem_freq (fuel : Nat) (f : Int) (mem : Int) (sys : Sys) : Out (Int × Sys) :=
  (dlg_loop (mem_turn false) fuel
    { sys := (sys.log (Ev.load mem)).log (Ev.setf1 (load_frequency mem sys.e)), key := 0,
      val := mem }).bind
    (save_mem_freq_end fuel f)

/-- Menu action 20 of `main`:
`t1 = scan(0); freq_temp = load_frequency(t1); if(is_mem_freq_ok(freq_temp)) {`
`f_vfo[cur_vfo] = freq_temp; set_frequency1(f_vfo[cur_vfo]); }`; the `long` result of
`scan` is converted to the `int` variable `t1`. -/
def main_action20 (fuel : Nat) (stack : List Int) (cur_vfo : Int) (sys : Sys) : Out Sys :=
  (scan fuel 0 stack sys).bind fun r =>
  let t1 : Int := toInt16 r.1
  let sys1 : Sys := r.2.log (Ev.load t1)
  let freq_temp : Nat := load_frequency t1 sys1.e
  if is_mem_freq_ok freq_temp ≠ 0 then
    .done { sys1 with
      g := { sys1.g with f_vfo := set2 sys1.g.f_vfo cur_vfo freq_temp },
      trace := sys1.trace ++ [Ev.setf1 freq_temp] }
  else .done sys1

/-! ## Concrete machines used in the examples of the main loop and the dialogs -/

/-- The state of `main` on VFO `cur` with the frequencies `f`, the encoder flag `knob` and
the turns counter `count`; no split, no call recorded. -/
def mainAt (f : Nat × Nat) (knob : Int) (count : Int) (cur : Int) : Main :=
  { sys := { g := { initGlobals with f_vfo := f, tuningknob := knob, tuningcount := count },
             e := eeZero, input := [], trace := [] },
    cur_vfo := cur, split := 0, txrx := 0, txrx_old := 0 }

/-- A poll during which the encoder is turned one detent clockwise (the handler reads
`PIND` = 4 and leaves the flag at -1) while no key is pressed. -/
def pollCW : Poll := { adc0 := 0, adc2 := 0, ticks := 0, enc := [4] }

/-- A poll during which the encoder is turned one detent counter-clockwise (the handler reads
`PIND` = 0 and leaves the flag at +1) while no key is pressed. -/
def pollCCW : Poll := { adc0 := 0, adc2 := 0, ticks := 0, enc := [0] }

/-- A poll with the key `k` (1..4) held: the keypad channel reads the level of that key. -/
def pollKey (k : Nat) : Poll :=
  { adc0 := key_value.getD (k - 1) 0, adc2 := 0, ticks := 0, enc := [] }

/-- A machine with the default globals, threshold `thr`, an empty EEPROM and the polls
`inp`. -/
def sysThr (thr : Int) (inp : List Poll) : Sys :=
  { g := { initGlobals with s_threshold := thr }, e := eeZero, input := inp, trace := [] }

/-- A machine with the default globals except the LO frequencies `lo`, an empty EEPROM and
the polls `inp`. -/
def sysLo (lo : Int × Int) (inp : List Poll) : Sys :=
  { g := { initGlobals with f_lo := lo }, e := eeZero, input := inp, trace := [] }

/-- What the loop of `set_lo_freq` maintains: EEPROM and `f_lo` as on entry (`e0`, `lo0`),
and the value shown is `f0` moved by 10 Hz times a number of detents that is at most the
number of polls consumed out of `N`. -/
def LoInv (e0 : EEPROM) (lo0 : Int × Int) (f0 : Int) (N : Nat) (d : Dlg) : Prop :=
  d.sys.e = e0 ∧ d.sys.g.f_lo = lo0 ∧ d.sys.input.length ≤ N ∧
    ∃ k : Int, -((N : Int) - d.sys.input.length) ≤ k ∧
      k ≤ (N : Int) - d.sys.input.length ∧
      d.val = toLong (f0 + 10 * k)

/-- A machine with VFO A at 14,200,000 Hz, the scan edges 14,100,000 and 14,300,000 Hz both
in `scanfreq` and in slots 33 and 34, and the polls `inp`. -/
def sysEdges (inp : List Poll) : Sys :=
  { g := { initGlobals with f_vfo := (14200000, 14250000), scanfreq := (14100000, 14300000) },
    e := store_frequency 14300000 34 (store_frequency 14100000 33 eeZero),
    input := inp, trace := [] }

/-- What the loop of `set_scan_frequency` maintains: EEPROM and `scanfreq` as on entry, and a
key other than 0 in `key` is the result of the call of `get_keys` recorded last. -/
def EdgeInv (e0 : EEPROM) (sf0 : Int × Int) (d : Dlg) : Prop :=
  d.sys.e = e0 ∧ d.sys.g.scanfreq = sf0 ∧
    (d.key ≠ 0 → ∃ tr, d.sys.trace = tr ++ [Ev.keys d.key])

/-- Every frequency passed to `set_frequency1` in the calls `new` passes
`is_mem_freq_ok`. -/
def ProgsValid (new : List Ev) : Prop := ∀ f, Ev.setf1 f ∈ new → is_mem_freq_ok f ≠ 0

/-- What the loops of the memory dialogs maintain: the EEPROM as on entry and a record that
extends `tr0` by calls with the property `G`. -/
def MemInv (G : List Ev → Prop) (e0 : EEPROM) (tr0 : List Ev) (d : Dlg) : Prop :=
  d.sys.e = e0 ∧ ∃ new, d.sys.trace = tr0 ++ new ∧ G new

/-- The state `d1` is reached from `d` by code of a memory dialog that leaves EEPROM, polls
and `key` alone and records calls with the property `G`. -/
def MemStep (G : List Ev → Prop) (d d1 : Dlg) : Prop :=
  d1.sys.e = d.sys.e ∧ d1.sys.input = d.sys.input ∧ d1.key = d.key ∧
    ∃ new, d1.sys.trace = d.sys.trace ++ new ∧ G new

/-- The samples seen by the dwell loop of the memory scan (`v0` on entry, then the samples
recorded in `new`) with respect to the threshold `thr`: every sample but the last is above
the threshold, the last one is the final `sval`, and it is at most the threshold unless a key
ended the loop. -/
def DwellSeq (thr : Int) (v0 : Int) (new : List Ev) (s1 : Scan) : Prop :=
  (∀ v ∈ (v0 :: samplesOf new).dropLast, v > thr) ∧
    (v0 :: samplesOf new).getLast? = some s1.sval ∧ (s1.key = 0 → s1.sval ≤ thr)

/-- The locals of `scan` at the test of the dwell loop on slot 0, with the sample `v0` just
taken, threshold `thr` and the polls `inp` to come. -/
def scanDwell (thr : Int) (v0 : Int) (inp : List Poll) : Scan :=
  { sys := sysThr thr inp, t1 := 0, key := 0, sval := v0, f0 := 14200000, f1 := 0, df := 0,
    runsecsold10scan := 0, scan_skip := List.replicate 15 0 }

/-- The state in which the dwell loop ends when it starts with the sample 40 against the
threshold 30 and the next sample is 20. -/
def scanDwellEnd : Scan :=
  match scan_mem_dwell 5 (scanDwell 30 40 [pollOf 0 0, pollOf 0 20, pollOf 0 99]) with
  | .done s => s
  | _ => scanDwell 30 40 []

/-- A machine with an empty EEPROM (no memory slot holds a frequency) on which key 3 is read
on slot 0 of a memory scan and released, and key 1 is held from then on for `n` polls. -/
def sysKey3 (n : Nat) : Sys :=
  sysOf eeZero (pollOf 0 0 :: pollKey 3 :: pollOf 0 0 :: List.replicate n (pollKey 1))

/-- An EEPROM whose last four cells (65532..65535, the cells `load_frequency(-1)` reads with
16-bit addresses) hold 14,200,000 Hz; every other cell is 0. -/
def eeEnd : EEPROM :=
  fun a => if a = 65533 then 0xD8 else if a = 65534 then 0xAC else if a = 65535 then 0xC0 else 0

/-- The polls of a memory scan that is aborted with key 1 on slot 0: no key at entry, key 1
read on the slot, then released. -/
def abortInput : List Poll := [pollOf 0 0, pollKey 1, pollOf 0 0, pollOf 0 0]
/-! ## Persistence: proofs -/

theorem toLong_eq (x : Int) : ∃ k : Int, toLong x = x + 4294967296 * k := by
  refine ⟨-((x + 2147483648) / 4294967296), ?_⟩
  unfold toLong; omega

theorem toUChar_toLong (x : Int) : toUChar (toLong x) = toUChar x := by
  unfold toUChar toLong; omega

theorem toUChar_sub_mul (x : Int) (y : Int) : toUChar (x - toInt16 (y * 256)) = toUChar x := by
  unfold toUChar toInt16; omega

theorem toUChar_mod (x : Int) : toUChar x % 256 = toUChar x := by
  unfold toUChar; omega

theorem loword_eq (F : Int) : toLong (F - toLong (F / 65536 * 65536)) = F % 65536 := by
  unfold toLong; omega

theorem byte0_eq (f : Int) : toUChar (toLong f / 65536 / 256) = toUChar (f / 16777216) := by
  obtain ⟨k, hk⟩ := toLong_eq f
  rw [hk]; unfold toUChar; omega

theorem byte1_eq (f : Int) (y : Int) :
    toUChar (toLong (toLong f / 65536 - toInt16 (y * 256))) = toUChar (f / 65536) := by
  obtain ⟨k, hk⟩ := toLong_eq f
  rw [toUChar_toLong, toUChar_sub_mul, hk]; unfold toUChar; omega

theorem byte2_eq (f : Int) : toUChar (toLong f % 65536 / 256) = toUChar (f / 256) := by
  obtain ⟨k, hk⟩ := toLong_eq f
  rw [hk]; unfold toUChar; omega

theorem byte3_eq (f : Int) (y : Int) :
    toUChar (toLong (toLong f % 65536 - toInt16 (y * 256))) = toUChar f := by
  obtain ⟨k, hk⟩ := toLong_eq f
  rw [toUChar_toLong, toUChar_sub_mul, hk]; unfold toUChar; omega

/-- What `store_frequency` leaves in every EEPROM cell. -/
theorem store_frequency_apply (f : Int) (m : Int) (e : EEPROM) (a : Nat) :
    store_frequency f m e a =
      if a = eeAddr (toInt16 (m * 4)) 3 then toUChar f
      else if a = eeAddr (toInt16 (m * 4)) 2 then toUChar (f / 256)
      else if a = eeAddr (toInt16 (m * 4)) 1 then toUChar (f / 65536)
      else if a = eeAddr (toInt16 (m * 4)) 0 then toUChar (f / 16777216)
      else e a := by
  simp only [store_frequency, eeprom_write_byte, loword_eq, byte0_eq, byte1_eq, byte2_eq,
    byte3_eq, toUChar_mod]

theorem long_sum_eq (a b c d : Nat) (ha : a < 256) (hb : b < 256) (hc : c < 256) (hd : d < 256) :
    toULong (toLong (toLong (toLong (toLong (16777216 * (a : Int)) + toLong (65536 * (b : Int)))
      + (toUInt16 (256 * (c : Int)) : Int)) + (d : Int)))
      = 16777216 * a + 65536 * b + 256 * c + d := by
  have k5 : (toUInt16 (256 * (c : Int)) : Int) = 256 * c := by unfold toUInt16; omega
  rw [k5]
  obtain ⟨kA, hA⟩ := toLong_eq (16777216 * (a : Int))
  obtain ⟨kB, hB⟩ := toLong_eq (65536 * (b : Int))
  rw [hA, hB]
  obtain ⟨kC, hC⟩ := toLong_eq
    (16777216 * (a : Int) + 4294967296 * kA + (65536 * (b : Int) + 4294967296 * kB))
  rw [hC]
  obtain ⟨kD, hD⟩ := toLong_eq
    (16777216 * (a : Int) + 4294967296 * kA + (65536 * (b : Int) + 4294967296 * kB)
      + 4294967296 * kC + 256 * (c : Int))
  rw [hD]
  obtain ⟨kE, hE⟩ := toLong_eq
    (16777216 * (a : Int) + 4294967296 * kA + (65536 * (b : Int) + 4294967296 * kB)
      + 4294967296 * kC + 256 * (c : Int) + 4294967296 * kD + d)
  rw [hE]
  unfold toULong
  omega

/-- The value `load_frequency` assembles from the four cells of a slot. -/
theorem load_frequency_eq (m : Int) (e : EEPROM) :
    load_frequency m e =
      16777216 * (e (eeAddr (toInt16 (m * 4)) 0) % 256)
        + 65536 * (e (eeAddr (toInt16 (m * 4)) 1) % 256)
        + 256 * (e (eeAddr (toInt16 (m * 4)) 2) % 256)
        + e (eeAddr (toInt16 (m * 4)) 3) % 256 := by
  unfold load_frequency eeprom_read_byte
  exact long_sum_eq _ _ _ _ (Nat.mod_lt _ (by norm_num)) (Nat.mod_lt _ (by norm_num))
    (Nat.mod_lt _ (by norm_num)) (Nat.mod_lt _ (by norm_num))

theorem eeAddr_ne (s : Int) (j k : Nat) (hj : j < 4) (hk : k < 4) (hjk : j ≠ k)
    (hs : s % 4 = 0) : eeAddr s j ≠ eeAddr s k := by
  unfold eeAddr; omega

theorem toInt16_mul4 (m : Int) : toInt16 (m * 4) % 4 = 0 := by
  unfold toInt16; omega

theorem eeAddr_slot (m : Nat) (k : Nat) (hm : m < 8192) (hk : k < 4) :
    eeAddr (toInt16 ((m : Int) * 4)) k = 4 * m + k := by
  unfold eeAddr toInt16
  omega

theorem be_bytes_sum (f : Nat) (hf : f < 4294967296) :
    16777216 * toUChar ((f : Int) / 16777216) + 65536 * toUChar ((f : Int) / 65536)
      + 256 * toUChar ((f : Int) / 256) + toUChar (f : Int) = f := by
  unfold toUChar; omega

/-- C1: a frequency written with `store_frequency` into slot `m` is read back unchanged by
`load_frequency` from the same slot, for every slot index and every 32-bit frequency. -/
theorem C1_store_load_roundtrip (f : Nat) (m : Int) (e : EEPROM) (hf : f < 4294967296) :
    load_frequency m (store_frequency (f : Int) m e) = f := by
  have h4 := toInt16_mul4 m
  have a01 := eeAddr_ne (toInt16 (m * 4)) 0 1 (by norm_num) (by norm_num) (by norm_num) h4
  have a02 := eeAddr_ne (toInt16 (m * 4)) 0 2 (by norm_num) (by norm_num) (by norm_num) h4
  have a03 := eeAddr_ne (toInt16 (m * 4)) 0 3 (by norm_num) (by norm_num) (by norm_num) h4
  have a12 := eeAddr_ne (toInt16 (m * 4)) 1 2 (by norm_num) (by norm_num) (by norm_num) h4
  have a13 := eeAddr_ne (toInt16 (m * 4)) 1 3 (by norm_num) (by norm_num) (by norm_num) h4
  have a23 := eeAddr_ne (toInt16 (m * 4)) 2 3 (by norm_num) (by norm_num) (by norm_num) h4
  rw [load_frequency_eq]
  simp only [store_frequency_apply, a01, a02, a03, a12, a13, a23, if_true, if_false,
    toUChar_mod]
  exact be_bytes_sum f hf

theorem C1_store_load_roundtrip_witness :
    load_frequency 16 (store_frequency ((14220000 : Nat) : Int) 16 (fun _ => 255)) = 14220000 :=
  C1_store_load_roundtrip 14220000 16 (fun _ => 255) (by decide)

theorem toUChar_natCast_div (f : Nat) (d : Nat) :
    toUChar ((f : Int) / (d : Int)) = f / d % 256 := by
  unfold toUChar
  have h : ((f : Int) / (d : Int)) = ((f / d : Nat) : Int) := by
    simp
  rw [h]; omega

/-- C2: `store_frequency f m` writes the four bytes of `f` big-endian at addresses
`4m .. 4m+3`, leaves every other EEPROM cell as it was, and therefore leaves the value of
every other frequency slot and, for a documented slot `m`, the scalar bytes 127..129
unchanged. -/
theorem C2_store_frequency_frame (f : Nat) (m : Nat) (e : EEPROM) (hm : m < 8192) :
    (store_frequency (f : Int) (m : Int) e (4 * m) = f / 16777216 % 256
      ∧ store_frequency (f : Int) (m : Int) e (4 * m + 1) = f / 65536 % 256
      ∧ store_frequency (f : Int) (m : Int) e (4 * m + 2) = f / 256 % 256
      ∧ store_frequency (f : Int) (m : Int) e (4 * m + 3) = f % 256)
    ∧ (∀ a : Nat, (a < 4 * m ∨ 4 * m + 3 < a) → store_frequency (f : Int) (m : Int) e a = e a)
    ∧ (∀ m2 : Nat, m2 < 8192 → m2 ≠ m →
        load_frequency (m2 : Int) (store_frequency (f : Int) (m : Int) e)
          = load_frequency (m2 : Int) e)
    ∧ (documentedSlot m → ∀ a : Nat, 127 ≤ a → a ≤ 129 →
        eeprom_read_byte (store_frequency (f : Int) (m : Int) e) a = eeprom_read_byte e a) := by
  have A0 := eeAddr_slot m 0 hm (by norm_num)
  have A1 := eeAddr_slot m 1 hm (by norm_num)
  have A2 := eeAddr_slot m 2 hm (by norm_num)
  have A3 := eeAddr_slot m 3 hm (by norm_num)
  have frame : ∀ a : Nat, (a < 4 * m ∨ 4 * m + 3 < a) →
      store_frequency (f : Int) (m : Int) e a = e a := by
    intro a ha
    rw [store_frequency_apply, A0, A1, A2, A3]
    rw [if_neg (by omega), if_neg (by omega), if_neg (by omega), if_neg (by omega)]
  have d1 := toUChar_natCast_div f 16777216
  have d2 := toUChar_natCast_div f 65536
  have d3 := toUChar_natCast_div f 256
  have d4 : toUChar (f : Int) = f % 256 := by unfold toUChar; omega
  refine ⟨⟨?_, ?_, ?_, ?_⟩, frame, ?_, ?_⟩
  · rw [store_frequency_apply, A0, A1, A2, A3]
    rw [if_neg (by omega), if_neg (by omega), if_neg (by omega), if_pos (by omega)]
    exact d1
  · rw [store_frequency_apply, A0, A1, A2, A3]
    rw [if_neg (by omega), if_neg (by omega), if_pos (by omega)]
    exact d2
  · rw [store_frequency_apply, A0, A1, A2, A3]
    rw [if_neg (by omega), if_pos (by omega)]
    exact d3
  · rw [store_frequency_apply, A0, A1, A2, A3]
    rw [if_pos (by omega)]
    exact d4
  · intro m2 hm2 hne
    rw [load_frequency_eq, load_frequency_eq]
    rw [eeAddr_slot m2 0 hm2 (by norm_num), eeAddr_slot m2 1 hm2 (by norm_num),
      eeAddr_slot m2 2 hm2 (by norm_num), eeAddr_slot m2 3 hm2 (by norm_num)]
    rw [frame (4 * m2 + 0) (by omega), frame (4 * m2 + 1) (by omega),
      frame (4 * m2 + 2) (by omega), frame (4 * m2 + 3) (by omega)]
  · intro hdoc a h1 h2
    unfold documentedSlot at hdoc
    unfold eeprom_read_byte
    rw [frame a (by omega)]

theorem C2_store_frequency_frame_witness :
    (store_frequency ((14220000 : Nat) : Int) ((16 : Nat) : Int) (fun _ => 255) (4 * 16)
        = 14220000 / 16777216 % 256
      ∧ store_frequency ((14220000 : Nat) : Int) ((16 : Nat) : Int) (fun _ => 255) (4 * 16 + 1)
        = 14220000 / 65536 % 256
      ∧ store_frequency ((14220000 : Nat) : Int) ((16 : Nat) : Int) (fun _ => 255) (4 * 16 + 2)
        = 14220000 / 256 % 256
      ∧ store_frequency ((14220000 : Nat) : Int) ((16 : Nat) : Int) (fun _ => 255) (4 * 16 + 3)
        = 14220000 % 256)
    ∧ (∀ a : Nat, (a < 4 * 16 ∨ 4 * 16 + 3 < a) →
        store_frequency ((14220000 : Nat) : Int) ((16 : Nat) : Int) (fun _ => 255) a = 255)
    ∧ (∀ m2 : Nat, m2 < 8192 → m2 ≠ 16 →
        load_frequency (m2 : Int)
            (store_frequency ((14220000 : Nat) : Int) ((16 : Nat) : Int) (fun _ => 255))
          = load_frequency (m2 : Int) (fun _ => 255))
    ∧ (documentedSlot 16 → ∀ a : Nat, 127 ≤ a → a ≤ 129 →
        eeprom_read_byte
            (store_frequency ((14220000 : Nat) : Int) ((16 : Nat) : Int) (fun _ => 255)) a
          = eeprom_read_byte (fun _ => 255) a) :=
  C2_store_frequency_frame 14220000 16 (fun _ => 255) (by decide)

/-! ## Start-up loading: proofs -/

theorem eeAddr_slot_int (m : Int) (k : Nat) (h0 : 0 ≤ m) (hm : m < 8192) (hk : k < 4) :
    eeAddr (toInt16 (m * 4)) k = (4 * m).toNat + k := by
  unfold eeAddr toInt16
  omega

theorem store_frequency_other (f : Int) (m : Int) (e : EEPROM) (h0 : 0 ≤ m) (hm : m < 8192)
    (a : Nat) (ha : a < (4 * m).toNat ∨ (4 * m).toNat + 3 < a) :
    store_frequency f m e a = e a := by
  rw [store_frequency_apply, eeAddr_slot_int m 0 h0 hm (by norm_num),
    eeAddr_slot_int m 1 h0 hm (by norm_num), eeAddr_slot_int m 2 h0 hm (by norm_num),
    eeAddr_slot_int m 3 h0 hm (by norm_num)]
  rw [if_neg (by omega), if_neg (by omega), if_neg (by omega), if_neg (by omega)]

theorem load_frequency_store_other (f : Int) (m m2 : Int) (e : EEPROM) (h0 : 0 ≤ m)
    (hm : m < 8192) (h20 : 0 ≤ m2) (hm2 : m2 < 8192) (hne : m2 ≠ m) :
    load_frequency m2 (store_frequency f m e) = load_frequency m2 e := by
  rw [load_frequency_eq, load_frequency_eq]
  rw [eeAddr_slot_int m2 0 h20 hm2 (by norm_num), eeAddr_slot_int m2 1 h20 hm2 (by norm_num),
    eeAddr_slot_int m2 2 h20 hm2 (by norm_num), eeAddr_slot_int m2 3 h20 hm2 (by norm_num)]
  rw [store_frequency_other f m e h0 hm ((4 * m2).toNat + 0) (by omega),
    store_frequency_other f m e h0 hm ((4 * m2).toNat + 1) (by omega),
    store_frequency_other f m e h0 hm ((4 * m2).toNat + 2) (by omega),
    store_frequency_other f m e h0 hm ((4 * m2).toNat + 3) (by omega)]

theorem load_frequency_lt (m : Int) (e : EEPROM) : load_frequency m e < 4294967296 := by
  rw [load_frequency_eq]; omega

theorem band_check_long (v : Nat) (d : Int) (hv : v < 4294967296) :
    (if is_mem_freq_ok (toULong (toLong (v : Int))) = 0 then d else toLong (v : Int))
      = if inBand v then (v : Int) else d := by
  have h1 : toULong (toLong (v : Int)) = v := by unfold toULong toLong; omega
  rw [h1]
  unfold is_mem_freq_ok inBand
  by_cases h : v ≥ 13900000 ∧ v ≤ 14400000
  · have h2 : 13900000 ≤ v ∧ v ≤ 14400000 := h
    rw [if_pos h, if_pos h2, if_neg (by norm_num)]
    unfold toLong; omega
  · have h2 : ¬ (13900000 ≤ v ∧ v ≤ 14400000) := h
    rw [if_neg h, if_neg h2, if_pos rfl]

theorem lo_check_long (v : Nat) (d : Int) (hv : v < 4294967296) :
    (if toLong (v : Int) < 8995000 ∨ toLong (v : Int) > 9005000 then d else toLong (v : Int))
      = if inLoBand v then (v : Int) else d := by
  unfold inLoBand
  by_cases h : 8995000 ≤ v ∧ v ≤ 9005000
  · rw [if_pos h, if_neg (by unfold toLong; omega)]
    unfold toLong; omega
  · rw [if_neg h, if_pos (by unfold toLong; omega)]

theorem boot_lo_step_frame (t1 : Int) (s : BootState) :
    (boot_lo_step t1 s).e = s.e ∧ (boot_lo_step t1 s).cur_vfo = s.cur_vfo
      ∧ (boot_lo_step t1 s).g.f_vfo = s.g.f_vfo
      ∧ (boot_lo_step t1 s).g.scanfreq = s.g.scanfreq
      ∧ (boot_lo_step t1 s).g.s_threshold = s.g.s_threshold
      ∧ (boot_lo_step t1 s).g.last_memplace = s.g.last_memplace :=
  ⟨rfl, rfl, rfl, rfl, rfl, rfl⟩

theorem boot_lo_step_zero (s : BootState) :
    (boot_lo_step 0 s).g.f_lo =
      ((if inLoBand (load_frequency 35 s.e) then (load_frequency 35 s.e : Int) else 9001500),
        s.g.f_lo.2) := by
  have h := lo_check_long (load_frequency 35 s.e) 9001500 (load_frequency_lt 35 s.e)
  simp only [boot_lo_step, get2, set2, if_true, add_zero]
  rw [← h]
  split <;> rfl

theorem boot_lo_step_one (s : BootState) :
    (boot_lo_step 1 s).g.f_lo =
      (s.g.f_lo.1,
        (if inLoBand (load_frequency 36 s.e) then (load_frequency 36 s.e : Int) else 8998500)) := by
  have h := lo_check_long (load_frequency 36 s.e) 8998500 (load_frequency_lt 36 s.e)
  have e36 : (35 : Int) + 1 = 36 := by norm_num
  have n10 : ¬ ((1 : Int) = 0) := by norm_num
  simp only [boot_lo_step, get2, set2, if_true, n10, if_false, e36]
  rw [← h]
  split <;> rfl

theorem boot_vfo_step_frame (t1 : Int) (s : BootState) :
    (boot_vfo_step t1 s).cur_vfo = s.cur_vfo
      ∧ (boot_vfo_step t1 s).g.f_lo = s.g.f_lo
      ∧ (boot_vfo_step t1 s).g.scanfreq = s.g.scanfreq
      ∧ (boot_vfo_step t1 s).g.s_threshold = s.g.s_threshold
      ∧ (boot_vfo_step t1 s).g.last_memplace = s.g.last_memplace := by
  unfold boot_vfo_step
  by_cases h : is_mem_freq_ok (get2 (set2 s.g.f_vfo t1 (load_frequency (16 + t1) s.e)) t1) = 0
  · simp only [h, if_true]
    exact ⟨trivial, trivial, trivial, trivial, trivial⟩
  · simp only [h, if_false]
    exact ⟨trivial, trivial, trivial, trivial, trivial⟩
theorem is_mem_freq_ok_eq_zero (v : Nat) : is_mem_freq_ok v = 0 ↔ ¬ inBand v := by
  unfold is_mem_freq_ok inBand
  by_cases h : v ≥ 13900000 ∧ v ≤ 14400000
  · have h2 : 13900000 ≤ v ∧ v ≤ 14400000 := h
    rw [if_pos h]
    constructor
    · intro h0; exact absurd h0 (by norm_num)
    · intro h0; exact absurd h2 h0
  · have h2 : ¬ (13900000 ≤ v ∧ v ≤ 14400000) := h
    rw [if_neg h]
    exact ⟨fun _ => h2, fun _ => rfl⟩

theorem get2_set2 {α : Type} (a : α × α) (i : Int) (v : α) : get2 (set2 a i v) i = v := by
  unfold get2 set2
  by_cases h : i = 0
  · simp only [h, if_true]
  · simp only [h, if_false]
theorem set2_zero {α : Type} (a : α × α) (v : α) : set2 a 0 v = (v, a.2) := rfl

theorem set2_one {α : Type} (a : α × α) (v : α) : set2 a 1 v = (a.1, v) := rfl

theorem boot_vfo_step_zero_aux (s : BootState) (t1 : Int) (ht : t1 = 0) :
    (boot_vfo_step t1 s).g.f_vfo =
      ((if inBand (load_frequency 16 s.e) then load_frequency 16 s.e else 14220000),
        s.g.f_vfo.2)
    ∧ load_frequency 17 (boot_vfo_step t1 s).e = load_frequency 17 s.e := by
  unfold boot_vfo_step
  simp only [get2_set2, is_mem_freq_ok_eq_zero]
  subst ht
  have e16 : (16 : Int) + 0 = 16 := by norm_num
  rw [e16]
  have hs := load_frequency_store_other (((14220000 : Nat) : Int)) 16 17 s.e (by norm_num)
    (by norm_num) (by norm_num) (by norm_num) (by norm_num)
  generalize store_frequency (((14220000 : Nat) : Int)) 16 s.e = e2 at hs ⊢
  generalize load_frequency 16 s.e = L
  by_cases h : inBand L
  · rw [if_neg (not_not.mpr h), if_pos h]
    refine ⟨?_, ?_⟩
    · rw [set2_zero]
    · rfl
  · rw [if_pos h, if_neg h]
    refine ⟨?_, ?_⟩
    · rw [set2_zero, set2_zero]
    · exact hs

theorem boot_vfo_step_one_aux (s : BootState) (t1 : Int) (ht : t1 = 1) :
    (boot_vfo_step t1 s).g.f_vfo =
      (s.g.f_vfo.1,
        (if inBand (load_frequency 17 s.e) then load_frequency 17 s.e else 14220000)) := by
  unfold boot_vfo_step
  simp only [get2_set2, is_mem_freq_ok_eq_zero]
  subst ht
  have e17 : (16 : Int) + 1 = 17 := by norm_num
  rw [e17]
  generalize store_frequency (((14220000 : Nat) : Int)) 17 s.e = e2
  generalize load_frequency 17 s.e = L
  by_cases h : inBand L
  · rw [if_neg (not_not.mpr h), if_pos h]
    rw [set2_one]
  · rw [if_pos h, if_neg h]
    rw [set2_one, set2_one]

theorem boot_vfo_step_zero (s : BootState) :
    (boot_vfo_step 0 s).g.f_vfo =
      ((if inBand (load_frequency 16 s.e) then load_frequency 16 s.e else 14220000),
        s.g.f_vfo.2)
    ∧ load_frequency 17 (boot_vfo_step 0 s).e = load_frequency 17 s.e :=
  boot_vfo_step_zero_aux s 0 rfl

theorem boot_vfo_step_one (s : BootState) :
    (boot_vfo_step 1 s).g.f_vfo =
      (s.g.f_vfo.1,
        (if inBand (load_frequency 17 s.e) then load_frequency 17 s.e else 14220000)) :=
  boot_vfo_step_one_aux s 1 rfl
theorem byte_range_check (b : Nat) (hi : Nat) (d : Int) :
    (if (b : Int) < 0 ∨ (b : Int) > (hi : Int) then d else (b : Int))
      = if b ≤ hi then (b : Int) else d := by
  by_cases h : b ≤ hi
  · rw [if_pos h, if_neg (by omega)]
  · rw [if_neg h, if_pos (by omega)]

theorem boot_scalars_spec (g : Globals) (e : EEPROM) :
    (boot_scalars g e).e = e
    ∧ (boot_scalars g e).g.scanfreq.1
        = (if inBand (load_frequency 33 e) then (load_frequency 33 e : Int) else 14100000)
    ∧ (boot_scalars g e).g.scanfreq.2
        = (if inBand (load_frequency 34 e) then (load_frequency 34 e : Int) else 14300000)
    ∧ (boot_scalars g e).g.s_threshold
        = (if eeprom_read_byte e 129 ≤ 80 then (eeprom_read_byte e 129 : Int) else 30)
    ∧ (boot_scalars g e).g.last_memplace
        = (if eeprom_read_byte e 127 ≤ 15 then (eeprom_read_byte e 127 : Int) else 0) := by
  have t80 := byte_range_check (eeprom_read_byte e 129) 80 30
  have t15 := byte_range_check (eeprom_read_byte e 127) 15 0
  have s33 := band_check_long (load_frequency 33 e) 14100000 (load_frequency_lt 33 e)
  have s34 := band_check_long (load_frequency 34 e) 14300000 (load_frequency_lt 34 e)
  refine ⟨rfl, ?_, ?_, ?_, ?_⟩
  · unfold boot_scalars; dsimp only; exact s33
  · unfold boot_scalars; dsimp only; exact s34
  · unfold boot_scalars load_last_mem; dsimp only; exact t80
  · unfold boot_scalars load_last_mem; dsimp only; exact t15

theorem boot_cur_vfo_spec (s : BootState) :
    (boot_cur_vfo s).e = s.e ∧ (boot_cur_vfo s).g = s.g
    ∧ (boot_cur_vfo s).cur_vfo
        = (if eeprom_read_byte s.e 128 ≤ 1 then (eeprom_read_byte s.e 128 : Int) else 0) :=
by
  refine ⟨rfl, rfl, ?_⟩
  unfold boot_cur_vfo load_last_vfo; dsimp only
  exact byte_range_check (eeprom_read_byte s.e 128) 1 0
/-- C3: after the start-up loading code of `main`, every loaded quantity equals the value
persisted in the EEPROM when that value lies in its valid range and its default otherwise:
VFO A/B (13,900,000..14,400,000, default 14,220,000), scan edges (same window, defaults
14,100,000 and 14,300,000), LO USB/LSB (8,995,000..9,005,000, defaults 9,001,500 and
8,998,500), scan threshold (0..80, default 30), last memory (0..15, default 0) and last
VFO (0..1, default 0). -/
theorem C3_boot_load_fallback (g : Globals) (e : EEPROM) :
    (boot_load g e).g.f_vfo.1
        = (if inBand (load_frequency 16 e) then load_frequency 16 e else 14220000)
    ∧ (boot_load g e).g.f_vfo.2
        = (if inBand (load_frequency 17 e) then load_frequency 17 e else 14220000)
    ∧ (boot_load g e).g.scanfreq.1
        = (if inBand (load_frequency 33 e) then (load_frequency 33 e : Int) else 14100000)
    ∧ (boot_load g e).g.scanfreq.2
        = (if inBand (load_frequency 34 e) then (load_frequency 34 e : Int) else 14300000)
    ∧ (boot_load g e).g.f_lo.1
        = (if inLoBand (load_frequency 35 e) then (load_frequency 35 e : Int) else 9001500)
    ∧ (boot_load g e).g.f_lo.2
        = (if inLoBand (load_frequency 36 e) then (load_frequency 36 e : Int) else 8998500)
    ∧ (boot_load g e).g.s_threshold
        = (if eeprom_read_byte e 129 ≤ 80 then (eeprom_read_byte e 129 : Int) else 30)
    ∧ (boot_load g e).g.last_memplace
        = (if eeprom_read_byte e 127 ≤ 15 then (eeprom_read_byte e 127 : Int) else 0)
    ∧ (boot_load g e).cur_vfo
        = (if eeprom_read_byte e 128 ≤ 1 then (eeprom_read_byte e 128 : Int) else 0) := by
  unfold boot_load
  obtain ⟨h0e, h0a, h0b, h0c, h0d⟩ := boot_scalars_spec g e
  generalize boot_scalars g e = S0 at h0e h0a h0b h0c h0d ⊢
  obtain ⟨l0e, -, l0v, l0s, l0t, l0m⟩ := boot_lo_step_frame 0 S0
  have l0z := boot_lo_step_zero S0
  generalize boot_lo_step 0 S0 = S1 at l0e l0v l0s l0t l0m l0z ⊢
  obtain ⟨l1e, -, l1v, l1s, l1t, l1m⟩ := boot_lo_step_frame 1 S1
  have l1z := boot_lo_step_one S1
  generalize boot_lo_step 1 S1 = S2 at l1e l1v l1s l1t l1m l1z ⊢
  obtain ⟨ce, cg, cv⟩ := boot_cur_vfo_spec S2
  generalize boot_cur_vfo S2 = S3 at ce cg cv ⊢
  obtain ⟨v0c, v0l, v0s, v0t, v0m⟩ := boot_vfo_step_frame 0 S3
  obtain ⟨v0z, v0e⟩ := boot_vfo_step_zero S3
  generalize boot_vfo_step 0 S3 = S4 at v0c v0l v0s v0t v0m v0z v0e ⊢
  obtain ⟨v1c, v1l, v1s, v1t, v1m⟩ := boot_vfo_step_frame 1 S4
  have v1z := boot_vfo_step_one S4
  generalize boot_vfo_step 1 S4 = S5 at v1c v1l v1s v1t v1m v1z ⊢
  have e3 : S3.e = e := by rw [ce, l1e, l0e, h0e]
  have e1 : S1.e = e := by rw [l0e, h0e]
  rw [e3] at v0z v0e
  rw [v0e] at v1z
  rw [e1] at l1z
  rw [h0e] at l0z
  rw [l1e, l0e, h0e] at cv
  refine ⟨?_, ?_, ?_, ?_, ?_, ?_, ?_, ?_, ?_⟩
  · rw [v1z, v0z]
  · rw [v1z]
  · rw [v1s, v0s, cg, l1s, l0s]; exact h0a
  · rw [v1s, v0s, cg, l1s, l0s]; exact h0b
  · rw [v1l, v0l, cg, l1z, l0z]
  · rw [v1l, v0l, cg, l1z]
  · rw [v1t, v0t, cg, l1t, l0t]; exact h0c
  · rw [v1m, v0m, cg, l1m, l0m]; exact h0d
  · rw [v1c, v0c]; exact cv

/-! ## DDS 1: proofs -/

theorem lastOr_append_singleton (p : Nat) (l : List Nat) (v : Nat) :
    lastOr p (l ++ [v]) = v := by
  induction l generalizing p with
  | nil => rfl
  | cons a t ih => exact ih a

theorem sclkRisingBits_cons (p v : Nat) (rest : List Nat) :
    sclkRisingBits p (v :: rest) =
      if !p.testBit 2 && v.testBit 2 then v.testBit 1 :: sclkRisingBits v rest
      else sclkRisingBits v rest := rfl

theorem sclkRisingBits_append (p : Nat) (l1 l2 : List Nat) :
    sclkRisingBits p (l1 ++ l2) = sclkRisingBits p l1 ++ sclkRisingBits (lastOr p l1) l2 := by
  induction l1 generalizing p with
  | nil => rfl
  | cons a t ih =>
    have ih2 := ih a
    rw [List.cons_append, sclkRisingBits_cons, sclkRisingBits_cons, ih2]
    by_cases hc : (!p.testBit 2 && a.testBit 2) = true
    · rw [if_pos hc, if_pos hc]; rfl
    · rw [if_neg hc, if_neg hc]; rfl

theorem sclkRisingBits_snoc (p : Nat) (l : List Nat) (v : Nat) :
    sclkRisingBits p (l ++ [v]) =
      sclkRisingBits p l ++ (if !(lastOr p l).testBit 2 && v.testBit 2 then [v.testBit 1] else []) := by
  rw [sclkRisingBits_append]
  rw [sclkRisingBits_cons]
  by_cases hc : (!(lastOr p l).testBit 2 && v.testBit 2) = true
  · rw [if_pos hc, if_pos hc]; rfl
  · rw [if_neg hc, if_neg hc]; rfl

theorem head_snoc (l : List Nat) (h v : Nat) (hl : l.head? = some h) :
    (l ++ [v]).head? = some h := by
  cases l with
  | nil => simp at hl
  | cons a t => simpa using hl

theorem tb_251_0 : Nat.testBit 251 0 = true := by decide
theorem tb_251_1 : Nat.testBit 251 1 = true := by decide
theorem tb_251_2 : Nat.testBit 251 2 = false := by decide
theorem tb_253_0 : Nat.testBit 253 0 = true := by decide
theorem tb_253_1 : Nat.testBit 253 1 = false := by decide
theorem tb_253_2 : Nat.testBit 253 2 = true := by decide
theorem tb_254_0 : Nat.testBit 254 0 = false := by decide
theorem tb_254_1 : Nat.testBit 254 1 = true := by decide
theorem tb_254_2 : Nat.testBit 254 2 = true := by decide
theorem tb_1_0 : Nat.testBit 1 0 = true := by decide
theorem tb_1_1 : Nat.testBit 1 1 = false := by decide
theorem tb_1_2 : Nat.testBit 1 2 = false := by decide
theorem tb_2_0 : Nat.testBit 2 0 = false := by decide
theorem tb_2_1 : Nat.testBit 2 1 = true := by decide
theorem tb_2_2 : Nat.testBit 2 2 = false := by decide
theorem tb_4_0 : Nat.testBit 4 0 = false := by decide
theorem tb_4_1 : Nat.testBit 4 1 = false := by decide
theorem tb_4_2 : Nat.testBit 4 2 = true := by decide

theorem dds1_write_sent {p0 h : Nat} {w : Wire} {bits : List Bool} (hs : Dds1Sent p0 h w bits)
    (v : Nat) (hv : v.testBit 0 = false) :
    Dds1Sent p0 h { port := v, log := w.log ++ [v] }
      (bits ++ (if !w.port.testBit 2 && v.testBit 2 then [v.testBit 1] else [])) := by
  refine ⟨lastOr_append_singleton _ _ _, head_snoc _ _ _ hs.head, ?_, ?_, hv⟩
  · show sclkRisingBits p0 (w.log ++ [v]) = _
    rw [sclkRisingBits_snoc, hs.last, hs.bits_eq]
  · intro u hu
    show u.testBit 0 = false
    have hu2 : u ∈ w.log ++ [v] := hu
    rw [List.mem_append, List.mem_singleton] at hu2
    rcases hu2 with h1 | h1
    · exact hs.ioud u h1
    · rw [h1]; exact hv

theorem spi1_send_bit_sent {p0 h : Nat} {w : Wire} {bits : List Bool}
    (hs : Dds1Sent p0 h w bits) (sbit : Nat) :
    Dds1Sent p0 h (spi1_send_bit sbit w) (bits ++ [decide (sbit ≠ 0)])
      ∧ (spi1_send_bit sbit w).port.testBit 2 = true := by
  have hp := hs.port_ioud
  have c0 : (w.port &&& 251).testBit 0 = false := by
    rw [Nat.testBit_and, hp]; rfl
  have c2 : (w.port &&& 251).testBit 2 = false := by
    rw [Nat.testBit_and, tb_251_2]; exact Bool.and_false _
  have s1 := dds1_write_sent hs (w.port &&& 251) c0
  rw [c2, Bool.and_false, if_neg (by decide), List.append_nil] at s1
  by_cases hb : sbit ≠ 0
  · have d0 : ((w.port &&& 251) ||| 2).testBit 0 = false := by
      rw [Nat.testBit_or, c0, tb_2_0]; rfl
    have d1 : ((w.port &&& 251) ||| 2).testBit 1 = true := by
      rw [Nat.testBit_or, tb_2_1]; exact Bool.or_true _
    have d2 : ((w.port &&& 251) ||| 2).testBit 2 = false := by
      rw [Nat.testBit_or, c2, tb_2_2]; rfl
    have s2 := dds1_write_sent s1 ((w.port &&& 251) ||| 2) d0
    rw [d2, Bool.and_false, if_neg (by decide), List.append_nil] at s2
    have e0 : (((w.port &&& 251) ||| 2) ||| 4).testBit 0 = false := by
      rw [Nat.testBit_or, d0, tb_4_0]; rfl
    have e1 : (((w.port &&& 251) ||| 2) ||| 4).testBit 1 = true := by
      rw [Nat.testBit_or, d1]; rfl
    have e2 : (((w.port &&& 251) ||| 2) ||| 4).testBit 2 = true := by
      rw [Nat.testBit_or, tb_4_2]; exact Bool.or_true _
    have s3 := dds1_write_sent s2 (((w.port &&& 251) ||| 2) ||| 4) e0
    rw [d2, e2, e1, if_pos (by decide)] at s3
    have hdec : decide (sbit ≠ 0) = true := decide_eq_true hb
    rw [hdec]
    have hw : spi1_send_bit sbit w =
        { port := ((w.port &&& 251) ||| 2) ||| 4,
          log := w.log ++ [w.port &&& 251] ++ [(w.port &&& 251) ||| 2]
            ++ [((w.port &&& 251) ||| 2) ||| 4] } := by
      simp only [spi1_send_bit, if_pos hb]
      rfl
    rw [hw]
    exact ⟨s3, e2⟩
  · have d0 : ((w.port &&& 251) &&& 253).testBit 0 = false := by
      rw [Nat.testBit_and, c0]; rfl
    have d1 : ((w.port &&& 251) &&& 253).testBit 1 = false := by
      rw [Nat.testBit_and, tb_253_1]; exact Bool.and_false _
    have d2 : ((w.port &&& 251) &&& 253).testBit 2 = false := by
      rw [Nat.testBit_and, c2]; rfl
    have s2 := dds1_write_sent s1 ((w.port &&& 251) &&& 253) d0
    rw [d2, Bool.and_false, if_neg (by decide), List.append_nil] at s2
    have e0 : (((w.port &&& 251) &&& 253) ||| 4).testBit 0 = false := by
      rw [Nat.testBit_or, d0, tb_4_0]; rfl
    have e1 : (((w.port &&& 251) &&& 253) ||| 4).testBit 1 = false := by
      rw [Nat.testBit_or, d1, tb_4_1]; rfl
    have e2 : (((w.port &&& 251) &&& 253) ||| 4).testBit 2 = true := by
      rw [Nat.testBit_or, tb_4_2]; exact Bool.or_true _
    have s3 := dds1_write_sent s2 (((w.port &&& 251) &&& 253) ||| 4) e0
    rw [d2, e2, e1, if_pos (by decide)] at s3
    have hdec : decide (sbit ≠ 0) = false := decide_eq_false hb
    rw [hdec]
    have hw : spi1_send_bit sbit w =
        { port := ((w.port &&& 251) &&& 253) ||| 4,
          log := w.log ++ [w.port &&& 251] ++ [(w.port &&& 251) &&& 253]
            ++ [((w.port &&& 251) &&& 253) ||| 4] } := by
      simp only [spi1_send_bit, if_neg hb]
      rfl
    rw [hw]
    exact ⟨s3, e2⟩

theorem spi1_send_loop_sent (v : Nat) (n : Nat) :
    ∀ (x : Nat) (p0 h : Nat) (w : Wire) (bits : List Bool), Dds1Sent p0 h w bits →
      Dds1Sent p0 h (spi1_send_loop v n x w) (bits ++ loopBits v n x)
        ∧ (0 < n → (spi1_send_loop v n x w).port.testBit 2 = true) := by
  induction n with
  | zero =>
    intro x p0 h w bits hs
    refine ⟨?_, fun hn => absurd hn (Nat.lt_irrefl 0)⟩
    show Dds1Sent p0 h w (bits ++ [])
    rw [List.append_nil]; exact hs
  | succ k ih =>
    intro x p0 h w bits hs
    obtain ⟨h1, h2⟩ := spi1_send_bit_sent hs (v &&& x)
    obtain ⟨h3, h4⟩ := ih (x >>> 1) p0 h _ _ h1
    refine ⟨?_, fun _ => ?_⟩
    · show Dds1Sent p0 h (spi1_send_loop v k (x >>> 1) (spi1_send_bit (v &&& x) w))
        (bits ++ (decide (v &&& x ≠ 0) :: loopBits v k (x >>> 1)))
      rw [List.append_assoc] at h3
      exact h3
    · show (spi1_send_loop v k (x >>> 1) (spi1_send_bit (v &&& x) w)).port.testBit 2 = true
      rcases Nat.eq_zero_or_pos k with hk | hk
      · subst hk; exact h2
      · exact h4 hk

theorem mask_bit (v i : Nat) : decide (v &&& 2 ^ i ≠ 0) = v.testBit i := by
  by_cases h : v.testBit i = true
  · rw [h]
    apply decide_eq_true
    intro h0
    have h1 : (v &&& 2 ^ i).testBit i = true := by
      rw [Nat.testBit_and, h, Nat.testBit_two_pow_self]; rfl
    rw [h0, Nat.zero_testBit] at h1
    exact Bool.noConfusion h1
  · have hf : v.testBit i = false := by
      cases hv : v.testBit i with
      | true => exact absurd hv h
      | false => rfl
    rw [hf]
    apply decide_eq_false
    intro h0
    apply h0
    apply Nat.eq_of_testBit_eq
    intro j
    rw [Nat.testBit_and, Nat.testBit_two_pow, Nat.zero_testBit]
    by_cases hij : i = j
    · subst hij; rw [hf]; rfl
    · rw [decide_eq_false hij]; exact Bool.and_false _

theorem loopBits_byte (v : Nat) : loopBits v 8 128 = msbFirst 8 v := by
  have h7 : decide (v &&& 128 ≠ 0) = v.testBit 7 := mask_bit v 7
  have h6 : decide (v &&& 64 ≠ 0) = v.testBit 6 := mask_bit v 6
  have h5 : decide (v &&& 32 ≠ 0) = v.testBit 5 := mask_bit v 5
  have h4 : decide (v &&& 16 ≠ 0) = v.testBit 4 := mask_bit v 4
  have h3 : decide (v &&& 8 ≠ 0) = v.testBit 3 := mask_bit v 3
  have h2 : decide (v &&& 4 ≠ 0) = v.testBit 2 := mask_bit v 2
  have h1 : decide (v &&& 2 ≠ 0) = v.testBit 1 := mask_bit v 1
  have h0 : decide (v &&& 1 ≠ 0) = v.testBit 0 := mask_bit v 0
  simp only [loopBits, msbFirst, Nat.reduceShiftRight]
  rw [h7, h6, h5, h4, h3, h2, h1, h0]

theorem byte_bit (fword cb sh i : Nat) (hcb : cb.testBit (sh + i) = true) :
    ((fword &&& cb) >>> sh).testBit i = fword.testBit (sh + i) := by
  rw [Nat.testBit_shiftRight, Nat.testBit_and, hcb, Bool.and_true]

theorem msbFirst_byte (fword cb sh : Nat) (hcb : ∀ i, i < 8 → cb.testBit (sh + i) = true) :
    msbFirst 8 ((fword &&& cb) >>> sh) =
      [fword.testBit (sh + 7), fword.testBit (sh + 6), fword.testBit (sh + 5),
       fword.testBit (sh + 4), fword.testBit (sh + 3), fword.testBit (sh + 2),
       fword.testBit (sh + 1), fword.testBit (sh + 0)] := by
  simp only [msbFirst]
  rw [byte_bit fword cb sh 7 (hcb 7 (by norm_num)), byte_bit fword cb sh 6 (hcb 6 (by norm_num)),
    byte_bit fword cb sh 5 (hcb 5 (by norm_num)), byte_bit fword cb sh 4 (hcb 4 (by norm_num)),
    byte_bit fword cb sh 3 (hcb 3 (by norm_num)), byte_bit fword cb sh 2 (hcb 2 (by norm_num)),
    byte_bit fword cb sh 1 (hcb 1 (by norm_num)), byte_bit fword cb sh 0 (hcb 0 (by norm_num))]

theorem comparebyte3 : ∀ i, i < 8 → Nat.testBit 4278190080 (24 + i) = true := by decide
theorem comparebyte2 : ∀ i, i < 8 → Nat.testBit 16711680 (16 + i) = true := by decide
theorem comparebyte1 : ∀ i, i < 8 → Nat.testBit 65280 (8 + i) = true := by decide
theorem comparebyte0 : ∀ i, i < 8 → Nat.testBit 255 (0 + i) = true := by decide

theorem spi1_send_fword_eq (fword : Nat) (w : Wire) :
    spi1_send_fword fword 4 0xFF000000 24 w =
      spi1_send_loop ((fword &&& 255) >>> 0) 8 128
        (spi1_send_loop ((fword &&& 65280) >>> 8) 8 128
          (spi1_send_loop ((fword &&& 16711680) >>> 16) 8 128
            (spi1_send_loop ((fword &&& 4278190080) >>> 24) 8 128 w))) := by
  simp only [spi1_send_fword, Nat.reduceShiftRight, Nat.reduceSub]

theorem msbFirst_word (fword : Nat) :
    msbFirst 8 ((fword &&& 4278190080) >>> 24) ++ (msbFirst 8 ((fword &&& 16711680) >>> 16)
      ++ (msbFirst 8 ((fword &&& 65280) >>> 8) ++ msbFirst 8 ((fword &&& 255) >>> 0)))
      = msbFirst 32 fword := by
  rw [msbFirst_byte fword _ _ comparebyte3, msbFirst_byte fword _ _ comparebyte2,
    msbFirst_byte fword _ _ comparebyte1, msbFirst_byte fword _ _ comparebyte0]
  simp only [msbFirst, Nat.reduceAdd, List.cons_append, List.nil_append]

theorem spi1_send_fword_sent (fword : Nat) (p0 h : Nat) (w : Wire) (bits : List Bool)
    (hs : Dds1Sent p0 h w bits) :
    Dds1Sent p0 h (spi1_send_fword fword 4 0xFF000000 24 w) (bits ++ msbFirst 32 fword)
      ∧ (spi1_send_fword fword 4 0xFF000000 24 w).port.testBit 2 = true := by
  rw [spi1_send_fword_eq]
  obtain ⟨a1, -⟩ := spi1_send_loop_sent ((fword &&& 4278190080) >>> 24) 8 128 p0 h w bits hs
  obtain ⟨a2, -⟩ := spi1_send_loop_sent ((fword &&& 16711680) >>> 16) 8 128 p0 h _ _ a1
  obtain ⟨a3, -⟩ := spi1_send_loop_sent ((fword &&& 65280) >>> 8) 8 128 p0 h _ _ a2
  obtain ⟨a4, a5⟩ := spi1_send_loop_sent ((fword &&& 255) >>> 0) 8 128 p0 h _ _ a3
  rw [loopBits_byte, loopBits_byte, loopBits_byte, loopBits_byte, List.append_assoc,
    List.append_assoc, List.append_assoc, msbFirst_word] at a4
  exact ⟨a4, a5 (by norm_num)⟩

theorem dds1_start_sent (p0 : Nat) :
    Dds1Sent p0 (p0 &&& 254) (Wire.clearBits { port := p0, log := [] } DDS1_IO_UD) [] := by
  have h0 : (p0 &&& 254).testBit 0 = false := by
    rw [Nat.testBit_and, tb_254_0]; exact Bool.and_false _
  have h2 : (p0 &&& 254).testBit 2 = p0.testBit 2 := by
    rw [Nat.testBit_and, tb_254_2]; exact Bool.and_true _
  refine ⟨rfl, rfl, ?_, ?_, h0⟩
  · show sclkRisingBits p0 [p0 &&& 254] = []
    rw [sclkRisingBits_cons, h2]
    cases p0.testBit 2 <;> rfl
  · intro v hv
    have hv2 : v ∈ [p0 &&& 254] := hv
    rw [List.mem_singleton] at hv2
    rw [hv2]; exact h0

/-- C4: for every frequency, sideband and initial port value, `set_frequency1` first drives
`IO_UD` low, then clocks out exactly 40 bits, each present on `SDIO` at a rising edge of
`SCLK`: the instruction byte 0x04 followed by the 32-bit tuning word, most significant bit
first; `IO_UD` stays low during all of this, and the last write drives `IO_UD` high and
leaves `SCLK` high. -/
theorem C4_set_frequency1_protocol (sideband frequency : Int) (p0 : Nat) :
    (set_frequency1 sideband frequency { port := p0, log := [] }).log.head? = some (p0 &&& 254)
    ∧ (p0 &&& 254).testBit 0 = false
    ∧ sclkRisingBits p0 (set_frequency1 sideband frequency { port := p0, log := [] }).log
        = msbFirst 8 0x04 ++ msbFirst 32 (tuning_word1 sideband frequency)
    ∧ (sclkRisingBits p0
        (set_frequency1 sideband frequency { port := p0, log := [] }).log).length = 40
    ∧ (∀ v ∈ (set_frequency1 sideband frequency { port := p0, log := [] }).log.dropLast,
        v.testBit 0 = false)
    ∧ (set_frequency1 sideband frequency { port := p0, log := [] }).log.getLast?
        = some (set_frequency1 sideband frequency { port := p0, log := [] }).port
    ∧ (set_frequency1 sideband frequency { port := p0, log := [] }).port.testBit 0 = true
    ∧ (set_frequency1 sideband frequency { port := p0, log := [] }).port.testBit 2 = true := by
  have s0 := dds1_start_sent p0
  obtain ⟨s1, -⟩ := spi1_send_loop_sent 0x04 8 128 p0 _ _ _ s0
  rw [loopBits_byte, List.nil_append] at s1
  obtain ⟨s2, c2⟩ := spi1_send_fword_sent (tuning_word1 sideband frequency) p0 _ _ _ s1
  have hdef : set_frequency1 sideband frequency { port := p0, log := [] } =
      Wire.setBits (spi1_send_fword (tuning_word1 sideband frequency) 4 0xFF000000 24
        (spi1_send_loop 0x04 8 128 (Wire.clearBits { port := p0, log := [] } DDS1_IO_UD)))
        DDS1_IO_UD := rfl
  rw [hdef]
  generalize spi1_send_fword (tuning_word1 sideband frequency) 4 0xFF000000 24
    (spi1_send_loop 0x04 8 128 (Wire.clearBits { port := p0, log := [] } DDS1_IO_UD)) = w3
    at s2 c2
  have hlog : (Wire.setBits w3 DDS1_IO_UD).log = w3.log ++ [w3.port ||| 1] := rfl
  have hport : (Wire.setBits w3 DDS1_IO_UD).port = w3.port ||| 1 := rfl
  have hbits : sclkRisingBits p0 (w3.log ++ [w3.port ||| 1])
      = msbFirst 8 0x04 ++ msbFirst 32 (tuning_word1 sideband frequency) := by
    rw [sclkRisingBits_snoc, s2.last, c2, s2.bits_eq]
    exact List.append_nil _
  have h0 : (p0 &&& 254).testBit 0 = false := by
    rw [Nat.testBit_and, tb_254_0]; exact Bool.and_false _
  rw [hlog, hport]
  refine ⟨head_snoc _ _ _ s2.head, h0, hbits, ?_, ?_, ?_, ?_, ?_⟩
  · rw [hbits]; rfl
  · rw [List.dropLast_concat]; exact s2.ioud
  · exact List.getLast?_concat _
  · rw [Nat.testBit_or, tb_1_0]; exact Bool.or_true _
  · rw [Nat.testBit_or, c2]; rfl
/-! ## DDS 2: proofs -/

theorem rxRun_snoc (p0 : Nat) (l : List Nat) (v : Nat) :
    rxRun p0 (l ++ [v]) = rxStep (rxRun p0 l) v := by
  unfold rxRun
  rw [List.foldl_append]
  rfl

theorem rxStep_low (r : Dds2Rx) (v : Nat) (h1 : r.prev.testBit 0 = false)
    (h2 : v.testBit 0 = false) :
    rxStep r v =
      if r.prev.testBit 2 && !v.testBit 2 then
        { prev := v, cur := r.cur ++ [v.testBit 1], done := r.done }
      else { prev := v, cur := r.cur, done := r.done } := by
  unfold rxStep
  rw [h1, h2, if_neg (by decide), if_neg (by decide)]

theorem rxStep_rise (r : Dds2Rx) (v : Nat) (h1 : r.prev.testBit 0 = false)
    (h2 : v.testBit 0 = true) :
    rxStep r v = { prev := v, cur := [], done := r.done ++ [r.cur] } := by
  unfold rxStep
  rw [h1, h2, if_pos rfl, if_pos (by decide)]

theorem rxStep_high (r : Dds2Rx) (v : Nat) (h1 : r.prev.testBit 0 = true)
    (h2 : v.testBit 0 = true) :
    rxStep r v = { prev := v, cur := r.cur, done := r.done } := by
  unfold rxStep
  rw [h1, h2, if_pos rfl, if_neg (by decide)]

theorem rxStep_fall (r : Dds2Rx) (v : Nat) (h1 : r.prev.testBit 0 = true)
    (h2 : v.testBit 0 = false) :
    rxStep r v = { prev := v, cur := [], done := r.done } := by
  unfold rxStep
  rw [h1, h2, if_neg (by decide), if_pos rfl]

theorem dds2_run_eq {p0 : Nat} {w : Wire} {cur : List Bool} {done : List (List Bool)}
    (hs : Dds2Rcvd p0 w cur done) :
    rxRun p0 w.log = { prev := w.port, cur := cur, done := done } := by
  have h1 := hs.prev_eq
  have h2 := hs.cur_eq
  have h3 := hs.done_eq
  generalize rxRun p0 w.log = r at h1 h2 h3
  cases r with
  | mk a b c =>
    simp only at h1 h2 h3
    rw [h1, h2, h3]

theorem dds2_write_rcvd {p0 : Nat} {w : Wire} {cur : List Bool} {done : List (List Bool)}
    (hs : Dds2Rcvd p0 w cur done) (v : Nat) (r : Dds2Rx)
    (hr : rxStep { prev := w.port, cur := cur, done := done } v = r) :
    Dds2Rcvd p0 { port := v, log := w.log ++ [v] } r.cur r.done ∧ r.prev = v := by
  have h : rxRun p0 (w.log ++ [v]) = r := by
    rw [rxRun_snoc, dds2_run_eq hs, hr]
  have hp : r.prev = v := by
    rw [← hr]
    unfold rxStep
    split
    · split <;> rfl
    · split
      · rfl
      · split <;> rfl
  refine ⟨⟨?_, ?_, ?_⟩, hp⟩
  · show (rxRun p0 (w.log ++ [v])).prev = v
    rw [h]; exact hp
  · show (rxRun p0 (w.log ++ [v])).cur = r.cur
    rw [h]
  · show (rxRun p0 (w.log ++ [v])).done = r.done
    rw [h]

theorem dds2_init (p0 : Nat) : Dds2Rcvd p0 { port := p0, log := [] } [] [] :=
  ⟨rfl, rfl, rfl⟩

theorem spi2_start_rcvd {p0 : Nat} {w : Wire} {cur : List Bool} {done : List (List Bool)}
    (hs : Dds2Rcvd p0 w cur done) (hc : w.port.testBit 0 = true ∨ cur = []) :
    Dds2Rcvd p0 (spi2_start w) [] done ∧ (spi2_start w).port.testBit 0 = false := by
  have hw : spi2_start w =
      { port := (w.port ||| 4) &&& 254,
        log := w.log ++ [w.port ||| 4] ++ [(w.port ||| 4) &&& 254] } := rfl
  rw [hw]
  have a0 : (w.port ||| 4).testBit 0 = w.port.testBit 0 := by
    rw [Nat.testBit_or, tb_4_0]; exact Bool.or_false _
  have a2 : (w.port ||| 4).testBit 2 = true := by
    rw [Nat.testBit_or, tb_4_2]; exact Bool.or_true _
  have b0 : ((w.port ||| 4) &&& 254).testBit 0 = false := by
    rw [Nat.testBit_and, tb_254_0]; exact Bool.and_false _
  have b2 : ((w.port ||| 4) &&& 254).testBit 2 = true := by
    rw [Nat.testBit_and, a2, tb_254_2]; rfl
  cases hp : w.port.testBit 0 with
  | true =>
    rw [hp] at a0
    obtain ⟨s1, -⟩ := dds2_write_rcvd hs (w.port ||| 4) _ (rxStep_high _ _ hp a0)
    obtain ⟨s2, -⟩ := dds2_write_rcvd s1 ((w.port ||| 4) &&& 254) _ (rxStep_fall _ _ a0 b0)
    exact ⟨s2, b0⟩
  | false =>
    rw [hp] at a0
    have hcur : cur = [] := by
      rcases hc with h | h
      · rw [hp] at h; exact Bool.noConfusion h
      · exact h
    subst hcur
    have r1 := rxStep_low { prev := w.port, cur := [], done := done } (w.port ||| 4) hp a0
    rw [a2] at r1
    rw [show (w.port.testBit 2 && !true) = false from Bool.and_false _, if_neg (by decide)] at r1
    obtain ⟨s1, -⟩ := dds2_write_rcvd hs (w.port ||| 4) _ r1
    have r2 := rxStep_low { prev := w.port ||| 4, cur := [], done := done }
      ((w.port ||| 4) &&& 254) a0 b0
    rw [b2] at r2
    rw [show ((w.port ||| 4).testBit 2 && !true) = false from Bool.and_false _,
      if_neg (by decide)] at r2
    obtain ⟨s2, -⟩ := dds2_write_rcvd s1 ((w.port ||| 4) &&& 254) _ r2
    exact ⟨s2, b0⟩

theorem spi2_stop_rcvd {p0 : Nat} {w : Wire} {cur : List Bool} {done : List (List Bool)}
    (hs : Dds2Rcvd p0 w cur done) (hp : w.port.testBit 0 = false) :
    Dds2Rcvd p0 (spi2_stop w) [] (done ++ [cur]) ∧ (spi2_stop w).port.testBit 0 = true := by
  have hw : spi2_stop w = { port := w.port ||| 1, log := w.log ++ [w.port ||| 1] } := rfl
  rw [hw]
  have a0 : (w.port ||| 1).testBit 0 = true := by
    rw [Nat.testBit_or, tb_1_0]; exact Bool.or_true _
  obtain ⟨s1, -⟩ := dds2_write_rcvd hs (w.port ||| 1) _ (rxStep_rise _ _ hp a0)
  exact ⟨s1, a0⟩

theorem spi2_send_bit_rcvd {p0 : Nat} {w : Wire} {cur : List Bool} {done : List (List Bool)}
    (hs : Dds2Rcvd p0 w cur done) (hp : w.port.testBit 0 = false) (sbit : Nat) :
    Dds2Rcvd p0 (spi2_send_bit sbit w) (cur ++ [decide (sbit ≠ 0)]) done
      ∧ (spi2_send_bit sbit w).port.testBit 0 = false := by
  by_cases hb : sbit ≠ 0
  · have hw : spi2_send_bit sbit w =
        { port := ((w.port ||| 2) ||| 4) &&& 251,
          log := w.log ++ [w.port ||| 2] ++ [(w.port ||| 2) ||| 4]
            ++ [((w.port ||| 2) ||| 4) &&& 251] } := by
      simp only [spi2_send_bit, if_pos hb]
      rfl
    rw [hw, decide_eq_true hb]
    have a0 : (w.port ||| 2).testBit 0 = false := by
      rw [Nat.testBit_or, hp, tb_2_0]; rfl
    have a1 : (w.port ||| 2).testBit 1 = true := by
      rw [Nat.testBit_or, tb_2_1]; exact Bool.or_true _
    have a2 : (w.port ||| 2).testBit 2 = w.port.testBit 2 := by
      rw [Nat.testBit_or, tb_2_2]; exact Bool.or_false _
    have b0 : ((w.port ||| 2) ||| 4).testBit 0 = false := by
      rw [Nat.testBit_or, a0, tb_4_0]; rfl
    have b1 : ((w.port ||| 2) ||| 4).testBit 1 = true := by
      rw [Nat.testBit_or, a1]; rfl
    have b2 : ((w.port ||| 2) ||| 4).testBit 2 = true := by
      rw [Nat.testBit_or, tb_4_2]; exact Bool.or_true _
    have c0 : (((w.port ||| 2) ||| 4) &&& 251).testBit 0 = false := by
      rw [Nat.testBit_and, b0]; rfl
    have c1 : (((w.port ||| 2) ||| 4) &&& 251).testBit 1 = true := by
      rw [Nat.testBit_and, b1, tb_251_1]; rfl
    have c2 : (((w.port ||| 2) ||| 4) &&& 251).testBit 2 = false := by
      rw [Nat.testBit_and, tb_251_2]; exact Bool.and_false _
    have r1 := rxStep_low { prev := w.port, cur := cur, done := done } (w.port ||| 2) hp a0
    rw [a2, show (w.port.testBit 2 && !w.port.testBit 2) = false from Bool.and_not_self _,
      if_neg (by decide)] at r1
    obtain ⟨s1, -⟩ := dds2_write_rcvd hs _ _ r1
    have r2 := rxStep_low { prev := w.port ||| 2, cur := cur, done := done }
      ((w.port ||| 2) ||| 4) a0 b0
    rw [b2, show ((w.port ||| 2).testBit 2 && !true) = false from Bool.and_false _,
      if_neg (by decide)] at r2
    obtain ⟨s2, -⟩ := dds2_write_rcvd s1 _ _ r2
    have r3 := rxStep_low { prev := (w.port ||| 2) ||| 4, cur := cur, done := done }
      (((w.port ||| 2) ||| 4) &&& 251) b0 c0
    rw [b2, c2, c1, if_pos (by decide)] at r3
    obtain ⟨s3, -⟩ := dds2_write_rcvd s2 _ _ r3
    exact ⟨s3, c0⟩
  · have hw : spi2_send_bit sbit w =
        { port := ((w.port &&& 253) ||| 4) &&& 251,
          log := w.log ++ [w.port &&& 253] ++ [(w.port &&& 253) ||| 4]
            ++ [((w.port &&& 253) ||| 4) &&& 251] } := by
      simp only [spi2_send_bit, if_neg hb]
      rfl
    rw [hw, decide_eq_false hb]
    have a0 : (w.port &&& 253).testBit 0 = false := by
      rw [Nat.testBit_and, hp]; rfl
    have a1 : (w.port &&& 253).testBit 1 = false := by
      rw [Nat.testBit_and, tb_253_1]; exact Bool.and_false _
    have a2 : (w.port &&& 253).testBit 2 = w.port.testBit 2 := by
      rw [Nat.testBit_and, tb_253_2]; exact Bool.and_true _
    have b0 : ((w.port &&& 253) ||| 4).testBit 0 = false := by
      rw [Nat.testBit_or, a0, tb_4_0]; rfl
    have b1 : ((w.port &&& 253) ||| 4).testBit 1 = false := by
      rw [Nat.testBit_or, a1, tb_4_1]; rfl
    have b2 : ((w.port &&& 253) ||| 4).testBit 2 = true := by
      rw [Nat.testBit_or, tb_4_2]; exact Bool.or_true _
    have c0 : (((w.port &&& 253) ||| 4) &&& 251).testBit 0 = false := by
      rw [Nat.testBit_and, b0]; rfl
    have c1 : (((w.port &&& 253) ||| 4) &&& 251).testBit 1 = false := by
      rw [Nat.testBit_and, b1]; rfl
    have c2 : (((w.port &&& 253) ||| 4) &&& 251).testBit 2 = false := by
      rw [Nat.testBit_and, tb_251_2]; exact Bool.and_false _
    have r1 := rxStep_low { prev := w.port, cur := cur, done := done } (w.port &&& 253) hp a0
    rw [a2, show (w.port.testBit 2 && !w.port.testBit 2) = false from Bool.and_not_self _,
      if_neg (by decide)] at r1
    obtain ⟨s1, -⟩ := dds2_write_rcvd hs _ _ r1
    have r2 := rxStep_low { prev := w.port &&& 253, cur := cur, done := done }
      ((w.port &&& 253) ||| 4) a0 b0
    rw [b2, show ((w.port &&& 253).testBit 2 && !true) = false from Bool.and_false _,
      if_neg (by decide)] at r2
    obtain ⟨s2, -⟩ := dds2_write_rcvd s1 _ _ r2
    have r3 := rxStep_low { prev := (w.port &&& 253) ||| 4, cur := cur, done := done }
      (((w.port &&& 253) ||| 4) &&& 251) b0 c0
    rw [b2, c2, c1, if_pos (by decide)] at r3
    obtain ⟨s3, -⟩ := dds2_write_rcvd s2 _ _ r3
    exact ⟨s3, c0⟩

theorem spi2_send_ctrl_rcvd (n : Nat) :
    ∀ (p0 : Nat) (w : Wire) (cur : List Bool) (done : List (List Bool)),
      Dds2Rcvd p0 w cur done → w.port.testBit 0 = false →
      Dds2Rcvd p0 (spi2_send_ctrl n w) (cur ++ ctrlBits n) done
        ∧ (spi2_send_ctrl n w).port.testBit 0 = false := by
  induction n with
  | zero =>
    intro p0 w cur done hs hp
    refine ⟨?_, hp⟩
    show Dds2Rcvd p0 w (cur ++ []) done
    rw [List.append_nil]; exact hs
  | succ k ih =>
    intro p0 w cur done hs hp
    obtain ⟨h1, h2⟩ := spi2_send_bit_rcvd hs hp (0x2000 &&& (1 <<< k))
    obtain ⟨h3, h4⟩ := ih p0 _ _ done h1 h2
    rw [List.append_assoc] at h3
    exact ⟨h3, h4⟩

theorem spi2_send_array_rcvd (a : List Nat) (n : Nat) :
    ∀ (t1 : Nat) (p0 : Nat) (w : Wire) (cur : List Bool) (done : List (List Bool)),
      Dds2Rcvd p0 w cur done → w.port.testBit 0 = false →
      Dds2Rcvd p0 (spi2_send_array a n t1 w) (cur ++ arrBits a n t1) done
        ∧ (spi2_send_array a n t1 w).port.testBit 0 = false := by
  induction n with
  | zero =>
    intro t1 p0 w cur done hs hp
    refine ⟨?_, hp⟩
    show Dds2Rcvd p0 w (cur ++ []) done
    rw [List.append_nil]; exact hs
  | succ k ih =>
    intro t1 p0 w cur done hs hp
    obtain ⟨h1, h2⟩ := spi2_send_bit_rcvd hs hp (a.getD t1 0)
    obtain ⟨h3, h4⟩ := ih (t1 + 1) p0 _ _ done h1 h2
    rw [List.append_assoc] at h3
    exact ⟨h3, h4⟩

theorem ctrlBits_16 : ctrlBits 16 = msbFirst 16 0x2000 := by decide

theorem set_at_length (pre : List Nat) (y v : Nat) (tl : List Nat) :
    (pre ++ y :: tl).set pre.length v = pre ++ v :: tl := by
  induction pre with
  | nil => rfl
  | cons a t ih =>
    show a :: (t ++ y :: tl).set t.length v = a :: (t ++ v :: tl)
    rw [ih]

theorem fill_bits_append (fw : Nat) (n : Nat) :
    ∀ (x : Nat) (pre rest : List Nat),
      fill_bits fw n pre.length x (pre ++ (List.replicate n 0 ++ rest))
        = pre ++ (loopVals fw n x ++ rest) := by
  induction n with
  | zero =>
    intro x pre rest
    rfl
  | succ k ih =>
    intro x pre rest
    have h1 : (if fw &&& x ≠ 0 then (pre ++ (List.replicate (k + 1) 0 ++ rest)).set pre.length 1
        else pre ++ (List.replicate (k + 1) 0 ++ rest))
        = (pre ++ [if fw &&& x ≠ 0 then 1 else 0]) ++ (List.replicate k 0 ++ rest) := by
      have hr : List.replicate (k + 1) 0 ++ rest = 0 :: (List.replicate k 0 ++ rest) := rfl
      rw [hr, set_at_length]
      by_cases hc : fw &&& x ≠ 0
      · rw [if_pos hc, if_pos hc, List.append_assoc]; rfl
      · rw [if_neg hc, if_neg hc, List.append_assoc]; rfl
    have h2 := ih (x >>> 1) (pre ++ [if fw &&& x ≠ 0 then 1 else 0]) rest
    rw [List.length_append, List.length_singleton] at h2
    show fill_bits fw k (pre.length + 1) (x >>> 1) _ = _
    rw [h1, h2, List.append_assoc]
    rfl

theorem arrBits_drop (a : List Nat) (n : Nat) :
    ∀ t1 : Nat, t1 + n = a.length →
      arrBits a n t1 = (a.drop t1).map (fun b => decide (b ≠ 0)) := by
  induction n with
  | zero =>
    intro t1 ht
    rw [List.drop_of_length_le (by omega)]
    rfl
  | succ k ih =>
    intro t1 ht
    have hlt : t1 < a.length := by omega
    rw [List.drop_eq_getElem_cons hlt]
    show decide (a.getD t1 0 ≠ 0) :: arrBits a k (t1 + 1) = _
    rw [ih (t1 + 1) (by omega), List.getD_eq_getElem a 0 hlt]
    rfl

theorem map_loopVals (v : Nat) (n : Nat) :
    ∀ x : Nat, (loopVals v n x).map (fun b => decide (b ≠ 0)) = loopBits v n x := by
  induction n with
  | zero => intro x; rfl
  | succ k ih =>
    intro x
    show decide ((if v &&& x ≠ 0 then 1 else 0) ≠ 0) :: (loopVals v k (x >>> 1)).map _ = _
    rw [ih (x >>> 1)]
    show _ = decide (v &&& x ≠ 0) :: loopBits v k (x >>> 1)
    by_cases hc : v &&& x ≠ 0
    · rw [if_pos hc, decide_eq_true hc]; rfl
    · rw [if_neg hc, decide_eq_false hc]; rfl

theorem loopVals_length (v : Nat) (n : Nat) : ∀ x : Nat, (loopVals v n x).length = n := by
  induction n with
  | zero => intro x; rfl
  | succ k ih =>
    intro x
    show (loopVals v k (x >>> 1)).length + 1 = k + 1
    rw [ih]

theorem lword_eq (fw : Nat) : lword fw = [0, 1] ++ (loopVals fw 14 8192 ++ []) :=
  fill_bits_append fw 14 8192 [0, 1] []

theorem mword_eq (fw : Nat) : mword fw = [0, 1] ++ (loopVals fw 14 134217728 ++ []) :=
  fill_bits_append fw 14 134217728 [0, 1] []

theorem tagged_bit (y i : Nat) (hi : i < 14) :
    (16384 + y % 16384).testBit i = y.testBit i := by
  have h := Nat.testBit_two_pow_add_gt hi (y % 2 ^ 14)
  have h2 := Nat.testBit_mod_two_pow y 14 i
  rw [decide_eq_true hi, Bool.true_and] at h2
  rw [h2] at h
  exact h

theorem tagged_bit14 (y : Nat) : (16384 + y % 16384).testBit 14 = true := by
  have h := Nat.testBit_two_pow_add_eq (y % 2 ^ 14) 14
  have h2 := Nat.testBit_mod_two_pow y 14 14
  rw [decide_eq_false (Nat.lt_irrefl 14), Bool.false_and] at h2
  rw [h2] at h
  exact h

theorem tagged_bit15 (y : Nat) : (16384 + y % 16384).testBit 15 = false := by
  apply Nat.testBit_lt_two_pow
  have h : y % 16384 < 16384 := Nat.mod_lt _ (by norm_num)
  norm_num
  omega

theorem msbFirst_tagged (y : Nat) :
    msbFirst 16 (16384 + y % 16384) = false :: true :: msbFirst 14 y := by
  simp only [msbFirst]
  rw [tagged_bit15, tagged_bit14, tagged_bit y 13 (by norm_num), tagged_bit y 12 (by norm_num),
    tagged_bit y 11 (by norm_num), tagged_bit y 10 (by norm_num), tagged_bit y 9 (by norm_num),
    tagged_bit y 8 (by norm_num), tagged_bit y 7 (by norm_num), tagged_bit y 6 (by norm_num),
    tagged_bit y 5 (by norm_num), tagged_bit y 4 (by norm_num), tagged_bit y 3 (by norm_num),
    tagged_bit y 2 (by norm_num), tagged_bit y 1 (by norm_num), tagged_bit y 0 (by norm_num)]

theorem loopBits_low14 (v : Nat) : loopBits v 14 8192 = msbFirst 14 v := by
  have h13 : decide (v &&& 8192 ≠ 0) = v.testBit 13 := mask_bit v 13
  have h12 : decide (v &&& 4096 ≠ 0) = v.testBit 12 := mask_bit v 12
  have h11 : decide (v &&& 2048 ≠ 0) = v.testBit 11 := mask_bit v 11
  have h10 : decide (v &&& 1024 ≠ 0) = v.testBit 10 := mask_bit v 10
  have h9 : decide (v &&& 512 ≠ 0) = v.testBit 9 := mask_bit v 9
  have h8 : decide (v &&& 256 ≠ 0) = v.testBit 8 := mask_bit v 8
  have h7 : decide (v &&& 128 ≠ 0) = v.testBit 7 := mask_bit v 7
  have h6 : decide (v &&& 64 ≠ 0) = v.testBit 6 := mask_bit v 6
  have h5 : decide (v &&& 32 ≠ 0) = v.testBit 5 := mask_bit v 5
  have h4 : decide (v &&& 16 ≠ 0) = v.testBit 4 := mask_bit v 4
  have h3 : decide (v &&& 8 ≠ 0) = v.testBit 3 := mask_bit v 3
  have h2 : decide (v &&& 4 ≠ 0) = v.testBit 2 := mask_bit v 2
  have h1 : decide (v &&& 2 ≠ 0) = v.testBit 1 := mask_bit v 1
  have h0 : decide (v &&& 1 ≠ 0) = v.testBit 0 := mask_bit v 0
  simp only [loopBits, msbFirst, Nat.reduceShiftRight]
  rw [h13, h12, h11, h10, h9, h8, h7, h6, h5, h4, h3, h2, h1, h0]

theorem loopBits_high14 (v : Nat) : loopBits v 14 134217728 = msbFirst 14 (v / 16384) := by
  have hd : ∀ i, (v / 16384).testBit i = v.testBit (14 + i) := by
    intro i
    have h := Nat.testBit_shiftRight (i := 14) (j := i) v
    rw [Nat.shiftRight_eq_div_pow] at h
    exact h
  have h13 : decide (v &&& 134217728 ≠ 0) = v.testBit (14 + 13) := mask_bit v 27
  have h12 : decide (v &&& 67108864 ≠ 0) = v.testBit (14 + 12) := mask_bit v 26
  have h11 : decide (v &&& 33554432 ≠ 0) = v.testBit (14 + 11) := mask_bit v 25
  have h10 : decide (v &&& 16777216 ≠ 0) = v.testBit (14 + 10) := mask_bit v 24
  have h9 : decide (v &&& 8388608 ≠ 0) = v.testBit (14 + 9) := mask_bit v 23
  have h8 : decide (v &&& 4194304 ≠ 0) = v.testBit (14 + 8) := mask_bit v 22
  have h7 : decide (v &&& 2097152 ≠ 0) = v.testBit (14 + 7) := mask_bit v 21
  have h6 : decide (v &&& 1048576 ≠ 0) = v.testBit (14 + 6) := mask_bit v 20
  have h5 : decide (v &&& 524288 ≠ 0) = v.testBit (14 + 5) := mask_bit v 19
  have h4 : decide (v &&& 262144 ≠ 0) = v.testBit (14 + 4) := mask_bit v 18
  have h3 : decide (v &&& 131072 ≠ 0) = v.testBit (14 + 3) := mask_bit v 17
  have h2 : decide (v &&& 65536 ≠ 0) = v.testBit (14 + 2) := mask_bit v 16
  have h1 : decide (v &&& 32768 ≠ 0) = v.testBit (14 + 1) := mask_bit v 15
  have h0 : decide (v &&& 16384 ≠ 0) = v.testBit (14 + 0) := mask_bit v 14
  simp only [loopBits, msbFirst, Nat.reduceShiftRight]
  rw [h13, h12, h11, h10, h9, h8, h7, h6, h5, h4, h3, h2, h1, h0]
  simp only [hd]

theorem arrBits_lword (fw : Nat) :
    arrBits (lword fw) 16 0 = msbFirst 16 (16384 + fw % 16384) := by
  have hlen : 0 + 16 = (lword fw).length := by
    rw [lword_eq, List.length_append, List.length_append, loopVals_length]; rfl
  rw [arrBits_drop _ 16 0 hlen, List.drop_zero, lword_eq, List.map_append, List.map_append,
    map_loopVals, loopBits_low14, msbFirst_tagged]
  rfl

theorem arrBits_mword (fw : Nat) :
    arrBits (mword fw) 16 0 = msbFirst 16 (16384 + fw / 16384 % 16384) := by
  have hlen : 0 + 16 = (mword fw).length := by
    rw [mword_eq, List.length_append, List.length_append, loopVals_length]; rfl
  rw [arrBits_drop _ 16 0 hlen, List.drop_zero, mword_eq, List.map_append, List.map_append,
    map_loopVals, loopBits_high14, msbFirst_tagged]
  rfl

/-- The frames received from `set_frequency2`, in terms of the bits its three loops present. -/
theorem set_frequency2_frames_raw (f : Int) (p0 : Nat) :
    dds2Frames p0 (set_frequency2 f { port := p0, log := [] }).log
        = [ctrlBits 16, arrBits (lword (tuning_word2 f)) 16 0,
            arrBits (mword (tuning_word2 f)) 16 0]
      ∧ (rxRun p0 (set_frequency2 f { port := p0, log := [] }).log).cur = []
      ∧ (set_frequency2 f { port := p0, log := [] }).port.testBit 0 = true := by
  have s0 := dds2_init p0
  obtain ⟨s1, q1⟩ := spi2_start_rcvd s0 (Or.inr rfl)
  obtain ⟨s2, q2⟩ := spi2_send_ctrl_rcvd 16 p0 _ _ _ s1 q1
  obtain ⟨s3, q3⟩ := spi2_stop_rcvd s2 q2
  obtain ⟨s4, q4⟩ := spi2_start_rcvd s3 (Or.inl q3)
  obtain ⟨s5, q5⟩ := spi2_send_array_rcvd (lword (tuning_word2 f)) 16 0 p0 _ _ _ s4 q4
  obtain ⟨s6, q6⟩ := spi2_stop_rcvd s5 q5
  obtain ⟨s7, q7⟩ := spi2_start_rcvd s6 (Or.inl q6)
  obtain ⟨s8, q8⟩ := spi2_send_array_rcvd (mword (tuning_word2 f)) 16 0 p0 _ _ _ s7 q7
  obtain ⟨s9, q9⟩ := spi2_stop_rcvd s8 q8
  exact ⟨s9.done_eq, s9.cur_eq, q9⟩

theorem tuning_word2_lo_usb : tuning_word2 9001500 = 32217624 := by
  decide

/-- C5 (as stated, refuted): for `f = 9,001,500` (tuning word 32,217,624, which fits in 28
bits) the L and M frames received are not the sub-words sent in bit 0 to bit 15 order. -/
theorem C5_subword_bit_order_counterexample :
    tuning_word2 9001500 < 2 ^ 28
    ∧ dds2Frames 0 (set_frequency2 9001500 { port := 0, log := [] }).log
        ≠ [msbFirst 16 0x2000,
            lsbFirst 16 (16384 + tuning_word2 9001500 % 16384),
            lsbFirst 16 (16384 + tuning_word2 9001500 / 16384 % 16384)] := by
  rw [(set_frequency2_frames_raw 9001500 0).1, ctrlBits_16, arrBits_lword, arrBits_mword,
    tuning_word2_lo_usb]
  decide

/-- C5 (amended): for every frequency and initial port value, `set_frequency2` emits exactly
three 16-bit frames delimited by FSYNC: the control word 0x2000, then the L sub-word
`0x4000 + w mod 2^14` and the M sub-word `0x4000 + (w div 2^14) mod 2^14`, all three sent
bit 15 first down to bit 0, so each sub-word frame starts with the tag bits 0, 1 followed by
its 14 data bits, most significant first; at the end no frame is open and FSYNC is high. -/
theorem C5_set_frequency2_protocol (f : Int) (p0 : Nat) :
    dds2Frames p0 (set_frequency2 f { port := p0, log := [] }).log
        = [msbFirst 16 0x2000,
            msbFirst 16 (16384 + tuning_word2 f % 16384),
            msbFirst 16 (16384 + tuning_word2 f / 16384 % 16384)]
    ∧ msbFirst 16 (16384 + tuning_word2 f % 16384)
        = false :: true :: msbFirst 14 (tuning_word2 f)
    ∧ msbFirst 16 (16384 + tuning_word2 f / 16384 % 16384)
        = false :: true :: msbFirst 14 (tuning_word2 f / 16384)
    ∧ (rxRun p0 (set_frequency2 f { port := p0, log := [] }).log).cur = []
    ∧ (set_frequency2 f { port := p0, log := [] }).port.testBit 0 = true := by
  obtain ⟨h1, h2, h3⟩ := set_frequency2_frames_raw f p0
  rw [ctrlBits_16, arrBits_lword, arrBits_mword] at h1
  exact ⟨h1, msbFirst_tagged _, msbFirst_tagged _, h2, h3⟩

theorem loopVals_eq_map (v : Nat) (n : Nat) :
    ∀ x : Nat, loopVals v n x = (loopBits v n x).map Bool.toNat := by
  induction n with
  | zero => intro x; rfl
  | succ k ih =>
    intro x
    show (if v &&& x ≠ 0 then 1 else 0) :: loopVals v k (x >>> 1)
      = (decide (v &&& x ≠ 0)).toNat :: (loopBits v k (x >>> 1)).map Bool.toNat
    rw [ih (x >>> 1)]
    by_cases hc : v &&& x ≠ 0
    · rw [if_pos hc, decide_eq_true hc]; rfl
    · rw [if_neg hc, decide_eq_false hc]; rfl

theorem foldl_msbFirst (w : Nat) (n : Nat) :
    ∀ a : Nat, (msbFirst n w).foldl (fun acc b => 2 * acc + b.toNat) a
      = a * 2 ^ n + w % 2 ^ n := by
  induction n with
  | zero =>
    intro a
    show a = a * 2 ^ 0 + w % 2 ^ 0
    rw [Nat.pow_zero, Nat.mod_one, Nat.mul_one, Nat.add_zero]
  | succ k ih =>
    intro a
    show (msbFirst k w).foldl (fun acc b => 2 * acc + b.toNat) (2 * a + (w.testBit k).toNat)
      = a * 2 ^ (k + 1) + w % 2 ^ (k + 1)
    rw [ih, Nat.toNat_testBit, Nat.mod_pow_succ, Nat.pow_succ]
    ring

theorem subword_data_bits (bits : List Bool) (pre : List Nat) (hpre : pre.length = 2) :
    subword_data (pre ++ (bits.map Bool.toNat ++ []))
      = bits.foldl (fun acc b => 2 * acc + b.toNat) 0 := by
  unfold subword_data
  rw [List.append_nil, List.drop_append_of_le_length (by omega), ]
  rw [List.drop_of_length_le (by omega), List.nil_append, List.foldl_map]

theorem subword_data_lword (w : Nat) : subword_data (lword w) = w % 16384 := by
  rw [lword_eq, loopVals_eq_map, loopBits_low14, subword_data_bits _ [0, 1] rfl, foldl_msbFirst]
  norm_num

theorem subword_data_mword (w : Nat) : subword_data (mword w) = w / 16384 % 16384 := by
  rw [mword_eq, loopVals_eq_map, loopBits_high14, subword_data_bits _ [0, 1] rfl, foldl_msbFirst]
  norm_num

theorem reconstructed_word_eq (f : Int) :
    reconstructed_word f = tuning_word2 f % 268435456 := by
  unfold reconstructed_word
  rw [subword_data_lword, subword_data_mword]
  omega

/-! ## Floating point: proofs -/

theorem rneDiv_bounds (n d : Nat) (hd : 0 < d) :
    2 * (d * rneDiv n d) ≤ 2 * n + d ∧ 2 * n ≤ 2 * (d * rneDiv n d) + d := by
  have h1 := Nat.div_add_mod n d
  have h2 := Nat.mod_lt n hd
  unfold rneDiv
  generalize n / d = q at h1 ⊢
  generalize n % d = r at h1 h2 ⊢
  have h3 : d * (q + 1) = d * q + d := by ring
  split_ifs <;> (try rw [h3]) <;> omega

theorem K1_mant_eq : K1_mant = 11258999 := by decide

theorem K2_mant_eq : K2_mant = 15011999 := by decide

theorem bitLength_eq (fuel : Nat) :
    ∀ (k n : Nat), k < fuel → 2 ^ k ≤ n → n < 2 ^ (k + 1) → bitLength fuel n = k + 1 := by
  induction fuel with
  | zero => intro k n h; omega
  | succ fuel ih =>
      intro k n hk h1 h2
      have hpos : 0 < 2 ^ k := Nat.two_pow_pos k
      have hn : n ≠ 0 := by omega
      rw [bitLength, if_neg hn]
      cases k with
      | zero =>
          have h3 : n = 1 := by
            simp only [pow_zero, zero_add, pow_one] at h1 h2
            omega
          subst h3
          cases fuel with
          | zero => rfl
          | succ f => rfl
      | succ k =>
          have e1 : 2 ^ (k + 1) = 2 * 2 ^ k := by ring
          have e2 : 2 ^ (k + 1 + 1) = 2 * (2 * 2 ^ k) := by ring
          rw [e1] at h1
          rw [e2] at h2
          have e3 : 2 ^ (k + 1) = 2 * 2 ^ k := by ring
          rw [ih k (n / 2) (by omega) (by omega) (by rw [e3]; omega)]

theorem bitLength_le (fuel : Nat) : ∀ (k n : Nat), n < 2 ^ k → bitLength fuel n ≤ k := by
  induction fuel with
  | zero => intro k n _; exact Nat.zero_le _
  | succ fuel ih =>
      intro k n h
      rw [bitLength]
      by_cases hn : n = 0
      · rw [if_pos hn]
        exact Nat.zero_le _
      · rw [if_neg hn]
        cases k with
        | zero =>
            simp only [pow_zero] at h
            omega
        | succ k =>
            have e1 : 2 ^ (k + 1) = 2 * 2 ^ k := by ring
            rw [e1] at h
            have := ih k (n / 2) (by omega)
            omega

/-- A whole number below 2^24 is a `double`: the conversion is exact. -/
theorem f32_of_ulong_exact (u : Nat) (h : u < 2 ^ 24) : f32_of_ulong u = u := by
  have hb := bitLength_le 64 24 u h
  have hs : bitLength 64 u - 24 = 0 := by omega
  unfold f32_of_ulong f32_round
  rw [hs]
  unfold rneDiv
  simp [Nat.mod_one]

/-- The rounding with `s` digits dropped, for a number with `24 + s` digits. -/
theorem f32_round_eq (n s : Nat) (hs : 23 + s < 64) (h1 : 2 ^ (23 + s) ≤ n)
    (h2 : n < 2 ^ (24 + s)) : f32_round n = (rneDiv n (2 ^ s), s) := by
  have hb : bitLength 64 n = 23 + s + 1 := bitLength_eq 64 (23 + s) n hs h1 (by
    have : 23 + s + 1 = 24 + s := by omega
    rw [this]
    exact h2)
  have hd : bitLength 64 n - 24 = s := by omega
  unfold f32_round
  rw [hd]

/-! ## Tuning word of DDS 2: the floating-point product -/

/-- The rounding to 24 significant bits of a number below 2^50 moves it by at most 2^25. -/
theorem f32_round_err (n : Nat) (hn : n < 2 ^ 50) :
    2 * ((f32_round n).1 * 2 ^ (f32_round n).2) ≤ 2 * n + 2 ^ 26 ∧
    2 * n ≤ 2 * ((f32_round n).1 * 2 ^ (f32_round n).2) + 2 ^ 26 := by
  have hb := bitLength_le 64 50 n hn
  unfold f32_round
  dsimp only
  generalize hs : bitLength 64 n - 24 = s
  have hs26 : s ≤ 26 := by omega
  have hp : 2 ^ s ≤ 2 ^ 26 := Nat.pow_le_pow_right (by norm_num) hs26
  have hpos : 0 < 2 ^ s := Nat.two_pow_pos s
  obtain ⟨b1, b2⟩ := rneDiv_bounds n (2 ^ s) hpos
  rw [Nat.mul_comm (rneDiv n (2 ^ s)) (2 ^ s)]
  constructor <;> omega

/-- The conversion of a frequency of at most 74,999,995 Hz to `double` moves it by at most 4
and gives at most 74,999,992. -/
theorem f32_of_ulong_near (f : Nat) (hf : f ≤ 74999995) :
    f ≤ f32_of_ulong f + 4 ∧ f32_of_ulong f ≤ f + 4 ∧ f32_of_ulong f ≤ 74999992 := by
  by_cases h24 : f < 2 ^ 24
  · rw [f32_of_ulong_exact f h24]
    norm_num at h24
    omega
  · by_cases h25 : f < 2 ^ 25
    · have hr : f32_round f = (rneDiv f (2 ^ 1), 1) :=
        f32_round_eq f 1 (by norm_num) (by omega) h25
      have hb := rneDiv_bounds f 2 (by norm_num)
      unfold f32_of_ulong
      rw [hr]
      norm_num at h25 ⊢
      omega
    · by_cases h26 : f < 2 ^ 26
      · have hr : f32_round f = (rneDiv f (2 ^ 2), 2) :=
          f32_round_eq f 2 (by norm_num) (by omega) h26
        have hb := rneDiv_bounds f 4 (by norm_num)
        unfold f32_of_ulong
        rw [hr]
        norm_num at h26 ⊢
        omega
      · have hr : f32_round f = (rneDiv f (2 ^ 3), 3) :=
          f32_round_eq f 3 (by norm_num) (by omega) (by norm_num; omega)
        have hb := rneDiv_bounds f 8 (by norm_num)
        have hm : rneDiv f 8 ≤ 9374999 := by
          unfold rneDiv
          split_ifs <;> omega
        unfold f32_of_ulong
        rw [hr]
        norm_num at h26 ⊢
        omega

/-- The tuning word of a frequency of at most 74,999,995 Hz: it fits in 28 bits and is within
27 of the product with the code constant taken exactly. -/
theorem tuning_word2_near (f : Nat) (hf : f ≤ 74999995) :
    tuning_word2 (f : Int) < 2 ^ 28 ∧
    |(tuning_word2 (f : Int) : ℚ) - (f : ℚ) * K2_code| ≤ 27 := by
  have h1 : toULong (f : Int) = f := by unfold toULong; omega
  obtain ⟨x1, x2, x3⟩ := f32_of_ulong_near f hf
  have hN : f32_of_ulong f * 15011999 < 2 ^ 50 := by norm_num; omega
  obtain ⟨r1, r2⟩ := f32_round_err (f32_of_ulong f * 15011999) hN
  unfold tuning_word2 f32_mul_trunc
  rw [h1, K2_mant_eq]
  generalize (f32_round (f32_of_ulong f * 15011999)).1 *
    2 ^ (f32_round (f32_of_ulong f * 15011999)).2 = P at r1 r2 ⊢
  generalize f32_of_ulong f = x at x1 x2 x3 hN r1 r2
  norm_num at r1 r2 ⊢
  have hw : P / 4194304 < 268435456 := by omega
  have hmod : P / 4194304 % 4294967296 = P / 4194304 := by omega
  rw [hmod]
  refine ⟨hw, ?_⟩
  generalize hq : P / 4194304 = w at hw
  have n1 : w * 4194304 ≤ P := by omega
  have n2 : P < (w + 1) * 4194304 := by omega
  have q1 : (w : ℚ) * 4194304 ≤ (P : ℚ) := by exact_mod_cast n1
  have q2 : (P : ℚ) < ((w : ℚ) + 1) * 4194304 := by exact_mod_cast n2
  have q3 : 2 * (P : ℚ) ≤ 2 * ((x : ℚ) * 15011999) + 67108864 := by exact_mod_cast r1
  have q4 : 2 * ((x : ℚ) * 15011999) ≤ 2 * (P : ℚ) + 67108864 := by exact_mod_cast r2
  have q5 : (f : ℚ) ≤ (x : ℚ) + 4 := by exact_mod_cast x1
  have q6 : (x : ℚ) ≤ (f : ℚ) + 4 := by exact_mod_cast x2
  have q7 : (f : ℚ) ≤ 74999995 := by exact_mod_cast hf
  have q8 : (0 : ℚ) ≤ (f : ℚ) := by exact_mod_cast Nat.zero_le f
  unfold K2_code
  rw [abs_le]
  constructor <;> linarith

/-- The tuning word of an LO frequency in 8,995,000..9,005,000: the frequency is converted
exactly and the product is rounded to an even number. -/
theorem tuning_word2_lo (f : Nat) (h1 : 8995000 ≤ f) (h2 : f ≤ 9005000) :
    tuning_word2 (f : Int) = rneDiv (f * 15011999) 8388608 * 2 := by
  have hu : toULong (f : Int) = f := by unfold toULong; omega
  have hx : f32_of_ulong f = f := f32_of_ulong_exact f (by norm_num; omega)
  have hr : f32_round (f * 15011999) = (rneDiv (f * 15011999) (2 ^ 23), 23) :=
    f32_round_eq _ 23 (by norm_num) (by norm_num; omega) (by norm_num; omega)
  have hb := rneDiv_bounds (f * 15011999) 8388608 (by norm_num)
  unfold tuning_word2 f32_mul_trunc
  rw [hu, hx, K2_mant_eq, hr]
  norm_num
  omega

/-- The deviation of the tuning word of an LO frequency from the product with the code
constant taken exactly lies between -0.48 and 1.53. -/
theorem tuning_word2_lo_near (f : Nat) (h1 : 8995000 ≤ f) (h2 : f ≤ 9005000) :
    -(12 / 25 : ℚ) ≤ (tuning_word2 (f : Int) : ℚ) - (f : ℚ) * K2_code ∧
    (tuning_word2 (f : Int) : ℚ) - (f : ℚ) * K2_code ≤ 153 / 100 := by
  rw [tuning_word2_lo f h1 h2]
  obtain ⟨b1, b2⟩ := rneDiv_bounds (f * 15011999) 8388608 (by norm_num)
  generalize rneDiv (f * 15011999) 8388608 = r at b1 b2 ⊢
  have q1 : 2 * (8388608 * (r : ℚ)) ≤ 2 * ((f : ℚ) * 15011999) + 8388608 := by
    exact_mod_cast b1
  have q2 : 2 * ((f : ℚ) * 15011999) ≤ 2 * (8388608 * (r : ℚ)) + 8388608 := by
    exact_mod_cast b2
  have q3 : (8995000 : ℚ) ≤ (f : ℚ) := by exact_mod_cast h1
  have q4 : (f : ℚ) ≤ 9005000 := by exact_mod_cast h2
  unfold K2_code
  push_cast
  constructor <;> linarith

theorem tuning_word2_80MHz : tuning_word2 80000000 = 286331168 := by decide

/-- C6 (as stated, refuted): the product is formed in the 32-bit floating point of the
target, so the word is not within one LSB of `f * K2`.  For `f = 9,003,137` (inside the LO
window) the reassembled word is 32,223,484 while `f * K2` is about 32,223,482.48; for
`f = 74,975,276` it is 268,346,992, more than 26 above `f * K2`; for `f = 74,999,996` the
tuning word is 2^28 and the 28 data bits reassemble to 0; for `f = 80,000,000` they
reassemble to 17,895,712 while `f * K2` is about 286,331,153, whether `K2` is the code
constant or 2^28 / 75,000,000. -/
theorem C6_reconstruction_counterexample :
    reconstructed_word 9003137 = 32223484
    ∧ ¬ (|(reconstructed_word 9003137 : ℚ) - 9003137 * K2_code| ≤ 1)
    ∧ reconstructed_word 74975276 = 268346992
    ∧ ¬ (|(reconstructed_word 74975276 : ℚ) - 74975276 * K2_code| ≤ 26)
    ∧ tuning_word2 74999996 = 2 ^ 28 ∧ reconstructed_word 74999996 = 0
    ∧ reconstructed_word 80000000 = 17895712
    ∧ ¬ (|(reconstructed_word 80000000 : ℚ) - 80000000 * K2_code| ≤ 1)
    ∧ ¬ (|(reconstructed_word 80000000 : ℚ) - 80000000 * K2_ideal| ≤ 1) := by
  have e1 : tuning_word2 9003137 = 32223484 := by decide
  have e2 : tuning_word2 74975276 = 268346992 := by decide
  have e3 : tuning_word2 74999996 = 2 ^ 28 := by decide
  have r1 : reconstructed_word 9003137 = 32223484 := by rw [reconstructed_word_eq, e1]
  have r2 : reconstructed_word 74975276 = 268346992 := by rw [reconstructed_word_eq, e2]
  have r3 : reconstructed_word 74999996 = 0 := by
    rw [reconstructed_word_eq, e3]
    decide
  have r4 : reconstructed_word 80000000 = 17895712 := by
    rw [reconstructed_word_eq, tuning_word2_80MHz]
  refine ⟨r1, ?_, r2, ?_, e3, r3, r4, ?_, ?_⟩
  · rw [r1]
    intro h
    have h1 := (abs_le.mp h).2
    norm_num [K2_code] at h1
  · rw [r2]
    intro h
    have h1 := (abs_le.mp h).2
    norm_num [K2_code] at h1
  · rw [r4]
    intro h
    have h1 := (abs_le.mp h).1
    norm_num [K2_code] at h1
  · rw [r4]
    intro h
    have h1 := (abs_le.mp h).1
    norm_num [K2_ideal] at h1

/-- C6 (amended): for every frequency `f ≤ 74,999,995` the word `M * 2^14 + L` reassembled
from the data bits of the two sub-words is the whole tuning word (it fits in 28 bits) and
lies within 27 of `f * K2` for the code constant `K2 = 3.579139413` taken exactly, the
product being formed with the 24 significant bits of the target's floating point; for an LO
frequency in 8,995,000..9,005,000 it lies within 1.53 of `f * K2`. -/
theorem C6_reconstruction_in_range (f : Nat) (hf : f ≤ 74999995) :
    reconstructed_word (f : Int) = tuning_word2 (f : Int)
    ∧ tuning_word2 (f : Int) < 2 ^ 28
    ∧ |(reconstructed_word (f : Int) : ℚ) - (f : ℚ) * K2_code| ≤ 27
    ∧ (8995000 ≤ f → f ≤ 9005000 →
        |(reconstructed_word (f : Int) : ℚ) - (f : ℚ) * K2_code| ≤ 153 / 100) := by
  obtain ⟨hlt, hnear⟩ := tuning_word2_near f hf
  have hrec : reconstructed_word (f : Int) = tuning_word2 (f : Int) := by
    rw [reconstructed_word_eq]
    norm_num at hlt
    omega
  rw [hrec]
  refine ⟨rfl, hlt, hnear, fun h1 h2 => ?_⟩
  obtain ⟨l1, l2⟩ := tuning_word2_lo_near f h1 h2
  rw [abs_le]
  constructor <;> linarith

theorem C6_reconstruction_in_range_witness :
    reconstructed_word ((9001500 : Nat) : Int) = tuning_word2 ((9001500 : Nat) : Int)
    ∧ tuning_word2 ((9001500 : Nat) : Int) < 2 ^ 28
    ∧ |(reconstructed_word ((9001500 : Nat) : Int) : ℚ) - ((9001500 : Nat) : ℚ) * K2_code|
        ≤ 27
    ∧ (8995000 ≤ 9001500 → 9001500 ≤ 9005000 →
        |(reconstructed_word ((9001500 : Nat) : Int) : ℚ) - ((9001500 : Nat) : ℚ) * K2_code|
          ≤ 153 / 100) :=
  C6_reconstruction_in_range 9001500 (by decide)

/-! ## Tuning word of DDS 1: proofs -/

/-- The tuning word for a sum `f + INTERFREQUENCY ± 1300` in the range that the band
13,900,000..14,400,000 gives: the sum has 25 binary digits, so its conversion drops one, and
the product with the constant has 48, so the rounding drops 24 and leaves a multiple of 16. -/
theorem word1_of_sum (u : Nat) (hlo : 22898700 ≤ u) (hhi : u ≤ 23401300) :
    f32_mul_trunc (f32_of_ulong u) K1_mant 20 % 4294967296 =
      rneDiv (rneDiv u 2 * 2 * 11258999) 16777216 * 16 := by
  have hr : f32_round u = (rneDiv u (2 ^ 1), 1) :=
    f32_round_eq u 1 (by norm_num) (by norm_num; omega) (by norm_num; omega)
  have hx : f32_of_ulong u = rneDiv u 2 * 2 := by
    unfold f32_of_ulong
    rw [hr]
    norm_num
  have hb := rneDiv_bounds u 2 (by norm_num)
  have hr2 : f32_round (rneDiv u 2 * 2 * 11258999) =
      (rneDiv (rneDiv u 2 * 2 * 11258999) (2 ^ 24), 24) :=
    f32_round_eq _ 24 (by norm_num) (by norm_num; omega) (by norm_num; omega)
  have hb2 := rneDiv_bounds (rneDiv u 2 * 2 * 11258999) 16777216 (by norm_num)
  unfold f32_mul_trunc
  rw [hx, K1_mant_eq, hr2]
  norm_num
  omega

theorem tuning_word1_usb (f : Int) (h1 : 13900000 ≤ f) (h2 : f ≤ 14400000) :
    tuning_word1 0 f = rneDiv (rneDiv (f.toNat + 9001300) 2 * 2 * 11258999) 16777216 * 16 := by
  have hu : toULong f = f.toNat := by unfold toULong; omega
  have hx : toULong (((f.toNat : Nat) : Int) + ((INTERFREQUENCY : Nat) : Int) + 1300)
      = f.toNat + 9001300 := by
    unfold toULong INTERFREQUENCY; omega
  unfold tuning_word1
  rw [if_pos rfl, hu, hx]
  exact word1_of_sum _ (by omega) (by omega)

theorem tuning_word1_lsb (sideband : Int) (hs : sideband ≠ 0) (f : Int) (h1 : 13900000 ≤ f)
    (h2 : f ≤ 14400000) :
    tuning_word1 sideband f =
      rneDiv (rneDiv (f.toNat + 8998700) 2 * 2 * 11258999) 16777216 * 16 := by
  have hu : toULong f = f.toNat := by unfold toULong; omega
  have hx : toULong (((f.toNat : Nat) : Int) + ((INTERFREQUENCY : Nat) : Int) - 1300)
      = f.toNat + 8998700 := by
    unfold toULong INTERFREQUENCY; omega
  unfold tuning_word1
  rw [if_neg hs, hu, hx]
  exact word1_of_sum _ (by omega) (by omega)

/-- The conversion to `double` of a 25-digit whole number is monotone, and two numbers at
least 3 apart have different conversions. -/
theorem rneDiv_two_mono (u1 u2 : Nat) (h : u1 ≤ u2) :
    rneDiv u1 2 ≤ rneDiv u2 2 ∧ (u1 + 3 ≤ u2 → rneDiv u1 2 + 1 ≤ rneDiv u2 2) := by
  unfold rneDiv
  split_ifs <;> omega

/-- The rounding that drops 24 binary digits is monotone. -/
theorem rneDiv_mono (n1 n2 : Nat) (h : n1 ≤ n2) :
    rneDiv n1 16777216 ≤ rneDiv n2 16777216 := by
  unfold rneDiv
  split_ifs <;> omega

theorem word1_mono (u1 u2 : Nat) (h : u1 ≤ u2) :
    rneDiv (rneDiv u1 2 * 2 * 11258999) 16777216 * 16 ≤
        rneDiv (rneDiv u2 2 * 2 * 11258999) 16777216 * 16 ∧
    (u1 + 3 ≤ u2 →
      rneDiv (rneDiv u1 2 * 2 * 11258999) 16777216 * 16 <
        rneDiv (rneDiv u2 2 * 2 * 11258999) 16777216 * 16) := by
  obtain ⟨ha, hb⟩ := rneDiv_two_mono u1 u2 h
  constructor
  · have := rneDiv_mono (rneDiv u1 2 * 2 * 11258999) (rneDiv u2 2 * 2 * 11258999) (by omega)
    omega
  · intro h3
    have hb3 := hb h3
    have b1 := rneDiv_bounds (rneDiv u1 2 * 2 * 11258999) 16777216 (by norm_num)
    have b2 := rneDiv_bounds (rneDiv u2 2 * 2 * 11258999) 16777216 (by norm_num)
    omega

/-- C7 (as stated, refuted): computed in the 32-bit floating point of the target, the
tuning words of `set_frequency1` for 14,000,000 Hz and 14,000,001 Hz are equal, on USB (both
246,974,576) and on LSB (both 246,946,656), so the word for the lower frequency is not
strictly smaller; two frequencies 2 Hz apart can share a word as well (14,000,003 Hz and
14,000,005 Hz on USB, both 246,974,624). -/
theorem C7_tuning_word1_tie_counterexample :
    tuning_word1 0 14000000 = 246974576 ∧ tuning_word1 0 14000001 = 246974576 ∧
    tuning_word1 1 14000000 = 246946656 ∧ tuning_word1 1 14000001 = 246946656 ∧
    ¬ (tuning_word1 0 14000000 < tuning_word1 0 14000001) ∧
    tuning_word1 0 14000003 = 246974624 ∧ tuning_word1 0 14000005 = 246974624 := by
  decide

/-- C7 (amended): for a fixed sideband and all frequencies `f1 < f2` in
13,900,000..14,400,000 the tuning word `set_frequency1` computes for `f1` (in the 32-bit
floating point of the target) is at most the one for `f2`, and strictly smaller whenever
`f2` is at least 3 Hz above `f1`. -/
theorem C7_tuning_word1_monotone (sideband : Int) (f1 f2 : Int) (h1 : 13900000 ≤ f1)
    (h12 : f1 < f2) (h2 : f2 ≤ 14400000) :
    tuning_word1 sideband f1 ≤ tuning_word1 sideband f2 ∧
    (f1 + 3 ≤ f2 → tuning_word1 sideband f1 < tuning_word1 sideband f2) := by
  by_cases hs : sideband = 0
  · subst hs
    rw [tuning_word1_usb f1 h1 (by omega), tuning_word1_usb f2 (by omega) h2]
    obtain ⟨a, b⟩ := word1_mono (f1.toNat + 9001300) (f2.toNat + 9001300) (by omega)
    exact ⟨a, fun h3 => b (by omega)⟩
  · rw [tuning_word1_lsb sideband hs f1 h1 (by omega),
      tuning_word1_lsb sideband hs f2 (by omega) h2]
    obtain ⟨a, b⟩ := word1_mono (f1.toNat + 8998700) (f2.toNat + 8998700) (by omega)
    exact ⟨a, fun h3 => b (by omega)⟩

theorem C7_tuning_word1_monotone_witness :
    tuning_word1 0 14000000 ≤ tuning_word1 0 14000003 ∧
    ((14000000 : Int) + 3 ≤ 14000003 → tuning_word1 0 14000000 < tuning_word1 0 14000003) :=
  C7_tuning_word1_monotone 0 14000000 14000003 (by decide) (by decide) (by decide)

/-- C8 (as stated, refuted): at `f = 14,000,000` the USB and LSB tuning words are 246,974,576
and 246,946,656; they differ by the integer 27,920, not by `2 * 1300 * K1 = 27917.287424`.
At `f = 14,000,002` they are 246,974,592 and 246,946,688 and differ by 27,904. -/
theorem C8_sideband_offset_counterexample :
    tuning_word1 0 14000000 = 246974576 ∧ tuning_word1 1 14000000 = 246946656 ∧
    ¬ ((tuning_word1 0 14000000 : ℚ) - (tuning_word1 1 14000000 : ℚ) = 2 * 1300 * K1) ∧
    tuning_word1 0 14000002 = 246974592 ∧ tuning_word1 1 14000002 = 246946688 := by
  have e1 : tuning_word1 0 14000000 = 246974576 := by decide
  have e2 : tuning_word1 1 14000000 = 246946656 := by decide
  refine ⟨e1, e2, ?_, by decide, by decide⟩
  rw [e1, e2]
  unfold K1
  norm_num

theorem rneDiv_two_shift (l : Nat) : rneDiv (l + 2600) 2 = rneDiv l 2 + 1300 := by
  unfold rneDiv
  split_ifs <;> omega

/-- C8 (amended): for every `f` in 13,900,000..14,400,000 both tuning words are multiples of
16 and the USB word minus the LSB word is 27,904 or 27,920: it is `2 * 1300 * K1 =
27917.287424` up to the rounding of the two products to the 24 significant bits of the
target's floating point, less than 14 away from it. -/
theorem C8_sideband_offset (f : Int) (h1 : 13900000 ≤ f) (h2 : f ≤ 14400000) :
    ((tuning_word1 0 f : Int) - (tuning_word1 1 f : Int) = 27904
      ∨ (tuning_word1 0 f : Int) - (tuning_word1 1 f : Int) = 27920)
    ∧ tuning_word1 0 f % 16 = 0 ∧ tuning_word1 1 f % 16 = 0
    ∧ |((tuning_word1 0 f : ℚ) - (tuning_word1 1 f : ℚ)) - 2 * 1300 * K1| < 14 := by
  have hd : ((tuning_word1 0 f : Int) - (tuning_word1 1 f : Int) = 27904
      ∨ (tuning_word1 0 f : Int) - (tuning_word1 1 f : Int) = 27920)
      ∧ tuning_word1 0 f % 16 = 0 ∧ tuning_word1 1 f % 16 = 0 := by
    rw [tuning_word1_usb f h1 h2, tuning_word1_lsb 1 (by decide) f h1 h2]
    have e : f.toNat + 9001300 = f.toNat + 8998700 + 2600 := by omega
    rw [e, rneDiv_two_shift]
    have hb := rneDiv_bounds (f.toNat + 8998700) 2 (by norm_num)
    have b1 := rneDiv_bounds ((rneDiv (f.toNat + 8998700) 2 + 1300) * 2 * 11258999) 16777216
      (by norm_num)
    have b2 := rneDiv_bounds (rneDiv (f.toNat + 8998700) 2 * 2 * 11258999) 16777216
      (by norm_num)
    omega
  refine ⟨hd.1, hd.2.1, hd.2.2, ?_⟩
  have hq : ((tuning_word1 0 f : ℚ) - (tuning_word1 1 f : ℚ))
      = (((tuning_word1 0 f : Int) - (tuning_word1 1 f : Int) : Int) : ℚ) := by
    push_cast; ring
  rw [hq]
  unfold K1
  rcases hd.1 with h | h
  · rw [h, abs_lt]; constructor <;> norm_num
  · rw [h, abs_lt]; constructor <;> norm_num

theorem C8_sideband_offset_witness :
    ((tuning_word1 0 14000000 : Int) - (tuning_word1 1 14000000 : Int) = 27904
      ∨ (tuning_word1 0 14000000 : Int) - (tuning_word1 1 14000000 : Int) = 27920)
    ∧ tuning_word1 0 14000000 % 16 = 0 ∧ tuning_word1 1 14000000 % 16 = 0
    ∧ |((tuning_word1 0 14000000 : ℚ) - (tuning_word1 1 14000000 : ℚ)) - 2 * 1300 * K1| < 14 :=
  C8_sideband_offset 14000000 (by decide) (by decide)

/-! ## Encoder handler: proofs -/

theorem graySample_lt (pind : Nat) : (pind &&& 0x0C) >>> 2 < 4 := by
  have h : pind &&& 0x0C ≤ 0x0C := Nat.and_le_right
  rw [Nat.shiftRight_eq_div_pow]
  omega

theorem INT0_vect_even (pind : Nat) (g : Globals)
    (h : (graySample pind >>> 1) ^^^ graySample pind = 0
      ∨ (graySample pind >>> 1) ^^^ graySample pind = 2) :
    INT0_vect pind g
      = { g with tuningknob := 1, tuningcount := toInt16 (g.tuningcount + 1) } := by
  unfold graySample at h
  unfold INT0_vect
  dsimp only
  generalize ((pind &&& 0x0C) >>> 2 >>> 1) ^^^ ((pind &&& 0x0C) >>> 2) = st at h
  have hn : ¬ (st = 1 ∨ st = 3) := by omega
  rw [if_pos h, if_neg hn]

theorem INT0_vect_odd (pind : Nat) (g : Globals)
    (h : (graySample pind >>> 1) ^^^ graySample pind = 1
      ∨ (graySample pind >>> 1) ^^^ graySample pind = 3) :
    INT0_vect pind g
      = { g with tuningknob := -1, tuningcount := toInt16 (g.tuningcount + 1) } := by
  unfold graySample at h
  unfold INT0_vect
  dsimp only
  generalize ((pind &&& 0x0C) >>> 2 >>> 1) ^^^ ((pind &&& 0x0C) >>> 2) = st at h
  have hn : ¬ (st = 0 ∨ st = 2) := by omega
  rw [if_neg hn, if_pos h]

theorem encoder_state_lt (pind : Nat) :
    (graySample pind >>> 1) ^^^ graySample pind < 4 := by
  have hlt := graySample_lt pind
  unfold graySample
  generalize (pind &&& 0x0C) >>> 2 = gray at hlt
  have hcases : gray = 0 ∨ gray = 1 ∨ gray = 2 ∨ gray = 3 := by omega
  rcases hcases with h | h | h | h <;> subst h <;> decide

theorem INT0_vect_eq (pind : Nat) (g : Globals) :
    INT0_vect pind g
      = { g with
          tuningknob :=
            if (graySample pind >>> 1) ^^^ graySample pind = 0
                ∨ (graySample pind >>> 1) ^^^ graySample pind = 2 then 1 else -1,
          tuningcount := toInt16 (g.tuningcount + 1) } := by
  by_cases h : (graySample pind >>> 1) ^^^ graySample pind = 0
      ∨ (graySample pind >>> 1) ^^^ graySample pind = 2
  · rw [INT0_vect_even pind g h, if_pos h]
  · have hlt := encoder_state_lt pind
    have h2 : (graySample pind >>> 1) ^^^ graySample pind = 1
        ∨ (graySample pind >>> 1) ^^^ graySample pind = 3 := by
      generalize (graySample pind >>> 1) ^^^ graySample pind = st at h hlt
      omega
    rw [INT0_vect_odd pind g h2, if_neg h]

/-- C10: for every value of `PIND` (hence every 2-bit sample `gray`), with
`state = (gray >> 1) XOR gray`, the encoder handler sets `tuningknob` to +1 when `state` is
0 or 2 and to -1 otherwise, that is when `state` is 1 or 3; in every case it increments
`tuningcount` by exactly 1 (below the `int` maximum) and leaves every other global
unchanged. -/
theorem C10_encoder_handler_step (pind : Nat) (g : Globals) (hc : g.tuningcount < 32767)
    (hc0 : -32768 ≤ g.tuningcount) :
    INT0_vect pind g
      = { g with
          tuningknob :=
            if (graySample pind >>> 1) ^^^ graySample pind = 0
                ∨ (graySample pind >>> 1) ^^^ graySample pind = 2 then 1 else -1,
          tuningcount := g.tuningcount + 1 }
    ∧ ((graySample pind >>> 1) ^^^ graySample pind = 0
        ∨ (graySample pind >>> 1) ^^^ graySample pind = 2
        ∨ (graySample pind >>> 1) ^^^ graySample pind = 1
        ∨ (graySample pind >>> 1) ^^^ graySample pind = 3) := by
  have hw : toInt16 (g.tuningcount + 1) = g.tuningcount + 1 := by
    unfold toInt16; omega
  have hlt := encoder_state_lt pind
  refine ⟨?_, ?_⟩
  · rw [INT0_vect_eq, hw]
  · generalize (graySample pind >>> 1) ^^^ graySample pind = st at hlt
    omega

theorem C10_encoder_handler_step_witness :
    INT0_vect 4 initGlobals
      = { initGlobals with
          tuningknob :=
            if (graySample 4 >>> 1) ^^^ graySample 4 = 0
                ∨ (graySample 4 >>> 1) ^^^ graySample 4 = 2 then 1 else -1,
          tuningcount := initGlobals.tuningcount + 1 }
    ∧ ((graySample 4 >>> 1) ^^^ graySample 4 = 0
        ∨ (graySample 4 >>> 1) ^^^ graySample 4 = 2
        ∨ (graySample 4 >>> 1) ^^^ graySample 4 = 1
        ∨ (graySample 4 >>> 1) ^^^ graySample 4 = 3) :=
  C10_encoder_handler_step 4 initGlobals (by decide) (by decide)

/-- C9 (as stated, refuted): fed the samples 01, 11, 10, 00 of the sequence
00->01->11->10->00, the handler does not leave the direction flag +1 four times. -/
theorem C9_gray_sequence_counterexample :
    graySample 4 = 1 ∧ graySample 12 = 3 ∧ graySample 8 = 2 ∧ graySample 0 = 0
    ∧ isr_flags [4, 12, 8, 0] initGlobals ≠ [1, 1, 1, 1] := by
  decide

theorem flag_of_sample (pind s : Nat) (hs : graySample pind = s) :
    (if (graySample pind >>> 1) ^^^ graySample pind = 0
        ∨ (graySample pind >>> 1) ^^^ graySample pind = 2 then (1 : Int) else -1)
      = if (s >>> 1) ^^^ s = 0 ∨ (s >>> 1) ^^^ s = 2 then (1 : Int) else -1 := by
  rw [hs]

theorem isr_four (p1 p2 p3 p4 : Nat) (g : Globals) (hc : g.tuningcount + 4 ≤ 32767)
    (hc0 : -32768 ≤ g.tuningcount) :
    isr_flags [p1, p2, p3, p4] g
      = [(INT0_vect p1 g).tuningknob, (INT0_vect p2 g).tuningknob,
          (INT0_vect p3 g).tuningknob, (INT0_vect p4 g).tuningknob]
    ∧ (isr_run [p1, p2, p3, p4] g).tuningcount = g.tuningcount + 4 := by
  have e1 : toInt16 (g.tuningcount + 1) = g.tuningcount + 1 := by unfold toInt16; omega
  have e2 : toInt16 (g.tuningcount + 1 + 1) = g.tuningcount + 2 := by unfold toInt16; omega
  have e3 : toInt16 (g.tuningcount + 2 + 1) = g.tuningcount + 3 := by unfold toInt16; omega
  have e4 : toInt16 (g.tuningcount + 3 + 1) = g.tuningcount + 4 := by unfold toInt16; omega
  simp only [isr_flags, isr_run, INT0_vect_eq, e1, e2, e3, e4]
  exact ⟨trivial, trivial⟩

/-- C9 (amended): the handler derives the direction from the current sample alone.  Fed the
samples 01, 11, 10, 00 of the sequence 00->01->11->10->00 it leaves the direction flags
-1, +1, -1, +1 and raises the turns counter by 4 in total; fed the samples 10, 11, 01, 00 of
the reverse sequence it leaves the same flags -1, +1, -1, +1 and again raises the counter
by 4. -/
theorem C9_gray_sequence_flags (g : Globals) (hc : g.tuningcount + 4 ≤ 32767)
    (hc0 : -32768 ≤ g.tuningcount) (p1 p2 p3 p4 q1 q2 q3 q4 : Nat)
    (h1 : graySample p1 = 1) (h2 : graySample p2 = 3) (h3 : graySample p3 = 2)
    (h4 : graySample p4 = 0) (k1 : graySample q1 = 2) (k2 : graySample q2 = 3)
    (k3 : graySample q3 = 1) (k4 : graySample q4 = 0) :
    isr_flags [p1, p2, p3, p4] g = [-1, 1, -1, 1]
    ∧ (isr_run [p1, p2, p3, p4] g).tuningcount = g.tuningcount + 4
    ∧ isr_flags [q1, q2, q3, q4] g = [-1, 1, -1, 1]
    ∧ (isr_run [q1, q2, q3, q4] g).tuningcount = g.tuningcount + 4 := by
  obtain ⟨a1, a2⟩ := isr_four p1 p2 p3 p4 g hc hc0
  obtain ⟨b1, b2⟩ := isr_four q1 q2 q3 q4 g hc hc0
  have f0 : ∀ p : Nat, graySample p = 0 → (INT0_vect p g).tuningknob = 1 := by
    intro p hp
    rw [INT0_vect_eq]
    show (if _ then (1 : Int) else (-1 : Int)) = (1 : Int)
    rw [flag_of_sample p 0 hp]
    decide
  have f1 : ∀ p : Nat, graySample p = 1 → (INT0_vect p g).tuningknob = -1 := by
    intro p hp
    rw [INT0_vect_eq]
    show (if _ then (1 : Int) else (-1 : Int)) = (-1 : Int)
    rw [flag_of_sample p 1 hp]
    decide
  have f2 : ∀ p : Nat, graySample p = 2 → (INT0_vect p g).tuningknob = -1 := by
    intro p hp
    rw [INT0_vect_eq]
    show (if _ then (1 : Int) else (-1 : Int)) = (-1 : Int)
    rw [flag_of_sample p 2 hp]
    decide
  have f3 : ∀ p : Nat, graySample p = 3 → (INT0_vect p g).tuningknob = 1 := by
    intro p hp
    rw [INT0_vect_eq]
    show (if _ then (1 : Int) else (-1 : Int)) = (1 : Int)
    rw [flag_of_sample p 3 hp]
    decide
  rw [a1, b1, f1 p1 h1, f3 p2 h2, f2 p3 h3, f0 p4 h4, f2 q1 k1, f3 q2 k2, f1 q3 k3, f0 q4 k4]
  exact ⟨rfl, a2, rfl, b2⟩

theorem C9_gray_sequence_flags_witness :
    isr_flags [4, 12, 8, 0] initGlobals = [-1, 1, -1, 1]
    ∧ (isr_run [4, 12, 8, 0] initGlobals).tuningcount = initGlobals.tuningcount + 4
    ∧ isr_flags [8, 12, 4, 0] initGlobals = [-1, 1, -1, 1]
    ∧ (isr_run [8, 12, 4, 0] initGlobals).tuningcount = initGlobals.tuningcount + 4 :=
  C9_gray_sequence_flags initGlobals (by decide) (by decide) 4 12 8 0 8 12 4 0
    (by decide) (by decide) (by decide) (by decide) (by decide) (by decide) (by decide)
    (by decide)

/-- With the handler run only where PD2, the INT0 pin, changes, the sequence
00->01->11->10->00 gives two detents with flag -1 (samples 01 and 10) and the reverse
sequence two detents with flag +1 (samples 11 and 00). -/
theorem encoder_int0_edges :
    int0_flags 0 [4, 12, 8, 0] initGlobals = [-1, -1]
    ∧ int0_flags 0 [8, 12, 4, 0] initGlobals = [1, 1] := by
  decide


/-! ## Keys: proofs -/

theorem get_keys_eq (v : Int) :
    get_keys v =
      if v > 86 - 3 ∧ v < 86 + 3 then 1
      else if v > 31 - 3 ∧ v < 31 + 3 then 2
      else if v > 50 - 3 ∧ v < 50 + 3 then 3
      else if v > 38 - 3 ∧ v < 38 + 3 then 4
      else 0 := by
  simp only [get_keys, key_value, get_keys_loop]
  rfl

theorem get_keys_range (v : Int) : 0 ≤ get_keys v ∧ get_keys v ≤ 4 := by
  rw [get_keys_eq]
  split_ifs <;> omega

/-- C11 (counterexample): the reading 89 lies within 3 units of the level 86 of key 1, yet
`get_keys` reports no key for it. -/
theorem C11_key_tolerance_counterexample :
    |(89 : Int) - 86| ≤ 3 ∧ get_keys 89 = 0 := by
  decide

/-- C11 (amended): for every reading `v`, `get_keys` returns key k (1..4) if and only if `v`
lies within 2 units of the level of key k (levels 86, 31, 50, 38), the comparisons of the
code being strict; it returns 0 for every other reading, and no reading matches two keys. -/
theorem C11_key_classification (v : Int) :
    (get_keys v = 1 ↔ |v - 86| ≤ 2) ∧
    (get_keys v = 2 ↔ |v - 31| ≤ 2) ∧
    (get_keys v = 3 ↔ |v - 50| ≤ 2) ∧
    (get_keys v = 4 ↔ |v - 38| ≤ 2) ∧
    (get_keys v = 0 ↔ ¬ (|v - 86| ≤ 2 ∨ |v - 31| ≤ 2 ∨ |v - 50| ≤ 2 ∨ |v - 38| ≤ 2)) ∧
    (get_keys v = 0 ∨ get_keys v = 1 ∨ get_keys v = 2 ∨ get_keys v = 3 ∨ get_keys v = 4) ∧
    ¬ (|v - 86| ≤ 2 ∧ |v - 31| ≤ 2) ∧ ¬ (|v - 86| ≤ 2 ∧ |v - 50| ≤ 2) ∧
    ¬ (|v - 86| ≤ 2 ∧ |v - 38| ≤ 2) ∧ ¬ (|v - 31| ≤ 2 ∧ |v - 50| ≤ 2) ∧
    ¬ (|v - 31| ≤ 2 ∧ |v - 38| ≤ 2) ∧ ¬ (|v - 50| ≤ 2 ∧ |v - 38| ≤ 2) := by
  rw [get_keys_eq]
  simp only [abs_le]
  split_ifs <;> omega

/-! ## Runs: general lemmas -/

theorem Out.All_done {σ : Type} (P : Sys → Prop) (Q : σ → Prop) (s : σ) :
    (Out.done s).All P Q ↔ Q s := by
  unfold Out.All
  exact Iff.rfl

theorem Out.All_starved {σ : Type} (P : Sys → Prop) (Q : σ → Prop) (s : Sys) :
    (Out.starved s : Out σ).All P Q ↔ P s := by
  unfold Out.All
  exact Iff.rfl

theorem Out.All_nofuel {σ : Type} (P : Sys → Prop) (Q : σ → Prop) :
    (Out.nofuel : Out σ).All P Q := by
  unfold Out.All
  trivial

theorem Out.All_of_eq_done {σ : Type} {P : Sys → Prop} {Q : σ → Prop} {o : Out σ} {s : σ}
    (h : o.All P Q) (e : o = .done s) : Q s := by
  rw [e] at h
  exact (Out.All_done P Q s).1 h

theorem Out.All_bind {σ τ : Type} {P : Sys → Prop} {Q : σ → Prop} {R : τ → Prop}
    (o : Out σ) (f : σ → Out τ) (h : o.All P Q) (hf : ∀ s, Q s → (f s).All P R) :
    (o.bind f).All P R := by
  cases o with
  | done s => exact hf s ((Out.All_done P Q s).1 h)
  | starved s => exact (Out.All_starved P R s).2 ((Out.All_starved P Q s).1 h)
  | nofuel => exact Out.All_nofuel P R

theorem Out.All_mono {σ : Type} {P P1 : Sys → Prop} {Q Q1 : σ → Prop} (o : Out σ)
    (h : o.All P Q) (hP : ∀ s, P s → P1 s) (hQ : ∀ s, Q s → Q1 s) : o.All P1 Q1 := by
  cases o with
  | done s => exact (Out.All_done P1 Q1 s).2 (hQ s ((Out.All_done P Q s).1 h))
  | starved s => exact (Out.All_starved P1 Q1 s).2 (hP s ((Out.All_starved P Q s).1 h))
  | nofuel => exact Out.All_nofuel P1 Q1

theorem Out.bind_eq_done {σ τ : Type} (o : Out σ) (f : σ → Out τ) (t : τ) :
    o.bind f = .done t ↔ ∃ s, o = .done s ∧ f s = .done t := by
  cases o with
  | done s => simp [Out.bind]
  | starved s => simp [Out.bind]
  | nofuel => simp [Out.bind]

theorem Out.ret_eq_some {σ : Type} (o : Out (σ × Sys)) (r : σ) :
    o.ret = some r ↔ ∃ s, o = .done (r, s) := by
  cases o with
  | done s =>
      obtain ⟨a, b⟩ := s
      simp [Out.ret]
  | starved s => simp [Out.ret]
  | nofuel => simp [Out.ret]

theorem Sys.Ext_refl (p : Ev → Prop) (s : Sys) : Sys.Ext p s s :=
  ⟨rfl, rfl, rfl, [], by simp, by simp⟩

theorem Sys.Ext_trans {p : Ev → Prop} {s s1 s2 : Sys} (h1 : Sys.Ext p s s1)
    (h2 : Sys.Ext p s1 s2) : Sys.Ext p s s2 := by
  obtain ⟨e1, t1, f1, n1, hn1, hp1⟩ := h1
  obtain ⟨e2, t2, f2, n2, hn2, hp2⟩ := h2
  refine ⟨e2.trans e1, t2.trans t1, f2.trans f1, n1 ++ n2, ?_, ?_⟩
  · rw [hn2, hn1, List.append_assoc]
  · intro ev hev
    rcases List.mem_append.1 hev with h | h
    · exact hp1 ev h
    · exact hp2 ev h

theorem Sys.Ext_mono {p q : Ev → Prop} {s s1 : Sys} (h : Sys.Ext p s s1)
    (hpq : ∀ ev, p ev → q ev) : Sys.Ext q s s1 := by
  obtain ⟨e1, t1, f1, n1, hn1, hp1⟩ := h
  exact ⟨e1, t1, f1, n1, hn1, fun ev hev => hpq ev (hp1 ev hev)⟩

theorem Sys.Ext_log (p : Ev → Prop) (s : Sys) (ev : Ev) (h : p ev) : Sys.Ext p s (s.log ev) :=
  ⟨rfl, rfl, rfl, [ev], rfl, by simpa using h⟩

theorem INT0_vect_frame (pind : Nat) (g : Globals) :
    (INT0_vect pind g).s_threshold = g.s_threshold ∧ (INT0_vect pind g).scanfreq = g.scanfreq ∧
    (INT0_vect pind g).runseconds10 = g.runseconds10 := by
  unfold INT0_vect
  dsimp only
  split_ifs <;> exact ⟨rfl, rfl, rfl⟩

theorem isr_run_frame (l : List Nat) (g : Globals) :
    (isr_run l g).s_threshold = g.s_threshold ∧ (isr_run l g).scanfreq = g.scanfreq ∧
    (isr_run l g).runseconds10 = g.runseconds10 := by
  induction l generalizing g with
  | nil => exact ⟨rfl, rfl, rfl⟩
  | cons p rest ih =>
      rw [isr_run]
      obtain ⟨a, b, c⟩ := ih (INT0_vect p g)
      obtain ⟨a1, b1, c1⟩ := INT0_vect_frame p g
      exact ⟨a.trans a1, b.trans b1, c.trans c1⟩

theorem irq_ticks_frame (n : Nat) (g : Globals) :
    (irq_ticks n g).s_threshold = g.s_threshold ∧ (irq_ticks n g).scanfreq = g.scanfreq := by
  induction n generalizing g with
  | zero => exact ⟨rfl, rfl⟩
  | succ n ih =>
      rw [irq_ticks]
      obtain ⟨a, b⟩ := ih (TIMER1_OVF_vect g)
      exact ⟨a, b⟩

theorem irq_frame (p : Poll) (g : Globals) :
    (irq p g).s_threshold = g.s_threshold ∧ (irq p g).scanfreq = g.scanfreq := by
  unfold irq
  obtain ⟨a, b⟩ := irq_ticks_frame p.ticks (isr_run p.enc g)
  obtain ⟨a1, b1, _⟩ := isr_run_frame p.enc g
  exact ⟨a.trans a1, b.trans b1⟩

theorem call_get_keys_some (s : Sys) (k : Int) (s1 : Sys) (h : call_get_keys s = some (k, s1)) :
    ∃ p rest, s.input = p :: rest ∧ k = get_keys p.adc0 ∧
      s1 = { g := irq p s.g, e := s.e, input := rest, trace := s.trace ++ [Ev.keys k] } := by
  unfold call_get_keys at h
  split at h
  · exact absurd h (by simp)
  · rename_i p rest hin
    simp only [Option.some.injEq, Prod.mk.injEq] at h
    obtain ⟨hk, hs⟩ := h
    exact ⟨p, rest, hin, hk.symm, by rw [← hs, hk]⟩

theorem call_get_adc2_some (s : Sys) (v : Int) (s1 : Sys) (h : call_get_adc2 s = some (v, s1)) :
    ∃ p rest, s.input = p :: rest ∧ v = p.adc2 ∧
      s1 = { g := irq p s.g, e := s.e, input := rest, trace := s.trace ++ [Ev.adc2 v] } := by
  unfold call_get_adc2 at h
  split at h
  · exact absurd h (by simp)
  · rename_i p rest hin
    simp only [Option.some.injEq, Prod.mk.injEq] at h
    obtain ⟨hk, hs⟩ := h
    exact ⟨p, rest, hin, hk.symm, by rw [← hs, hk]⟩

theorem call_get_keys_ext (p : Ev → Prop) (s : Sys) (k : Int) (s1 : Sys)
    (h : call_get_keys s = some (k, s1)) (hp : p (Ev.keys k)) :
    Sys.Ext p s s1 ∧ 0 ≤ k ∧ k ≤ 4 ∧ s1.trace = s.trace ++ [Ev.keys k] := by
  obtain ⟨q, rest, _, hk, hs⟩ := call_get_keys_some s k s1 h
  subst hs
  obtain ⟨a, b⟩ := irq_frame q s.g
  refine ⟨⟨rfl, a, b, [Ev.keys k], rfl, by simpa using hp⟩, ?_, ?_, rfl⟩
  · rw [hk]; exact (get_keys_range _).1
  · rw [hk]; exact (get_keys_range _).2

theorem call_get_adc2_ext (p : Ev → Prop) (s : Sys) (v : Int) (s1 : Sys)
    (h : call_get_adc2 s = some (v, s1)) (hp : p (Ev.adc2 v)) :
    Sys.Ext p s s1 ∧ s1.trace = s.trace ++ [Ev.adc2 v] := by
  obtain ⟨q, rest, _, hk, hs⟩ := call_get_adc2_some s v s1 h
  subst hs
  obtain ⟨a, b⟩ := irq_frame q s.g
  exact ⟨⟨rfl, a, b, [Ev.adc2 v], rfl, by simpa using hp⟩, rfl⟩

theorem drain_keys_all (p : Ev → Prop) (hp : ∀ k, p (Ev.keys k)) (n : Nat) (s : Sys) :
    (drain_keys n s).All (Sys.Ext p s)
      (fun s1 => Sys.Ext p s s1 ∧ ∃ tr, s1.trace = tr ++ [Ev.keys 0]) := by
  induction n generalizing s with
  | zero => exact Out.All_nofuel _ _
  | succ n ih =>
      rw [drain_keys]
      cases h : call_get_keys s with
      | none => exact (Out.All_starved _ _ _).2 (Sys.Ext_refl p s)
      | some r =>
          obtain ⟨k, s1⟩ := r
          obtain ⟨hx, _, _, ht⟩ := call_get_keys_ext p s k s1 h (hp k)
          dsimp only
          by_cases hk : k ≠ 0
          · rw [if_pos hk]
            exact Out.All_mono _ (ih s1) (fun _ h1 => Sys.Ext_trans hx h1)
              (fun _ h1 => ⟨Sys.Ext_trans hx h1.1, h1.2⟩)
          · rw [if_neg hk]
            have hk0 : k = 0 := by omega
            exact (Out.All_done _ _ _).2 ⟨hx, s.trace, by rw [ht, hk0]⟩

/-! ## Menu: proofs -/

theorem toInt16_small (x : Int) (h1 : -32768 ≤ x) (h2 : x ≤ 32767) : toInt16 x = x := by
  unfold toInt16
  omega

theorem nav_turn_spec (maxitems : Int) (s : Nav) (h0 : 0 ≤ s.menu_pos)
    (h1 : s.menu_pos ≤ maxitems) (h2 : maxitems ≤ 32767) :
    (0 ≤ (nav_turn maxitems s).menu_pos ∧ (nav_turn maxitems s).menu_pos ≤ maxitems) ∧
    (s.sys.g.tuningknob ≤ -1 →
      (nav_turn maxitems s).menu_pos = (s.menu_pos + 1) % (maxitems + 1)) ∧
    (s.sys.g.tuningknob ≥ 1 →
      (nav_turn maxitems s).menu_pos = (s.menu_pos - 1) % (maxitems + 1)) ∧
    (s.sys.g.tuningknob = 0 → (nav_turn maxitems s).menu_pos = s.menu_pos) ∧
    (nav_turn maxitems s).sys.g.tuningknob = 0 ∧
    (nav_turn maxitems s).key = s.key ∧
    (nav_turn maxitems s).sys.trace = s.sys.trace ∧
    (nav_turn maxitems s).sys.input = s.sys.input := by
  have hup : s.menu_pos < maxitems → toInt16 (s.menu_pos + 1) = s.menu_pos + 1 := fun h =>
    toInt16_small _ (by omega) (by omega)
  have hdn : s.menu_pos > 0 → toInt16 (s.menu_pos - 1) = s.menu_pos - 1 := fun h =>
    toInt16_small _ (by omega) (by omega)
  have hm1 : s.menu_pos < maxitems → (s.menu_pos + 1) % (maxitems + 1) = s.menu_pos + 1 :=
    fun h => Int.emod_eq_of_lt (by omega) (by omega)
  have hm2 : ¬ s.menu_pos < maxitems → (s.menu_pos + 1) % (maxitems + 1) = 0 := by
    intro h
    have : s.menu_pos + 1 = maxitems + 1 := by omega
    rw [this]
    exact Int.emod_self
  have hm3 : s.menu_pos > 0 → (s.menu_pos - 1) % (maxitems + 1) = s.menu_pos - 1 :=
    fun h => Int.emod_eq_of_lt (by omega) (by omega)
  have hm4 : ¬ s.menu_pos > 0 → (s.menu_pos - 1) % (maxitems + 1) = maxitems := by
    intro h
    have h5 : s.menu_pos - 1 = maxitems + (maxitems + 1) * (-1) := by omega
    rw [h5, Int.add_mul_emod_self_left]
    exact Int.emod_eq_of_lt (by omega) (by omega)
  unfold nav_turn
  by_cases hcw : s.sys.g.tuningknob ≤ -1
  · have hn : ¬ ((0 : Int) ≥ 1) := by omega
    simp only [if_pos hcw, if_neg hn]
    by_cases hlt : s.menu_pos < maxitems
    · rw [if_pos hlt, hup hlt, hm1 hlt]
      refine ⟨⟨by omega, by omega⟩, ?_, ?_, ?_, ?_, ?_, ?_, ?_⟩ <;>
        first | rfl | trivial | (intro _; rfl) | (intro h; exfalso; omega)
    · rw [if_neg hlt, hm2 hlt]
      refine ⟨⟨by omega, by omega⟩, ?_, ?_, ?_, ?_, ?_, ?_, ?_⟩ <;>
        first | rfl | trivial | (intro _; rfl) | (intro h; exfalso; omega)
  · simp only [if_neg hcw]
    by_cases hccw : s.sys.g.tuningknob ≥ 1
    · simp only [if_pos hccw]
      by_cases hgt : s.menu_pos > 0
      · rw [if_pos hgt, hdn hgt, hm3 hgt]
        refine ⟨⟨by omega, by omega⟩, ?_, ?_, ?_, ?_, ?_, ?_, ?_⟩ <;>
          first | rfl | trivial | (intro _; rfl) | (intro h; exfalso; omega)
      · rw [if_neg hgt, hm4 hgt]
        refine ⟨⟨by omega, by omega⟩, ?_, ?_, ?_, ?_, ?_, ?_, ?_⟩ <;>
          first | rfl | trivial | (intro _; rfl) | (intro h; exfalso; omega)
    · simp only [if_neg hccw]
      refine ⟨⟨h0, h1⟩, ?_, ?_, ?_, ?_, ?_, ?_, ?_⟩
      all_goals first | rfl | trivial | (intro _; rfl) | (intro _; trivial) | (intro h; exfalso; omega) | omega

theorem nav_read_key_all (p : Ev → Prop) (hp : ∀ k, p (Ev.keys k)) (s : Nav) :
    (Nav.read_key s).All (Sys.Ext p s.sys)
      (fun s1 => Sys.Ext p s.sys s1.sys ∧ s1.menu_pos = s.menu_pos ∧ 0 ≤ s1.key ∧ s1.key ≤ 4) := by
  unfold Nav.read_key
  cases h : call_get_keys s.sys with
  | none => exact (Out.All_starved _ _ _).2 (Sys.Ext_refl p _)
  | some r =>
      obtain ⟨k, s1⟩ := r
      obtain ⟨hx, h0, h4, _⟩ := call_get_keys_ext p s.sys k s1 h (hp k)
      exact (Out.All_done _ _ _).2 ⟨hx, rfl, h0, h4⟩

theorem nav_turn_ext (p : Ev → Prop) (maxitems : Int) (s : Nav) :
    Sys.Ext p s.sys (nav_turn maxitems s).sys := by
  unfold nav_turn
  dsimp only
  split_ifs <;> exact ⟨rfl, rfl, rfl, [], by simp, by simp⟩

theorem nav_loop_all (p : Ev → Prop) (hp : ∀ k, p (Ev.keys k)) (maxitems : Int)
    (h2 : maxitems ≤ 32767) (n : Nat) (s : Nav) (h0 : 0 ≤ s.menu_pos)
    (h1 : s.menu_pos ≤ maxitems) (hk0 : 0 ≤ s.key) (hk4 : s.key ≤ 4) :
    (nav_loop maxitems n s).All (Sys.Ext p s.sys)
      (fun s1 => Sys.Ext p s.sys s1.sys ∧ 0 ≤ s1.menu_pos ∧ s1.menu_pos ≤ maxitems ∧
        1 ≤ s1.key ∧ s1.key ≤ 4) := by
  induction n generalizing s with
  | zero => exact Out.All_nofuel _ _
  | succ n ih =>
      rw [nav_loop]
      by_cases hk : s.key = 0
      · rw [if_pos hk]
        obtain ⟨⟨ha, hb⟩, _⟩ := nav_turn_spec maxitems s h0 h1 h2
        have hx := nav_turn_ext p maxitems s
        refine Out.All_bind _ _
          (Out.All_mono _ (nav_read_key_all p hp (nav_turn maxitems s))
            (fun _ h => Sys.Ext_trans hx h)
            (fun s1 (h : _ ∧ _) => (⟨Sys.Ext_trans hx h.1, h.2⟩ :
              Sys.Ext p s.sys s1.sys ∧ s1.menu_pos = (nav_turn maxitems s).menu_pos ∧
                0 ≤ s1.key ∧ s1.key ≤ 4))) ?_
        intro s1 ⟨hx1, hm, hk0, hk4⟩
        exact Out.All_mono _ (ih s1 (by omega) (by omega) hk0 hk4)
          (fun _ h => Sys.Ext_trans hx1 h)
          (fun _ h => ⟨Sys.Ext_trans hx1 h.1, h.2⟩)
      · rw [if_neg hk]
        exact (Out.All_done _ _ _).2 ⟨Sys.Ext_refl p _, h0, h1, by omega, hk4⟩

/-- C13: in the loop body of `navigate_thru_item_list` for a group with `maxitems + 1`
items, the selected position stays in `0..maxitems`; with the flag at most -1 (the branch
labelled CW) it becomes `(pos + 1) mod n`, with the flag at least 1 it becomes
`(pos - 1) mod n`, with the flag 0 it is unchanged, and the flag is consumed; the position
at the end of the whole loop is in range as well.  In the VFO group (`maxitems = 3`) three
clockwise detents from item 0 select item 3 and one more selects item 0. -/
theorem C13_menu_wraparound (maxitems : Int) (s : Nav) (h0 : 0 ≤ s.menu_pos)
    (h1 : s.menu_pos ≤ maxitems) (h2 : maxitems ≤ 32767) :
    (0 ≤ (nav_turn maxitems s).menu_pos ∧ (nav_turn maxitems s).menu_pos ≤ maxitems) ∧
    (s.sys.g.tuningknob ≤ -1 →
      (nav_turn maxitems s).menu_pos = (s.menu_pos + 1) % (maxitems + 1)) ∧
    (s.sys.g.tuningknob ≥ 1 →
      (nav_turn maxitems s).menu_pos = (s.menu_pos - 1) % (maxitems + 1)) ∧
    (s.sys.g.tuningknob = 0 → (nav_turn maxitems s).menu_pos = s.menu_pos) ∧
    (nav_turn maxitems s).sys.g.tuningknob = 0 ∧
    (∀ fuel s1, nav_loop maxitems fuel s = .done s1 →
      0 ≤ s1.menu_pos ∧ s1.menu_pos ≤ maxitems) ∧
    (s.menu_pos = 0 →
      (nav_cw 3 (nav_cw 3 (nav_cw 3 s))).menu_pos = 3 ∧
      (nav_cw 3 (nav_cw 3 (nav_cw 3 (nav_cw 3 s)))).menu_pos = 0) := by
  obtain ⟨a, b, c, d, e, _⟩ := nav_turn_spec maxitems s h0 h1 h2
  refine ⟨a, b, c, d, e, ?_, ?_⟩
  · intro fuel s1 h
    by_cases hk : 0 ≤ s.key ∧ s.key ≤ 4
    · have := Out.All_of_eq_done
        (nav_loop_all (fun _ => True) (fun _ => trivial) maxitems h2 fuel s h0 h1 hk.1 hk.2) h
      exact ⟨this.2.1, this.2.2.1⟩
    · cases fuel with
      | zero => rw [nav_loop] at h; exact absurd h (by simp)
      | succ n =>
          rw [nav_loop] at h
          have hk0 : ¬ s.key = 0 := by omega
          rw [if_neg hk0] at h
          simp only [Out.done.injEq] at h
          rw [← h]
          exact ⟨h0, h1⟩
  · intro hz
    have step : ∀ t : Nav, 0 ≤ t.menu_pos → t.menu_pos ≤ 3 →
        (nav_cw 3 t).menu_pos = (t.menu_pos + 1) % 4 := by
      intro t ht0 ht3
      exact (nav_turn_spec 3
        { t with sys := { t.sys with g := { t.sys.g with tuningknob := -1 } } } ht0 ht3
        (by omega)).2.1 (le_refl _)
    have e1 : (nav_cw 3 s).menu_pos = 1 := by rw [step s (by omega) (by omega), hz]; rfl
    have e2 : (nav_cw 3 (nav_cw 3 s)).menu_pos = 2 := by
      rw [step _ (by omega) (by omega), e1]; rfl
    have e3 : (nav_cw 3 (nav_cw 3 (nav_cw 3 s))).menu_pos = 3 := by
      rw [step _ (by omega) (by omega), e2]; rfl
    refine ⟨e3, ?_⟩
    rw [step _ (by omega) (by omega), e3]; rfl

/-- C13 (witness): the VFO group at item 3 with the flag at -1 wraps to item 0. -/
theorem C13_menu_wraparound_witness :
    (nav_turn 3 navAt3).menu_pos = (navAt3.menu_pos + 1) % (3 + 1) :=
  (C13_menu_wraparound 3 navAt3 (by decide) (by decide) (by decide)).2.1 (by decide)

theorem navOnly_append (a b : List Ev) : navOnly (a ++ b) = navOnly a ++ navOnly b := by
  induction a with
  | nil => rfl
  | cons ev rest ih =>
      cases ev <;> simp [navOnly, ih]

theorem navOnly_keys (l : List Ev) (h : ∀ ev ∈ l, isKeys ev) : navOnly l = [] := by
  induction l with
  | nil => rfl
  | cons ev rest ih =>
      obtain ⟨k, hk⟩ := h ev (List.mem_cons_self _ _)
      subst hk
      show navOnly rest = []
      exact ih (fun ev1 h1 => h ev1 (List.mem_cons_of_mem _ h1))

theorem navigate_spec (fuel : Nat) (m maxitems : Int) (sys : Sys) (r : Int) (sys1 : Sys)
    (h0 : 0 ≤ maxitems) (h2 : maxitems ≤ 32767)
    (h : navigate_thru_item_list fuel m maxitems sys = .done (r, sys1)) :
    ∃ new key pos, sys1.trace = sys.trace ++ new ∧ navOnly new = [Ev.nav m key pos] ∧
      1 ≤ key ∧ key ≤ 4 ∧ 0 ≤ pos ∧ pos ≤ maxitems ∧ r = nav_switch key pos := by
  unfold navigate_thru_item_list at h
  obtain ⟨s1, e1, h⟩ := (Out.bind_eq_done _ _ _).1 h
  obtain ⟨s2, e2, h⟩ := (Out.bind_eq_done _ _ _).1 h
  obtain ⟨s3, e3, h⟩ := (Out.bind_eq_done _ _ _).1 h
  have hp : ∀ k, isKeys (Ev.keys k) := fun k => ⟨k, rfl⟩
  obtain ⟨x1, hm1, k0, k4⟩ := Out.All_of_eq_done
    (nav_read_key_all isKeys hp { sys := sys, menu_pos := 0, key := 0 }) e1
  obtain ⟨x2, p0, p1, q1, q4⟩ := Out.All_of_eq_done
    (nav_loop_all isKeys hp maxitems h2 fuel s1 (by rw [hm1]) (by rw [hm1]; exact h0) k0 k4) e2
  obtain ⟨x3, _⟩ := Out.All_of_eq_done (drain_keys_all isKeys hp fuel s2.sys) e3
  obtain ⟨_, _, _, new, hnew, hall⟩ := Sys.Ext_trans (Sys.Ext_trans x1 x2) x3
  simp only [Out.done.injEq, Prod.mk.injEq] at h
  obtain ⟨hr, hs⟩ := h
  refine ⟨new ++ [Ev.nav m s2.key s2.menu_pos], s2.key, s2.menu_pos, ?_, ?_, q1, q4, p0, p1,
    hr.symm⟩
  · rw [← hs]
    show s3.trace ++ [Ev.nav m s2.key s2.menu_pos] = _
    rw [hnew, List.append_assoc]
  · rw [navOnly_append, navOnly_keys new hall]
    rfl

theorem menu_items_bound (m : Nat) (hm : m ≤ 4) :
    0 ≤ menu_items.getD m 0 ∧ menu_items.getD m 0 ≤ 3 := by
  interval_cases m <;> decide

theorem menux_group_spec (fuel : Nat) (m : Nat) (d : Bool) (sys : Sys) (r : Int) (sys1 : Sys)
    (hm : m ≤ 4) (h : menux_group fuel m d sys = .done (r, sys1)) :
    ∃ new key pos, sys1.trace = sys.trace ++ new ∧ navOnly new = [Ev.nav (m : Int) key pos] ∧
      1 ≤ key ∧ key ≤ 4 ∧ 0 ≤ pos ∧ pos ≤ menu_items.getD m 0 ∧ r = nav_switch key pos := by
  unfold menux_group at h
  obtain ⟨s1, e1, h⟩ := (Out.bind_eq_done _ _ _).1 h
  obtain ⟨b0, b3⟩ := menu_items_bound m hm
  obtain ⟨new, key, pos, ht, hn, r1⟩ :=
    navigate_spec fuel m (menu_items.getD m 0) s1 r sys1 b0 (by omega) h
  have hp : ∀ k, isKeys (Ev.keys k) := fun k => ⟨k, rfl⟩
  have hx : Sys.Ext isKeys sys s1 := by
    cases d with
    | true =>
        rw [if_pos rfl] at e1
        exact (Out.All_of_eq_done (drain_keys_all isKeys hp fuel sys) e1).1
    | false =>
        rw [if_neg (by simp)] at e1
        simp only [Out.done.injEq] at e1
        rw [← e1]
        exact Sys.Ext_refl _ _
  obtain ⟨_, _, _, new0, hnew0, hall0⟩ := hx
  refine ⟨new0 ++ new, key, pos, ?_, ?_, r1⟩
  · rw [ht, hnew0, List.append_assoc]
  · rw [navOnly_append, navOnly_keys new0 hall0, hn]
    rfl

theorem menux_step (fuel : Nat) (m : Nat) (d : Bool) (rest : Sys → Out (Int × Sys))
    (hm : m ≤ 4)
    (hrest : ∀ s r s1, rest s = .done (r, s1) →
      ∃ new, s1.trace = s.trace ++ new ∧ menuDone (navOnly new) r (m + 1))
    (sys : Sys) (r : Int) (sys1 : Sys)
    (h : ((menux_group fuel m d sys).bind fun x => menux_result (m : Int) x rest)
      = .done (r, sys1)) :
    ∃ new, sys1.trace = sys.trace ++ new ∧ menuDone (navOnly new) r m := by
  obtain ⟨x, e1, h⟩ := (Out.bind_eq_done _ _ _).1 h
  obtain ⟨x1, s1⟩ := x
  obtain ⟨new, key, pos, ht, hn, k1, k4, p0, p1, hx⟩ := menux_group_spec fuel m d sys x1 s1 hm e1
  obtain ⟨b0, b3⟩ := menu_items_bound m hm
  unfold menux_result at h
  dsimp only at h
  by_cases hk2 : key = 2
  · have hx2 : x1 = pos := by rw [hx, hk2]; rfl
    have hgt : x1 > -1 := by omega
    rw [if_pos hgt] at h
    simp only [Out.done.injEq, Prod.mk.injEq] at h
    obtain ⟨hr, hs⟩ := h
    refine ⟨new, by rw [← hs, ht], [], trivial, Or.inl ⟨pos, ?_, ?_, p0, ?_, ?_⟩⟩
    · rw [hn, hk2]; rfl
    · exact hm
    · exact p1
    · rw [← hr, hx2, toInt16_small ((m : Int) * 10) (by omega) (by omega),
        toInt16_small _ (by omega) (by omega)]
      simp only [List.length_nil, Nat.add_zero]
      omega
  · by_cases hk3 : key = 3
    · have hx3 : x1 = -3 := by rw [hx, hk3]; rfl
      have hgt : ¬ x1 > -1 := by omega
      rw [if_neg hgt, if_pos hx3] at h
      simp only [Out.done.injEq, Prod.mk.injEq] at h
      obtain ⟨hr, hs⟩ := h
      refine ⟨new, by rw [← hs, ht], [], trivial, Or.inr (Or.inl ⟨pos, ?_, hm, hr.symm⟩)⟩
      rw [hn, hk3]; rfl
    · have hx1 : x1 = -1 := by
        rw [hx]
        unfold nav_switch
        rw [if_neg hk2, if_neg hk3]
        split_ifs <;> rfl
      have hgt : ¬ x1 > -1 := by omega
      have hne : ¬ x1 = -3 := by omega
      rw [if_neg hgt, if_neg hne] at h
      obtain ⟨new2, ht2, pre, hadv, hcase⟩ := hrest s1 r sys1 h
      have hkey : key = 1 ∨ key = 4 := by omega
      have hlen : m + (Ev.nav (m : Int) key pos :: pre).length = m + 1 + pre.length := by
        rw [List.length_cons]; omega
      refine ⟨new ++ new2, by rw [ht2, ht, List.append_assoc], Ev.nav (m : Int) key pos :: pre,
        ⟨⟨pos, ?_⟩, hadv⟩, ?_⟩
      · rcases hkey with h1 | h1
        · left; rw [h1]
        · right; rw [h1]
      · rw [navOnly_append, hn, hlen]
        rcases hcase with ⟨i, c1, c2, c3, c4, c5⟩ | ⟨i, c1, c2, c3⟩ | ⟨c1, c2, c3⟩
        · exact Or.inl ⟨i, by rw [c1]; rfl, c2, c3, c4, c5⟩
        · exact Or.inr (Or.inl ⟨i, by rw [c1]; rfl, c2, c3⟩)
        · exact Or.inr (Or.inr ⟨by rw [c1]; rfl, c2, c3⟩)

theorem INT0_vect_knob (pind : Nat) (g g1 : Globals) (h : g.tuningknob = g1.tuningknob) :
    (INT0_vect pind g).tuningknob = (INT0_vect pind g1).tuningknob := by
  unfold INT0_vect
  dsimp only
  split_ifs <;> first | rfl | exact h

theorem isr_run_knob (l : List Nat) (g g1 : Globals) (h : g.tuningknob = g1.tuningknob) :
    (isr_run l g).tuningknob = (isr_run l g1).tuningknob := by
  induction l generalizing g g1 with
  | nil => exact h
  | cons p rest ih =>
      rw [isr_run, isr_run]
      exact ih _ _ (INT0_vect_knob p g g1 h)

theorem irq_ticks_knob (n : Nat) (g : Globals) : (irq_ticks n g).tuningknob = g.tuningknob := by
  induction n generalizing g with
  | zero => rfl
  | succ n ih =>
      rw [irq_ticks, ih]
      rfl

/-- The flag after a poll depends on the flag before and the poll only. -/
theorem irq_knob (p : Poll) (g : Globals) : (irq p g).tuningknob = pollFlag g.tuningknob p := by
  unfold pollFlag irq
  rw [irq_ticks_knob, irq_ticks_knob]
  exact isr_run_knob p.enc _ _ rfl

theorem call_get_keys_knob (s : Sys) (k : Int) (s1 : Sys) (h : call_get_keys s = some (k, s1)) :
    ∃ p, s.input = p :: s1.input ∧ k = get_keys p.adc0 ∧
      s1.g.tuningknob = pollFlag s.g.tuningknob p := by
  obtain ⟨p, rest, hin, hk, hs⟩ := call_get_keys_some s k s1 h
  subst hs
  exact ⟨p, hin, hk, irq_knob p s.g⟩

/-- The loop `while(get_keys());` consumes the polls up to the first one without a key. -/
theorem drain_keys_release (n : Nat) (s s1 : Sys) (h : drain_keys n s = .done s1) :
    menuRelease s.g.tuningknob s.input = some (s1.g.tuningknob, s1.input) := by
  induction n generalizing s with
  | zero => exact absurd h (by simp [drain_keys])
  | succ n ih =>
      rw [drain_keys] at h
      cases hc : call_get_keys s with
      | none => rw [hc] at h; exact absurd h (by simp)
      | some r =>
          obtain ⟨k, s2⟩ := r
          rw [hc] at h
          dsimp only at h
          obtain ⟨p, hin, hk, hfl⟩ := call_get_keys_knob s k s2 hc
          rw [hin, menuRelease, ← hk, ← hfl]
          by_cases hk0 : k ≠ 0
          · rw [if_pos hk0] at h ⊢
            exact ih s2 h
          · rw [if_neg hk0] at h ⊢
            simp only [Out.done.injEq] at h
            rw [h]

theorem nav_turn_menuTurn (maxitems : Int) (s : Nav) (h0 : 0 ≤ s.menu_pos)
    (h1 : s.menu_pos ≤ maxitems) (h2 : maxitems ≤ 32767) :
    (nav_turn maxitems s).menu_pos = menuTurn maxitems s.menu_pos s.sys.g.tuningknob := by
  obtain ⟨_, a, b, c, _⟩ := nav_turn_spec maxitems s h0 h1 h2
  unfold menuTurn
  by_cases hcw : s.sys.g.tuningknob ≤ -1
  · rw [if_pos hcw]; exact a hcw
  · rw [if_neg hcw]
    by_cases hccw : s.sys.g.tuningknob ≥ 1
    · rw [if_pos hccw]; exact b hccw
    · rw [if_neg hccw]; exact c (by omega)

theorem nav_read_key_select (s s1 : Nav) (h : Nav.read_key s = .done s1) :
    ∃ p, s.sys.input = p :: s1.sys.input ∧ s1.key = get_keys p.adc0 ∧
      s1.sys.g.tuningknob = pollFlag s.sys.g.tuningknob p ∧ s1.menu_pos = s.menu_pos := by
  unfold Nav.read_key at h
  cases hc : call_get_keys s.sys with
  | none => rw [hc] at h; exact absurd h (by simp)
  | some r =>
      obtain ⟨k, s2⟩ := r
      rw [hc] at h
      simp only [Out.done.injEq] at h
      obtain ⟨p, hin, hk, hfl⟩ := call_get_keys_knob s.sys k s2 hc
      rw [← h]
      exact ⟨p, hin, hk, hfl, rfl⟩

/-- The loop of `navigate_thru_item_list`, entered with a key already read: with no key it
selects as `menuSelect` does, starting from the item the pending flag leads to. -/
theorem nav_loop_select (maxitems : Int) (h2 : maxitems ≤ 32767) (n : Nat) (s s1 : Nav)
    (h0 : 0 ≤ s.menu_pos) (h1 : s.menu_pos ≤ maxitems) (h : nav_loop maxitems n s = .done s1) :
    (s.key ≠ 0 ∧ s1 = s) ∨
    (s.key = 0 ∧
      menuSelect maxitems (menuTurn maxitems s.menu_pos s.sys.g.tuningknob) 0 s.sys.input
        = some (s1.key, s1.menu_pos, s1.sys.g.tuningknob, s1.sys.input)) := by
  induction n generalizing s with
  | zero => exact absurd h (by simp [nav_loop])
  | succ n ih =>
      rw [nav_loop] at h
      by_cases hk : s.key = 0
      · rw [if_pos hk] at h
        obtain ⟨s2, e1, e2⟩ := (Out.bind_eq_done _ _ _).1 h
        obtain ⟨p, hin, hkey, hfl, hpos⟩ := nav_read_key_select _ _ e1
        obtain ⟨⟨t0, t1⟩, _, _, _, tfl, _, _, tin⟩ := nav_turn_spec maxitems s h0 h1 h2
        have hm := nav_turn_menuTurn maxitems s h0 h1 h2
        rw [tin] at hin
        rw [tfl] at hfl
        rw [hm] at hpos
        right
        refine ⟨hk, ?_⟩
        rw [hin, menuSelect, ← hkey, ← hfl, ← hpos]
        rcases ih s2 (by rw [hpos, ← hm]; exact t0) (by rw [hpos, ← hm]; exact t1) e2 with
          ⟨hne, hs⟩ | ⟨hz, hsel⟩
        · rw [if_pos hne, hs]
        · rw [if_neg (by rw [hz]; simp), hsel]
      · rw [if_neg hk] at h
        simp only [Out.done.injEq] at h
        exact Or.inl ⟨hk, h.symm⟩

/-- The function `navigate_thru_item_list` returns what `menuSelect` from item 0, followed
by the release of the key, reads off the input. -/
theorem navigate_select (fuel : Nat) (m maxitems : Int) (sys : Sys) (r : Int) (sys1 : Sys)
    (h0 : 0 ≤ maxitems) (h2 : maxitems ≤ 32767)
    (h : navigate_thru_item_list fuel m maxitems sys = .done (r, sys1)) :
    ∃ key pos fl rest,
      menuSelect maxitems 0 sys.g.tuningknob sys.input = some (key, pos, fl, rest) ∧
      menuRelease fl rest = some (sys1.g.tuningknob, sys1.input) ∧
      r = nav_switch key pos ∧ 1 ≤ key ∧ key ≤ 4 ∧ 0 ≤ pos ∧ pos ≤ maxitems := by
  unfold navigate_thru_item_list at h
  obtain ⟨s1, e1, h⟩ := (Out.bind_eq_done _ _ _).1 h
  obtain ⟨s2, e2, h⟩ := (Out.bind_eq_done _ _ _).1 h
  obtain ⟨s3, e3, h⟩ := (Out.bind_eq_done _ _ _).1 h
  obtain ⟨p, hin, hkey, hfl, hpos⟩ := nav_read_key_select _ _ e1
  have hp : ∀ k, isKeys (Ev.keys k) := fun k => ⟨k, rfl⟩
  obtain ⟨_, _, k0, k4⟩ := Out.All_of_eq_done
    (nav_read_key_all isKeys hp { sys := sys, menu_pos := 0, key := 0 }) e1
  obtain ⟨_, p0, p1, q1, q4⟩ := Out.All_of_eq_done
    (nav_loop_all isKeys hp maxitems h2 fuel s1 (by rw [hpos]) (by rw [hpos]; exact h0) k0 k4) e2
  have hrel := drain_keys_release fuel s2.sys s3 e3
  simp only [Out.done.injEq, Prod.mk.injEq] at h
  obtain ⟨hr, hs⟩ := h
  have hs1 : sys1.g.tuningknob = s3.g.tuningknob ∧ sys1.input = s3.input := by
    rw [← hs]; exact ⟨rfl, rfl⟩
  refine ⟨s2.key, s2.menu_pos, s2.sys.g.tuningknob, s2.sys.input, ?_, ?_, hr.symm, q1, q4, p0,
    p1⟩
  · dsimp only at hin hfl hpos
    rw [hin, menuSelect, ← hkey, ← hfl]
    rcases nav_loop_select maxitems h2 fuel s1 s2 (by rw [hpos]) (by rw [hpos]; exact h0) e2
      with ⟨hne, hs⟩ | ⟨hz, hsel⟩
    · rw [if_pos hne, hs, hpos]
    · rw [hpos] at hsel
      rw [if_neg (by rw [hz]; simp), hsel]
  · rw [hs1.1, hs1.2]
    exact hrel

theorem menux_group_select (fuel : Nat) (m : Nat) (d : Bool) (sys : Sys) (r : Int) (sys1 : Sys)
    (hm : m ≤ 4) (h : menux_group fuel m d sys = .done (r, sys1)) :
    ∃ key pos,
      menuGroup (menu_items.getD m 0) d sys.g.tuningknob sys.input
        = some (key, pos, sys1.g.tuningknob, sys1.input) ∧
      r = nav_switch key pos ∧ 1 ≤ key ∧ key ≤ 4 ∧ 0 ≤ pos ∧ pos ≤ menu_items.getD m 0 := by
  unfold menux_group at h
  obtain ⟨s1, e1, h⟩ := (Out.bind_eq_done _ _ _).1 h
  obtain ⟨b0, b3⟩ := menu_items_bound m hm
  obtain ⟨key, pos, fl, rest, hsel, hrel, hr, k1, k4, p0, p1⟩ :=
    navigate_select fuel m (menu_items.getD m 0) s1 r sys1 b0 (by omega) h
  have hw : (if d = true then menuRelease sys.g.tuningknob sys.input
      else some (sys.g.tuningknob, sys.input)) = some (s1.g.tuningknob, s1.input) := by
    cases d with
    | true =>
        rw [if_pos rfl] at e1 ⊢
        exact drain_keys_release fuel sys s1 e1
    | false =>
        rw [if_neg (by simp)] at e1 ⊢
        simp only [Out.done.injEq] at e1
        rw [e1]
  refine ⟨key, pos, ?_, hr, k1, k4, p0, p1⟩
  unfold menuGroup
  rw [hw]
  simp only [Option.some_bind, hsel, hrel]

theorem menux_step_end (fuel : Nat) (m : Nat) (d : Bool) (more : List (Nat × Int × Bool))
    (rest : Sys → Out (Int × Sys)) (hm : m ≤ 4)
    (hrest : ∀ s r s1, rest s = .done (r, s1) →
      ∃ out, menuFrom more s.g.tuningknob s.input = some out ∧ r = out.value ∧ out.inRange)
    (sys : Sys) (r : Int) (sys1 : Sys)
    (h : ((menux_group fuel m d sys).bind fun x => menux_result (m : Int) x rest)
      = .done (r, sys1)) :
    ∃ out, menuFrom ((m, menu_items.getD m 0, d) :: more) sys.g.tuningknob sys.input = some out ∧
      r = out.value ∧ out.inRange := by
  obtain ⟨x, e1, h⟩ := (Out.bind_eq_done _ _ _).1 h
  obtain ⟨x1, s1⟩ := x
  obtain ⟨key, pos, hg, hx, k1, k4, p0, p1⟩ := menux_group_select fuel m d sys x1 s1 hm e1
  obtain ⟨b0, b3⟩ := menu_items_bound m hm
  rw [menuFrom, hg]
  simp only [Option.some_bind]
  unfold menux_result at h
  dsimp only at h
  by_cases hk2 : key = 2
  · have hx2 : x1 = pos := by rw [hx, hk2]; rfl
    have hgt : x1 > -1 := by omega
    rw [if_pos hgt] at h
    simp only [Out.done.injEq, Prod.mk.injEq] at h
    rw [if_pos hk2]
    refine ⟨MenuEnd.confirm m pos, rfl, ?_, hm, p0, p1⟩
    rw [← h.1, hx2, toInt16_small ((m : Int) * 10) (by omega) (by omega),
      toInt16_small _ (by omega) (by omega)]
    show (m : Int) * 10 + pos = 10 * (m : Int) + pos
    omega
  · rw [if_neg hk2]
    by_cases hk3 : key = 3
    · have hx3 : x1 = -3 := by rw [hx, hk3]; rfl
      have hgt : ¬ x1 > -1 := by omega
      rw [if_neg hgt, if_pos hx3] at h
      simp only [Out.done.injEq, Prod.mk.injEq] at h
      rw [if_pos hk3]
      exact ⟨MenuEnd.quit m, rfl, h.1.symm, hm⟩
    · have hx1 : x1 = -1 := by
        rw [hx]
        unfold nav_switch
        rw [if_neg hk2, if_neg hk3]
        split_ifs <;> rfl
      have hgt : ¬ x1 > -1 := by omega
      have hne : ¬ x1 = -3 := by omega
      rw [if_neg hgt, if_neg hne] at h
      rw [if_neg hk3]
      exact hrest s1 r sys1 h

/-- Whenever `menux` returns, the value is the one the contract assigns to the ending read
off the input. -/
theorem menux_menuEnd (fuel : Nat) (sys : Sys) (r : Int) (sys1 : Sys)
    (hd : menux fuel sys = .done (r, sys1)) :
    ∃ out, menuEnd sys.g.tuningknob sys.input = some out ∧ r = out.value ∧ out.inRange := by
  unfold menux at hd
  unfold menuEnd menuGroups
  refine menux_step_end fuel 0 true _ _ (by omega) ?_ sys r sys1 hd
  intro s r s1 h1
  refine menux_step_end fuel 1 false _ _ (by omega) ?_ s r s1 h1
  intro s r s1 h1
  refine menux_step_end fuel 2 true _ _ (by omega) ?_ s r s1 h1
  intro s r s1 h1
  refine menux_step_end fuel 3 true _ _ (by omega) ?_ s r s1 h1
  intro s r s1 h1
  refine menux_step_end fuel 4 true _ _ (by omega) ?_ s r s1 h1
  intro s r s1 h1
  simp only [Out.done.injEq, Prod.mk.injEq] at h1
  exact ⟨MenuEnd.past, rfl, h1.1.symm, trivial⟩

theorem call_get_keys_cons (s : Sys) (p : Poll) (rest : List Poll) (h : s.input = p :: rest) :
    call_get_keys s = some (get_keys p.adc0,
      { g := irq p s.g, e := s.e, input := rest,
        trace := s.trace ++ [Ev.keys (get_keys p.adc0)] }) := by
  unfold call_get_keys
  rw [h]

/-- With more iterations allowed than polls are left, the loop `while(get_keys());` ends as
soon as the release is read off the input. -/
theorem drain_keys_returns (n : Nat) (s : Sys) (fl : Int) (rest : List Poll)
    (h : menuRelease s.g.tuningknob s.input = some (fl, rest)) (hn : s.input.length < n) :
    ∃ s1, drain_keys n s = .done s1 ∧ s1.g.tuningknob = fl ∧ s1.input = rest ∧
      s1.input.length < s.input.length := by
  induction n generalizing s with
  | zero => omega
  | succ n ih =>
      cases hin : s.input with
      | nil => rw [hin, menuRelease] at h; exact absurd h (by simp)
      | cons p more =>
          rw [hin, menuRelease] at h
          rw [hin, List.length_cons] at hn
          rw [drain_keys, call_get_keys_cons s p more hin]
          dsimp only
          by_cases hk : get_keys p.adc0 ≠ 0
          · rw [if_pos hk] at h ⊢
            obtain ⟨s1, e1, e2, e3, e4⟩ := ih
              { g := irq p s.g, e := s.e, input := more,
                trace := s.trace ++ [Ev.keys (get_keys p.adc0)] }
              (by rw [irq_knob]; exact h) (by show more.length < n; omega)
            refine ⟨s1, e1, e2, e3, ?_⟩
            rw [List.length_cons]
            exact Nat.lt_succ_of_lt e4
          · rw [if_neg hk] at h ⊢
            simp only [Option.some.injEq, Prod.mk.injEq] at h
            refine ⟨_, rfl, ?_, h.2, ?_⟩
            · rw [irq_knob]; exact h.1
            · show more.length < (p :: more).length
              rw [List.length_cons]
              exact Nat.lt_succ_self _

theorem nav_read_key_cons (s : Nav) (p : Poll) (rest : List Poll) (h : s.sys.input = p :: rest) :
    Nav.read_key s = .done
      { s with
        sys := { g := irq p s.sys.g, e := s.sys.e, input := rest,
                 trace := s.sys.trace ++ [Ev.keys (get_keys p.adc0)] },
        key := get_keys p.adc0 } := by
  unfold Nav.read_key
  rw [call_get_keys_cons s.sys p rest h]

/-- With more iterations allowed than polls are left, the loop of `navigate_thru_item_list`
ends as soon as a key press is read off the input. -/
theorem nav_loop_returns (maxitems : Int) (h2 : maxitems ≤ 32767) (n : Nat) (s : Nav)
    (h0 : 0 ≤ s.menu_pos) (h1 : s.menu_pos ≤ maxitems) (hk : s.key = 0)
    (key pos fl : Int) (rest : List Poll)
    (h : menuSelect maxitems (menuTurn maxitems s.menu_pos s.sys.g.tuningknob) 0 s.sys.input
      = some (key, pos, fl, rest))
    (hn : s.sys.input.length + 1 < n) :
    ∃ s1, nav_loop maxitems n s = .done s1 ∧ s1.key = key ∧ s1.menu_pos = pos ∧
      s1.sys.g.tuningknob = fl ∧ s1.sys.input = rest ∧
      s1.sys.input.length < s.sys.input.length := by
  induction n generalizing s with
  | zero => omega
  | succ n ih =>
      obtain ⟨⟨t0, t1⟩, _, _, _, tfl, _, _, tin⟩ := nav_turn_spec maxitems s h0 h1 h2
      have hm := nav_turn_menuTurn maxitems s h0 h1 h2
      rw [nav_loop, if_pos hk]
      cases hin : s.sys.input with
      | nil => rw [hin, menuSelect] at h; exact absurd h (by simp)
      | cons p more =>
          rw [hin, menuSelect] at h
          rw [hin, List.length_cons] at hn
          rw [nav_read_key_cons (nav_turn maxitems s) p more (by rw [tin, hin])]
          simp only [Out.bind]
          by_cases hkey : get_keys p.adc0 ≠ 0
          · rw [if_pos hkey] at h
            simp only [Option.some.injEq, Prod.mk.injEq] at h
            obtain ⟨a, b, c, d⟩ := h
            cases n with
            | zero => omega
            | succ n =>
                rw [nav_loop, if_neg hkey]
                refine ⟨_, rfl, a, by rw [← b, ← hm], ?_, d, ?_⟩
                · show (irq p (nav_turn maxitems s).sys.g).tuningknob = fl
                  rw [irq_knob, tfl]; exact c
                · show more.length < (p :: more).length
                  rw [List.length_cons]
                  exact Nat.lt_succ_self _
          · rw [if_neg hkey] at h
            have hz : get_keys p.adc0 = 0 := by
              by_contra hne
              exact hkey hne
            obtain ⟨s1, e1, e2, e3, e4, e5, e6⟩ := ih
              { nav_turn maxitems s with
                sys := { g := irq p (nav_turn maxitems s).sys.g, e := (nav_turn maxitems s).sys.e,
                         input := more,
                         trace := (nav_turn maxitems s).sys.trace ++ [Ev.keys (get_keys p.adc0)] },
                key := get_keys p.adc0 }
              t0 t1 hz
              (by
                show menuSelect maxitems (menuTurn maxitems (nav_turn maxitems s).menu_pos
                  (irq p (nav_turn maxitems s).sys.g).tuningknob) 0 more = _
                rw [irq_knob, tfl, hm]
                exact h)
              (by show more.length + 1 < n; omega)
            refine ⟨s1, e1, e2, e3, e4, e5, ?_⟩
            rw [List.length_cons]
            exact Nat.lt_succ_of_lt e6

/-- With more iterations allowed than polls are left, `navigate_thru_item_list` returns as
soon as a key press and its release are read off the input. -/
theorem navigate_returns (fuel : Nat) (m maxitems : Int) (sys : Sys) (h0 : 0 ≤ maxitems)
    (h2 : maxitems ≤ 32767) (key pos fl : Int) (rest : List Poll) (fl2 : Int)
    (rest2 : List Poll)
    (hsel : menuSelect maxitems 0 sys.g.tuningknob sys.input = some (key, pos, fl, rest))
    (hrel : menuRelease fl rest = some (fl2, rest2)) (hn : sys.input.length < fuel) :
    ∃ sys1, navigate_thru_item_list fuel m maxitems sys = .done (nav_switch key pos, sys1) ∧
      sys1.g.tuningknob = fl2 ∧ sys1.input = rest2 ∧ sys1.input.length < sys.input.length := by
  cases hin : sys.input with
  | nil => rw [hin, menuSelect] at hsel; exact absurd hsel (by simp)
  | cons p more =>
      rw [hin, menuSelect] at hsel
      rw [hin, List.length_cons] at hn
      have hloop : ∃ s2, nav_loop maxitems fuel
            { sys := { g := irq p sys.g, e := sys.e, input := more,
                       trace := sys.trace ++ [Ev.keys (get_keys p.adc0)] },
              menu_pos := 0, key := get_keys p.adc0 } = .done s2 ∧
          s2.key = key ∧ s2.menu_pos = pos ∧ s2.sys.g.tuningknob = fl ∧ s2.sys.input = rest ∧
          s2.sys.input.length ≤ more.length := by
        by_cases hkey : get_keys p.adc0 ≠ 0
        · rw [if_pos hkey] at hsel
          simp only [Option.some.injEq, Prod.mk.injEq] at hsel
          obtain ⟨a, b, c, d⟩ := hsel
          cases fuel with
          | zero => omega
          | succ n =>
              rw [nav_loop, if_neg hkey]
              refine ⟨_, rfl, a, b, ?_, d, le_refl _⟩
              show (irq p sys.g).tuningknob = fl
              rw [irq_knob]; exact c
        · rw [if_neg hkey] at hsel
          have hz : get_keys p.adc0 = 0 := by
            by_contra hne
            exact hkey hne
          obtain ⟨s2, e1, e2, e3, e4, e5, e6⟩ := nav_loop_returns maxitems h2 fuel
            { sys := { g := irq p sys.g, e := sys.e, input := more,
                       trace := sys.trace ++ [Ev.keys (get_keys p.adc0)] },
              menu_pos := 0, key := get_keys p.adc0 }
            (le_refl _) h0 hz key pos fl rest
            (by
              show menuSelect maxitems (menuTurn maxitems 0 (irq p sys.g).tuningknob) 0 more = _
              rw [irq_knob]
              exact hsel)
            (by show more.length + 1 < fuel; omega)
          exact ⟨s2, e1, e2, e3, e4, e5, Nat.le_of_lt e6⟩
      obtain ⟨s2, e1, e2, e3, e4, e5, e6⟩ := hloop
      obtain ⟨s3, d1, d2, d3, d4⟩ := drain_keys_returns fuel s2.sys fl2 rest2
        (by rw [e4, e5]; exact hrel) (by omega)
      refine ⟨s3.log (Ev.nav m s2.key s2.menu_pos), ?_, d2, d3, ?_⟩
      · unfold navigate_thru_item_list
        rw [nav_read_key_cons { sys := sys, menu_pos := 0, key := 0 } p more hin]
        simp only [Out.bind]
        rw [e1]
        simp only [Out.bind]
        rw [d1, e2, e3]
      · show s3.input.length < (p :: more).length
        rw [List.length_cons]
        omega

theorem menux_group_returns (fuel : Nat) (m : Nat) (d : Bool) (sys : Sys) (hm : m ≤ 4)
    (key pos fl : Int) (rest : List Poll)
    (h : menuGroup (menu_items.getD m 0) d sys.g.tuningknob sys.input = some (key, pos, fl, rest))
    (hn : sys.input.length < fuel) :
    ∃ sys1, menux_group fuel m d sys = .done (nav_switch key pos, sys1) ∧
      sys1.g.tuningknob = fl ∧ sys1.input = rest ∧ sys1.input.length < sys.input.length := by
  obtain ⟨b0, b3⟩ := menu_items_bound m hm
  unfold menuGroup at h
  obtain ⟨a, ha, h⟩ := Option.bind_eq_some.1 h
  obtain ⟨b, hb, h⟩ := Option.bind_eq_some.1 h
  obtain ⟨c, hc, h⟩ := Option.bind_eq_some.1 h
  simp only [Option.some.injEq, Prod.mk.injEq] at h
  obtain ⟨k1, k2, k3, k4⟩ := h
  obtain ⟨bk, bp, bf, br⟩ := b
  obtain ⟨cf, cr⟩ := c
  dsimp only at hc k1 k2 k3 k4
  subst k1 k2 k3 k4
  have hw : ∃ s1, (if d = true then drain_keys fuel sys else .done sys) = .done s1 ∧
      s1.g.tuningknob = a.1 ∧ s1.input = a.2 ∧ s1.input.length ≤ sys.input.length := by
    cases d with
    | true =>
        rw [if_pos rfl] at ha ⊢
        obtain ⟨s1, d1, d2, d3, d4⟩ := drain_keys_returns fuel sys a.1 a.2 ha hn
        exact ⟨s1, d1, d2, d3, Nat.le_of_lt d4⟩
    | false =>
        rw [if_neg (by simp)] at ha ⊢
        simp only [Option.some.injEq] at ha
        rw [← ha]
        exact ⟨sys, rfl, rfl, rfl, le_refl _⟩
  obtain ⟨s1, w1, w2, w3, w4⟩ := hw
  obtain ⟨sys1, n1, n2, n3, n4⟩ := navigate_returns fuel m (menu_items.getD m 0) s1 b0
    (by omega) bk bp bf br cf cr (by rw [w2, w3]; exact hb) hc (by omega)
  refine ⟨sys1, ?_, n2, n3, by omega⟩
  unfold menux_group
  rw [w1]
  simp only [Out.bind]
  exact n1

theorem menux_step_returns (fuel : Nat) (m : Nat) (d : Bool) (more : List (Nat × Int × Bool))
    (rest : Sys → Out (Int × Sys)) (hm : m ≤ 4)
    (hrest : ∀ s out, menuFrom more s.g.tuningknob s.input = some out → s.input.length < fuel →
      (rest s).ret = some out.value)
    (sys : Sys) (out : MenuEnd)
    (h : menuFrom ((m, menu_items.getD m 0, d) :: more) sys.g.tuningknob sys.input = some out)
    (hn : sys.input.length < fuel) :
    ((menux_group fuel m d sys).bind fun x => menux_result (m : Int) x rest).ret
      = some out.value := by
  rw [menuFrom] at h
  obtain ⟨b, hb, h⟩ := Option.bind_eq_some.1 h
  obtain ⟨key, pos, fl, inp⟩ := b
  dsimp only at h
  obtain ⟨sys1, g1, g2, g3, g4⟩ := menux_group_returns fuel m d sys hm key pos fl inp hb hn
  obtain ⟨key1, pos1, hg, _, k1, k4, p0, p1⟩ :=
    menux_group_select fuel m d sys (nav_switch key pos) sys1 hm g1
  rw [hb] at hg
  simp only [Option.some.injEq, Prod.mk.injEq] at hg
  obtain ⟨hk, hp, _, _⟩ := hg
  rw [← hk] at k1 k4
  rw [← hp] at p0 p1
  obtain ⟨b0, b3⟩ := menu_items_bound m hm
  rw [g1]
  simp only [Out.bind]
  unfold menux_result
  dsimp only
  by_cases hk2 : key = 2
  · rw [if_pos hk2] at h
    simp only [Option.some.injEq] at h
    have hx2 : nav_switch key pos = pos := by rw [hk2]; rfl
    rw [hx2, if_pos (by omega), ← h, toInt16_small ((m : Int) * 10) (by omega) (by omega),
      toInt16_small _ (by omega) (by omega)]
    show some ((m : Int) * 10 + pos) = some (10 * (m : Int) + pos)
    rw [mul_comm]
  · rw [if_neg hk2] at h
    by_cases hk3 : key = 3
    · rw [if_pos hk3] at h
      simp only [Option.some.injEq] at h
      have hx3 : nav_switch key pos = -3 := by rw [hk3]; rfl
      rw [hx3, if_neg (by omega), if_pos rfl, ← h]
      rfl
    · rw [if_neg hk3] at h
      have hx1 : nav_switch key pos = -1 := by
        unfold nav_switch
        rw [if_neg hk2, if_neg hk3]
        split_ifs <;> rfl
      rw [hx1, if_neg (by omega), if_neg (by omega)]
      exact hrest sys1 out (by rw [g2, g3]; exact h) (by omega)

/-- Whenever the input holds an ending of the menu, `menux` returns the value the contract
assigns to it, given more iterations than there are polls. -/
theorem menux_returns (fuel : Nat) (sys : Sys) (out : MenuEnd)
    (h : menuEnd sys.g.tuningknob sys.input = some out) (hn : sys.input.length < fuel) :
    (menux fuel sys).ret = some out.value := by
  unfold menuEnd menuGroups at h
  unfold menux
  refine menux_step_returns fuel 0 true _ _ (by omega) ?_ sys out h hn
  intro s out h hn
  refine menux_step_returns fuel 1 false _ _ (by omega) ?_ s out h hn
  intro s out h hn
  refine menux_step_returns fuel 2 true _ _ (by omega) ?_ s out h hn
  intro s out h hn
  refine menux_step_returns fuel 3 true _ _ (by omega) ?_ s out h hn
  intro s out h hn
  refine menux_step_returns fuel 4 true _ _ (by omega) ?_ s out h hn
  intro s out h hn
  rw [menuFrom] at h
  simp only [Option.some.injEq] at h
  rw [← h]
  rfl

theorem MenuEnd.value_confirm (out : MenuEnd) (hr : out.inRange) (g : Nat) (i : Int)
    (hg : g ≤ 4) (h0 : 0 ≤ i) (h1 : i ≤ menu_items.getD g 0) :
    out.value = 10 * (g : Int) + i ↔ out = MenuEnd.confirm g i := by
  obtain ⟨_, b3⟩ := menu_items_bound g hg
  constructor
  · intro h
    cases out with
    | confirm g1 i1 =>
        obtain ⟨r1, r2, r3⟩ := hr
        obtain ⟨_, c3⟩ := menu_items_bound g1 r1
        have h5 : 10 * (g1 : Int) + i1 = 10 * (g : Int) + i := h
        have hgg : g1 = g := by omega
        subst hgg
        have hii : i1 = i := by omega
        rw [hii]
    | quit g1 =>
        have h5 : (-3 : Int) = 10 * (g : Int) + i := h
        omega
    | past =>
        have h5 : (-2 : Int) = 10 * (g : Int) + i := h
        omega
  · intro h
    rw [h]
    rfl

theorem MenuEnd.value_quit (out : MenuEnd) (hr : out.inRange) :
    out.value = -3 ↔ ∃ g, out = MenuEnd.quit g := by
  constructor
  · intro h
    cases out with
    | confirm g1 i1 =>
        obtain ⟨r1, r2, r3⟩ := hr
        have h5 : 10 * (g1 : Int) + i1 = -3 := h
        omega
    | quit g1 => exact ⟨g1, rfl⟩
    | past => exact absurd h (by decide)
  · rintro ⟨g, h⟩
    rw [h]
    rfl

theorem MenuEnd.value_past (out : MenuEnd) (hr : out.inRange) :
    out.value = -2 ↔ out = MenuEnd.past := by
  constructor
  · intro h
    cases out with
    | confirm g1 i1 =>
        obtain ⟨r1, r2, r3⟩ := hr
        have h5 : 10 * (g1 : Int) + i1 = -2 := h
        omega
    | quit g1 =>
        have h5 : (-3 : Int) = -2 := h
        omega
    | past => rfl
  · intro h
    rw [h]
    rfl

/-- C12: whenever `menux` returns `r`, the polls it was given hold an ending `out` of the
menu, read off the keys `get_keys` reports and the encoder steps alone (`menuEnd`), and `r`
is the value the contract assigns to it.  So `r = 10 * g + i` exactly when key 2 was pressed
with item `i` selected in group `g` (`g` in 0..4, `0 <= i <= menu_items[g]`, sizes 4, 2, 4,
2, 3); `r = -3` exactly when key 3 was pressed in some group; `r = -2` exactly when the last
group was advanced past (by key 1; key 4 takes the same path); and there is no other value.
The value does not depend on the iteration bound: every bound above the number of polls
gives `r`.  The navigations recorded are those of the groups 0, 1, ... in order and end in
the way `r` says. -/
theorem C12_menux_return_contract (fuel : Nat) (sys : Sys) (r : Int)
    (h : (menux fuel sys).ret = some r) :
    ∃ out, menuEnd sys.g.tuningknob sys.input = some out ∧ out.inRange ∧ r = out.value ∧
      (∀ (g : Nat) (i : Int), g ≤ 4 → 0 ≤ i → i ≤ menu_items.getD g 0 →
        (r = 10 * (g : Int) + i ↔ out = MenuEnd.confirm g i)) ∧
      (r = -3 ↔ ∃ g, out = MenuEnd.quit g) ∧
      (r = -2 ↔ out = MenuEnd.past) ∧
      (∀ fuel1, sys.input.length < fuel1 → (menux fuel1 sys).ret = some r) ∧
      ∃ sys1 new, menux fuel sys = .done (r, sys1) ∧ sys1.trace = sys.trace ++ new ∧
        menuDone (navOnly new) r 0 := by
  obtain ⟨sys1, hd⟩ := (Out.ret_eq_some _ _).1 h
  obtain ⟨out, ho, hv, hr⟩ := menux_menuEnd fuel sys r sys1 hd
  refine ⟨out, ho, hr, hv, ?_, ?_, ?_, ?_, sys1, ?_⟩
  · intro g i hg h0 h1
    rw [hv]
    exact MenuEnd.value_confirm out hr g i hg h0 h1
  · rw [hv]
    exact MenuEnd.value_quit out hr
  · rw [hv]
    exact MenuEnd.value_past out hr
  · intro fuel1 hf
    rw [hv]
    exact menux_returns fuel1 sys out ho hf
  · have key : ∃ new, sys1.trace = sys.trace ++ new ∧ menuDone (navOnly new) r 0 := by
      unfold menux at hd
      refine menux_step fuel 0 true _ (by omega) ?_ sys r sys1 hd
      intro s r s1 h1
      refine menux_step fuel 1 false _ (by omega) ?_ s r s1 h1
      intro s r s1 h1
      refine menux_step fuel 2 true _ (by omega) ?_ s r s1 h1
      intro s r s1 h1
      refine menux_step fuel 3 true _ (by omega) ?_ s r s1 h1
      intro s r s1 h1
      refine menux_step fuel 4 true _ (by omega) ?_ s r s1 h1
      intro s r s1 h1
      simp only [Out.done.injEq, Prod.mk.injEq] at h1
      obtain ⟨hr, hs⟩ := h1
      exact ⟨[], by rw [← hs]; simp, [], trivial, Or.inr (Or.inr ⟨rfl, rfl, hr.symm⟩)⟩
    obtain ⟨new, h1, h2⟩ := key
    exact ⟨new, hd, h1, h2⟩

set_option maxRecDepth 100000 in
/-- C12 (witness): with one clockwise detent and then key 2 in the first group, `menux`
returns 1, which is `10 * 0 + 1`. -/
theorem C12_menux_return_contract_witness :
    ∃ out, menuEnd (sysOf eeZero menuInput).g.tuningknob (sysOf eeZero menuInput).input
        = some out ∧ out.inRange ∧ (1 : Int) = out.value ∧
      (∀ (g : Nat) (i : Int), g ≤ 4 → 0 ≤ i → i ≤ menu_items.getD g 0 →
        ((1 : Int) = 10 * (g : Int) + i ↔ out = MenuEnd.confirm g i)) ∧
      ((1 : Int) = -3 ↔ ∃ g, out = MenuEnd.quit g) ∧
      ((1 : Int) = -2 ↔ out = MenuEnd.past) ∧
      (∀ fuel1, (sysOf eeZero menuInput).input.length < fuel1 →
        (menux fuel1 (sysOf eeZero menuInput)).ret = some 1) ∧
      ∃ sys1 new, menux 10 (sysOf eeZero menuInput) = .done (1, sys1) ∧
        sys1.trace = (sysOf eeZero menuInput).trace ++ new ∧ menuDone (navOnly new) 1 0 :=
  C12_menux_return_contract 10 (sysOf eeZero menuInput) 1 (by decide)

/-- The ending read off the example input of the menu: key 2 on item 1 of group 0. -/
theorem menuEnd_menuInput : menuEnd 0 menuInput = some (MenuEnd.confirm 0 1) := by
  decide

/-- Key 3 pressed in the second group, after key 1 in the first: the ending is quit. -/
theorem menuEnd_quit_example :
    menuEnd 0 [pollOf 0 0, pollOf 86 0, pollOf 0 0, pollOf 50 0, pollOf 0 0]
      = some (MenuEnd.quit 1) := by
  decide

/-! ## Scan: proofs -/

theorem keySinceLoad_snoc (tr : List Ev) (ev : Ev) :
    keySinceLoad (tr ++ [ev]) = keyStep (keySinceLoad tr) ev := by
  unfold keySinceLoad
  rw [List.foldl_append]
  rfl

theorem curSlotFrom_append (c : Option Int) (a b : List Ev) :
    curSlotFrom c (a ++ b) = curSlotFrom (curSlotFrom c a) b := by
  unfold curSlotFrom
  rw [List.foldl_append]

theorem curSlotFrom_inputs (c : Option Int) (l : List Ev) (h : ∀ ev ∈ l, isInput ev) :
    curSlotFrom c l = c := by
  induction l generalizing c with
  | nil => rfl
  | cons ev rest ih =>
      have hr := ih c (fun ev1 h1 => h ev1 (List.mem_cons_of_mem _ h1))
      rcases h ev (List.mem_cons_self _ _) with ⟨k, hk⟩ | ⟨v, hv⟩
      · subst hk; exact hr
      · subst hv; exact hr

theorem InSlot_refl (p : Ev → Prop) (s : Scan) : InSlot p s s := ⟨Sys.Ext_refl _ _, rfl, rfl, rfl⟩

theorem InSlot_trans {p : Ev → Prop} {s s1 s2 : Scan} (h1 : InSlot p s s1)
    (h2 : InSlot p s1 s2) : InSlot p s s2 :=
  ⟨Sys.Ext_trans h1.1 h2.1, h2.2.1.trans h1.2.1, h2.2.2.1.trans h1.2.2.1,
    h2.2.2.2.trans h1.2.2.2⟩

theorem isInput_keys (k : Int) : isInput (Ev.keys k) := Or.inl ⟨k, rfl⟩

theorem isInput_adc2 (v : Int) : isInput (Ev.adc2 v) := Or.inr ⟨v, rfl⟩

theorem scan_read_key_all (p : Ev → Prop) (hp : ∀ k, p (Ev.keys k)) (s : Scan) (hh : Held s)
    (hk : s.key = 0) :
    (Scan.read_key s).All (Sys.Ext p s.sys)
      (fun s1 => (InSlot p s s1 ∧ Held s1) ∧ s1.sval = s.sval ∧
        s1.runsecsold10scan = s.runsecsold10scan ∧ 0 ≤ s1.key ∧ s1.key ≤ 4) := by
  unfold Scan.read_key
  cases h : call_get_keys s.sys with
  | none => exact (Out.All_starved _ _ _).2 (Sys.Ext_refl _ _)
  | some r =>
      obtain ⟨k, s1⟩ := r
      obtain ⟨hx, h0, h4, ht⟩ := call_get_keys_ext p s.sys k s1 h (hp k)
      refine (Out.All_done _ _ _).2 ⟨⟨⟨hx, rfl, rfl, rfl⟩, ?_⟩, rfl, rfl, h0, h4⟩
      show keySinceLoad s1.trace = k
      rw [ht, keySinceLoad_snoc, hh, hk]
      rfl

theorem scan_sample_all (s : Scan) (hh : Held s) :
    (Scan.sample s).All (Sys.Ext isInput s.sys)
      (fun s1 => (InSlot isInput s s1 ∧ Held s1) ∧ s1.key = s.key ∧
        s1.runsecsold10scan = s.runsecsold10scan) := by
  unfold Scan.sample
  cases h : call_get_adc2 s.sys with
  | none => exact (Out.All_starved _ _ _).2 (Sys.Ext_refl _ _)
  | some r =>
      obtain ⟨v, s1⟩ := r
      obtain ⟨⟨he, hthr, hsf, new, hnew, hall⟩, ht⟩ :=
        call_get_adc2_ext isInput s.sys v s1 h (isInput_adc2 v)
      have hsm : (show_meter v s1.g).s_threshold = s1.g.s_threshold ∧
          (show_meter v s1.g).scanfreq = s1.g.scanfreq := by
        unfold show_meter
        dsimp only
        split_ifs <;> exact ⟨rfl, rfl⟩
      refine (Out.All_done _ _ _).2
        ⟨⟨⟨⟨he, hsm.1.trans hthr, hsm.2.trans hsf, new, hnew, hall⟩, rfl, rfl, rfl⟩, ?_⟩,
        rfl, rfl⟩
      show keySinceLoad s1.trace = s.key
      rw [ht, keySinceLoad_snoc, hh]
      rfl

theorem drain_keys_held (n : Nat) (sys : Sys) (k : Int) (hk : k ≠ 0) :
    (drain_keys n sys).All (fun _ => True)
      (fun s1 => keySinceLoad sys.trace = k → keySinceLoad s1.trace = k) := by
  induction n generalizing sys with
  | zero => exact Out.All_nofuel _ _
  | succ n ih =>
      rw [drain_keys]
      cases h : call_get_keys sys with
      | none => exact (Out.All_starved _ _ _).2 trivial
      | some r =>
          obtain ⟨x, s1⟩ := r
          obtain ⟨_, _, _, ht⟩ := call_get_keys_ext isInput sys x s1 h (isInput_keys x)
          have hs : keySinceLoad sys.trace = k → keySinceLoad s1.trace = k := by
            intro hkk
            rw [ht, keySinceLoad_snoc, hkk]
            show (if k ≠ 0 then k else x) = k
            rw [if_pos hk]
          dsimp only
          by_cases hx : x ≠ 0
          · rw [if_pos hx]
            exact Out.All_mono _ (ih s1) (fun _ h => h) (fun _ h1 h2 => h1 (hs h2))
          · rw [if_neg hx]
            exact (Out.All_done _ _ _).2 hs

theorem scan_drain_all (p : Ev → Prop) (hp : ∀ k, p (Ev.keys k)) (n : Nat) (s : Scan) :
    (Scan.drain n s).All (Sys.Ext p s.sys)
      (fun s1 => InSlot p s s1 ∧ s1.key = s.key ∧ (s.key ≠ 0 → Held s → Held s1) ∧
        ∃ tr, s1.sys.trace = tr ++ [Ev.keys 0]) := by
  unfold Scan.drain
  have a := drain_keys_all p hp n s.sys
  cases hd : drain_keys n s.sys with
  | nofuel => exact Out.All_nofuel _ _
  | starved s1 =>
      rw [hd] at a
      exact (Out.All_starved _ _ _).2 ((Out.All_starved _ _ _).1 a)
  | done s1 =>
      have a1 := Out.All_of_eq_done a hd
      refine (Out.All_done _ _ _).2 ⟨⟨a1.1, rfl, rfl, rfl⟩, rfl, ?_, a1.2⟩
      intro hk hh
      exact Out.All_of_eq_done (drain_keys_held n s.sys s.key hk) hd hh

theorem scan_tick_wait_all (n : Nat) (s : Scan) (hh : Held s) :
    (scan_tick_wait n s).All (Sys.Ext isInput s.sys)
      (fun s1 => (InSlot isInput s s1 ∧ Held s1) ∧ s1.sval = s.sval) := by
  induction n generalizing s with
  | zero => exact Out.All_nofuel _ _
  | succ n ih =>
      rw [scan_tick_wait]
      by_cases hc : time_before s 1 ∧ s.key = 0
      · rw [if_pos hc]
        refine Out.All_bind _ _ (scan_read_key_all isInput isInput_keys s hh hc.2) ?_
        intro s1 ⟨⟨hx, hh1⟩, hv, _⟩
        exact Out.All_mono _ (ih s1 hh1) (fun _ h => Sys.Ext_trans hx.1 h)
          (fun _ h => ⟨⟨InSlot_trans hx h.1.1, h.1.2⟩, h.2.trans hv⟩)
      · rw [if_neg hc]
        exact (Out.All_done _ _ _).2 ⟨⟨InSlot_refl _ s, hh⟩, rfl⟩

theorem mark_time_sys (s : Scan) : (Scan.mark_time s).sys = s.sys := by
  unfold Scan.mark_time
  rfl

theorem mark_time_key (s : Scan) : (Scan.mark_time s).key = s.key := by
  unfold Scan.mark_time
  rfl

theorem mark_time_t1 (s : Scan) : (Scan.mark_time s).t1 = s.t1 := by
  unfold Scan.mark_time
  rfl

theorem mark_time_skip (s : Scan) : (Scan.mark_time s).scan_skip = s.scan_skip := by
  unfold Scan.mark_time
  rfl

theorem mark_time_f0 (s : Scan) : (Scan.mark_time s).f0 = s.f0 := by
  unfold Scan.mark_time
  rfl

theorem mark_time_sval (s : Scan) : (Scan.mark_time s).sval = s.sval := by
  unfold Scan.mark_time
  rfl

theorem mark_time_old (s : Scan) :
    (Scan.mark_time s).runsecsold10scan = toLong s.sys.g.runseconds10 := by
  unfold Scan.mark_time
  rfl

theorem scan_mark_time_inslot (s : Scan) (hh : Held s) :
    InSlot isInput s s.mark_time ∧ Held s.mark_time := by
  refine ⟨⟨?_, mark_time_t1 s, mark_time_skip s, mark_time_f0 s⟩, ?_⟩
  · rw [mark_time_sys]; exact Sys.Ext_refl _ _
  · unfold Held; rw [mark_time_sys, mark_time_key]; exact hh

theorem scan_mark_read_key_all (s : Scan) (hh : Held s) (hk : s.key = 0) :
    (Scan.read_key s.mark_time).All (Sys.Ext isInput s.sys)
      (fun s1 => (InSlot isInput s s1 ∧ Held s1) ∧ s1.sval = s.sval) := by
  obtain ⟨hx, hh1⟩ := scan_mark_time_inslot s hh
  refine Out.All_mono _ (scan_read_key_all isInput isInput_keys s.mark_time hh1 ((mark_time_key s).trans hk))
    (fun _ h => Sys.Ext_trans hx.1 h)
    (fun _ h => ⟨⟨InSlot_trans hx h.1.1, h.1.2⟩, h.2.1.trans (mark_time_sval s)⟩)

theorem scan_mem_dwell_all (n : Nat) (s : Scan) (hh : Held s) :
    (scan_mem_dwell n s).All (Sys.Ext isInput s.sys) (fun s1 => InSlot isInput s s1 ∧ Held s1) := by
  induction n generalizing s with
  | zero => exact Out.All_nofuel _ _
  | succ n ih =>
      rw [scan_mem_dwell]
      by_cases hc : s.sval > s.sys.g.s_threshold ∧ s.key = 0
      · rw [if_pos hc]
        have step1 : (s.mark_time.read_key.bind (scan_tick_wait n)).All (Sys.Ext isInput s.sys)
            (fun s1 => InSlot isInput s s1 ∧ Held s1) := by
          refine Out.All_bind _ _ (scan_mark_read_key_all s hh hc.2) ?_
          intro s1 ⟨⟨hx, hh1⟩, _⟩
          exact Out.All_mono _ (scan_tick_wait_all n s1 hh1) (fun _ h => Sys.Ext_trans hx.1 h)
            (fun _ h => ⟨InSlot_trans hx h.1.1, h.1.2⟩)
        have step2 : ((s.mark_time.read_key.bind (scan_tick_wait n)).bind Scan.sample).All
            (Sys.Ext isInput s.sys) (fun s1 => InSlot isInput s s1 ∧ Held s1) := by
          refine Out.All_bind _ _ step1 ?_
          intro s1 ⟨hx, hh1⟩
          exact Out.All_mono _ (scan_sample_all s1 hh1) (fun _ h => Sys.Ext_trans hx.1 h)
            (fun _ h => ⟨InSlot_trans hx h.1.1, h.1.2⟩)
        refine Out.All_bind _ _ step2 ?_
        intro s1 ⟨hx, hh1⟩
        exact Out.All_mono _ (ih s1 hh1) (fun _ h => Sys.Ext_trans hx.1 h)
          (fun _ h => ⟨InSlot_trans hx h.1, h.2⟩)
      · rw [if_neg hc]
        exact (Out.All_done _ _ _).2 ⟨InSlot_refl _ s, hh⟩

theorem scan_mem_hold_all (n : Nat) (s : Scan) (hh : Held s) :
    (scan_mem_hold n s).All (Sys.Ext isInput s.sys) (fun s1 => InSlot isInput s s1 ∧ Held s1) := by
  induction n generalizing s with
  | zero => exact Out.All_nofuel _ _
  | succ n ih =>
      rw [scan_mem_hold]
      by_cases hc : time_before s 20 ∧ s.key = 0
      · rw [if_pos hc]
        have step1 : (s.read_key.bind Scan.sample).All (Sys.Ext isInput s.sys)
            (fun s1 => InSlot isInput s s1 ∧ Held s1) := by
          refine Out.All_bind _ _ (scan_read_key_all isInput isInput_keys s hh hc.2) ?_
          intro s1 ⟨⟨hx, hh1⟩, _⟩
          exact Out.All_mono _ (scan_sample_all s1 hh1) (fun _ h => Sys.Ext_trans hx.1 h)
            (fun _ h => ⟨InSlot_trans hx h.1.1, h.1.2⟩)
        refine Out.All_bind _ _ step1 ?_
        intro s1 ⟨hx, hh1⟩
        exact Out.All_mono _ (ih s1 hh1) (fun _ h => Sys.Ext_trans hx.1 h)
          (fun _ h => ⟨InSlot_trans hx h.1, h.2⟩)
      · rw [if_neg hc]
        exact (Out.All_done _ _ _).2 ⟨InSlot_refl _ s, hh⟩

theorem scan_mem_load_sys (s : Scan) : (scan_mem_load s).sys = s.sys.log (Ev.load s.t1) := by
  unfold scan_mem_load
  rfl

theorem scan_mem_load_key (s : Scan) : (scan_mem_load s).key = s.key := by
  unfold scan_mem_load
  rfl

theorem scan_mem_load_t1 (s : Scan) : (scan_mem_load s).t1 = s.t1 := by
  unfold scan_mem_load
  rfl

theorem scan_mem_load_skip (s : Scan) : (scan_mem_load s).scan_skip = s.scan_skip := by
  unfold scan_mem_load
  rfl

theorem scan_mem_load_f0 (s : Scan) :
    (scan_mem_load s).f0 = toLong (load_frequency s.t1 s.sys.e) := by
  unfold scan_mem_load
  rfl

theorem scan_mem_program_sys (s : Scan) :
    (scan_mem_program s).sys = s.sys.log (Ev.setf1 (toULong s.f0)) := by
  unfold scan_mem_program
  rfl

theorem scan_mem_program_key (s : Scan) : (scan_mem_program s).key = s.key := by
  unfold scan_mem_program
  rfl

theorem scan_mem_program_t1 (s : Scan) : (scan_mem_program s).t1 = s.t1 := by
  unfold scan_mem_program
  rfl

theorem scan_mem_program_skip (s : Scan) : (scan_mem_program s).scan_skip = s.scan_skip := by
  unfold scan_mem_program
  rfl

theorem scan_mem_program_f0 (s : Scan) : (scan_mem_program s).f0 = s.f0 := by
  unfold scan_mem_program
  rfl

theorem log_trace (s : Sys) (ev : Ev) : (s.log ev).trace = s.trace ++ [ev] := rfl

theorem log_e (s : Sys) (ev : Ev) : (s.log ev).e = s.e := rfl

theorem log_g (s : Sys) (ev : Ev) : (s.log ev).g = s.g := rfl

theorem log_input (s : Sys) (ev : Ev) : (s.log ev).input = s.input := rfl

theorem held_load (s : Scan) (hk : s.key = 0) : Held (scan_mem_load s) := by
  unfold Held
  rw [scan_mem_load_sys, scan_mem_load_key, log_trace, keySinceLoad_snoc, hk]
  rfl

theorem held_program (s : Scan) (hh : Held s) : Held (scan_mem_program s) := by
  unfold Held
  rw [scan_mem_program_sys, scan_mem_program_key, log_trace, keySinceLoad_snoc, hh]
  rfl

theorem slotSeg_usable (s : Scan) (sys1 : Sys) (hu : scan_mem_usable (scan_mem_load s))
    (h : Sys.Ext isInput (scan_mem_program (scan_mem_load s)).sys sys1) : SlotSeg s sys1 := by
  obtain ⟨he, ht, hf, new, hnew, hall⟩ := h
  rw [scan_mem_program_sys, scan_mem_load_sys] at he ht hf hnew
  rw [log_e, log_e] at he
  rw [log_g, log_g] at ht hf
  rw [log_trace, log_trace, List.append_assoc, List.append_assoc] at hnew
  refine ⟨he, ht, hf, [Ev.setf1 (toULong (scan_mem_load s).f0)] ++ new, hnew, ?_, ?_⟩
  · intro _
    exact ⟨new, rfl, hall⟩
  · intro hn
    exact absurd hu hn

theorem slotSeg_unusable (s : Scan) (sys1 : Sys) (hu : ¬ scan_mem_usable (scan_mem_load s))
    (h : Sys.Ext isKeys (scan_mem_load s).sys sys1) : SlotSeg s sys1 := by
  obtain ⟨he, ht, hf, new, hnew, hall⟩ := h
  rw [scan_mem_load_sys] at he ht hf hnew
  rw [log_e] at he
  rw [log_g] at ht hf
  rw [log_trace, List.append_assoc] at hnew
  refine ⟨he, ht, hf, new, hnew, ?_, ?_⟩
  · intro hn
    exact absurd hn hu
  · intro _
    exact hall

theorem isKeys_keys (k : Int) : isKeys (Ev.keys k) := ⟨k, rfl⟩

theorem isInput_of_isKeys (ev : Ev) (h : isKeys ev) : isInput ev := Or.inl h

theorem curSlot_of_slotSeg (s : Scan) (sys1 : Sys) (h : SlotSeg s sys1) :
    curSlot sys1.trace = some s.t1 := by
  obtain ⟨_, _, _, rest, hr, hu, hn⟩ := h
  unfold curSlot
  rw [hr, curSlotFrom_append]
  show curSlotFrom (some s.t1) rest = some s.t1
  by_cases hc : scan_mem_usable (scan_mem_load s)
  · obtain ⟨more, hm, hall⟩ := hu hc
    rw [hm]
    show curSlotFrom (some s.t1) more = some s.t1
    exact curSlotFrom_inputs _ _ hall
  · exact curSlotFrom_inputs _ _ (fun ev h1 => isInput_of_isKeys ev (hn hc ev h1))

theorem scan_mem_listen_all (fuel : Nat) (s : Scan) (hk : s.key = 0) :
    (scan_mem_listen fuel s).All (SlotSeg s)
      (fun s1 => SlotSeg s s1.sys ∧ s1.t1 = s.t1 ∧ s1.scan_skip = s.scan_skip ∧
        (s1.key ≠ 0 → Held s1) ∧ ∃ tr, s1.sys.trace = tr ++ [Ev.keys 0]) := by
  unfold scan_mem_listen
  have hL := held_load s hk
  by_cases hu : scan_mem_usable (scan_mem_load s)
  · rw [if_pos hu]
    have hP := held_program _ hL
    have c1 : ((scan_mem_program (scan_mem_load s)).sample.bind (scan_mem_dwell fuel)).All
        (Sys.Ext isInput (scan_mem_program (scan_mem_load s)).sys)
        (fun s1 => InSlot isInput (scan_mem_program (scan_mem_load s)) s1 ∧ Held s1) := by
      refine Out.All_bind _ _ (scan_sample_all _ hP) ?_
      intro s1 ⟨⟨hx, hh1⟩, _⟩
      exact Out.All_mono _ (scan_mem_dwell_all fuel s1 hh1) (fun _ h => Sys.Ext_trans hx.1 h)
        (fun _ h => ⟨InSlot_trans hx h.1, h.2⟩)
    have c2 : (((scan_mem_program (scan_mem_load s)).sample.bind (scan_mem_dwell fuel)).bind
        fun s1 => scan_mem_hold fuel s1.mark_time).All
        (Sys.Ext isInput (scan_mem_program (scan_mem_load s)).sys)
        (fun s1 => InSlot isInput (scan_mem_program (scan_mem_load s)) s1 ∧ Held s1) := by
      refine Out.All_bind _ _ c1 ?_
      intro s1 ⟨hx, hh1⟩
      obtain ⟨hx2, hh2⟩ := scan_mark_time_inslot s1 hh1
      exact Out.All_mono _ (scan_mem_hold_all fuel s1.mark_time hh2)
        (fun _ h => Sys.Ext_trans hx.1 (Sys.Ext_trans hx2.1 h))
        (fun _ h => ⟨InSlot_trans hx (InSlot_trans hx2 h.1), h.2⟩)
    have c3 : ((((scan_mem_program (scan_mem_load s)).sample.bind (scan_mem_dwell fuel)).bind
        fun s1 => scan_mem_hold fuel s1.mark_time).bind (Scan.drain fuel)).All
        (Sys.Ext isInput (scan_mem_program (scan_mem_load s)).sys)
        (fun s2 => InSlot isInput (scan_mem_program (scan_mem_load s)) s2 ∧
          (s2.key ≠ 0 → Held s2) ∧ ∃ tr, s2.sys.trace = tr ++ [Ev.keys 0]) := by
      refine Out.All_bind _ _ c2 ?_
      intro s1 ⟨hx, hh1⟩
      refine Out.All_mono _ (scan_drain_all isInput isInput_keys fuel s1)
        (fun _ h => Sys.Ext_trans hx.1 h) ?_
      intro s2 ⟨hx2, hk2, hh2, hlast⟩
      exact ⟨InSlot_trans hx hx2, fun hne => hh2 (by rw [← hk2]; exact hne) hh1, hlast⟩
    refine Out.All_mono _ c3 (fun _ h => slotSeg_usable s _ hu h) ?_
    intro s2 ⟨hx3, hh2, hlast⟩
    refine ⟨slotSeg_usable s _ hu hx3.1, ?_, ?_, hh2, hlast⟩
    · rw [hx3.2.1, scan_mem_program_t1, scan_mem_load_t1]
    · rw [hx3.2.2.1, scan_mem_program_skip, scan_mem_load_skip]
  · rw [if_neg hu]
    have c3 : ((scan_mem_load s).read_key.bind (Scan.drain fuel)).All
        (Sys.Ext isKeys (scan_mem_load s).sys)
        (fun s2 => InSlot isKeys (scan_mem_load s) s2 ∧
          (s2.key ≠ 0 → Held s2) ∧ ∃ tr, s2.sys.trace = tr ++ [Ev.keys 0]) := by
      refine Out.All_bind _ _ (scan_read_key_all isKeys isKeys_keys _ hL
        ((scan_mem_load_key s).trans hk)) ?_
      intro s1 ⟨⟨hx, hh1⟩, _⟩
      refine Out.All_mono _ (scan_drain_all isKeys isKeys_keys fuel s1)
        (fun _ h => Sys.Ext_trans hx.1 h) ?_
      intro s2 ⟨hx2, hk2, hh2, hlast⟩
      exact ⟨InSlot_trans hx hx2, fun hne => hh2 (by rw [← hk2]; exact hne) hh1, hlast⟩
    refine Out.All_mono _ c3 (fun _ h => slotSeg_unusable s _ hu h) ?_
    intro s2 ⟨hx3, hh2, hlast⟩
    refine ⟨slotSeg_unusable s _ hu hx3.1, ?_, ?_, hh2, hlast⟩
    · rw [hx3.2.1, scan_mem_load_t1]
    · rw [hx3.2.2.1, scan_mem_load_skip]

theorem scan_mem_next_sys (s : Scan) :
    (scan_mem_next s).sys.trace = s.sys.trace ∧ (scan_mem_next s).sys.e = s.sys.e ∧
    (scan_mem_next s).sys.g.s_threshold = s.sys.g.s_threshold ∧
    (scan_mem_next s).sys.g.scanfreq = s.sys.g.scanfreq ∧
    (scan_mem_next s).sys.input = s.sys.input := by
  unfold scan_mem_next
  dsimp only
  split_ifs <;> exact ⟨rfl, rfl, rfl, rfl, rfl⟩

theorem scan_mem_next_t1 (s : Scan) : (scan_mem_next s).t1 = toInt16 (s.t1 + 1) := by
  unfold scan_mem_next
  dsimp only
  split_ifs <;> rfl

theorem scan_mem_next_key (s : Scan) :
    (scan_mem_next s).key = if s.key = 4 then 0 else s.key := by
  unfold scan_mem_next
  dsimp only
  split_ifs <;> rfl

theorem scan_mem_next_skip (s : Scan) :
    (scan_mem_next s).scan_skip =
      if s.key = 4 then s.scan_skip.set s.t1.toNat 1 else s.scan_skip := by
  unfold scan_mem_next
  dsimp only
  split_ifs <;> rfl

theorem getD_set_ne_zero (l : List Int) (j i : Nat) (h : l.getD i 0 ≠ 0) :
    (l.set j 1).getD i 0 ≠ 0 := by
  rw [List.getD_eq_getElem?_getD] at h ⊢
  by_cases hji : j = i
  · subst hji
    by_cases hlt : j < l.length
    · rw [List.getElem?_set_self hlt]
      simp
    · rw [List.getElem?_eq_none (by rw [List.length_set]; omega)]
      rw [List.getElem?_eq_none (by omega)] at h
      exact h
  · rw [List.getElem?_set_ne hji]
    exact h

theorem skipMono_next (s : Scan) : SkipMono s (scan_mem_next s) := by
  unfold SkipMono
  rw [scan_mem_next_skip]
  by_cases hk : s.key = 4
  · rw [if_pos hk]
    exact ⟨List.length_set _ _ _, fun i h => getD_set_ne_zero _ _ _ h⟩
  · rw [if_neg hk]
    exact ⟨rfl, fun i h => h⟩

theorem SkipMono_refl (s : Scan) : SkipMono s s := ⟨rfl, fun _ h => h⟩

theorem SkipMono_trans {s s1 s2 : Scan} (h1 : SkipMono s s1) (h2 : SkipMono s1 s2) :
    SkipMono s s2 :=
  ⟨h2.1.trans h1.1, fun i h => h2.2 i (h1.2 i h)⟩

theorem scan_mem_slot_all (fuel : Nat) (s : Scan) (hk : s.key = 0) (h0 : 0 ≤ s.t1)
    (h15 : s.t1 < 15) :
    (scan_mem_slot fuel s).All (SlotSeg s)
      (fun s1 => SlotSeg s s1.sys ∧ s1.t1 = s.t1 + 1 ∧ SkipMono s s1 ∧ KeyOnSlot s1 ∧
        s1.key ≠ 4 ∧ ∃ tr, s1.sys.trace = tr ++ [Ev.keys 0]) := by
  unfold scan_mem_slot
  refine Out.All_bind _ _ (scan_mem_listen_all fuel s hk) ?_
  intro s1 ⟨hseg, ht, hskip, hheld, hlast⟩
  obtain ⟨ntr, ne, nthr, nsf, _⟩ := scan_mem_next_sys s1
  have hcur := curSlot_of_slotSeg s s1.sys hseg
  have ht1 : (scan_mem_next s1).t1 = s.t1 + 1 := by
    rw [scan_mem_next_t1, ht]
    exact toInt16_small _ (by omega) (by omega)
  have hkey := scan_mem_next_key s1
  refine (Out.All_done _ _ _).2 ⟨?_, ht1, ?_, ?_, ?_, ?_⟩
  · obtain ⟨a, b, c, rest, d, e⟩ := hseg
    exact ⟨ne.trans a, nthr.trans b, nsf.trans c, rest, ntr.trans d, e⟩
  · have hm := skipMono_next s1
    unfold SkipMono at hm ⊢
    rw [hskip] at hm
    exact hm
  · unfold KeyOnSlot
    intro hne
    by_cases h4 : s1.key = 4
    · rw [hkey, if_pos h4] at hne
      exact absurd rfl hne
    · rw [hkey, if_neg h4] at hne
      have hh := hheld hne
      unfold Held at hh
      rw [ntr, ht1, hkey, if_neg h4, hcur, hh]
      exact ⟨by congr 1; omega, rfl⟩
  · rw [hkey]
    split_ifs <;> omega
  · rw [ntr]
    exact hlast

theorem Out.All_iff {σ : Type} (P : Sys → Prop) (Q : σ → Prop) (o : Out σ) :
    o.All P Q ↔ (∀ s, o = .done s → Q s) ∧ (∀ s, o = .starved s → P s) := by
  cases o with
  | done s =>
      rw [Out.All_done]
      constructor
      · intro h
        constructor
        · intro s1 e
          cases e
          exact h
        · intro s1 e
          cases e
      · intro h
        exact h.1 s rfl
  | starved s =>
      rw [Out.All_starved]
      constructor
      · intro h
        constructor
        · intro s1 e
          cases e
        · intro s1 e
          cases e
          exact h
      · intro h
        exact h.2 s rfl
  | nofuel =>
      constructor
      · intro _
        constructor
        · intro s1 e
          cases e
        · intro s1 e
          cases e
      · intro _
        exact Out.All_nofuel P Q

theorem TraceExt_refl (G : List Ev → Prop) (hG0 : G []) (sys : Sys) : TraceExt G sys sys :=
  ⟨[], by simp, hG0⟩

theorem TraceExt_trans {G : List Ev → Prop} (hGapp : ∀ a b, G a → G b → G (a ++ b))
    {s s1 s2 : Sys} (h1 : TraceExt G s s1) (h2 : TraceExt G s1 s2) : TraceExt G s s2 := by
  obtain ⟨n1, e1, g1⟩ := h1
  obtain ⟨n2, e2, g2⟩ := h2
  exact ⟨n1 ++ n2, by rw [e2, e1, List.append_assoc], hGapp _ _ g1 g2⟩

theorem scan_mem_pass_inv (I : Scan → Prop) (G : List Ev → Prop) (hG0 : G [])
    (hGapp : ∀ a b, G a → G b → G (a ++ b))
    (hbody : ∀ n s, I s → s.t1 < 15 → s.key = 0 →
      (scan_mem_slot n s).All (TraceExt G s.sys) (fun s1 => I s1 ∧ TraceExt G s.sys s1.sys))
    (n : Nat) (s : Scan) (hI : I s) :
    (scan_mem_pass n s).All (TraceExt G s.sys)
      (fun s1 => I s1 ∧ TraceExt G s.sys s1.sys ∧ ¬ (s1.t1 < 15 ∧ s1.key = 0)) := by
  induction n generalizing s with
  | zero => exact Out.All_nofuel _ _
  | succ n ih =>
      rw [scan_mem_pass]
      by_cases hc : s.t1 < 15 ∧ s.key = 0
      · rw [if_pos hc]
        refine Out.All_bind _ _ (hbody n s hI hc.1 hc.2) ?_
        intro s1 ⟨hI1, hx⟩
        exact Out.All_mono _ (ih s1 hI1) (fun _ h => TraceExt_trans hGapp hx h)
          (fun _ h => ⟨h.1, TraceExt_trans hGapp hx h.2.1, h.2.2⟩)
      · rw [if_neg hc]
        exact (Out.All_done _ _ _).2 ⟨hI, TraceExt_refl G hG0 _, hc⟩

theorem scan_mem_passes_inv (I : Scan → Prop) (G : List Ev → Prop) (hG0 : G [])
    (hGapp : ∀ a b, G a → G b → G (a ++ b))
    (hbody : ∀ n s, I s → s.t1 < 15 → s.key = 0 →
      (scan_mem_slot n s).All (TraceExt G s.sys) (fun s1 => I s1 ∧ TraceExt G s.sys s1.sys))
    (hreset : ∀ s, I s → s.key ≠ 1 → s.key ≠ 2 → I { s with t1 := 0 })
    (n : Nat) (s : Scan) (hI : I s) :
    (scan_mem_passes n s).All (TraceExt G s.sys)
      (fun s1 => I s1 ∧ TraceExt G s.sys s1.sys ∧ (s1.key = 1 ∨ s1.key = 2)) := by
  induction n generalizing s with
  | zero => exact Out.All_nofuel _ _
  | succ n ih =>
      rw [scan_mem_passes]
      by_cases hc : s.key ≠ 1 ∧ s.key ≠ 2
      · rw [if_pos hc]
        have hp := scan_mem_pass_inv I G hG0 hGapp hbody n { s with t1 := 0 }
          (hreset s hI hc.1 hc.2)
        refine Out.All_bind _ _ hp ?_
        intro s1 ⟨hI1, hx, _⟩
        exact Out.All_mono _ (ih s1 hI1) (fun _ h => TraceExt_trans hGapp hx h)
          (fun _ h => ⟨h.1, TraceExt_trans hGapp hx h.2.1, h.2.2⟩)
      · rw [if_neg hc]
        refine (Out.All_done _ _ _).2 ⟨hI, TraceExt_refl G hG0 _, ?_⟩
        by_cases h1 : s.key = 1
        · exact Or.inl h1
        · by_cases h2 : s.key = 2
          · exact Or.inr h2
          · exact absurd ⟨h1, h2⟩ hc

theorem curSlot_ext_inputs (sys sys1 : Sys) (h : Sys.Ext isInput sys sys1) :
    curSlot sys1.trace = curSlot sys.trace := by
  obtain ⟨_, _, _, new, hn, hall⟩ := h
  unfold curSlot
  rw [hn, curSlotFrom_append]
  exact curSlotFrom_inputs _ _ hall

theorem scan_mem_finish_all (fuel : Nat) (s1 : Scan) :
    (scan_mem_finish fuel s1).All (Sys.Ext isKeys s1.sys)
      (fun r => Sys.Ext isKeys s1.sys r.2 ∧ (∃ tr, r.2.trace = tr ++ [Ev.keys 0]) ∧
        r.1 = (if s1.key = 2 then toInt16 (s1.t1 - 1) else -1) ∧
        (s1.key ≠ 0 → Held s1 → keySinceLoad r.2.trace = s1.key)) := by
  unfold scan_mem_finish
  refine Out.All_bind _ _
    (scan_drain_all isKeys isKeys_keys fuel { s1 with t1 := toInt16 (s1.t1 - 1) }) ?_
  intro s2 ⟨hx, hk, hh, hlast⟩
  refine (Out.All_done _ _ _).2 ⟨hx.1, hlast, ?_, ?_⟩
  · show (if s2.key = 2 then s2.t1 else -1) = _
    rw [hk, hx.2.1]
  · intro hne hheld
    have := hh hne hheld
    unfold Held at this
    rw [this, hk]

theorem scan_mem_all (I : Scan → Prop) (G : List Ev → Prop) (hG0 : G [])
    (hGapp : ∀ a b, G a → G b → G (a ++ b))
    (hGkeys : ∀ l, (∀ ev ∈ l, isKeys ev) → G l)
    (hbody : ∀ n s, I s → s.t1 < 15 → s.key = 0 →
      (scan_mem_slot n s).All (TraceExt G s.sys) (fun s1 => I s1 ∧ TraceExt G s.sys s1.sys))
    (hreset : ∀ s, I s → s.key ≠ 1 → s.key ≠ 2 → I { s with t1 := 0 })
    (fuel : Nat) (s : Scan) (hI : I { s with key := 0 }) :
    (scan_mem fuel s).All (TraceExt G s.sys)
      (fun r => TraceExt G s.sys r.2 ∧ ∃ s1, I s1 ∧ (s1.key = 1 ∨ s1.key = 2) ∧
        Sys.Ext isKeys s1.sys r.2 ∧ (∃ tr, r.2.trace = tr ++ [Ev.keys 0]) ∧
        r.1 = (if s1.key = 2 then toInt16 (s1.t1 - 1) else -1) ∧
        (Held s1 → keySinceLoad r.2.trace = s1.key)) := by
  unfold scan_mem
  have hp := scan_mem_passes_inv I G hG0 hGapp hbody hreset fuel { s with key := 0 } hI
  have hext : ∀ a b : Sys, Sys.Ext isKeys a b → TraceExt G a b := by
    intro a b ⟨_, _, _, new, hn, hall⟩
    exact ⟨new, hn, hGkeys new hall⟩
  refine Out.All_bind _ _ hp ?_
  intro s1 ⟨hI1, hx, hkey⟩
  refine Out.All_mono _ (scan_mem_finish_all fuel s1)
    (fun _ h => TraceExt_trans hGapp hx (hext _ _ h)) ?_
  intro r ⟨hx2, hlast, hr, hh⟩
  refine ⟨TraceExt_trans hGapp hx (hext _ _ hx2), s1, hI1, hkey, hx2, hlast, hr, ?_⟩
  intro hheld
  exact hh (by omega) hheld

theorem scan_all (G : List Ev → Prop) (hGapp : ∀ a b, G a → G b → G (a ++ b))
    (hGkeys : ∀ l, (∀ ev ∈ l, isKeys ev) → G l) (Q : Int × Sys → Prop)
    (fuel : Nat) (stack : List Int) (sys : Sys)
    (hmem : ∀ s : Scan, s.t1 = 15 → s.scan_skip = scan_skip_clear MAXMEM 0 stack →
      (scan_mem fuel s).All (TraceExt G s.sys) (fun r => TraceExt G s.sys r.2 ∧ Q r)) :
    (scan fuel 0 stack sys).All (TraceExt G sys) (fun r => TraceExt G sys r.2 ∧ Q r) := by
  unfold scan
  have hext : ∀ a b : Sys, Sys.Ext isKeys a b → TraceExt G a b := by
    intro a b ⟨_, _, _, new, hn, hall⟩
    exact ⟨new, hn, hGkeys new hall⟩
  refine Out.All_bind _ _
    (Out.All_mono _ (scan_drain_all isKeys isKeys_keys fuel (scan_entry stack sys))
      (fun _ h => hext _ _ h) (fun _ h => h)) ?_
  intro s ⟨hx, _⟩
  rw [if_pos rfl]
  have hx1 : TraceExt G sys s.sys := hext _ _ hx.1
  exact Out.All_mono _ (hmem s hx.2.1 hx.2.2.1) (fun _ h => TraceExt_trans hGapp hx1 h)
    (fun _ h => ⟨TraceExt_trans hGapp hx1 h.1, h.2⟩)

theorem slotSeg_loads (s : Scan) (sys1 : Sys) (h : SlotSeg s sys1) :
    ∃ rest, sys1.trace = s.sys.trace ++ Ev.load s.t1 :: rest ∧ ∀ m, Ev.load m ∉ rest := by
  obtain ⟨_, _, _, rest, hr, hu, hn⟩ := h
  refine ⟨rest, hr, ?_⟩
  intro m hm
  by_cases hc : scan_mem_usable (scan_mem_load s)
  · obtain ⟨more, hmo, hall⟩ := hu hc
    rw [hmo] at hm
    rcases List.mem_cons.1 hm with h1 | h1
    · cases h1
    · rcases hall _ h1 with ⟨k, hk⟩ | ⟨v, hv⟩
      · cases hk
      · cases hv
  · obtain ⟨k, hk⟩ := hn hc _ hm
    cases hk

theorem loadsBelow15_append (a b : List Ev) (ha : LoadsBelow15 a) (hb : LoadsBelow15 b) :
    LoadsBelow15 (a ++ b) := by
  intro m hm
  rcases List.mem_append.1 hm with h | h
  · exact ha m h
  · exact hb m h

theorem loadsBelow15_keys (l : List Ev) (h : ∀ ev ∈ l, isKeys ev) : LoadsBelow15 l := by
  intro m hm
  obtain ⟨k, hk⟩ := h _ hm
  cases hk

theorem scan_mem_slot_loads (n : Nat) (s : Scan) (h0 : 0 ≤ s.t1) (h15 : s.t1 < 15)
    (hk : s.key = 0) :
    (scan_mem_slot n s).All (TraceExt LoadsBelow15 s.sys)
      (fun s1 => 0 ≤ s1.t1 ∧ TraceExt LoadsBelow15 s.sys s1.sys) := by
  have key : ∀ sys1, SlotSeg s sys1 → TraceExt LoadsBelow15 s.sys sys1 := by
    intro sys1 hseg
    obtain ⟨rest, hr, hno⟩ := slotSeg_loads s sys1 hseg
    refine ⟨Ev.load s.t1 :: rest, hr, ?_⟩
    intro m hm
    rcases List.mem_cons.1 hm with h1 | h1
    · cases h1
      exact ⟨h0, by omega⟩
    · exact absurd h1 (hno m)
  refine Out.All_mono _ (scan_mem_slot_all n s hk h0 h15) key ?_
  intro s1 ⟨hseg, ht, _⟩
  exact ⟨by omega, key _ hseg⟩

theorem scan_loads_below15 (fuel : Nat) (stack : List Int) (sys : Sys) :
    (scan fuel 0 stack sys).All (TraceExt LoadsBelow15 sys)
      (fun r => TraceExt LoadsBelow15 sys r.2 ∧ True) := by
  refine scan_all LoadsBelow15 loadsBelow15_append loadsBelow15_keys (fun _ => True) fuel stack
    sys ?_
  intro s ht _
  refine Out.All_mono _
    (scan_mem_all (fun s => 0 ≤ s.t1) LoadsBelow15 (fun m hm => by cases hm)
      loadsBelow15_append loadsBelow15_keys
      (fun n s hI h15 hk => scan_mem_slot_loads n s hI h15 hk)
      (fun s _ _ _ => le_refl _) fuel s (by show 0 ≤ s.t1; omega))
    (fun _ h => h) (fun _ h => ⟨h.1, trivial⟩)

set_option maxRecDepth 100000 in
/-- C14 (the code at the failing input): whatever the input, the slots `scan(0)` loads are
all in 0..14, so slot 15 is never examined; with a valid frequency stored only in slot 15
and no key pressed, a run over 33 polls loads the slots 0, 1, ..., 14, then 0 and 1 of the
next pass, without a single call of `set_frequency1`. -/
theorem C14_scan_never_examines_slot_15 :
    (∀ (fuel : Nat) (stack : List Int) (sys sys1 : Sys),
      (scan fuel 0 stack sys).sys = some sys1 →
      ∃ new, sys1.trace = sys.trace ++ new ∧ ∀ m, Ev.load m ∈ new → 0 ≤ m ∧ m ≤ 14) ∧
    is_mem_freq_ok (load_frequency 15 ee15) = 1 ∧
    (scan 100 0 (List.replicate 15 0) sys15).ret = none ∧
    (scan 100 0 (List.replicate 15 0) sys15).sys.map (fun s => loadsOf s.trace) =
      some [0, 1, 2, 3, 4, 5, 6, 7, 8, 9, 10, 11, 12, 13, 14, 0, 1] ∧
    (scan 100 0 (List.replicate 15 0) sys15).sys.map (fun s => progsOf s.trace) = some [] := by
  refine ⟨?_, by decide, by decide, by decide, by decide⟩
  intro fuel stack sys sys1 h
  have a := scan_loads_below15 fuel stack sys
  cases hs : scan fuel 0 stack sys with
  | nofuel => rw [hs] at h; cases h
  | starved s2 =>
      rw [hs] at h a
      cases h
      exact (Out.All_starved _ _ _).1 a
  | done r =>
      rw [hs] at h
      cases h
      exact (Out.All_of_eq_done a hs).1

theorem scan_mem_slot_result (n : Nat) (s : Scan) (hI : ResultInv s) (h15 : s.t1 < 15)
    (hk : s.key = 0) :
    (scan_mem_slot n s).All (TraceExt (fun _ => True) s.sys)
      (fun s1 => ResultInv s1 ∧ TraceExt (fun _ => True) s.sys s1.sys) := by
  have key : ∀ sys1, SlotSeg s sys1 → TraceExt (fun _ => True) s.sys sys1 := by
    intro sys1 ⟨_, _, _, rest, hr, _⟩
    exact ⟨_, hr, trivial⟩
  obtain ⟨i0, i15, _⟩ := hI
  refine Out.All_mono _ (scan_mem_slot_all n s hk i0 h15) key ?_
  intro s1 ⟨hseg, ht, _, hkey, _⟩
  refine ⟨⟨by omega, by omega, ?_⟩, key _ hseg⟩
  intro h12
  have hne : s1.key ≠ 0 := by omega
  exact ⟨by omega, hkey hne⟩

theorem scan_mem_result (fuel : Nat) (s : Scan) (h0 : 0 ≤ s.t1) (h15 : s.t1 ≤ 15) :
    (scan_mem fuel s).All (TraceExt (fun _ => True) s.sys)
      (fun r => TraceExt (fun _ => True) s.sys r.2 ∧
        ((keySinceLoad r.2.trace = 2 ∧ curSlot r.2.trace = some r.1 ∧ 0 ≤ r.1 ∧ r.1 ≤ 14) ∨
         (keySinceLoad r.2.trace = 1 ∧ r.1 = -1))) := by
  have hI : ResultInv { s with key := 0 } := by
    refine ⟨h0, h15, ?_⟩
    intro h
    exfalso
    rcases h with h | h
    · have h1 : (0 : Int) = 1 := h
      omega
    · have h1 : (0 : Int) = 2 := h
      omega
  refine Out.All_mono _
    (scan_mem_all ResultInv (fun _ => True) trivial (fun _ _ _ _ => trivial)
      (fun _ _ => trivial) scan_mem_slot_result
      (fun s hs h1 h2 => ⟨le_refl _, (by show (0 : Int) ≤ 15; omega), fun h => by
        exfalso
        rcases h with h | h
        · exact h1 h
        · exact h2 h⟩) fuel s hI)
    (fun _ h => h) ?_
  intro r ⟨hx, s1, ⟨i0, i15, hinv⟩, hkey, hext, _, hr, hheld⟩
  refine ⟨hx, ?_⟩
  obtain ⟨i1, hcur, hh⟩ := hinv hkey
  have hks := hheld hh
  have hcs : curSlot r.2.trace = some (s1.t1 - 1) := by
    rw [curSlot_ext_inputs s1.sys r.2 (Sys.Ext_mono hext isInput_of_isKeys)]
    exact hcur
  have hsm : toInt16 (s1.t1 - 1) = s1.t1 - 1 := toInt16_small _ (by omega) (by omega)
  rcases hkey with h1 | h2
  · right
    refine ⟨by rw [hks, h1], ?_⟩
    rw [hr, if_neg (by omega)]
  · left
    rw [hr, if_pos h2, hsm]
    exact ⟨by rw [hks, h2], hcs, by omega, by omega⟩

theorem drain_keys_zero (n : Nat) (sys : Sys) (q : Poll) (rest : List Poll)
    (hin : sys.input = q :: rest) (hq : get_keys q.adc0 = 0) :
    drain_keys (n + 1) sys =
      .done { g := irq q sys.g, e := sys.e, input := rest, trace := sys.trace ++ [Ev.keys 0] } := by
  rw [drain_keys]
  unfold call_get_keys
  rw [hin]
  dsimp only
  rw [hq]
  rfl

theorem scan_mem_listen_fuel (s s1 : Scan) (h : scan_mem_listen 0 s = .done s1) : False := by
  unfold scan_mem_listen at h
  obtain ⟨s2, _, h2⟩ := (Out.bind_eq_done _ _ _).1 h
  unfold Scan.drain at h2
  obtain ⟨s3, h3, _⟩ := (Out.bind_eq_done _ _ _).1 h2
  rw [drain_keys] at h3
  cases h3

theorem scan_mem_pass_stop (n : Nat) (s : Scan) (hk : s.key ≠ 0) :
    scan_mem_pass (n + 1) s = .done s := by
  rw [scan_mem_pass]
  have hn : ¬ (s.t1 < 15 ∧ s.key = 0) := fun h => hk h.2
  rw [if_neg hn]

theorem scan_mem_passes_stop (n : Nat) (s : Scan) (hk : s.key = 1 ∨ s.key = 2) :
    scan_mem_passes (n + 1) s = .done s := by
  rw [scan_mem_passes]
  have hn : ¬ (s.key ≠ 1 ∧ s.key ≠ 2) := by omega
  rw [if_neg hn]

theorem scan_mem_return (m : Nat) (s s1 : Scan) (q : Poll) (rest : List Poll)
    (hk : s.key = 0) (h0 : 0 ≤ s.t1) (h15 : s.t1 < 15)
    (hl : scan_mem_listen m s = .done s1) (hin : s1.sys.input = q :: rest)
    (hq : get_keys q.adc0 = 0) (h12 : s1.key = 1 ∨ s1.key = 2) :
    ((scan_mem_resume (m + 1) s).bind (scan_mem_finish (m + 1))).ret =
      some (if s1.key = 2 then s.t1 else -1) := by
  cases m with
  | zero => exact absurd hl (fun h => scan_mem_listen_fuel s s1 h)
  | succ m =>
      obtain ⟨_, ht, _⟩ := Out.All_of_eq_done (scan_mem_listen_all (m + 1) s hk) hl
      have hkey : (scan_mem_next s1).key = s1.key := by
        rw [scan_mem_next_key, if_neg (by omega)]
      have ht1 : (scan_mem_next s1).t1 = s.t1 + 1 := by
        rw [scan_mem_next_t1, ht]
        exact toInt16_small _ (by omega) (by omega)
      obtain ⟨_, _, _, _, hinp⟩ := scan_mem_next_sys s1
      have e1 : scan_mem_pass (m + 1 + 1) s = .done (scan_mem_next s1) := by
        rw [scan_mem_pass, if_pos ⟨h15, hk⟩]
        unfold scan_mem_slot
        rw [hl]
        show scan_mem_pass (m + 1) (scan_mem_next s1) = _
        exact scan_mem_pass_stop m _ (by rw [hkey]; omega)
      have e2 : scan_mem_resume (m + 1 + 1) s = .done (scan_mem_next s1) := by
        unfold scan_mem_resume
        rw [e1]
        show scan_mem_passes (m + 1 + 1) (scan_mem_next s1) = _
        exact scan_mem_passes_stop _ _ (by rw [hkey]; exact h12)
      rw [e2]
      show (scan_mem_finish (m + 1 + 1) (scan_mem_next s1)).ret = _
      unfold scan_mem_finish Scan.drain
      rw [drain_keys_zero (m + 1) _ q rest (by rw [← hin, ← hinp]) hq]
      show some (if (scan_mem_next s1).key = 2 then toInt16 ((scan_mem_next s1).t1 - 1) else -1)
        = _
      rw [hkey, ht1]
      have : toInt16 (s.t1 + 1 - 1) = s.t1 := by
        rw [toInt16_small _ (by omega) (by omega)]
        omega
      rw [this]

/-- C17: (1) whenever `scan(0)` returns `r`, either the first key other than 0 that
`get_keys` reported on the slot the scan was on last is the confirm key 2 and `r` is the
index of that slot (a value in 0..14), or that key is the abort key 1 and `r = -1`.
(2) Whenever the key read in the body of the slot loop on slot `t` is 2 (respectively 1) and
the key is released at the next poll, the scan leaves both loops and returns `t`
(respectively -1). -/
theorem C17_memory_scan_result :
    (∀ (fuel : Nat) (stack : List Int) (sys : Sys) (r : Int),
      (scan fuel 0 stack sys).ret = some r →
      ∃ sys1, scan fuel 0 stack sys = .done (r, sys1) ∧
        ((keySinceLoad sys1.trace = 2 ∧ curSlot sys1.trace = some r ∧ 0 ≤ r ∧ r ≤ 14) ∨
         (keySinceLoad sys1.trace = 1 ∧ r = -1))) ∧
    (∀ (m : Nat) (s s1 : Scan) (q : Poll) (rest : List Poll),
      s.key = 0 → 0 ≤ s.t1 → s.t1 < 15 → scan_mem_listen m s = .done s1 →
      s1.sys.input = q :: rest → get_keys q.adc0 = 0 →
      (s1.key = 2 →
        ((scan_mem_resume (m + 1) s).bind (scan_mem_finish (m + 1))).ret = some s.t1) ∧
      (s1.key = 1 →
        ((scan_mem_resume (m + 1) s).bind (scan_mem_finish (m + 1))).ret = some (-1))) := by
  constructor
  · intro fuel stack sys r h
    obtain ⟨sys1, hd⟩ := (Out.ret_eq_some _ _).1 h
    refine ⟨sys1, hd, ?_⟩
    have a := scan_all (fun _ => True) (fun _ _ _ _ => trivial) (fun _ _ => trivial)
      (fun r => (keySinceLoad r.2.trace = 2 ∧ curSlot r.2.trace = some r.1 ∧ 0 ≤ r.1 ∧ r.1 ≤ 14) ∨
        (keySinceLoad r.2.trace = 1 ∧ r.1 = -1)) fuel stack sys
      (fun s ht _ => scan_mem_result fuel s (by omega) (by omega))
    exact (Out.All_of_eq_done a hd).2
  · intro m s s1 q rest hk h0 h15 hl hin hq
    constructor
    · intro h2
      rw [scan_mem_return m s s1 q rest hk h0 h15 hl hin hq (Or.inr h2), if_pos h2]
    · intro h1
      rw [scan_mem_return m s s1 q rest hk h0 h15 hl hin hq (Or.inl h1), if_neg (by omega)]

set_option maxRecDepth 100000 in
/-- C17 (witness): over an empty EEPROM, with key 2 pressed while the scan is on slot 3 and
released afterwards, `scan(0)` returns 3; and from the test of the slot loop on slot 3, with
key 2 read in the body, the rest of the scan returns 3. -/
theorem C17_memory_scan_result_witness :
    (∃ sys1, scan 20 0 (List.replicate 15 0) sysConfirm3 = .done (3, sys1) ∧
      ((keySinceLoad sys1.trace = 2 ∧ curSlot sys1.trace = some 3 ∧ (0 : Int) ≤ 3 ∧
          (3 : Int) ≤ 14) ∨
       (keySinceLoad sys1.trace = 1 ∧ (3 : Int) = -1))) ∧
    ((scan_mem_resume (5 + 1) scanOn3).bind (scan_mem_finish (5 + 1))).ret = some scanOn3.t1 :=
  ⟨C17_memory_scan_result.1 20 (List.replicate 15 0) sysConfirm3 3 (by decide),
   (C17_memory_scan_result.2 5 scanOn3 scanOn3End (pollOf 0 0) [] (by decide) (by decide)
      (by decide) (by rfl) (by decide) (by decide)).1 (by decide)⟩

/-- C19: for every mode and every input on which `scan(mode)` returns, the last call
recorded before the return is a call of `get_keys` that reported 0 (no key). -/
theorem C19_key_drain_before_return (fuel : Nat) (mode : Int) (stack : List Int) (sys : Sys)
    (r : Int) (h : (scan fuel mode stack sys).ret = some r) :
    ∃ sys1 tr, scan fuel mode stack sys = .done (r, sys1) ∧ sys1.trace = tr ++ [Ev.keys 0] := by
  obtain ⟨sys1, hd⟩ := (Out.ret_eq_some _ _).1 h
  refine ⟨sys1, ?_⟩
  have hd1 := hd
  unfold scan at hd1
  obtain ⟨s, e1, h1⟩ := (Out.bind_eq_done _ _ _).1 hd1
  obtain ⟨_, _, _, hlast⟩ :=
    Out.All_of_eq_done (scan_drain_all isKeys isKeys_keys fuel (scan_entry stack sys)) e1
  by_cases hm0 : mode = 0
  · rw [if_pos hm0] at h1
    unfold scan_mem at h1
    obtain ⟨s1, _, h2⟩ := (Out.bind_eq_done _ _ _).1 h1
    obtain ⟨_, ⟨tr, htr⟩, _⟩ := Out.All_of_eq_done (scan_mem_finish_all fuel s1) h2
    exact ⟨tr, hd, htr⟩
  · rw [if_neg hm0] at h1
    by_cases hm1 : mode = 1
    · rw [if_pos hm1] at h1
      unfold scan_band at h1
      obtain ⟨s1, _, h2⟩ := (Out.bind_eq_done _ _ _).1 h1
      obtain ⟨s2, e2, h3⟩ := (Out.bind_eq_done _ _ _).1 h2
      obtain ⟨_, _, _, ⟨tr, htr⟩⟩ :=
        Out.All_of_eq_done (scan_drain_all isKeys isKeys_keys fuel s1) e2
      simp only [Out.done.injEq, Prod.mk.injEq] at h3
      exact ⟨tr, hd, by rw [← h3.2]; exact htr⟩
    · rw [if_neg hm1] at h1
      simp only [Out.done.injEq, Prod.mk.injEq] at h1
      obtain ⟨tr, htr⟩ := hlast
      exact ⟨tr, hd, by rw [← h1.2]; exact htr⟩

set_option maxRecDepth 100000 in
/-- C19 (witness): `scan(2)` entered with key 2 still pressed and then released returns -1
after `get_keys` has reported 0. -/
theorem C19_key_drain_before_return_witness :
    ∃ sys1 tr, scan 5 2 (List.replicate 15 0) (sysOf eeZero [pollOf 31 0, pollOf 0 0]) =
        .done (-1, sys1) ∧ sys1.trace = tr ++ [Ev.keys 0] :=
  C19_key_drain_before_return 5 2 (List.replicate 15 0) (sysOf eeZero [pollOf 31 0, pollOf 0 0])
    (-1) (by decide)

theorem progSlots_append (c : Option Int) (a b : List Ev) :
    progSlots c (a ++ b) = progSlots c a ++ progSlots (curSlotFrom c a) b := by
  induction a generalizing c with
  | nil => rfl
  | cons ev rest ih =>
      cases ev with
      | keys k => exact ih c
      | adc2 v => exact ih c
      | load m => exact ih (some m)
      | setf1 f =>
          show c :: progSlots c (rest ++ b) = c :: progSlots c rest ++ _
          rw [ih c]
          rfl
      | nav m k p => exact ih c

theorem progSlots_inputs (c : Option Int) (l : List Ev) (h : ∀ ev ∈ l, isInput ev) :
    progSlots c l = [] := by
  induction l with
  | nil => rfl
  | cons ev rest ih =>
      have hr := ih (fun ev1 h1 => h ev1 (List.mem_cons_of_mem _ h1))
      rcases h ev (List.mem_cons_self _ _) with ⟨k, hk⟩ | ⟨v, hv⟩
      · subst hk; exact hr
      · subst hv; exact hr

theorem notProgrammed_nil (t : Int) : NotProgrammed t [] := by
  intro c h
  cases h

theorem notProgrammed_append (t : Int) (a b : List Ev) (ha : NotProgrammed t a)
    (hb : NotProgrammed t b) : NotProgrammed t (a ++ b) := by
  intro c h
  rw [progSlots_append] at h
  rcases List.mem_append.1 h with h1 | h1
  · exact ha c h1
  · exact hb _ h1

theorem notProgrammed_keys (t : Int) (l : List Ev) (h : ∀ ev ∈ l, isKeys ev) :
    NotProgrammed t l := by
  intro c hm
  rw [progSlots_inputs c l (fun ev h1 => isInput_of_isKeys ev (h ev h1))] at hm
  cases hm

theorem slotSeg_notProgrammed (t : Nat) (s : Scan) (sys1 : Sys) (hI : SkipInv t s)
    (h : SlotSeg s sys1) : TraceExt (NotProgrammed (t : Int)) s.sys sys1 := by
  obtain ⟨_, _, _, rest, hr, hu, hn⟩ := h
  refine ⟨Ev.load s.t1 :: rest, hr, ?_⟩
  intro c hm
  have hm1 : some (t : Int) ∈ progSlots (some s.t1) rest := hm
  by_cases hc : scan_mem_usable (scan_mem_load s)
  · obtain ⟨more, hmo, hall⟩ := hu hc
    rw [hmo] at hm1
    have hm2 : some (t : Int) ∈ some s.t1 :: progSlots (some s.t1) more := hm1
    rw [progSlots_inputs _ more hall] at hm2
    rcases List.mem_cons.1 hm2 with h1 | h1
    · have ht : (t : Int) = s.t1 := Option.some.inj h1
      have hskip := hc.2
      rw [scan_mem_load_skip, scan_mem_load_t1, ← ht, Int.toNat_ofNat] at hskip
      exact hI.2 hskip
    · cases h1
  · rw [progSlots_inputs _ rest (fun ev h1 => isInput_of_isKeys ev (hn hc ev h1))] at hm1
    cases hm1

theorem scan_mem_slot_skip (t : Nat) (n : Nat) (s : Scan) (hI : SkipInv t s) (h15 : s.t1 < 15)
    (hk : s.key = 0) :
    (scan_mem_slot n s).All (TraceExt (NotProgrammed (t : Int)) s.sys)
      (fun s1 => SkipInv t s1 ∧ TraceExt (NotProgrammed (t : Int)) s.sys s1.sys) := by
  have i0 : 0 ≤ s.t1 := hI.1
  refine Out.All_mono _ (scan_mem_slot_all n s hk i0 h15)
    (fun _ h => slotSeg_notProgrammed t s _ hI h) ?_
  intro s1 ⟨hseg, ht, hmono, _⟩
  exact ⟨⟨by omega, hmono.2 t hI.2⟩, slotSeg_notProgrammed t s _ hI hseg⟩

theorem scan_mem_resume_skip (t : Nat) (fuel : Nat) (s : Scan) (hI : SkipInv t s) :
    ((scan_mem_resume fuel s).bind (scan_mem_finish fuel)).All
      (TraceExt (NotProgrammed (t : Int)) s.sys)
      (fun r => TraceExt (NotProgrammed (t : Int)) s.sys r.2) := by
  have hreset : ∀ s : Scan, SkipInv t s → s.key ≠ 1 → s.key ≠ 2 → SkipInv t { s with t1 := 0 } :=
    fun s hs _ _ => ⟨le_refl _, hs.2⟩
  have happ := notProgrammed_append (t : Int)
  have hext : ∀ a b : Sys, Sys.Ext isKeys a b → TraceExt (NotProgrammed (t : Int)) a b := by
    intro a b ⟨_, _, _, new, hn, hall⟩
    exact ⟨new, hn, notProgrammed_keys _ new hall⟩
  have c1 : (scan_mem_resume fuel s).All (TraceExt (NotProgrammed (t : Int)) s.sys)
      (fun s1 => SkipInv t s1 ∧ TraceExt (NotProgrammed (t : Int)) s.sys s1.sys) := by
    unfold scan_mem_resume
    refine Out.All_bind _ _
      (scan_mem_pass_inv (SkipInv t) _ (notProgrammed_nil _) happ (scan_mem_slot_skip t) fuel s
        hI) ?_
    intro s1 ⟨hI1, hx, _⟩
    exact Out.All_mono _
      (scan_mem_passes_inv (SkipInv t) _ (notProgrammed_nil _) happ (scan_mem_slot_skip t)
        hreset fuel s1 hI1)
      (fun _ h => TraceExt_trans happ hx h) (fun _ h => ⟨h.1, TraceExt_trans happ hx h.2.1⟩)
  refine Out.All_bind _ _ c1 ?_
  intro s1 ⟨_, hx⟩
  exact Out.All_mono _ (scan_mem_finish_all fuel s1)
    (fun _ h => TraceExt_trans happ hx (hext _ _ h))
    (fun _ h => TraceExt_trans happ hx (hext _ _ h.1))

theorem scan_skip_clear_length (n t : Nat) (a : List Int) :
    (scan_skip_clear n t a).length = a.length := by
  induction n generalizing t a with
  | zero => rfl
  | succ n ih =>
      rw [scan_skip_clear, ih, List.length_set]

theorem scan_skip_clear_get (n t : Nat) (a : List Int) (i : Nat) (hi : i < a.length) :
    (scan_skip_clear n t a)[i]? = if t ≤ i ∧ i < t + n then some 0 else a[i]? := by
  induction n generalizing t a with
  | zero =>
      rw [scan_skip_clear, if_neg (by omega)]
  | succ n ih =>
      rw [scan_skip_clear, ih (t + 1) (a.set t 0) (by rw [List.length_set]; exact hi)]
      by_cases h1 : t + 1 ≤ i ∧ i < t + 1 + n
      · rw [if_pos h1, if_pos (by omega)]
      · rw [if_neg h1]
        by_cases h2 : t = i
        · subst h2
          rw [List.getElem?_set_self hi, if_pos (by omega)]
        · rw [List.getElem?_set_ne h2, if_neg (by omega)]

theorem scan_skip_clear_all (stack : List Int) (h : stack.length = 15) :
    scan_skip_clear MAXMEM 0 stack = List.replicate 15 0 := by
  apply List.ext_getElem?
  intro i
  by_cases hi : i < 15
  · rw [scan_skip_clear_get MAXMEM 0 stack i (by omega), if_pos ⟨by omega, by
      show i < 0 + 15
      omega⟩]
    rw [List.getElem?_replicate, if_pos hi]
  · rw [List.getElem?_eq_none (by rw [scan_skip_clear_length]; omega),
      List.getElem?_eq_none (by rw [List.length_replicate]; omega)]

/-- C20: (1) when the key read in the body of the slot loop on slot `t` is the skip key 4
(state `s` before `if(key == 4)`), the body ends with `key = 0`, the flag of slot `t` set and
`t1 = t + 1`, so that neither loop ends: the code continues with the body on slot `t + 1`
or, after slot 14, with a new pass from slot 0. (2) In everything the scan call does from
there on, `set_frequency1` is never called while the scan is on slot `t`. (3) On entry of
`scan` all 15 flags are cleared, whatever the array held. -/
theorem C20_skip_flag :
    (∀ s : Scan, s.key = 4 → 0 ≤ s.t1 → s.t1 < 15 → s.scan_skip.length = 15 →
      (scan_mem_next s).key = 0 ∧ (scan_mem_next s).t1 = s.t1 + 1 ∧
      (scan_mem_next s).scan_skip.getD s.t1.toNat 0 = 1 ∧
      ∀ n, scan_mem_resume (n + 1) (scan_mem_next s) =
        if s.t1 + 1 < 15 then
          ((scan_mem_slot n (scan_mem_next s)).bind (scan_mem_pass n)).bind
            (scan_mem_passes (n + 1))
        else (scan_mem_pass n { scan_mem_next s with t1 := 0 }).bind (scan_mem_passes n)) ∧
    (∀ (fuel : Nat) (s : Scan) (sys1 : Sys),
      s.key = 4 → 0 ≤ s.t1 → s.t1 < 15 → s.scan_skip.length = 15 →
      ((scan_mem_resume fuel (scan_mem_next s)).bind (scan_mem_finish fuel)).sys = some sys1 →
      ∃ new, sys1.trace = s.sys.trace ++ new ∧ ∀ c, some s.t1 ∉ progSlots c new) ∧
    (∀ (stack : List Int) (sys : Sys), stack.length = 15 →
      (scan_entry stack sys).scan_skip = List.replicate 15 0) := by
  have hnext : ∀ s : Scan, s.key = 4 → 0 ≤ s.t1 → s.t1 < 15 → s.scan_skip.length = 15 →
      (scan_mem_next s).key = 0 ∧ (scan_mem_next s).t1 = s.t1 + 1 ∧
      (scan_mem_next s).scan_skip.getD s.t1.toNat 0 = 1 := by
    intro s hk h0 h15 hlen
    refine ⟨by rw [scan_mem_next_key, if_pos hk], ?_, ?_⟩
    · rw [scan_mem_next_t1]
      exact toInt16_small _ (by omega) (by omega)
    · rw [scan_mem_next_skip, if_pos hk, List.getD_eq_getElem?_getD,
        List.getElem?_set_self (by omega)]
      rfl
  refine ⟨?_, ?_, ?_⟩
  · intro s hk h0 h15 hlen
    obtain ⟨a, b, c⟩ := hnext s hk h0 h15 hlen
    refine ⟨a, b, c, ?_⟩
    intro n
    unfold scan_mem_resume
    rw [scan_mem_pass]
    by_cases hlt : s.t1 + 1 < 15
    · rw [if_pos hlt, if_pos ⟨by rw [b]; exact hlt, a⟩]
    · have hn : ¬ ((scan_mem_next s).t1 < 15 ∧ (scan_mem_next s).key = 0) := by
        rw [b]
        exact fun h => hlt h.1
      rw [if_neg hlt, if_neg hn]
      show scan_mem_passes (n + 1) (scan_mem_next s) = _
      rw [scan_mem_passes, if_pos (by rw [a]; exact ⟨by decide, by decide⟩)]
  · intro fuel s sys1 hk h0 h15 hlen hs
    obtain ⟨a, b, c⟩ := hnext s hk h0 h15 hlen
    have hI : SkipInv s.t1.toNat (scan_mem_next s) := ⟨by rw [b]; omega, by rw [c]; decide⟩
    have hall := scan_mem_resume_skip s.t1.toNat fuel (scan_mem_next s) hI
    have hcast : ((s.t1.toNat : Nat) : Int) = s.t1 := Int.toNat_of_nonneg h0
    rw [hcast] at hall
    have hfin : TraceExt (NotProgrammed s.t1) (scan_mem_next s).sys sys1 := by
      cases ho : (scan_mem_resume fuel (scan_mem_next s)).bind (scan_mem_finish fuel) with
      | nofuel => rw [ho] at hs; cases hs
      | starved s2 =>
          rw [ho] at hs hall
          cases hs
          exact (Out.All_starved _ _ _).1 hall
      | done r =>
          rw [ho] at hs
          cases hs
          have h2 := Out.All_of_eq_done hall ho
          exact h2
    obtain ⟨new, hn, hG⟩ := hfin
    rw [(scan_mem_next_sys s).1] at hn
    exact ⟨new, hn, hG⟩
  · intro stack sys hlen
    exact scan_skip_clear_all stack hlen

set_option maxRecDepth 100000 in
/-- C20 (witness): on slot 2 of an EEPROM with valid frequencies in slots 0 and 2, key 4
sets the flag of slot 2 and the scan goes on to slot 3; in the run that follows over 32
polls slot 2 is not programmed. -/
theorem C20_skip_flag_witness :
    ((scan_mem_next scanSkip2).key = 0 ∧ (scan_mem_next scanSkip2).t1 = scanSkip2.t1 + 1 ∧
      (scan_mem_next scanSkip2).scan_skip.getD scanSkip2.t1.toNat 0 = 1) ∧
    (∃ new, scanSkip2End.trace = scanSkip2.sys.trace ++ new ∧
      ∀ c, some scanSkip2.t1 ∉ progSlots c new) :=
  ⟨⟨(C20_skip_flag.1 scanSkip2 (by decide) (by decide) (by decide) (by decide)).1,
    (C20_skip_flag.1 scanSkip2 (by decide) (by decide) (by decide) (by decide)).2.1,
    (C20_skip_flag.1 scanSkip2 (by decide) (by decide) (by decide) (by decide)).2.2.1⟩,
   C20_skip_flag.2.1 100 scanSkip2 scanSkip2End (by decide) (by decide) (by decide) (by decide)
    (by rfl)⟩

set_option maxRecDepth 100000 in
/-- The run continued from the witness state of C20 over 32 polls: the slots 3, ..., 14 and
then 0, 1, 2, 3 of the next pass are loaded, and the only frequency programmed is that of
slot 0, although slot 2 holds a valid one. -/
theorem skip_flag_example :
    is_mem_freq_ok (load_frequency 2 ee012) = 1 ∧
    ((scan_mem_resume 100 (scan_mem_next scanSkip2)).bind (scan_mem_finish 100)).sys.map
        (fun s => loadsOf s.trace) = some [3, 4, 5, 6, 7, 8, 9, 10, 11, 12, 13, 14, 0, 1, 2, 3] ∧
    ((scan_mem_resume 100 (scan_mem_next scanSkip2)).bind (scan_mem_finish 100)).sys.map
        (fun s => progsOf s.trace) = some [14100000] := by
  decide

theorem toULong_toLong_nat (v : Nat) (hv : v < 4294967296) : toULong (toLong (v : Int)) = v := by
  unfold toULong toLong
  omega

theorem scan_mem_unusable (s : Scan)
    (hbad : is_mem_freq_ok (load_frequency s.t1 s.sys.e) = 0 ∨
      s.scan_skip.getD s.t1.toNat 0 ≠ 0) : ¬ scan_mem_usable (scan_mem_load s) := by
  intro hu
  unfold scan_mem_usable at hu
  rw [scan_mem_load_f0, scan_mem_load_skip, scan_mem_load_t1,
    toULong_toLong_nat _ (load_frequency_lt _ _)] at hu
  rcases hbad with h | h
  · exact hu.1 h
  · exact h hu.2

theorem scan_mem_slot_unusable_run (n : Nat) (s : Scan) (p q : Poll) (rest : List Poll)
    (hu : ¬ scan_mem_usable (scan_mem_load s)) (h0 : 0 ≤ s.t1) (h15 : s.t1 < 15)
    (hin : s.sys.input = p :: q :: rest) (hq : get_keys q.adc0 = 0) :
    ∃ s1, scan_mem_slot (n + 1) s = .done s1 ∧ s1.t1 = s.t1 + 1 ∧
      s1.sys.trace = s.sys.trace ++ [Ev.load s.t1, Ev.keys (get_keys p.adc0), Ev.keys 0] ∧
      s1.sys.input = rest := by
  have hin1 : (scan_mem_load s).sys.input = p :: q :: rest := by
    rw [scan_mem_load_sys, log_input]
    exact hin
  have e1 : scan_mem_listen (n + 1) s = .done
      { scan_mem_load s with
        sys := { g := irq q (irq p (scan_mem_load s).sys.g), e := (scan_mem_load s).sys.e,
                 input := rest,
                 trace := (scan_mem_load s).sys.trace ++ [Ev.keys (get_keys p.adc0)]
                   ++ [Ev.keys 0] },
        key := get_keys p.adc0 } := by
    unfold scan_mem_listen
    rw [if_neg hu]
    unfold Scan.read_key
    rw [call_get_keys_cons _ p (q :: rest) hin1]
    show Scan.drain (n + 1) _ = _
    unfold Scan.drain
    rw [drain_keys_zero n _ q rest rfl hq]
    rfl
  unfold scan_mem_slot
  rw [e1]
  refine ⟨_, rfl, ?_, ?_, ?_⟩
  · rw [scan_mem_next_t1]
    show toInt16 ((scan_mem_load s).t1 + 1) = _
    rw [scan_mem_load_t1]
    exact toInt16_small _ (by omega) (by omega)
  · rw [(scan_mem_next_sys _).1]
    show (scan_mem_load s).sys.trace ++ [Ev.keys (get_keys p.adc0)] ++ [Ev.keys 0] = _
    rw [scan_mem_load_sys, log_trace]
    simp
  · rw [(scan_mem_next_sys _).2.2.2.2]

/-- C15: in the body of the slot loop on a slot `t1` (0..14) whose stored frequency fails
`is_mem_freq_ok` or whose skip flag is set, all that is recorded after the load are calls of
`get_keys`: no call of `set_frequency1` and no sample of the S-meter channel, wherever the
body stops; when the body ends, `t1` has advanced to the next slot; and the body does end,
after two polls, when the key is released at the second poll. -/
theorem C15_unusable_slot_passed_over (fuel : Nat) (s : Scan) (hk : s.key = 0)
    (h0 : 0 ≤ s.t1) (h15 : s.t1 < 15)
    (hbad : is_mem_freq_ok (load_frequency s.t1 s.sys.e) = 0 ∨
      s.scan_skip.getD s.t1.toNat 0 ≠ 0) :
    (∀ s1, scan_mem_slot fuel s = .done s1 →
      s1.t1 = s.t1 + 1 ∧
      ∃ rest, s1.sys.trace = s.sys.trace ++ Ev.load s.t1 :: rest ∧ ∀ ev ∈ rest, isKeys ev) ∧
    (∀ sys1, scan_mem_slot fuel s = .starved sys1 →
      ∃ rest, sys1.trace = s.sys.trace ++ Ev.load s.t1 :: rest ∧ ∀ ev ∈ rest, isKeys ev) ∧
    (∀ p q rest, 1 ≤ fuel → s.sys.input = p :: q :: rest → get_keys q.adc0 = 0 →
      ∃ s1, scan_mem_slot fuel s = .done s1 ∧ s1.t1 = s.t1 + 1 ∧
        s1.sys.trace = s.sys.trace ++ [Ev.load s.t1, Ev.keys (get_keys p.adc0), Ev.keys 0] ∧
        s1.sys.input = rest) := by
  have hu := scan_mem_unusable s hbad
  have hall := (Out.All_iff _ _ _).1 (scan_mem_slot_all fuel s hk h0 h15)
  have key : ∀ sys1, SlotSeg s sys1 →
      ∃ rest, sys1.trace = s.sys.trace ++ Ev.load s.t1 :: rest ∧ ∀ ev ∈ rest, isKeys ev := by
    intro sys1 ⟨_, _, _, rest, hr, _, hn⟩
    exact ⟨rest, hr, hn hu⟩
  refine ⟨?_, ?_, ?_⟩
  · intro s1 hd
    obtain ⟨hseg, ht, _⟩ := hall.1 s1 hd
    exact ⟨ht, key _ hseg⟩
  · intro sys1 hd
    exact key _ (hall.2 sys1 hd)
  · intro p q rest hf hin hq
    obtain ⟨n, hn⟩ : ∃ n, fuel = n + 1 := ⟨fuel - 1, by omega⟩
    subst hn
    exact scan_mem_slot_unusable_run n s p q rest hu h0 h15 hin hq

set_option maxRecDepth 100000 in
/-- C15 (witness): slot 1 of the EEPROM `ee012`, which holds 0. -/
theorem C15_unusable_slot_passed_over_witness :
    ∃ s1, scan_mem_slot 5 (scanAt (sysOf ee012 [pollOf 0 0, pollOf 0 0]) 1 0 skipOnly2) =
        .done s1 ∧
      s1.t1 = (scanAt (sysOf ee012 [pollOf 0 0, pollOf 0 0]) 1 0 skipOnly2).t1 + 1 ∧
      s1.sys.trace = (scanAt (sysOf ee012 [pollOf 0 0, pollOf 0 0]) 1 0 skipOnly2).sys.trace ++
        [Ev.load (scanAt (sysOf ee012 [pollOf 0 0, pollOf 0 0]) 1 0 skipOnly2).t1,
          Ev.keys (get_keys (pollOf 0 0).adc0), Ev.keys 0] ∧
      s1.sys.input = [] :=
  (C15_unusable_slot_passed_over 5 (scanAt (sysOf ee012 [pollOf 0 0, pollOf 0 0]) 1 0 skipOnly2)
    (by decide) (by decide) (by decide) (Or.inl (by decide))).2.2 (pollOf 0 0) (pollOf 0 0) []
    (by decide) rfl (by decide)

set_option maxRecDepth 100000 in
/-- The example of C15: with slot 0 = 14,100,000, slot 1 = 0 and slot 2 = 14,200,000 flagged
skip, threshold 30 and the signal 40, then 20, a pass over the slots 0, 1, 2 calls
`set_frequency1` once, with the frequency of slot 0, while the scan is on slot 0, and all
samples of the S-meter are taken before slot 1 is loaded. -/
theorem unusable_slots_example :
    load_frequency 0 ee012 = 14100000 ∧ load_frequency 1 ee012 = 0 ∧
    load_frequency 2 ee012 = 14200000 ∧
    (match scan_mem_pass 100 scanFlagged2 with
      | .starved sys1 =>
          some (loadsOf sys1.trace, progsOf sys1.trace, progSlots none sys1.trace,
            samplesOf sys1.trace, samplesOf (sys1.trace.take 8))
      | _ => none) = some ([0, 1, 2, 3], [14100000], [some 0], [40, 20, 20], [40, 20, 20]) := by
  decide

theorem scan_read_key_cons (s : Scan) (p : Poll) (rest : List Poll)
    (hin : s.sys.input = p :: rest) :
    s.read_key = .done
      { s with
        sys := { g := irq p s.sys.g, e := s.sys.e, input := rest,
                 trace := s.sys.trace ++ [Ev.keys (get_keys p.adc0)] },
        key := get_keys p.adc0 } := by
  unfold Scan.read_key
  rw [call_get_keys_cons _ p rest hin]

theorem scan_read_key_nil (s : Scan) (hin : s.sys.input = []) :
    s.read_key = .starved s.sys := by
  unfold Scan.read_key call_get_keys
  rw [hin]

theorem scan_sample_cons (s : Scan) (p : Poll) (rest : List Poll)
    (hin : s.sys.input = p :: rest) :
    s.sample = .done
      { s with
        sys := { g := show_meter p.adc2 (irq p s.sys.g), e := s.sys.e, input := rest,
                 trace := s.sys.trace ++ [Ev.adc2 p.adc2] },
        sval := p.adc2 } := by
  unfold Scan.sample call_get_adc2
  rw [hin]

theorem scan_sample_nil (s : Scan) (hin : s.sys.input = []) :
    s.sample = .starved s.sys := by
  unfold Scan.sample call_get_adc2
  rw [hin]

theorem show_meter_frame (v : Int) (g : Globals) :
    (show_meter v g).s_threshold = g.s_threshold ∧
    (show_meter v g).runseconds10 = g.runseconds10 := by
  unfold show_meter
  dsimp only
  split_ifs <;> exact ⟨rfl, rfl⟩

theorem scan_read_key_above (thr : Int) (s : Scan) (h : AboveInv thr s) :
    (Scan.read_key s).All (fun _ => True) (fun s1 => AboveInv thr s1 ∧ s1.sval = s.sval) := by
  obtain ⟨_, ht, hall⟩ := h
  cases hin : s.sys.input with
  | nil =>
      rw [scan_read_key_nil s hin]
      exact (Out.All_starved _ _ _).2 trivial
  | cons p rest =>
      rw [scan_read_key_cons s p rest hin]
      rw [hin] at hall
      refine (Out.All_done _ _ _).2 ⟨⟨(hall p (List.mem_cons_self _ _)).1, ?_, ?_⟩, rfl⟩
      · exact (irq_frame p s.sys.g).1.trans ht
      · exact fun q hq => hall q (List.mem_cons_of_mem _ hq)

theorem scan_sample_above (thr : Int) (s : Scan) (h : AboveInv thr s) :
    (Scan.sample s).All (fun _ => True) (fun s1 => AboveInv thr s1 ∧ s1.sval > thr) := by
  obtain ⟨hk, ht, hall⟩ := h
  cases hin : s.sys.input with
  | nil =>
      rw [scan_sample_nil s hin]
      exact (Out.All_starved _ _ _).2 trivial
  | cons p rest =>
      rw [scan_sample_cons s p rest hin]
      rw [hin] at hall
      refine (Out.All_done _ _ _).2 ⟨⟨hk, ?_, ?_⟩, (hall p (List.mem_cons_self _ _)).2⟩
      · exact ((show_meter_frame _ _).1.trans (irq_frame p s.sys.g).1).trans ht
      · exact fun q hq => hall q (List.mem_cons_of_mem _ hq)

theorem scan_tick_wait_above (thr : Int) (n : Nat) (s : Scan) (h : AboveInv thr s) :
    (scan_tick_wait n s).All (fun _ => True) (fun s1 => AboveInv thr s1 ∧ s1.sval = s.sval) := by
  induction n generalizing s with
  | zero => exact Out.All_nofuel _ _
  | succ n ih =>
      rw [scan_tick_wait]
      by_cases hc : time_before s 1 ∧ s.key = 0
      · rw [if_pos hc]
        refine Out.All_bind _ _ (scan_read_key_above thr s h) ?_
        intro s1 ⟨h1, hv⟩
        exact Out.All_mono _ (ih s1 h1) (fun _ h => h) (fun _ h => ⟨h.1, h.2.trans hv⟩)
      · rw [if_neg hc]
        exact (Out.All_done _ _ _).2 ⟨h, rfl⟩

theorem scan_mem_dwell_above (thr : Int) (n : Nat) (s : Scan) (h : AboveInv thr s)
    (hv : s.sval > thr) (s1 : Scan) : scan_mem_dwell n s ≠ .done s1 := by
  induction n generalizing s with
  | zero =>
      rw [scan_mem_dwell]
      exact fun h => by cases h
  | succ n ih =>
      rw [scan_mem_dwell]
      have hc : s.sval > s.sys.g.s_threshold ∧ s.key = 0 := ⟨by rw [h.2.1]; exact hv, h.1⟩
      rw [if_pos hc]
      intro hd
      obtain ⟨s2, e2, hd2⟩ := (Out.bind_eq_done _ _ _).1 hd
      have hm : AboveInv thr s.mark_time := by
        unfold AboveInv
        rw [mark_time_key, mark_time_sys]
        exact h
      have c0 : (s.mark_time.read_key.bind (scan_tick_wait n)).All
          (fun _ => True) (fun s3 => AboveInv thr s3) := by
        refine Out.All_bind _ _ (scan_read_key_above thr _ hm) ?_
        intro s3 ⟨h3, _⟩
        exact Out.All_mono _ (scan_tick_wait_above thr n s3 h3) (fun _ h => h) (fun _ h => h.1)
      have c1 : ((s.mark_time.read_key.bind (scan_tick_wait n)).bind Scan.sample).All
          (fun _ => True) (fun s3 => AboveInv thr s3 ∧ s3.sval > thr) := by
        refine Out.All_bind _ _ c0 ?_
        intro s3 h3
        exact scan_sample_above thr s3 h3
      obtain ⟨h2, hv2⟩ := Out.All_of_eq_done c1 e2
      exact ih s2 h2 hv2 hd2

theorem time_before_iff (s : Scan) (d : Int) (h0 : 0 ≤ s.runsecsold10scan) (hd : 0 ≤ d)
    (h1 : s.runsecsold10scan + d < 2147483648) :
    time_before s d ↔ (s.sys.g.runseconds10 : Int) < s.runsecsold10scan + d := by
  unfold time_before toULong toLong
  omega

theorem Out.bind_done {σ τ : Type} (s : σ) (f : σ → Out τ) : (Out.done s).bind f = f s := rfl

theorem scan_mem_hold_step (n : Nat) (s : Scan) (p q : Poll) (rest : List Poll)
    (hc : time_before s 20 ∧ s.key = 0) (hin : s.sys.input = p :: q :: rest) :
    ∃ s2, scan_mem_hold (n + 1) s = scan_mem_hold n s2 ∧ s2.key = get_keys p.adc0 ∧
      s2.sys.input = rest ∧ s2.runsecsold10scan = s.runsecsold10scan ∧ s2.t1 = s.t1 := by
  rw [scan_mem_hold, if_pos hc, scan_read_key_cons s p _ hin, Out.bind_done]
  have e := scan_sample_cons
    { s with
      sys := { g := irq p s.sys.g, e := s.sys.e, input := q :: rest,
               trace := s.sys.trace ++ [Ev.keys (get_keys p.adc0)] },
      key := get_keys p.adc0 } q rest rfl
  rw [e, Out.bind_done]
  exact ⟨_, rfl, rfl, rfl, rfl, rfl⟩

theorem scan_mem_hold_run (n : Nat) (s : Scan) (hk : s.key = 0)
    (hall : ∀ p ∈ s.sys.input, get_keys p.adc0 = 0) (hlen : s.sys.input.length ≤ n) :
    (∃ sys1, scan_mem_hold (n + 1) s = .starved sys1) ∨
    (∃ s1, scan_mem_hold (n + 1) s = .done s1 ∧ s1.key = 0 ∧ ¬ time_before s1 20 ∧
      s1.runsecsold10scan = s.runsecsold10scan ∧ s1.t1 = s.t1) := by
  induction n generalizing s with
  | zero =>
      rw [scan_mem_hold]
      have hin : s.sys.input = [] := List.length_eq_zero.1 (by omega)
      by_cases hc : time_before s 20 ∧ s.key = 0
      · rw [if_pos hc, scan_read_key_nil s hin]
        exact Or.inl ⟨_, rfl⟩
      · rw [if_neg hc]
        exact Or.inr ⟨s, rfl, hk, fun h => hc ⟨h, hk⟩, rfl, rfl⟩
  | succ n ih =>
      by_cases hc : time_before s 20 ∧ s.key = 0
      · cases hin : s.sys.input with
        | nil =>
            rw [scan_mem_hold, if_pos hc, scan_read_key_nil s hin]
            exact Or.inl ⟨_, rfl⟩
        | cons p rest =>
            cases rest with
            | nil =>
                rw [scan_mem_hold, if_pos hc, scan_read_key_cons s p _ hin, Out.bind_done]
                have e := scan_sample_nil
                  { s with
                    sys := { g := irq p s.sys.g, e := s.sys.e, input := [],
                             trace := s.sys.trace ++ [Ev.keys (get_keys p.adc0)] },
                    key := get_keys p.adc0 } rfl
                rw [e]
                exact Or.inl ⟨_, rfl⟩
            | cons q rest2 =>
                obtain ⟨s2, e2, k2, i2, o2, t2⟩ := scan_mem_hold_step (n + 1) s p q rest2 hc hin
                rw [hin] at hall hlen
                have hk2 : s2.key = 0 := by
                  rw [k2]
                  exact hall p (List.mem_cons_self _ _)
                have hall2 : ∀ x ∈ s2.sys.input, get_keys x.adc0 = 0 := by
                  rw [i2]
                  exact fun x hx => hall x (List.mem_cons_of_mem _ (List.mem_cons_of_mem _ hx))
                have hlen2 : s2.sys.input.length ≤ n := by
                  rw [i2]
                  simp only [List.length_cons] at hlen
                  omega
                rw [e2]
                rcases ih s2 hk2 hall2 hlen2 with h | ⟨s1, h1, h2, h3, h4, h5⟩
                · exact Or.inl h
                · exact Or.inr ⟨s1, h1, h2, h3, h4.trans o2, h5.trans t2⟩
      · rw [scan_mem_hold, if_neg hc]
        exact Or.inr ⟨s, rfl, hk, fun h => hc ⟨h, hk⟩, rfl, rfl⟩

set_option maxRecDepth 100000 in
/-- C16 (counterexample): slot 0 holds a valid frequency, no key is pressed and every sample
of the S-meter is 40, above the threshold 30; after all 40 polls, 40 ticks of 100 ms, the
scan has not returned and has loaded slot 0 only: it has not left the slot after 20 ticks. -/
theorem C16_dwell_cap_counterexample :
    (∀ p ∈ sysDwell.input, get_keys p.adc0 = 0 ∧ p.adc2 > sysDwell.g.s_threshold) ∧
    is_mem_freq_ok (load_frequency 0 sysDwell.e) = 1 ∧
    (scan 100 0 (List.replicate 15 0) sysDwell).ret = none ∧
    (scan 100 0 (List.replicate 15 0) sysDwell).sys.map
        (fun s => (loadsOf s.trace, s.g.runseconds10, s.input.length)) = some ([0], 40, 0) := by
  decide

/-- C16 (amended): in the memory scan with no key pressed, (1) the loop that dwells on a
slot never ends while every sample of the S-meter is above the threshold: there is no cap;
(2) the 20 ticks are counted by the loop that follows it, from the moment the dwell loop has
ended: as long as fewer than 20 ticks have passed since then and no key is read, that loop
runs its body again, and (3) given enough fuel it either uses up the input or ends, with no
key read, on the same slot, at a moment when at least 20 ticks have passed. -/
theorem C16_dwell_and_hold :
    (∀ (fuel : Nat) (s s1 : Scan), s.key = 0 → s.sval > s.sys.g.s_threshold →
      (∀ p ∈ s.sys.input, get_keys p.adc0 = 0 ∧ p.adc2 > s.sys.g.s_threshold) →
      scan_mem_dwell fuel s ≠ .done s1) ∧
    (∀ (n : Nat) (s : Scan), s.key = 0 → 0 ≤ s.runsecsold10scan →
      s.runsecsold10scan + 20 < 2147483648 →
      (s.sys.g.runseconds10 : Int) < s.runsecsold10scan + 20 →
      scan_mem_hold (n + 1) s = (s.read_key.bind Scan.sample).bind (scan_mem_hold n)) ∧
    (∀ (n : Nat) (s : Scan), s.key = 0 → (∀ p ∈ s.sys.input, get_keys p.adc0 = 0) →
      s.sys.input.length ≤ n → 0 ≤ s.runsecsold10scan →
      s.runsecsold10scan + 20 < 2147483648 →
      (∃ sys1, scan_mem_hold (n + 1) s = .starved sys1) ∨
      (∃ s1, scan_mem_hold (n + 1) s = .done s1 ∧ s1.key = 0 ∧ s1.t1 = s.t1 ∧
        (s1.sys.g.runseconds10 : Int) ≥ s.runsecsold10scan + 20)) := by
  refine ⟨?_, ?_, ?_⟩
  · intro fuel s s1 hk hv hall
    exact scan_mem_dwell_above s.sys.g.s_threshold fuel s ⟨hk, rfl, hall⟩ hv s1
  · intro n s hk h0 h1 hlt
    have hc : time_before s 20 ∧ s.key = 0 :=
      ⟨(time_before_iff s 20 h0 (by omega) h1).2 hlt, hk⟩
    rw [scan_mem_hold, if_pos hc]
  · intro n s hk hall hlen h0 h1
    rcases scan_mem_hold_run n s hk hall hlen with h | ⟨s1, e1, k1, t1, o1, s1t⟩
    · exact Or.inl h
    · refine Or.inr ⟨s1, e1, k1, s1t, ?_⟩
      have hiff := time_before_iff s1 20 (by rw [o1]; exact h0) (by omega) (by rw [o1]; exact h1)
      rw [o1] at hiff
      by_contra hcon
      exact t1 (hiff.2 (by omega))

set_option maxRecDepth 100000 in
/-- C16 (witness): on slot 0, with polls of 20 ticks each and no key, the 20-tick loop ends
after one pass of its body. -/
theorem C16_dwell_and_hold_witness :
    (∃ sys1, scan_mem_hold (4 + 1) scanHold = .starved sys1) ∨
    (∃ s1, scan_mem_hold (4 + 1) scanHold = .done s1 ∧ s1.key = 0 ∧ s1.t1 = scanHold.t1 ∧
      (s1.sys.g.runseconds10 : Int) ≥ scanHold.runsecsold10scan + 20) :=
  C16_dwell_and_hold.2.2 4 scanHold (by decide) (by decide) (by decide) (by decide) (by decide)

set_option maxRecDepth 100000 in
/-- The run of the witness of C16: the 20-tick loop ends with two of the four polls used and
the clock at 40 ticks. -/
theorem hold_example :
    (match scan_mem_hold 5 scanHold with
      | .done s1 => some (s1.sys.g.runseconds10, s1.sys.input.length, s1.key)
      | _ => none) = some (40, 2, 0) := by
  decide

theorem progsOf_append (a b : List Ev) : progsOf (a ++ b) = progsOf a ++ progsOf b := by
  induction a with
  | nil => rfl
  | cons ev rest ih =>
      cases ev <;> simp [progsOf, ih]

theorem progsOf_inputs (l : List Ev) (h : ∀ ev ∈ l, isInput ev) : progsOf l = [] := by
  induction l with
  | nil => rfl
  | cons ev rest ih =>
      have hr := ih (fun ev1 h1 => h ev1 (List.mem_cons_of_mem _ h1))
      rcases h ev (List.mem_cons_self _ _) with ⟨k, hk⟩ | ⟨v, hv⟩
      · subst hk; exact hr
      · subst hv; exact hr

theorem progsOf_ext (sys sys1 : Sys) (h : Sys.Ext isInput sys sys1) :
    progsOf sys1.trace = progsOf sys.trace := by
  obtain ⟨_, _, _, new, hn, hall⟩ := h
  rw [hn, progsOf_append, progsOf_inputs new hall, List.append_nil]

theorem InBand_refl (s : Scan) : InBand s s := ⟨Sys.Ext_refl _ _, rfl, rfl⟩

theorem InBand_trans {s s1 s2 : Scan} (h1 : InBand s s1) (h2 : InBand s1 s2) : InBand s s2 :=
  ⟨Sys.Ext_trans h1.1 h2.1, h2.2.1.trans h1.2.1, h2.2.2.trans h1.2.2⟩

theorem stepAhead_inBand (s s1 : Scan) (h : InBand s s1) (hs : StepAhead s) : StepAhead s1 := by
  unfold StepAhead at hs ⊢
  rw [progsOf_ext _ _ h.1, h.2.1, h.2.2]
  exact hs

theorem scan_read_key_band (s : Scan) :
    (Scan.read_key s).All (fun _ => True) (fun s1 => InBand s s1) := by
  unfold Scan.read_key
  cases h : call_get_keys s.sys with
  | none => exact (Out.All_starved _ _ _).2 trivial
  | some r =>
      obtain ⟨k, s1⟩ := r
      obtain ⟨hx, _⟩ := call_get_keys_ext isInput s.sys k s1 h (isInput_keys k)
      exact (Out.All_done _ _ _).2 ⟨hx, rfl, rfl⟩

theorem scan_sample_band (s : Scan) :
    (Scan.sample s).All (fun _ => True) (fun s1 => InBand s s1) := by
  unfold Scan.sample
  cases h : call_get_adc2 s.sys with
  | none => exact (Out.All_starved _ _ _).2 trivial
  | some r =>
      obtain ⟨v, s1⟩ := r
      obtain ⟨⟨he, hthr, hsf, new, hnew, hall⟩, _⟩ :=
        call_get_adc2_ext isInput s.sys v s1 h (isInput_adc2 v)
      have hsm : (show_meter v s1.g).s_threshold = s1.g.s_threshold ∧
          (show_meter v s1.g).scanfreq = s1.g.scanfreq := by
        unfold show_meter
        dsimp only
        split_ifs <;> exact ⟨rfl, rfl⟩
      exact (Out.All_done _ _ _).2
        ⟨⟨he, hsm.1.trans hthr, hsm.2.trans hsf, new, hnew, hall⟩, rfl, rfl⟩

theorem scan_tick_wait_band (n : Nat) (s : Scan) :
    (scan_tick_wait n s).All (fun _ => True) (fun s1 => InBand s s1) := by
  induction n generalizing s with
  | zero => exact Out.All_nofuel _ _
  | succ n ih =>
      rw [scan_tick_wait]
      by_cases hc : time_before s 1 ∧ s.key = 0
      · rw [if_pos hc]
        refine Out.All_bind _ _ (scan_read_key_band s) ?_
        intro s1 h1
        exact Out.All_mono _ (ih s1) (fun _ h => h) (fun _ h => InBand_trans h1 h)
      · rw [if_neg hc]
        exact (Out.All_done _ _ _).2 (InBand_refl s)

theorem inBand_mark_time (s : Scan) : InBand s s.mark_time := by
  unfold InBand
  rw [mark_time_sys, mark_time_f0]
  refine ⟨Sys.Ext_refl _ _, rfl, ?_⟩
  unfold Scan.mark_time
  rfl

theorem scan_band_dwell_band (n : Nat) (s : Scan) :
    (scan_band_dwell n s).All (fun _ => True) (fun s1 => InBand s s1) := by
  induction n generalizing s with
  | zero => exact Out.All_nofuel _ _
  | succ n ih =>
      rw [scan_band_dwell]
      by_cases hc : s.sval > s.sys.g.s_threshold
      · rw [if_pos hc]
        cases h : call_get_keys s.sys with
        | none => exact (Out.All_starved _ _ _).2 trivial
        | some r =>
            obtain ⟨k, sys1⟩ := r
            obtain ⟨hx, _⟩ := call_get_keys_ext isInput s.sys k sys1 h (isInput_keys k)
            have h0 : InBand s { s with sys := sys1 } := ⟨hx, rfl, rfl⟩
            dsimp only
            by_cases hk : k = 0
            · rw [if_pos hk]
              have c1 : (Scan.read_key (Scan.mark_time { s with sys := sys1 })).All
                  (fun _ => True) (fun s1 => InBand s s1) :=
                Out.All_mono _ (scan_read_key_band _) (fun _ h => h)
                  (fun _ h => InBand_trans h0 (InBand_trans (inBand_mark_time _) h))
              have c2 : ((Scan.read_key (Scan.mark_time { s with sys := sys1 })).bind
                  (scan_tick_wait n)).All (fun _ => True) (fun s1 => InBand s s1) := by
                refine Out.All_bind _ _ c1 ?_
                intro s1 h1
                exact Out.All_mono _ (scan_tick_wait_band n s1) (fun _ h => h)
                  (fun _ h => InBand_trans h1 h)
              have c3 : (((Scan.read_key (Scan.mark_time { s with sys := sys1 })).bind
                  (scan_tick_wait n)).bind Scan.sample).All
                  (fun _ => True) (fun s1 => InBand s s1) := by
                refine Out.All_bind _ _ c2 ?_
                intro s1 h1
                exact Out.All_mono _ (scan_sample_band s1) (fun _ h => h)
                  (fun _ h => InBand_trans h1 h)
              refine Out.All_bind _ _ c3 ?_
              intro s1 h1
              exact Out.All_mono _ (ih s1) (fun _ h => h) (fun _ h => InBand_trans h1 h)
            · rw [if_neg hk]
              exact (Out.All_done _ _ _).2 h0
      · rw [if_neg hc]
        exact (Out.All_done _ _ _).2 (InBand_refl s)

theorem stepAhead_program (s : Scan) :
    StepAhead { s with
      sys := s.sys.log (Ev.setf1 (toULong (toLong (s.f0 + s.df)))),
      df := toLong (s.df + 100) } := by
  unfold StepAhead
  show (progsOf (s.sys.trace ++ [Ev.setf1 (toULong (toLong (s.f0 + s.df)))])).getLast? =
    some (toULong (toLong (s.f0 + toLong (s.df + 100)) - 100))
  rw [progsOf_append]
  show (progsOf s.sys.trace ++ [toULong (toLong (s.f0 + s.df))]).getLast? = _
  rw [List.getLast?_append_cons, List.getLast?_singleton]
  congr 1
  obtain ⟨k1, h1⟩ := toLong_eq (s.df + 100)
  obtain ⟨k2, h2⟩ := toLong_eq (s.f0 + toLong (s.df + 100))
  obtain ⟨k3, h3⟩ := toLong_eq (s.f0 + s.df)
  rw [h2, h1, h3]
  unfold toULong
  omega

theorem scan_band_sweep_ahead (n : Nat) (s : Scan) (h : s.key ≠ 0 → StepAhead s) :
    (scan_band_sweep n s).All (fun _ => True) (fun s1 => s1.key ≠ 0 → StepAhead s1) := by
  induction n generalizing s with
  | zero => exact Out.All_nofuel _ _
  | succ n ih =>
      rw [scan_band_sweep]
      by_cases hc : toLong (s.f0 + s.df) ≤ s.f1 ∧ s.key = 0
      · rw [if_pos hc]
        have hp := stepAhead_program s
        have c1 : (Scan.sample { s with
              sys := s.sys.log (Ev.setf1 (toULong (toLong (s.f0 + s.df)))),
              df := toLong (s.df + 100) }).All (fun _ => True) (fun s1 => StepAhead s1) :=
          Out.All_mono _ (scan_sample_band _) (fun _ h => h)
            (fun _ h => stepAhead_inBand _ _ h hp)
        have c2 : ((Scan.sample { s with
              sys := s.sys.log (Ev.setf1 (toULong (toLong (s.f0 + s.df)))),
              df := toLong (s.df + 100) }).bind (scan_band_dwell n)).All
            (fun _ => True) (fun s1 => StepAhead s1) := by
          refine Out.All_bind _ _ c1 ?_
          intro s1 h1
          exact Out.All_mono _ (scan_band_dwell_band n s1) (fun _ h => h)
            (fun _ h => stepAhead_inBand _ _ h h1)
        have c3 : (((Scan.sample { s with
              sys := s.sys.log (Ev.setf1 (toULong (toLong (s.f0 + s.df)))),
              df := toLong (s.df + 100) }).bind (scan_band_dwell n)).bind Scan.read_key).All
            (fun _ => True) (fun s1 => StepAhead s1) := by
          refine Out.All_bind _ _ c2 ?_
          intro s1 h1
          exact Out.All_mono _ (scan_read_key_band s1) (fun _ h => h)
            (fun _ h => stepAhead_inBand _ _ h h1)
        refine Out.All_bind _ _ c3 ?_
        intro s1 h1
        exact ih s1 (fun _ => h1)
      · rw [if_neg hc]
        exact (Out.All_done _ _ _).2 h

theorem scan_band_sweeps_ahead (n : Nat) (s : Scan) (h : s.key ≠ 0 → StepAhead s) :
    (scan_band_sweeps n s).All (fun _ => True) (fun s1 => s1.key ≠ 0 ∧ StepAhead s1) := by
  induction n generalizing s with
  | zero => exact Out.All_nofuel _ _
  | succ n ih =>
      rw [scan_band_sweeps]
      by_cases hc : s.key = 0
      · rw [if_pos hc]
        refine Out.All_bind _ _
          (scan_band_sweep_ahead n
            { s with f0 := s.sys.g.scanfreq.1, f1 := s.sys.g.scanfreq.2, df := 0 }
            (fun hne => absurd hc hne)) ?_
        intro s1 h1
        exact ih s1 h1
      · rw [if_neg hc]
        exact (Out.All_done _ _ _).2 ⟨hc, h hc⟩

theorem scan_drain_band (n : Nat) (s : Scan) :
    (Scan.drain n s).All (fun _ => True) (fun s1 => InBand s s1 ∧ s1.key = s.key) := by
  unfold Scan.drain
  have a := drain_keys_all isInput isInput_keys n s.sys
  cases hd : drain_keys n s.sys with
  | nofuel => exact Out.All_nofuel _ _
  | starved s1 => exact (Out.All_starved _ _ _).2 trivial
  | done s1 =>
      have a1 := Out.All_of_eq_done a hd
      exact (Out.All_done _ _ _).2 ⟨⟨a1.1, rfl, rfl⟩, rfl⟩

theorem scan_band_result (fuel : Nat) (s : Scan) (hk : s.key = 0) :
    (scan_band fuel s).All (fun _ => True)
      (fun r => r.1 = -1 ∨ (progsOf r.2.trace).getLast? = some (toULong (r.1 - 100))) := by
  unfold scan_band
  refine Out.All_bind _ _ (scan_band_sweeps_ahead fuel s (fun hne => absurd hk hne)) ?_
  intro s1 ⟨_, h1⟩
  refine Out.All_bind _ _ (scan_drain_band fuel s1) ?_
  intro s2 ⟨h2, _⟩
  refine (Out.All_done _ _ _).2 ?_
  by_cases hk2 : s2.key = 2
  · right
    have h3 := stepAhead_inBand _ _ h2 h1
    unfold StepAhead at h3
    show (progsOf s2.sys.trace).getLast? =
      some (toULong ((if s2.key = 2 then toLong (s2.f0 + s2.df) else -1) - 100))
    rw [if_pos hk2]
    exact h3
  · left
    show (if s2.key = 2 then toLong (s2.f0 + s2.df) else -1) = -1
    rw [if_neg hk2]

set_option maxRecDepth 100000 in
/-- C18 (the code at the failing input): in a band scan from 14,100,000 Hz on which the
confirm key 2 is read at the first key read of the sweep, the only frequency passed to
`set_frequency1` is 14,100,000, and the value returned is 14,100,100: `df += 100` has
already been executed when `f0 + df` is returned.  For every input, a value returned by
`scan(1)` other than -1 is 100 Hz above the frequency most recently passed to
`set_frequency1` (as `unsigned long` values). -/
theorem C18_band_scan_returns_next_step :
    (scan 10 1 (List.replicate 15 0) sysBand).ret = some 14100100 ∧
    (scan 10 1 (List.replicate 15 0) sysBand).sys.map (fun s => s.trace) =
      some [Ev.keys 0, Ev.setf1 14100000, Ev.adc2 0, Ev.keys 2, Ev.keys 0] ∧
    (∀ (fuel : Nat) (stack : List Int) (sys sys1 : Sys) (r : Int),
      scan fuel 1 stack sys = .done (r, sys1) →
      r = -1 ∨ (progsOf sys1.trace).getLast? = some (toULong (r - 100))) := by
  refine ⟨by decide, by decide, ?_⟩
  intro fuel stack sys sys1 r hd
  unfold scan at hd
  obtain ⟨s, e1, h1⟩ := (Out.bind_eq_done _ _ _).1 hd
  obtain ⟨_, hk⟩ := Out.All_of_eq_done (scan_drain_band fuel (scan_entry stack sys)) e1
  have hn : ¬ ((1 : Int) = 0) := by decide
  rw [if_neg hn, if_pos rfl] at h1
  have h2 := Out.All_of_eq_done (scan_band_result fuel s hk) h1
  exact h2


/-! ## Tuning: proofs -/

theorem calc_tuningfactor_eq (g : Globals) (h1 : -127 ≤ g.tuningcount)
    (h2 : g.tuningcount ≤ 127) : calc_tuningfactor g = 2 * g.tuningcount ^ 2 := by
  unfold calc_tuningfactor
  have hsq : g.tuningcount * g.tuningcount ≤ 16129 := by nlinarith
  have hsq0 : 0 ≤ g.tuningcount * g.tuningcount := mul_self_nonneg _
  rw [toInt16_small (g.tuningcount * g.tuningcount) (by omega) (by omega),
    toInt16_small _ (by omega) (by omega)]
  ring

theorem main_retune_spec (f : Nat) (m : Main) :
    (main_retune f m).sys.g.tuningknob = 0 ∧
    (main_retune f m).sys.g.f_vfo = set2 m.sys.g.f_vfo m.cur_vfo f ∧
    (main_retune f m).cur_vfo = m.cur_vfo ∧
    (main_retune f m).sys.trace = m.sys.trace ++ [Ev.setf1 f] := ⟨rfl, rfl, rfl, rfl⟩

theorem main_tune_cw (m : Main) (h : m.sys.g.tuningknob ≤ -1) :
    main_tune m =
      main_retune
        (toULong (((get2 m.sys.g.f_vfo m.cur_vfo : Nat) : Int) + calc_tuningfactor m.sys.g)) m := by
  unfold main_tune
  simp only [if_pos h]
  rw [if_neg]
  rw [(main_retune_spec _ m).1]
  omega

theorem main_tune_ccw (m : Main) (h : m.sys.g.tuningknob ≥ 1) :
    main_tune m =
      main_retune
        (toULong (((get2 m.sys.g.f_vfo m.cur_vfo : Nat) : Int) - calc_tuningfactor m.sys.g)) m := by
  unfold main_tune
  have h1 : ¬ m.sys.g.tuningknob ≤ -1 := by omega
  simp only [if_neg h1, if_pos h]

theorem main_tune_idle (m : Main) (h : m.sys.g.tuningknob = 0) : main_tune m = m := by
  unfold main_tune
  have h1 : ¬ m.sys.g.tuningknob ≤ -1 := by omega
  have h2 : ¬ m.sys.g.tuningknob ≥ 1 := by omega
  simp only [if_neg h1, if_neg h2]

theorem get2_set2_other {α : Type} (a : α × α) (i : Int) (v : α) (h : i = 0 ∨ i = 1) :
    get2 (set2 a i v) (1 - i) = get2 a (1 - i) := by
  unfold get2 set2
  rcases h with h | h <;> subst h <;> simp

theorem toULong_nat (v : Nat) (h : v < 4294967296) : toULong (v : Int) = v := by
  unfold toULong
  omega

/-- C26 (counterexample): with the turns counter at 128 the 16-bit result of
`calc_tuningfactor` is -32768, not 2 * 128^2 = 32768, and a clockwise step from
14,200,000 Hz lowers the frequency to 14,167,232 Hz.  (The sum is also formed modulo 2^32: a
counter-clockwise step with the counter at 1 from 0 Hz gives 4,294,967,294 Hz.) -/
theorem C26_tuning_factor_counterexample :
    calc_tuningfactor (mainAt (14200000, 14100000) (-1) 128 0).sys.g = -32768 ∧
    calc_tuningfactor (mainAt (14200000, 14100000) (-1) 128 0).sys.g ≠ 2 * 128 ^ 2 ∧
    (main_tune (mainAt (14200000, 14100000) (-1) 128 0)).sys.g.f_vfo = (14167232, 14100000) ∧
    (main_tune (mainAt (0, 14100000) 1 1 0)).sys.g.f_vfo = (4294967294, 14100000) := by
  decide

/-- C26 (amended): for a turns counter n with -127 ≤ n ≤ 127, `calc_tuningfactor` returns
2 * n^2; the tuning code of the main loop then replaces f_vfo[active] by
f_vfo[active] + 2 * n^2 on flag -1 and by f_vfo[active] - 2 * n^2 on flag +1 (modulo 2^32,
so exactly that amount whenever the result is representable), leaves the other VFO alone,
clears the flag and programs chip A with the new value; with the flag at 0 nothing
changes. -/
theorem C26_tuning_acceleration (m : Main) (h1 : -127 ≤ m.sys.g.tuningcount)
    (h2 : m.sys.g.tuningcount ≤ 127) (hc : m.cur_vfo = 0 ∨ m.cur_vfo = 1) :
    calc_tuningfactor m.sys.g = 2 * m.sys.g.tuningcount ^ 2 ∧
    (m.sys.g.tuningknob ≤ -1 →
      get2 (main_tune m).sys.g.f_vfo m.cur_vfo =
        toULong (((get2 m.sys.g.f_vfo m.cur_vfo : Nat) : Int) + 2 * m.sys.g.tuningcount ^ 2) ∧
      (((get2 m.sys.g.f_vfo m.cur_vfo : Nat) : Int) + 2 * m.sys.g.tuningcount ^ 2 < 4294967296 →
        ((get2 (main_tune m).sys.g.f_vfo m.cur_vfo : Nat) : Int) =
          ((get2 m.sys.g.f_vfo m.cur_vfo : Nat) : Int) + 2 * m.sys.g.tuningcount ^ 2)) ∧
    (m.sys.g.tuningknob ≥ 1 →
      get2 (main_tune m).sys.g.f_vfo m.cur_vfo =
        toULong (((get2 m.sys.g.f_vfo m.cur_vfo : Nat) : Int) - 2 * m.sys.g.tuningcount ^ 2) ∧
      (2 * m.sys.g.tuningcount ^ 2 ≤ ((get2 m.sys.g.f_vfo m.cur_vfo : Nat) : Int) →
        get2 m.sys.g.f_vfo m.cur_vfo < 4294967296 →
        ((get2 (main_tune m).sys.g.f_vfo m.cur_vfo : Nat) : Int) =
          ((get2 m.sys.g.f_vfo m.cur_vfo : Nat) : Int) - 2 * m.sys.g.tuningcount ^ 2)) ∧
    (m.sys.g.tuningknob ≠ 0 →
      get2 (main_tune m).sys.g.f_vfo (1 - m.cur_vfo) = get2 m.sys.g.f_vfo (1 - m.cur_vfo) ∧
      (main_tune m).sys.g.tuningknob = 0 ∧
      (main_tune m).sys.trace =
        m.sys.trace ++ [Ev.setf1 (get2 (main_tune m).sys.g.f_vfo m.cur_vfo)]) ∧
    (m.sys.g.tuningknob = 0 → main_tune m = m) := by
  have hf := calc_tuningfactor_eq m.sys.g h1 h2
  have hsq : m.sys.g.tuningcount ^ 2 ≤ 16129 := by nlinarith
  have hsq0 : 0 ≤ m.sys.g.tuningcount ^ 2 := by positivity
  refine ⟨hf, ?_, ?_, ?_, main_tune_idle m⟩
  · intro hk
    rw [main_tune_cw m hk, (main_retune_spec _ m).2.1, get2_set2, hf]
    refine ⟨rfl, ?_⟩
    intro hlt
    unfold toULong
    omega
  · intro hk
    rw [main_tune_ccw m hk, (main_retune_spec _ m).2.1, get2_set2, hf]
    refine ⟨rfl, ?_⟩
    intro hle hlt
    unfold toULong
    omega
  · intro hk
    have hcase : m.sys.g.tuningknob ≤ -1 ∨ m.sys.g.tuningknob ≥ 1 := by omega
    rcases hcase with hk1 | hk1
    · rw [main_tune_cw m hk1]
      obtain ⟨a, b, _, d⟩ := main_retune_spec
        (toULong (((get2 m.sys.g.f_vfo m.cur_vfo : Nat) : Int) + calc_tuningfactor m.sys.g)) m
      rw [b, get2_set2_other _ _ _ hc, get2_set2]
      exact ⟨rfl, a, d⟩
    · rw [main_tune_ccw m hk1]
      obtain ⟨a, b, _, d⟩ := main_retune_spec
        (toULong (((get2 m.sys.g.f_vfo m.cur_vfo : Nat) : Int) - calc_tuningfactor m.sys.g)) m
      rw [b, get2_set2_other _ _ _ hc, get2_set2]
      exact ⟨rfl, a, d⟩

set_option maxRecDepth 100000 in
theorem C26_tuning_acceleration_witness :
    calc_tuningfactor (mainAt (14200000, 14100000) (-1) 5 0).sys.g = 2 * 5 ^ 2 ∧
    get2 (main_tune (mainAt (14200000, 14100000) (-1) 5 0)).sys.g.f_vfo 0 = 14200050 ∧
    get2 (main_tune (mainAt (14200000, 14100000) 1 5 1)).sys.g.f_vfo 1 = 14099950 := by
  have h := C26_tuning_acceleration (mainAt (14200000, 14100000) (-1) 5 0) (by decide)
    (by decide) (Or.inl rfl)
  exact ⟨h.1, by decide, by decide⟩

/-- C21 (counterexample): with VFO A at the upper band edge 14,400,000 Hz, the turns counter
at 1 and the flag at -1, the tuning code of the main loop sets f_vfo[0] to 14,400,002 Hz,
which is outside 13,900,000..14,400,000. -/
theorem C21_tuning_band_counterexample :
    inBand (get2 (mainAt (14400000, 14100000) (-1) 1 0).sys.g.f_vfo 0) ∧
    get2 (main_tune (mainAt (14400000, 14100000) (-1) 1 0)).sys.g.f_vfo 0 = 14400002 ∧
    ¬ inBand (get2 (main_tune (mainAt (14400000, 14100000) (-1) 1 0)).sys.g.f_vfo 0) := by
  decide

/-- C21 (amended): the tuning code of the main loop has no band test.  For f_vfo[active] in
13,900,000..14,400,000 and a turns counter n with -127 ≤ n ≤ 127 it sets f_vfo[active] to
f_vfo[active] + 2 * n^2 on flag -1 and to f_vfo[active] - 2 * n^2 on flag +1, so the new
value is within the band exactly when that sum or difference is, and the value is never kept
back when n is not 0. -/
theorem C21_tuning_has_no_band_test (m : Main) (hb : inBand (get2 m.sys.g.f_vfo m.cur_vfo))
    (h1 : -127 ≤ m.sys.g.tuningcount) (h2 : m.sys.g.tuningcount ≤ 127) :
    (m.sys.g.tuningknob ≤ -1 →
      ((get2 (main_tune m).sys.g.f_vfo m.cur_vfo : Nat) : Int) =
        ((get2 m.sys.g.f_vfo m.cur_vfo : Nat) : Int) + 2 * m.sys.g.tuningcount ^ 2 ∧
      (inBand (get2 (main_tune m).sys.g.f_vfo m.cur_vfo) ↔
        ((get2 m.sys.g.f_vfo m.cur_vfo : Nat) : Int) + 2 * m.sys.g.tuningcount ^ 2 ≤ 14400000)) ∧
    (m.sys.g.tuningknob ≥ 1 →
      ((get2 (main_tune m).sys.g.f_vfo m.cur_vfo : Nat) : Int) =
        ((get2 m.sys.g.f_vfo m.cur_vfo : Nat) : Int) - 2 * m.sys.g.tuningcount ^ 2 ∧
      (inBand (get2 (main_tune m).sys.g.f_vfo m.cur_vfo) ↔
        13900000 ≤ ((get2 m.sys.g.f_vfo m.cur_vfo : Nat) : Int) - 2 * m.sys.g.tuningcount ^ 2)) ∧
    (m.sys.g.tuningknob ≠ 0 → m.sys.g.tuningcount ≠ 0 →
      get2 (main_tune m).sys.g.f_vfo m.cur_vfo ≠ get2 m.sys.g.f_vfo m.cur_vfo) := by
  have hf := calc_tuningfactor_eq m.sys.g h1 h2
  have hsq : m.sys.g.tuningcount ^ 2 ≤ 16129 := by nlinarith
  have hsq0 : 0 ≤ m.sys.g.tuningcount ^ 2 := by positivity
  obtain ⟨hlo, hhi⟩ := hb
  have hcw : m.sys.g.tuningknob ≤ -1 →
      ((get2 (main_tune m).sys.g.f_vfo m.cur_vfo : Nat) : Int) =
        ((get2 m.sys.g.f_vfo m.cur_vfo : Nat) : Int) + 2 * m.sys.g.tuningcount ^ 2 := by
    intro hk
    rw [main_tune_cw m hk, (main_retune_spec _ m).2.1, get2_set2, hf]
    unfold toULong
    omega
  have hccw : m.sys.g.tuningknob ≥ 1 →
      ((get2 (main_tune m).sys.g.f_vfo m.cur_vfo : Nat) : Int) =
        ((get2 m.sys.g.f_vfo m.cur_vfo : Nat) : Int) - 2 * m.sys.g.tuningcount ^ 2 := by
    intro hk
    rw [main_tune_ccw m hk, (main_retune_spec _ m).2.1, get2_set2, hf]
    unfold toULong
    omega
  refine ⟨fun hk => ⟨hcw hk, ?_⟩, fun hk => ⟨hccw hk, ?_⟩, ?_⟩
  · have e := hcw hk
    unfold inBand
    constructor
    · intro ⟨_, b⟩
      omega
    · intro b
      constructor <;> omega
  · have e := hccw hk
    unfold inBand
    constructor
    · intro ⟨a, _⟩
      omega
    · intro b
      constructor <;> omega
  · intro hk hn heq
    have hpos : 0 < m.sys.g.tuningcount ^ 2 := by positivity
    have hcase : m.sys.g.tuningknob ≤ -1 ∨ m.sys.g.tuningknob ≥ 1 := by omega
    rcases hcase with hk1 | hk1
    · have e := hcw hk1
      rw [heq] at e
      omega
    · have e := hccw hk1
      rw [heq] at e
      omega

set_option maxRecDepth 100000 in
theorem C21_tuning_has_no_band_test_witness :
    inBand (get2 (mainAt (14399990, 14100000) (-1) 3 0).sys.g.f_vfo 0) ∧
    ((get2 (main_tune (mainAt (14399990, 14100000) (-1) 3 0)).sys.g.f_vfo 0 : Nat) : Int) =
      14399990 + 2 * 3 ^ 2 ∧
    ¬ inBand (get2 (main_tune (mainAt (14399990, 14100000) (-1) 3 0)).sys.g.f_vfo 0) := by
  have h := C21_tuning_has_no_band_test (mainAt (14399990, 14100000) (-1) 3 0) (by decide)
    (by decide) (by decide)
  exact ⟨by decide, (h.1 (by decide)).1, by decide⟩

/-! ## Split: proofs -/

theorem main_action30_spec (m : Main) (hc : m.cur_vfo = 0 ∨ m.cur_vfo = 1) :
    (main_action30 m).split = 1 ∧ (main_action30 m).sys.g.vfo_x = m.cur_vfo ∧
    (main_action30 m).sys.g.vfo_y = 1 - m.cur_vfo ∧ (main_action30 m).cur_vfo = m.cur_vfo ∧
    (main_action30 m).sys.g.f_vfo = m.sys.g.f_vfo ∧
    (main_action30 m).sys.trace = m.sys.trace := by
  unfold main_action30
  rcases hc with h | h
  · simp [h]
  · simp [h]

theorem show_meter_vfo (v : Int) (g : Globals) :
    (show_meter v g).vfo_x = g.vfo_x ∧ (show_meter v g).vfo_y = g.vfo_y ∧
    (show_meter v g).f_vfo = g.f_vfo := by
  unfold show_meter
  dsimp only
  split_ifs <;> exact ⟨rfl, rfl, rfl⟩

theorem main_txrx_switch (pind : Nat) (m : Main) (hs : m.split ≠ 0)
    (ht : m.txrx_old ≠ (if pind &&& 1 = 0 then 0 else 1)) :
    (main_txrx pind m).cur_vfo = (if pind &&& 1 = 0 then m.sys.g.vfo_x else m.sys.g.vfo_y) ∧
    (main_txrx pind m).sys.g.f_vfo = m.sys.g.f_vfo ∧
    (main_txrx pind m).sys.trace =
      m.sys.trace ++
        [Ev.setf1 (toULong (if pind &&& 1 = 0 then m.sys.g.vfo_x else m.sys.g.vfo_y))] := by
  obtain ⟨sx, sy, sf⟩ := show_meter_vfo 0 m.sys.g
  unfold main_txrx
  dsimp only
  rw [if_pos ht, if_pos hs]
  by_cases hp : pind &&& 1 = 0
  · simp only [hp, if_true, ne_eq, not_true_eq_false, if_false, Sys.log, sx, sf]
    exact ⟨trivial, trivial, trivial⟩
  · simp only [hp, if_false, ne_eq, one_ne_zero, not_false_eq_true, if_true, Sys.log, sy, sf]
    exact ⟨trivial, trivial, trivial⟩

/-- C22 (the code at the failing input): engaging split on VFO `a` records `a` as the RX VFO
(`vfo_x`) and the other one as the TX VFO (`vfo_y`), and on a transition of the sense line
(PD0) with split engaged the active VFO becomes the TX VFO when transmitting and the RX VFO
when receiving; but the call made at that point is `set_frequency1(cur_vfo)`: chip A is
programmed with the index of the newly active VFO (0 or 1 Hz), which is not f_vfo[active]
for any frequency of the band.  With VFO A at 14,200,000 Hz and VFO B at 14,250,000 Hz,
split engaged on A and the line going to transmit, the one call recorded is
`set_frequency1(1)`. -/
theorem C22_split_programs_vfo_index (pind : Nat) (m : Main)
    (hc : m.cur_vfo = 0 ∨ m.cur_vfo = 1)
    (ht : (main_action30 m).txrx_old ≠ (if pind &&& 1 = 0 then 0 else 1)) :
    (main_action30 m).split = 1 ∧ (main_action30 m).sys.g.vfo_x = m.cur_vfo ∧
    (main_action30 m).sys.g.vfo_y = 1 - m.cur_vfo ∧
    (main_txrx pind (main_action30 m)).cur_vfo =
      (if pind &&& 1 = 0 then m.cur_vfo else 1 - m.cur_vfo) ∧
    (main_txrx pind (main_action30 m)).sys.g.f_vfo = m.sys.g.f_vfo ∧
    (main_txrx pind (main_action30 m)).sys.trace =
      m.sys.trace ++ [Ev.setf1 (if pind &&& 1 = 0 then m.cur_vfo else 1 - m.cur_vfo).toNat] ∧
    (inBand (get2 m.sys.g.f_vfo (main_txrx pind (main_action30 m)).cur_vfo) →
      (main_txrx pind (main_action30 m)).sys.trace ≠
        m.sys.trace ++
          [Ev.setf1 (get2 m.sys.g.f_vfo (main_txrx pind (main_action30 m)).cur_vfo)]) ∧
    (main_txrx 1 (main_action30 (mainAt (14200000, 14250000) 0 0 0))).cur_vfo = 1 ∧
    (main_txrx 1 (main_action30 (mainAt (14200000, 14250000) 0 0 0))).sys.trace =
      [Ev.setf1 1] ∧
    get2 (main_txrx 1 (main_action30 (mainAt (14200000, 14250000) 0 0 0))).sys.g.f_vfo 1 =
      14250000 := by
  obtain ⟨a1, a2, a3, a4, a5, a6⟩ := main_action30_spec m hc
  have hs : (main_action30 m).split ≠ 0 := by rw [a1]; decide
  obtain ⟨hsw1, hsw2, hsw3⟩ := main_txrx_switch pind (main_action30 m) hs ht
  have hcur : (main_txrx pind (main_action30 m)).cur_vfo =
      (if pind &&& 1 = 0 then m.cur_vfo else 1 - m.cur_vfo) := by
    rw [hsw1, a2, a3]
  have hfv : (main_txrx pind (main_action30 m)).sys.g.f_vfo = m.sys.g.f_vfo := by
    rw [hsw2, a5]
  have hidx : toULong (if pind &&& 1 = 0 then m.cur_vfo else 1 - m.cur_vfo) =
      (if pind &&& 1 = 0 then m.cur_vfo else 1 - m.cur_vfo).toNat := by
    unfold toULong
    rcases hc with h | h <;> rw [h] <;> split_ifs <;> rfl
  have htr : (main_txrx pind (main_action30 m)).sys.trace =
      m.sys.trace ++ [Ev.setf1 (if pind &&& 1 = 0 then m.cur_vfo else 1 - m.cur_vfo).toNat] := by
    rw [hsw3, a2, a3, a6, hidx]
  refine ⟨a1, a2, a3, hcur, hfv, htr, ?_, by decide, by decide, by decide⟩
  intro hb heq
  rw [htr] at heq
  have h1 := List.append_cancel_left heq
  simp only [List.cons.injEq, Ev.setf1.injEq, and_true] at h1
  rw [hcur] at hb h1
  obtain ⟨hlo, _⟩ := hb
  rw [← h1] at hlo
  rcases hc with h | h <;> rw [h] at hlo <;> split_ifs at hlo <;> simp at hlo

theorem C22_split_programs_vfo_index_witness :
    (main_txrx 1 (main_action30 (mainAt (14200000, 14250000) 0 0 1))).cur_vfo = 0 ∧
    (main_txrx 1 (main_action30 (mainAt (14200000, 14250000) 0 0 1))).sys.trace =
      [Ev.setf1 0] := by
  have h := C22_split_programs_vfo_index 1 (mainAt (14200000, 14250000) 0 0 1) (Or.inr rfl)
    (by decide)
  exact ⟨h.2.2.2.1, h.2.2.2.2.2.1⟩

/-! ## Dialogs: proofs -/

theorem dlg_read_key_cons (d : Dlg) (p : Poll) (rest : List Poll)
    (hin : d.sys.input = p :: rest) :
    d.read_key = .done { d with
      sys := { g := irq p d.sys.g, e := d.sys.e, input := rest,
               trace := d.sys.trace ++ [Ev.keys (get_keys p.adc0)] },
      key := get_keys p.adc0 } := by
  unfold Dlg.read_key
  rw [call_get_keys_cons d.sys p rest hin]

theorem dlg_read_key_all (I : Dlg → Prop) (d : Dlg)
    (hread : ∀ (p : Poll) (rest : List Poll), d.sys.input = p :: rest →
      I { d with
        sys := { g := irq p d.sys.g, e := d.sys.e, input := rest,
                 trace := d.sys.trace ++ [Ev.keys (get_keys p.adc0)] },
        key := get_keys p.adc0 }) :
    d.read_key.All (fun _ => True) I := by
  cases hin : d.sys.input with
  | nil =>
      unfold Dlg.read_key call_get_keys
      rw [hin]
      exact (Out.All_starved _ _ _).2 trivial
  | cons p rest =>
      rw [dlg_read_key_cons d p rest hin]
      exact (Out.All_done _ _ _).2 (hread p rest hin)

theorem dlg_loop_inv (turn : Dlg → Dlg) (I : Dlg → Prop)
    (hstep : ∀ (d : Dlg) (p : Poll) (rest : List Poll), I d → d.key = 0 →
      (turn d).sys.input = p :: rest →
      I { turn d with
        sys := { g := irq p (turn d).sys.g, e := (turn d).sys.e, input := rest,
                 trace := (turn d).sys.trace ++ [Ev.keys (get_keys p.adc0)] },
        key := get_keys p.adc0 })
    (n : Nat) (d : Dlg) (hI : I d) :
    (dlg_loop turn n d).All (fun _ => True) (fun d1 => I d1 ∧ d1.key ≠ 0) := by
  induction n generalizing d with
  | zero => exact Out.All_nofuel _ _
  | succ n ih =>
      rw [dlg_loop]
      by_cases hk : d.key = 0
      · rw [if_pos hk]
        refine Out.All_bind _ _
          (dlg_read_key_all I (turn d) (fun p rest hin => hstep d p rest hI hk hin)) ?_
        intro d1 h1
        exact ih d1 h1
      · rw [if_neg hk]
        exact (Out.All_done _ _ _).2 ⟨hI, hk⟩

/-- A dialog loop whose body leaves the polls alone returns as soon as a poll reports a key:
with a key among the polls, as many iterations as there are polls suffice. -/
theorem dlg_loop_returns (turn : Dlg → Dlg) (hin : ∀ d, (turn d).sys.input = d.sys.input)
    (n : Nat) (d : Dlg) (hn : d.sys.input.length ≤ n)
    (hkey : d.key ≠ 0 ∨ ∃ p ∈ d.sys.input, get_keys p.adc0 ≠ 0) :
    ∃ d1, dlg_loop turn (n + 1) d = .done d1 := by
  induction n generalizing d with
  | zero =>
      rw [dlg_loop]
      rcases hkey with hk | ⟨p, hp, _⟩
      · rw [if_neg hk]
        exact ⟨d, rfl⟩
      · have : d.sys.input = [] := List.length_eq_zero.1 (by omega)
        rw [this] at hp
        cases hp
  | succ n ih =>
      rw [dlg_loop]
      by_cases hk : d.key = 0
      · rw [if_pos hk]
        rcases hkey with hk1 | ⟨p, hp, hpk⟩
        · exact absurd hk hk1
        · cases hi : (turn d).sys.input with
          | nil =>
              rw [hin d] at hi
              rw [hi] at hp
              cases hp
          | cons q rest =>
              rw [dlg_read_key_cons (turn d) q rest hi, Out.bind_done]
              have hlen : d.sys.input.length = rest.length + 1 := by
                rw [← hin d, hi]
                rfl
              refine ih _ (by show rest.length ≤ n; omega) ?_
              rw [← hin d, hi] at hp
              rcases List.mem_cons.1 hp with h1 | h1
              · left
                show get_keys q.adc0 ≠ 0
                rw [← h1]
                exact hpk
              · right
                exact ⟨p, h1, hpk⟩
      · rw [if_neg hk]
        exact ⟨d, rfl⟩

theorem irq_keeps (p : Poll) (g : Globals) :
    (irq p g).s_threshold = g.s_threshold ∧ (irq p g).scanfreq = g.scanfreq ∧
    (irq p g).f_lo = g.f_lo ∧ (irq p g).f_vfo = g.f_vfo := by
  have h1 : ∀ (q : Nat) (g : Globals), (INT0_vect q g).s_threshold = g.s_threshold ∧
      (INT0_vect q g).scanfreq = g.scanfreq ∧ (INT0_vect q g).f_lo = g.f_lo ∧
      (INT0_vect q g).f_vfo = g.f_vfo := by
    intro q g
    unfold INT0_vect
    dsimp only
    split_ifs <;> exact ⟨rfl, rfl, rfl, rfl⟩
  have h2 : ∀ (l : List Nat) (g : Globals), (isr_run l g).s_threshold = g.s_threshold ∧
      (isr_run l g).scanfreq = g.scanfreq ∧ (isr_run l g).f_lo = g.f_lo ∧
      (isr_run l g).f_vfo = g.f_vfo := by
    intro l
    induction l with
    | nil => intro g; exact ⟨rfl, rfl, rfl, rfl⟩
    | cons q rest ih =>
        intro g
        rw [isr_run]
        obtain ⟨a, b, c, d⟩ := ih (INT0_vect q g)
        obtain ⟨a1, b1, c1, d1⟩ := h1 q g
        exact ⟨a.trans a1, b.trans b1, c.trans c1, d.trans d1⟩
  have h3 : ∀ (n : Nat) (g : Globals), (irq_ticks n g).s_threshold = g.s_threshold ∧
      (irq_ticks n g).scanfreq = g.scanfreq ∧ (irq_ticks n g).f_lo = g.f_lo ∧
      (irq_ticks n g).f_vfo = g.f_vfo := by
    intro n
    induction n with
    | zero => intro g; exact ⟨rfl, rfl, rfl, rfl⟩
    | succ n ih =>
        intro g
        rw [irq_ticks]
        obtain ⟨a, b, c, d⟩ := ih (TIMER1_OVF_vect g)
        exact ⟨a, b, c, d⟩
  unfold irq
  obtain ⟨a, b, c, d⟩ := h3 p.ticks (isr_run p.enc g)
  obtain ⟨a1, b1, c1, d1⟩ := h2 p.enc g
  exact ⟨a.trans a1, b.trans b1, c.trans c1, d.trans d1⟩

/-! ## Scan threshold dialog: proofs -/

theorem thresh_turn_spec (d : Dlg) (h0 : 0 ≤ d.val) (h80 : d.val ≤ 80) :
    0 ≤ (thresh_turn d).val ∧ (thresh_turn d).val ≤ 80 ∧
    (thresh_turn d).sys.g.s_threshold = d.sys.g.s_threshold ∧
    (thresh_turn d).sys.e = d.sys.e ∧ (thresh_turn d).sys.input = d.sys.input ∧
    (thresh_turn d).key = d.key := by
  have hs := fun v => (show_meter_frame v d.sys.g).1
  unfold thresh_turn
  dsimp only
  by_cases hcw : d.sys.g.tuningknob ≤ -1
  · rw [if_pos hcw]
    have hn : ¬ ((0 : Int) ≥ 1) := by omega
    dsimp only
    rw [if_neg hn]
    dsimp only
    refine ⟨?_, ?_, hs _, rfl, rfl, rfl⟩
    · split_ifs
      · rw [toInt16_small _ (by omega) (by omega)]; omega
      · exact h0
    · split_ifs
      · rw [toInt16_small _ (by omega) (by omega)]; omega
      · exact h80
  · rw [if_neg hcw]
    by_cases hccw : d.sys.g.tuningknob ≥ 1
    · rw [if_pos hccw]
      dsimp only
      refine ⟨?_, ?_, hs _, rfl, rfl, rfl⟩
      · split_ifs
        · rw [toInt16_small _ (by omega) (by omega)]; omega
        · exact h0
      · split_ifs
        · rw [toInt16_small _ (by omega) (by omega)]; omega
        · exact h80
    · rw [if_neg hccw]
      exact ⟨h0, h80, rfl, rfl, rfl, rfl⟩

theorem thresh_turn_input (d : Dlg) : (thresh_turn d).sys.input = d.sys.input := by
  unfold thresh_turn
  dsimp only
  split_ifs <;> rfl

theorem set_scan_threshold_loop (t0 : Int) (e0 : EEPROM) (n : Nat) (d : Dlg)
    (hI : 0 ≤ d.val ∧ d.val ≤ 80 ∧ d.sys.g.s_threshold = t0 ∧ d.sys.e = e0) :
    (dlg_loop thresh_turn n d).All (fun _ => True)
      (fun d1 => (0 ≤ d1.val ∧ d1.val ≤ 80 ∧ d1.sys.g.s_threshold = t0 ∧ d1.sys.e = e0) ∧
        d1.key ≠ 0) := by
  refine dlg_loop_inv thresh_turn
    (fun d => 0 ≤ d.val ∧ d.val ≤ 80 ∧ d.sys.g.s_threshold = t0 ∧ d.sys.e = e0) ?_ n d hI
  intro d p rest ⟨h0, h80, ht, he⟩ _ _
  obtain ⟨a, b, c, e, _⟩ := thresh_turn_spec d h0 h80
  exact ⟨a, b, ((irq_keeps p _).1.trans c).trans ht, e.trans he⟩

/-- C24: with `s_threshold` in 0..80 on entry, whenever `set_scan_threshold` returns, the
dialog was ended by a key (1..4), `s_threshold` is in 0..80, and `s_threshold` and the
EEPROM differ from their values on entry only when that key is 2: then `s_threshold` is the
value chosen (in 0..80) and EEPROM byte 129 holds it, every other byte being as before.  The
dialog does return, within as many iterations as there are polls, as soon as one poll reports
a key. -/
theorem C24_scan_threshold_range (sys : Sys) (h0 : 0 ≤ sys.g.s_threshold)
    (h80 : sys.g.s_threshold ≤ 80) :
    (∀ (fuel : Nat) (d1 : Dlg), set_scan_threshold fuel sys = .done d1 →
      d1.key ≠ 0 ∧ 0 ≤ d1.sys.g.s_threshold ∧ d1.sys.g.s_threshold ≤ 80 ∧
      (d1.key ≠ 2 → d1.sys.g.s_threshold = sys.g.s_threshold ∧ d1.sys.e = sys.e) ∧
      (d1.key = 2 → d1.sys.g.s_threshold = d1.val ∧
        d1.sys.e = eeprom_write_byte sys.e 129 d1.val.toNat ∧
        (eeprom_read_byte d1.sys.e 129 : Int) = d1.sys.g.s_threshold)) ∧
    ((∃ p ∈ sys.input, get_keys p.adc0 ≠ 0) →
      ∃ d1, set_scan_threshold (sys.input.length + 1) sys = .done d1) := by
  constructor
  · intro fuel d1 h
    unfold set_scan_threshold at h
    obtain ⟨d, hd, hfin⟩ := (Out.bind_eq_done _ _ _).1 h
    have hall := set_scan_threshold_loop sys.g.s_threshold sys.e fuel
      { sys := { sys with g := show_meter sys.g.s_threshold sys.g }, key := 0,
        val := sys.g.s_threshold }
      ⟨h0, h80, (show_meter_frame _ _).1, rfl⟩
    have hq := Out.All_of_eq_done hall hd
    obtain ⟨⟨v0, v80, ht, he⟩, hk⟩ := hq
    simp only [Out.done.injEq] at hfin
    subst hfin
    unfold set_scan_threshold_end
    by_cases h2 : d.key = 2
    · simp only [if_pos h2]
      refine ⟨hk, v0, v80, fun hn => absurd h2 hn, fun _ => ⟨trivial, ?_, ?_⟩⟩
      · rw [he]
        unfold toUChar
        have : (d.val % 256).toNat = d.val.toNat := by omega
        rw [this]
      · unfold eeprom_read_byte eeprom_write_byte toUChar
        simp only [if_true]
        omega
    · simp only [if_neg h2]
      exact ⟨hk, by rw [ht]; exact h0, by rw [ht]; exact h80, fun _ => ⟨ht, he⟩,
        fun hc => absurd hc h2⟩
  · intro hex
    unfold set_scan_threshold
    obtain ⟨d1, hd1⟩ := dlg_loop_returns thresh_turn thresh_turn_input sys.input.length
      { sys := { sys with g := show_meter sys.g.s_threshold sys.g }, key := 0,
        val := sys.g.s_threshold }
      (le_refl _) (Or.inr hex)
    rw [hd1]
    exact ⟨_, rfl⟩

set_option maxRecDepth 100000 in
theorem C24_scan_threshold_range_witness :
    (∃ d1, set_scan_threshold 4 (sysThr 80 [pollCW, pollCCW, pollKey 2]) = .done d1) ∧
    (set_scan_threshold 4 (sysThr 80 [pollCW, pollCCW, pollKey 2])).result.map
      (fun d => (d.key, d.sys.g.s_threshold, eeprom_read_byte d.sys.e 129)) =
        some (2, 79, 79) ∧
    (set_scan_threshold 4 (sysThr 80 [pollCW, pollCCW, pollKey 3])).result.map
      (fun d => (d.key, d.sys.g.s_threshold, eeprom_read_byte d.sys.e 129)) =
        some (3, 80, 0) :=
  ⟨(C24_scan_threshold_range (sysThr 80 [pollCW, pollCCW, pollKey 2]) (by decide)
      (by decide)).2 ⟨pollKey 2, by decide, by decide⟩, by decide, by decide⟩

/-! ## LO dialog: proofs -/

theorem load_frequency_store_same (f : Int) (m : Int) (e : EEPROM) (h0 : 0 ≤ f)
    (hf : f < 4294967296) : load_frequency m (store_frequency f m e) = f.toNat := by
  have h4 := toInt16_mul4 m
  have a01 := eeAddr_ne (toInt16 (m * 4)) 0 1 (by norm_num) (by norm_num) (by norm_num) h4
  have a02 := eeAddr_ne (toInt16 (m * 4)) 0 2 (by norm_num) (by norm_num) (by norm_num) h4
  have a03 := eeAddr_ne (toInt16 (m * 4)) 0 3 (by norm_num) (by norm_num) (by norm_num) h4
  have a12 := eeAddr_ne (toInt16 (m * 4)) 1 2 (by norm_num) (by norm_num) (by norm_num) h4
  have a13 := eeAddr_ne (toInt16 (m * 4)) 1 3 (by norm_num) (by norm_num) (by norm_num) h4
  have a23 := eeAddr_ne (toInt16 (m * 4)) 2 3 (by norm_num) (by norm_num) (by norm_num) h4
  rw [load_frequency_eq]
  simp only [store_frequency_apply, a01, a02, a03, a12, a13, a23, if_true, if_false,
    toUChar_mod]
  have hn : f = (f.toNat : Int) := by omega
  have hb := be_bytes_sum f.toNat (by omega)
  rw [← hn] at hb
  exact hb

theorem lo_turn_spec (d : Dlg) :
    (lo_turn d).sys.e = d.sys.e ∧ (lo_turn d).sys.g.f_lo = d.sys.g.f_lo ∧
    (lo_turn d).sys.input = d.sys.input ∧ (lo_turn d).key = d.key ∧
    ((lo_turn d).val = d.val ∨ (lo_turn d).val = toLong (d.val + 10) ∨
      (lo_turn d).val = toLong (d.val - 10)) := by
  unfold lo_turn
  dsimp only
  by_cases hcw : d.sys.g.tuningknob ≤ -1
  · rw [if_pos hcw]
    have hn : ¬ ((0 : Int) ≥ 1) := by omega
    dsimp only [Sys.knob_clear]
    rw [if_neg hn]
    exact ⟨rfl, rfl, rfl, rfl, Or.inr (Or.inl rfl)⟩
  · rw [if_neg hcw]
    by_cases hccw : d.sys.g.tuningknob ≥ 1
    · rw [if_pos hccw]
      exact ⟨rfl, rfl, rfl, rfl, Or.inr (Or.inr rfl)⟩
    · rw [if_neg hccw]
      exact ⟨rfl, rfl, rfl, rfl, Or.inl rfl⟩

theorem lo_turn_input (d : Dlg) : (lo_turn d).sys.input = d.sys.input := (lo_turn_spec d).2.2.1

theorem set_lo_freq_loop (e0 : EEPROM) (lo0 : Int × Int) (f0 : Int) (N : Nat) (n : Nat)
    (d : Dlg) (hI : LoInv e0 lo0 f0 N d) :
    (dlg_loop lo_turn n d).All (fun _ => True) (fun d1 => LoInv e0 lo0 f0 N d1 ∧ d1.key ≠ 0) := by
  refine dlg_loop_inv lo_turn (LoInv e0 lo0 f0 N) ?_ n d hI
  intro d p rest ⟨he, hlo, hlen, k, hk1, hk2, hv⟩ _ hin
  obtain ⟨a, b, c, _, hval⟩ := lo_turn_spec d
  have hl : d.sys.input.length = rest.length + 1 := by
    rw [← c, hin]
    rfl
  refine ⟨a.trans he, ((irq_keeps p _).2.2.1.trans b).trans hlo, ?_, ?_⟩
  · show rest.length ≤ N
    omega
  · show ∃ k : Int, -((N : Int) - rest.length) ≤ k ∧ k ≤ (N : Int) - rest.length ∧
      (lo_turn d).val = toLong (f0 + 10 * k)
    rcases hval with h | h | h
    · exact ⟨k, by omega, by omega, by rw [h, hv]⟩
    · refine ⟨k + 1, by omega, by omega, ?_⟩
      rw [h, hv]
      unfold toLong
      omega
    · refine ⟨k - 1, by omega, by omega, ?_⟩
      rw [h, hv]
      unfold toLong
      omega

set_option maxRecDepth 100000 in
/-- C25 (counterexample): with f_lo[0] = 9,005,000 Hz (inside the window), one clockwise
detent and the confirm key, `set_lo_freq(0)` leaves f_lo[0] = 9,005,010 Hz and slot 35
holding 9,005,010 Hz, outside 8,995,000..9,005,000. -/
theorem C25_lo_window_counterexample :
    inLoBand (get2 (sysLo (9005000, 8998500) [pollCW, pollKey 2]).g.f_lo 0).toNat ∧
    (set_lo_freq 4 0 (sysLo (9005000, 8998500) [pollCW, pollKey 2])).result.map
      (fun d => (d.key, get2 d.sys.g.f_lo 0, load_frequency 35 d.sys.e)) =
        some (2, 9005010, 9005010) ∧
    ¬ inLoBand 9005010 := by
  decide

/-- C25 (amended): `set_lo_freq(sb)` has no range test.  Whenever it returns, a key (1..4)
ended the dialog; when that key is not 2, `f_lo` and the EEPROM are as on entry (so f_lo[sb]
and slot 35+sb stay within the window if they were); when it is 2, f_lo[sb] is the value `f`
shown last, the other LO frequency is as before, the EEPROM is the old one with
`store_frequency(f, 35 + sb)` applied (slot 35+sb reads back `f` when `f` is not negative),
and `f` is the old f_lo[sb] moved by 10 Hz times a whole number of detents, at most one per
poll: it is within 8,995,000..9,005,000 only if that sum is.  The dialog does return, within
as many iterations as there are polls, as soon as one poll reports a key. -/
theorem C25_lo_dialog (sb : Int) (sys : Sys) (hsb : sb = 0 ∨ sb = 1)
    (hlo : 8995000 ≤ get2 sys.g.f_lo sb) (hhi : get2 sys.g.f_lo sb ≤ 9005000) :
    (∀ (fuel : Nat) (d1 : Dlg), set_lo_freq fuel sb sys = .done d1 →
      d1.key ≠ 0 ∧
      (d1.key ≠ 2 → d1.sys.g.f_lo = sys.g.f_lo ∧ d1.sys.e = sys.e) ∧
      (d1.key = 2 → get2 d1.sys.g.f_lo sb = d1.val ∧
        get2 d1.sys.g.f_lo (1 - sb) = get2 sys.g.f_lo (1 - sb) ∧
        d1.sys.e = store_frequency d1.val (35 + sb) sys.e ∧
        (0 ≤ d1.val → load_frequency (35 + sb) d1.sys.e = d1.val.toNat)) ∧
      ∃ k : Int, -(sys.input.length : Int) ≤ k ∧ k ≤ sys.input.length ∧
        d1.val = toLong (get2 sys.g.f_lo sb + 10 * k)) ∧
    ((∃ p ∈ sys.input, get_keys p.adc0 ≠ 0) →
      ∃ d1, set_lo_freq (sys.input.length + 1) sb sys = .done d1) := by
  constructor
  · intro fuel d1 h
    unfold set_lo_freq at h
    obtain ⟨d0, hd0, h1⟩ := (Out.bind_eq_done _ _ _).1 h
    obtain ⟨d, hd, hfin⟩ := (Out.bind_eq_done _ _ _).1 h1
    have hinit : LoInv sys.e sys.g.f_lo (get2 sys.g.f_lo sb) sys.input.length d0 := by
      cases hin : sys.input with
      | nil =>
          unfold Dlg.read_key call_get_keys at hd0
          simp only [hin] at hd0
          cases hd0
      | cons p rest =>
          rw [dlg_read_key_cons _ p rest hin] at hd0
          simp only [Out.done.injEq] at hd0
          subst hd0
          refine ⟨rfl, (irq_keeps p _).2.2.1, ?_, 0, ?_, ?_, ?_⟩
          · show rest.length ≤ (p :: rest).length
            simp
          · show -(((p :: rest).length : Int) - rest.length) ≤ 0
            simp
          · show (0 : Int) ≤ ((p :: rest).length : Int) - rest.length
            simp
          · show get2 sys.g.f_lo sb = toLong (get2 sys.g.f_lo sb + 10 * 0)
            unfold toLong
            omega
    have hq := Out.All_of_eq_done
      (set_lo_freq_loop sys.e sys.g.f_lo (get2 sys.g.f_lo sb) sys.input.length fuel d0 hinit) hd
    obtain ⟨⟨he, hl, hlen, k, hk1, hk2, hv⟩, hk⟩ := hq
    simp only [Out.done.injEq] at hfin
    subst hfin
    have hrange : d.val < 4294967296 := by
      rw [hv]
      unfold toLong
      omega
    refine ⟨hk, ?_, ?_, ⟨k, by omega, by omega, hv⟩⟩
    · intro h2
      have h2' : ¬ d.key = 2 := h2
      unfold set_lo_freq_end
      simp only [if_neg h2']
      exact ⟨hl, he⟩
    · intro h2
      have h2' : d.key = 2 := h2
      unfold set_lo_freq_end
      simp only [if_pos h2']
      have h35 : toInt16 (35 + sb) = 35 + sb := by
        rcases hsb with h | h <;> rw [h] <;> rfl
      rw [h35, he, hl]
      refine ⟨get2_set2 _ _ _, get2_set2_other _ _ _ hsb, rfl, ?_⟩
      intro h0
      exact load_frequency_store_same _ _ _ h0 hrange
  · intro ⟨q, hq, hqk⟩
    unfold set_lo_freq
    cases hin : sys.input with
    | nil =>
        rw [hin] at hq
        cases hq
    | cons p rest =>
        rw [dlg_read_key_cons _ p rest hin, Out.bind_done]
        have hkey : get_keys p.adc0 ≠ 0 ∨ ∃ r ∈ rest, get_keys r.adc0 ≠ 0 := by
          rw [hin] at hq
          rcases List.mem_cons.1 hq with h1 | h1
          · left
            rw [← h1]
            exact hqk
          · exact Or.inr ⟨q, h1, hqk⟩
        obtain ⟨d1, hd1⟩ := dlg_loop_returns lo_turn lo_turn_input (p :: rest).length
          { sys := { g := irq p sys.g, e := sys.e, input := rest,
                     trace := sys.trace ++ [Ev.keys (get_keys p.adc0)] },
            key := get_keys p.adc0, val := get2 sys.g.f_lo sb }
          (by show rest.length ≤ (p :: rest).length; simp) hkey
        rw [hd1]
        exact ⟨_, rfl⟩

set_option maxRecDepth 100000 in
theorem C25_lo_dialog_witness :
    (∃ d1, set_lo_freq 4 0 (sysLo (9000600, 8998200) [pollCW, pollCW, pollKey 2]) =
      .done d1) ∧
    (set_lo_freq 4 0 (sysLo (9000600, 8998200) [pollCW, pollCW, pollKey 2])).result.map
      (fun d => (d.key, d.sys.g.f_lo, load_frequency 35 d.sys.e)) =
        some (2, (9000620, 8998200), 9000620) ∧
    (set_lo_freq 4 0 (sysLo (9000600, 8998200) [pollCW, pollCW, pollKey 3])).result.map
      (fun d => (d.key, d.sys.g.f_lo, load_frequency 35 d.sys.e)) =
        some (3, (9000600, 8998200), 0) :=
  ⟨(C25_lo_dialog 0 (sysLo (9000600, 8998200) [pollCW, pollCW, pollKey 2]) (Or.inl rfl)
      (by decide) (by decide)).2 ⟨pollKey 2, by decide, by decide⟩, by decide, by decide⟩

/-! ## Scan edge dialog: proofs -/

theorem scanfreq_turn_spec (d : Dlg) :
    (scanfreq_turn d).sys.e = d.sys.e ∧ (scanfreq_turn d).sys.g.scanfreq = d.sys.g.scanfreq ∧
    (scanfreq_turn d).sys.input = d.sys.input ∧ (scanfreq_turn d).key = d.key := by
  unfold scanfreq_turn
  dsimp only
  by_cases hcw : d.sys.g.tuningknob ≤ -1
  · rw [if_pos hcw]
    have hn : ¬ ((0 : Int) ≥ 1) := by omega
    dsimp only [Sys.knob_clear, Sys.log]
    rw [if_neg hn]
    exact ⟨rfl, rfl, rfl, rfl⟩
  · rw [if_neg hcw]
    by_cases hccw : d.sys.g.tuningknob ≥ 1
    · rw [if_pos hccw]
      exact ⟨rfl, rfl, rfl, rfl⟩
    · rw [if_neg hccw]
      exact ⟨rfl, rfl, rfl, rfl⟩

theorem set_scan_frequency_loop (e0 : EEPROM) (sf0 : Int × Int) (n : Nat) (d : Dlg)
    (hI : EdgeInv e0 sf0 d) :
    (dlg_loop scanfreq_turn n d).All (fun _ => True)
      (fun d1 => EdgeInv e0 sf0 d1 ∧ d1.key ≠ 0) := by
  refine dlg_loop_inv scanfreq_turn (EdgeInv e0 sf0) ?_ n d hI
  intro d p rest ⟨he, hsf, _⟩ _ _
  obtain ⟨a, b, _, _⟩ := scanfreq_turn_spec d
  exact ⟨a.trans he, ((irq_keeps p _).2.1.trans b).trans hsf, fun _ => ⟨_, rfl⟩⟩

theorem main_scan_edge_spec (fuel : Nat) (fpos : Int) (cur_vfo : Int) (sys sys1 : Sys)
    (h : main_scan_edge fuel fpos cur_vfo sys = .done sys1) :
    ∃ k tr f, sys1.trace = tr ++ [Ev.keys k] ∧ k ≠ 0 ∧
      (k ≠ 2 → sys1.g.scanfreq = set2 sys.g.scanfreq fpos 0 ∧ sys1.e = sys.e) ∧
      (k = 2 → sys1.g.scanfreq = set2 sys.g.scanfreq fpos f ∧
        sys1.e = store_frequency f (toInt16 (33 + fpos)) sys.e) := by
  unfold main_scan_edge set_scan_frequency at h
  obtain ⟨r, hr, hfin⟩ := (Out.bind_eq_done _ _ _).1 h
  obtain ⟨d, hd, hend⟩ := (Out.bind_eq_done _ _ _).1 hr
  have hq := Out.All_of_eq_done
    (set_scan_frequency_loop sys.e sys.g.scanfreq fuel
      { sys := sys, key := 0, val := toLong ((get2 sys.g.f_vfo cur_vfo : Nat) : Int) }
      ⟨rfl, rfl, fun hc => absurd rfl hc⟩) hd
  obtain ⟨⟨he, hsf, htr⟩, hk⟩ := hq
  obtain ⟨tr, htr⟩ := htr hk
  simp only [Out.done.injEq] at hend hfin
  subst hend
  subst hfin
  refine ⟨d.key, tr, d.val, ?_, hk, ?_, ?_⟩
  · unfold set_scan_frequency_end
    by_cases h2 : d.key = 2
    · simp only [if_pos h2]
      exact htr
    · simp only [if_neg h2]
      exact htr
  · intro h2
    have h2' : ¬ d.key = 2 := h2
    unfold set_scan_frequency_end
    simp only [if_neg h2']
    rw [hsf, he]
    exact ⟨rfl, rfl⟩
  · intro h2
    have h2' : d.key = 2 := h2
    unfold set_scan_frequency_end
    simp only [if_pos h2']
    rw [hsf, he]
    refine ⟨?_, rfl⟩
    unfold set2
    by_cases hf : fpos = 0
    · simp [hf]
    · simp [hf]

set_option maxRecDepth 100000 in
/-- C29 (the code at the failing input): whenever the statement
`scanfreq[fpos] = set_scan_frequency(fpos, f_vfo[cur_vfo]);` of menu action 22 has run with a
dialog ended by a key `k` other than 2 (the last call recorded is that `get_keys`), the EEPROM
is as before (slot 33+fpos keeps its value) but `scanfreq[fpos]` is 0, the value the function
returns on that path, whatever it was before.  With the edges 14,100,000 and 14,300,000 Hz in
`scanfreq` and in slots 33 and 34, action 22 with both dialogs ended by key 1 leaves
`scanfreq` = (0, 0) and the two slots unchanged. -/
theorem C29_abort_zeroes_scan_edge (fuel : Nat) (fpos : Int) (cur_vfo : Int) (sys sys1 : Sys)
    (hf : fpos = 0 ∨ fpos = 1) (h : main_scan_edge fuel fpos cur_vfo sys = .done sys1) :
    (∃ k tr, sys1.trace = tr ++ [Ev.keys k] ∧ k ≠ 0 ∧
      (k ≠ 2 → get2 sys1.g.scanfreq fpos = 0 ∧
        get2 sys1.g.scanfreq (1 - fpos) = get2 sys.g.scanfreq (1 - fpos) ∧ sys1.e = sys.e)) ∧
    (sysEdges [pollKey 1, pollKey 1]).g.scanfreq = (14100000, 14300000) ∧
    (main_action22 4 0 (sysEdges [pollKey 1, pollKey 1])).result.map
      (fun s => (s.g.scanfreq, load_frequency 33 s.e, load_frequency 34 s.e, s.trace)) =
        some ((0, 0), 14100000, 14300000, [Ev.keys 1, Ev.keys 1]) := by
  refine ⟨?_, by decide, by decide⟩
  obtain ⟨k, tr, f, htr, hk, hab, _⟩ := main_scan_edge_spec fuel fpos cur_vfo sys sys1 h
  refine ⟨k, tr, htr, hk, ?_⟩
  intro h2
  obtain ⟨hs, he⟩ := hab h2
  rw [hs]
  exact ⟨get2_set2 _ _ _, get2_set2_other _ _ _ hf, he⟩

set_option maxRecDepth 100000 in
theorem C29_abort_zeroes_scan_edge_witness :
    (∃ k tr, ([Ev.keys 3] : List Ev) = tr ++ [Ev.keys k] ∧ k ≠ 0 ∧
      (k ≠ 2 → get2 ((0, 14300000) : Int × Int) 0 = 0 ∧
        get2 ((0, 14300000) : Int × Int) (1 - 0) =
          get2 (sysEdges [pollKey 3]).g.scanfreq (1 - 0) ∧
        (sysEdges [pollKey 3]).e = (sysEdges [pollKey 3]).e)) :=
  (C29_abort_zeroes_scan_edge 4 0 0 (sysEdges [pollKey 3])
    { (sysEdges []) with
      g := { (sysEdges []).g with scanfreq := (0, 14300000) }, trace := [Ev.keys 3] }
    (Or.inl rfl) (by rfl)).1

/-! ## Memory dialogs: proofs -/

theorem progsValid_nil : ProgsValid [] := fun _ h => by cases h

theorem progsValid_append (a b : List Ev) (ha : ProgsValid a) (hb : ProgsValid b) :
    ProgsValid (a ++ b) := by
  intro f hf
  rcases List.mem_append.1 hf with h | h
  · exact ha f h
  · exact hb f h

theorem progsValid_keys (l : List Ev) (h : ∀ ev ∈ l, isKeys ev) : ProgsValid l := by
  intro f hf
  obtain ⟨k, hk⟩ := h _ hf
  cases hk

theorem progsValid_load (m : Int) : ProgsValid [Ev.load m] := by
  intro f hf
  simp at hf

theorem progsValid_key (k : Int) : ProgsValid [Ev.keys k] := by
  intro f hf
  simp at hf

theorem mem_program_pos (shown : Bool) (d : Dlg)
    (h : is_mem_freq_ok (load_frequency d.val d.sys.e) ≠ 0) :
    mem_program shown d =
      ⟨if shown then
          (((d.sys.log (Ev.load d.val)).log (Ev.load d.val)).log
            (Ev.setf1 (load_frequency d.val d.sys.e))).log (Ev.load d.val)
        else
          ((d.sys.log (Ev.load d.val)).log (Ev.load d.val)).log
            (Ev.setf1 (load_frequency d.val d.sys.e)), d.key, d.val⟩ := by
  unfold mem_program
  exact if_pos h

theorem mem_program_neg (shown : Bool) (d : Dlg)
    (h : ¬ is_mem_freq_ok (load_frequency d.val d.sys.e) ≠ 0) :
    mem_program shown d = ⟨d.sys.log (Ev.load d.val), d.key, d.val⟩ := by
  unfold mem_program
  exact if_neg h

theorem mem_program_spec (shown : Bool) (d : Dlg) :
    (mem_program shown d).sys.e = d.sys.e ∧ (mem_program shown d).sys.input = d.sys.input ∧
    (mem_program shown d).key = d.key ∧ (mem_program shown d).val = d.val ∧
    ∃ new, (mem_program shown d).sys.trace = d.sys.trace ++ new ∧ ProgsValid new := by
  by_cases hok : is_mem_freq_ok (load_frequency d.val d.sys.e) ≠ 0
  · rw [mem_program_pos shown d hok]
    cases shown
    · refine ⟨rfl, rfl, rfl, rfl,
        [Ev.load d.val, Ev.load d.val, Ev.setf1 (load_frequency d.val d.sys.e)], ?_, ?_⟩
      · simp [Sys.log]
      · intro f hf
        simp only [List.mem_cons, Ev.setf1.injEq, List.mem_singleton, reduceCtorEq,
          false_or, List.not_mem_nil, or_false] at hf
        rw [hf]
        exact hok
    · refine ⟨rfl, rfl, rfl, rfl,
        [Ev.load d.val, Ev.load d.val, Ev.setf1 (load_frequency d.val d.sys.e),
          Ev.load d.val], ?_, ?_⟩
      · simp [Sys.log]
      · intro f hf
        simp only [List.mem_cons, Ev.setf1.injEq, List.mem_singleton, reduceCtorEq,
          false_or, List.not_mem_nil, or_false] at hf
        rw [hf]
        exact hok
  · rw [mem_program_neg shown d hok]
    exact ⟨rfl, rfl, rfl, rfl, [Ev.load d.val], rfl, progsValid_load _⟩

theorem memStep_refl (G : List Ev → Prop) (hG0 : G []) (d : Dlg) : MemStep G d d :=
  ⟨rfl, rfl, rfl, [], by simp, hG0⟩

theorem memStep_trans (G : List Ev → Prop) (hGapp : ∀ a b, G a → G b → G (a ++ b))
    (d d1 d2 : Dlg) (h1 : MemStep G d d1) (h2 : MemStep G d1 d2) : MemStep G d d2 := by
  obtain ⟨a, b, c, new, hn, hv⟩ := h1
  obtain ⟨a2, b2, c2, new2, hn2, hv2⟩ := h2
  refine ⟨a2.trans a, b2.trans b, c2.trans c, new ++ new2, ?_, hGapp _ _ hv hv2⟩
  rw [hn2, hn, List.append_assoc]

theorem memStep_program (shown : Bool) (x : Dlg) (v : Int) :
    MemStep ProgsValid x (mem_program shown ⟨x.sys.knob_clear, x.key, v⟩) := by
  obtain ⟨a, b, c, _, e⟩ := mem_program_spec shown ⟨x.sys.knob_clear, x.key, v⟩
  exact ⟨a, b, c, e⟩

theorem mem_turn_spec (shown : Bool) (d : Dlg) : MemStep ProgsValid d (mem_turn shown d) := by
  unfold mem_turn
  dsimp only
  by_cases h1 : d.sys.g.tuningknob ≥ 1
  · rw [if_pos h1]
    generalize hv : (if d.val > 0 then toInt16 (d.val - 1) else (MAXMEM : Int)) = v
    have s1 := memStep_program shown d v
    generalize mem_program shown ⟨d.sys.knob_clear, d.key, v⟩ = d1 at s1 ⊢
    by_cases h2 : d1.sys.g.tuningknob ≤ -1
    · rw [if_pos h2]
      exact memStep_trans ProgsValid progsValid_append _ _ _ s1 (memStep_program shown d1 _)
    · rw [if_neg h2]
      exact s1
  · rw [if_neg h1]
    by_cases h2 : d.sys.g.tuningknob ≤ -1
    · rw [if_pos h2]
      exact memStep_program shown d _
    · rw [if_neg h2]
      exact memStep_refl ProgsValid progsValid_nil d

theorem mem_loop_inv (shown : Bool) (e0 : EEPROM) (tr0 : List Ev) (n : Nat) (d : Dlg)
    (hI : MemInv ProgsValid e0 tr0 d) :
    (dlg_loop (mem_turn shown) n d).All (fun _ => True)
      (fun d1 => MemInv ProgsValid e0 tr0 d1 ∧ d1.key ≠ 0) := by
  refine dlg_loop_inv (mem_turn shown) (MemInv ProgsValid e0 tr0) ?_ n d hI
  intro d p rest ⟨he, new, hn, hv⟩ _ _
  obtain ⟨a, _, _, new2, hn2, hv2⟩ := mem_turn_spec shown d
  refine ⟨a.trans he, new ++ (new2 ++ [Ev.keys (get_keys p.adc0)]), ?_,
    progsValid_append _ _ hv (progsValid_append _ _ hv2 (progsValid_key _))⟩
  show (mem_turn shown d).sys.trace ++ [Ev.keys (get_keys p.adc0)] = _
  rw [hn2, hn]
  simp

theorem drain_keys_progs (n : Nat) (s s1 : Sys) (h : drain_keys n s = .done s1) :
    ∃ new, s1.trace = s.trace ++ new ∧ ProgsValid new := by
  have hq := Out.All_of_eq_done (drain_keys_all isKeys isKeys_keys n s) h
  obtain ⟨⟨_, _, _, new, hn, hall⟩, _⟩ := hq
  exact ⟨new, hn, progsValid_keys new hall⟩

theorem save_mem_freq_progs (fuel : Nat) (f : Int) (mem : Int) (sys : Sys) (r : Int × Sys)
    (h : save_mem_freq fuel f mem sys = .done r) :
    ∃ rest, r.2.trace = sys.trace ++ Ev.load mem :: Ev.setf1 (load_frequency mem sys.e) :: rest ∧
      ProgsValid rest := by
  unfold save_mem_freq at h
  obtain ⟨d, hd, hend⟩ := (Out.bind_eq_done _ _ _).1 h
  have hq := Out.All_of_eq_done
    (mem_loop_inv false sys.e
      (sys.trace ++ [Ev.load mem, Ev.setf1 (load_frequency mem sys.e)]) fuel
      ⟨(sys.log (Ev.load mem)).log (Ev.setf1 (load_frequency mem sys.e)), 0, mem⟩
      ⟨rfl, [], by simp [Sys.log], progsValid_nil⟩) hd
  obtain ⟨⟨_, new, hn, hv⟩, _⟩ := hq
  unfold save_mem_freq_end at hend
  by_cases h2 : d.key = 2
  · rw [if_pos h2] at hend
    simp only [Out.done.injEq] at hend
    subst hend
    refine ⟨new, ?_, hv⟩
    show d.sys.trace = _
    rw [hn]
    simp
  · rw [if_neg h2] at hend
    obtain ⟨s1, hs1, hfin⟩ := (Out.bind_eq_done _ _ _).1 hend
    simp only [Out.done.injEq] at hfin
    subst hfin
    obtain ⟨new2, hn2, hv2⟩ := drain_keys_progs fuel d.sys s1 hs1
    refine ⟨new ++ new2, ?_, progsValid_append _ _ hv hv2⟩
    show s1.trace = _
    rw [hn2, hn]
    simp

theorem recall_mem_freq_progs (fuel : Nat) (sys : Sys) (r : Int × Sys)
    (h : recall_mem_freq fuel sys = .done r) :
    ∃ new, r.2.trace = sys.trace ++ new ∧ ProgsValid new := by
  unfold recall_mem_freq at h
  obtain ⟨d, hd, hend⟩ := (Out.bind_eq_done _ _ _).1 h
  obtain ⟨a, _, _, _, new0, hn0, hv0⟩ := mem_program_spec true ⟨sys, 0, 0⟩
  have hq := Out.All_of_eq_done
    (mem_loop_inv true sys.e sys.trace fuel (mem_program true ⟨sys, 0, 0⟩)
      ⟨a, new0, hn0, hv0⟩) hd
  obtain ⟨⟨_, new, hn, hv⟩, _⟩ := hq
  unfold recall_mem_freq_end at hend
  by_cases h2 : d.key = 2 ∧ is_mem_freq_ok (load_frequency d.val d.sys.e) ≠ 0
  · rw [if_pos h2] at hend
    simp only [Out.done.injEq] at hend
    subst hend
    refine ⟨new ++ [Ev.load d.val, Ev.load d.val], ?_,
      progsValid_append _ _ hv (progsValid_append [Ev.load d.val] [Ev.load d.val]
        (progsValid_load _) (progsValid_load _))⟩
    show d.sys.trace ++ [Ev.load d.val, Ev.load d.val] = _
    rw [hn]
    simp
  · rw [if_neg h2] at hend
    obtain ⟨s1, hs1, hfin⟩ := (Out.bind_eq_done _ _ _).1 hend
    simp only [Out.done.injEq] at hfin
    subst hfin
    obtain ⟨new2, hn2, hv2⟩ := drain_keys_progs fuel _ s1 hs1
    by_cases hk : d.key = 2
    · rw [if_pos hk] at hn2
      refine ⟨new ++ ([Ev.load d.val] ++ new2), ?_,
        progsValid_append _ _ hv (progsValid_append _ _ (progsValid_load _) hv2)⟩
      show s1.trace = _
      rw [hn2]
      show (d.sys.trace ++ [Ev.load d.val]) ++ new2 = _
      rw [hn]
      simp
    · rw [if_neg hk] at hn2
      refine ⟨new ++ new2, ?_, progsValid_append _ _ hv hv2⟩
      show s1.trace = _
      rw [hn2, hn]
      simp

theorem scan_mem_slot_progs (n : Nat) (s : Scan) (h0 : 0 ≤ s.t1) (h15 : s.t1 < 15)
    (hk : s.key = 0) :
    (scan_mem_slot n s).All (TraceExt ProgsValid s.sys)
      (fun s1 => 0 ≤ s1.t1 ∧ TraceExt ProgsValid s.sys s1.sys) := by
  have key : ∀ sys1, SlotSeg s sys1 → TraceExt ProgsValid s.sys sys1 := by
    intro sys1 ⟨_, _, _, rest, hr, hu, hnu⟩
    refine ⟨Ev.load s.t1 :: rest, hr, ?_⟩
    intro f hf
    rcases List.mem_cons.1 hf with h1 | h1
    · cases h1
    · by_cases hc : scan_mem_usable (scan_mem_load s)
      · obtain ⟨more, hmo, hall⟩ := hu hc
        rw [hmo] at h1
        rcases List.mem_cons.1 h1 with h2 | h2
        · have h3 := Ev.setf1.inj h2
          rw [h3]
          exact hc.1
        · rcases hall _ h2 with ⟨k, hk⟩ | ⟨v, hv⟩
          · cases hk
          · cases hv
      · obtain ⟨k, hk⟩ := hnu hc _ h1
        cases hk
  refine Out.All_mono _ (scan_mem_slot_all n s hk h0 h15) key ?_
  intro s1 ⟨hseg, ht, _⟩
  exact ⟨by omega, key _ hseg⟩

theorem scan_progs_valid (fuel : Nat) (stack : List Int) (sys : Sys) :
    (scan fuel 0 stack sys).All (TraceExt ProgsValid sys)
      (fun r => TraceExt ProgsValid sys r.2 ∧ True) := by
  refine scan_all ProgsValid progsValid_append progsValid_keys (fun _ => True) fuel stack
    sys ?_
  intro s ht _
  refine Out.All_mono _
    (scan_mem_all (fun s => 0 ≤ s.t1) ProgsValid progsValid_nil
      progsValid_append progsValid_keys
      (fun n s hI h15 hk => scan_mem_slot_progs n s hI h15 hk)
      (fun s _ _ _ => le_refl _) fuel s (by show 0 ≤ s.t1; omega))
    (fun _ h => h) (fun _ h => ⟨h.1, trivial⟩)

set_option maxRecDepth 100000 in
/-- C23 (the code at the failing input): `recall_mem_freq` and `scan(0)` pass to
`set_frequency1` only values that pass `is_mem_freq_ok`; `save_mem_freq(f, mem)` does so in
its loop, but its entry code calls `set_frequency1(load_frequency(mem))` without the test:
its record always starts with the load of slot `mem` followed by `set_frequency1` of the
value loaded, whatever that value is.  With slot 0 unset (all cells 0, value 0, which fails
`is_mem_freq_ok`), `save_mem_freq(14200000, 0)` programs chip A with 0 Hz. -/
theorem C23_save_programs_unvalidated_load :
    (∀ (fuel : Nat) (sys : Sys) (r : Int × Sys), recall_mem_freq fuel sys = .done r →
      ∃ new, r.2.trace = sys.trace ++ new ∧ ∀ f, Ev.setf1 f ∈ new → is_mem_freq_ok f ≠ 0) ∧
    (∀ (fuel : Nat) (stack : List Int) (sys sys1 : Sys),
      (scan fuel 0 stack sys).sys = some sys1 →
      ∃ new, sys1.trace = sys.trace ++ new ∧ ∀ f, Ev.setf1 f ∈ new → is_mem_freq_ok f ≠ 0) ∧
    (∀ (fuel : Nat) (f mem : Int) (sys : Sys) (r : Int × Sys),
      save_mem_freq fuel f mem sys = .done r →
      ∃ rest, r.2.trace =
          sys.trace ++ Ev.load mem :: Ev.setf1 (load_frequency mem sys.e) :: rest ∧
        ∀ f, Ev.setf1 f ∈ rest → is_mem_freq_ok f ≠ 0) ∧
    is_mem_freq_ok (load_frequency 0 eeZero) = 0 ∧
    (save_mem_freq 4 14200000 0 (sysThr 30 [pollKey 1, pollOf 0 0])).ret = some (-1) ∧
    (save_mem_freq 4 14200000 0 (sysThr 30 [pollKey 1, pollOf 0 0])).sys.map
      (fun s => s.trace) = some [Ev.load 0, Ev.setf1 0, Ev.keys 1, Ev.keys 0] := by
  refine ⟨recall_mem_freq_progs, ?_, save_mem_freq_progs, by decide, by decide, by decide⟩
  intro fuel stack sys sys1 h
  have a := scan_progs_valid fuel stack sys
  cases hs : scan fuel 0 stack sys with
  | nofuel => rw [hs] at h; cases h
  | starved s2 =>
      rw [hs] at h a
      cases h
      exact (Out.All_starved _ _ _).1 a
  | done r =>
      rw [hs] at h
      cases h
      exact (Out.All_of_eq_done a hs).1

/-! ## Dwell loop: proofs -/

theorem samplesOf_append (a b : List Ev) : samplesOf (a ++ b) = samplesOf a ++ samplesOf b := by
  induction a with
  | nil => rfl
  | cons ev rest ih =>
      cases ev <;> simp [samplesOf, ih]

theorem samplesOf_keys (l : List Ev) (h : ∀ ev ∈ l, isKeys ev) : samplesOf l = [] := by
  induction l with
  | nil => rfl
  | cons ev rest ih =>
      obtain ⟨k, hk⟩ := h ev (List.mem_cons_self _ _)
      rw [hk]
      exact ih (fun e he => h e (List.mem_cons_of_mem _ he))

theorem scan_read_key_keys (s s1 : Scan) (h : s.read_key = .done s1) :
    Sys.Ext isKeys s.sys s1.sys ∧ s1.sval = s.sval := by
  unfold Scan.read_key at h
  cases hc : call_get_keys s.sys with
  | none => rw [hc] at h; cases h
  | some r =>
      obtain ⟨k, sys1⟩ := r
      rw [hc] at h
      simp only [Out.done.injEq] at h
      subst h
      exact ⟨(call_get_keys_ext isKeys s.sys k sys1 hc (isKeys_keys k)).1, rfl⟩

theorem scan_tick_wait_keys (n : Nat) (s s1 : Scan) (h : scan_tick_wait n s = .done s1) :
    Sys.Ext isKeys s.sys s1.sys ∧ s1.sval = s.sval := by
  induction n generalizing s with
  | zero => cases h
  | succ n ih =>
      rw [scan_tick_wait] at h
      by_cases hc : time_before s 1 ∧ s.key = 0
      · rw [if_pos hc] at h
        obtain ⟨s2, h2, h3⟩ := (Out.bind_eq_done _ _ _).1 h
        obtain ⟨a, b⟩ := scan_read_key_keys s s2 h2
        obtain ⟨a1, b1⟩ := ih s2 h3
        exact ⟨Sys.Ext_trans a a1, b1.trans b⟩
      · rw [if_neg hc] at h
        simp only [Out.done.injEq] at h
        subst h
        exact ⟨Sys.Ext_refl _ _, rfl⟩

theorem scan_sample_step (s s1 : Scan) (h : s.sample = .done s1) :
    s1.sys.trace = s.sys.trace ++ [Ev.adc2 s1.sval] ∧ s1.key = s.key ∧
    s1.sys.g.s_threshold = s.sys.g.s_threshold := by
  unfold Scan.sample at h
  cases hc : call_get_adc2 s.sys with
  | none => rw [hc] at h; cases h
  | some r =>
      obtain ⟨v, sys1⟩ := r
      rw [hc] at h
      simp only [Out.done.injEq] at h
      subst h
      obtain ⟨⟨_, hthr, _⟩, ht⟩ := call_get_adc2_ext isInput s.sys v sys1 hc (isInput_adc2 v)
      exact ⟨ht, rfl, (show_meter_frame v sys1.g).1.trans hthr⟩

theorem scan_mem_dwell_seq (n : Nat) (s s1 : Scan) (h : scan_mem_dwell n s = .done s1) :
    s1.sys.g.s_threshold = s.sys.g.s_threshold ∧
    ∃ new, s1.sys.trace = s.sys.trace ++ new ∧ DwellSeq s.sys.g.s_threshold s.sval new s1 := by
  induction n generalizing s with
  | zero => cases h
  | succ n ih =>
      rw [scan_mem_dwell] at h
      by_cases hc : s.sval > s.sys.g.s_threshold ∧ s.key = 0
      · rw [if_pos hc] at h
        obtain ⟨s4, h4, h5⟩ := (Out.bind_eq_done _ _ _).1 h
        obtain ⟨s3, h3, hs4⟩ := (Out.bind_eq_done _ _ _).1 h4
        obtain ⟨s2, h2, hs3⟩ := (Out.bind_eq_done _ _ _).1 h3
        obtain ⟨x2, _⟩ := scan_read_key_keys _ s2 h2
        rw [mark_time_sys] at x2
        obtain ⟨x3, _⟩ := scan_tick_wait_keys n s2 s3 hs3
        obtain ⟨_, hthr3, _, ks, hks, hkall⟩ := Sys.Ext_trans x2 x3
        obtain ⟨ht4, _, hthr4⟩ := scan_sample_step s3 s4 hs4
        obtain ⟨hthr1, new, hn, hseq⟩ := ih s4 h5
        have hthr : s4.sys.g.s_threshold = s.sys.g.s_threshold := hthr4.trans hthr3
        refine ⟨hthr1.trans hthr, ks ++ [Ev.adc2 s4.sval] ++ new, ?_, ?_⟩
        · rw [hn, ht4, hks]
          simp
        · rw [hthr] at hseq
          obtain ⟨q1, q2, q3⟩ := hseq
          have hsm : samplesOf (ks ++ [Ev.adc2 s4.sval] ++ new) = s4.sval :: samplesOf new := by
            rw [samplesOf_append, samplesOf_append, samplesOf_keys ks hkall]
            rfl
          rw [DwellSeq, hsm]
          refine ⟨?_, ?_, q3⟩
          · intro v hv
            rw [List.dropLast_cons₂] at hv
            rcases List.mem_cons.1 hv with h1 | h1
            · rw [h1]
              exact hc.1
            · exact q1 v h1
          · rw [List.getLast?_cons_cons]
            exact q2
      · rw [if_neg hc] at h
        simp only [Out.done.injEq] at h
        subst h
        refine ⟨rfl, [], by simp, ?_⟩
        refine ⟨?_, rfl, ?_⟩
        · intro v hv
          simp [samplesOf] at hv
        · intro hk
          by_contra hcon
          exact hc ⟨by omega, hk⟩

theorem afterKey_append_none (a b : List Ev) (h : afterKey a = none) :
    afterKey (a ++ b) = afterKey b := by
  induction a with
  | nil => rfl
  | cons ev rest ih =>
      cases ev with
      | keys k =>
          rw [afterKey] at h
          by_cases hk : k ≠ 0
          · rw [if_pos hk] at h
            exact absurd h (by simp)
          · rw [if_neg hk] at h
            rw [List.cons_append, afterKey, if_neg hk]
            exact ih h
      | adc2 v => exact ih h
      | load m => exact ih h
      | setf1 f => exact ih h
      | nav m k p => exact ih h

theorem afterKey_append_some (a b r : List Ev) (h : afterKey a = some r) :
    afterKey (a ++ b) = some (r ++ b) := by
  induction a with
  | nil => exact absurd h (by simp [afterKey])
  | cons ev rest ih =>
      cases ev with
      | keys k =>
          rw [afterKey] at h
          rw [List.cons_append, afterKey]
          by_cases hk : k ≠ 0
          · rw [if_pos hk] at h ⊢
            simp only [Option.some.injEq] at h
            rw [h]
          · rw [if_neg hk] at h ⊢
            exact ih h
      | adc2 v => exact ih h
      | load m => exact ih h
      | setf1 f => exact ih h
      | nav m k p => exact ih h

theorem scan_read_key_trace (s s1 : Scan) (h : s.read_key = .done s1) :
    s1.sys.trace = s.sys.trace ++ [Ev.keys s1.key] := by
  unfold Scan.read_key at h
  cases hc : call_get_keys s.sys with
  | none => rw [hc] at h; cases h
  | some r =>
      obtain ⟨k, sys1⟩ := r
      rw [hc] at h
      simp only [Out.done.injEq] at h
      subst h
      exact (call_get_keys_ext isKeys s.sys k sys1 hc (isKeys_keys k)).2.2.2

/-- The loop that waits for the next tick, entered without a key: it records calls of
`get_keys` only, and a call that reports a key is the last one. -/
theorem scan_tick_wait_afterKey (n : Nat) (s s1 : Scan) (h : scan_tick_wait n s = .done s1)
    (hk : s.key = 0) :
    ∃ ks, s1.sys.trace = s.sys.trace ++ ks ∧
      ((s1.key = 0 ∧ afterKey ks = none) ∨ (s1.key ≠ 0 ∧ afterKey ks = some [])) := by
  induction n generalizing s with
  | zero => cases h
  | succ n ih =>
      rw [scan_tick_wait] at h
      by_cases hc : time_before s 1 ∧ s.key = 0
      · rw [if_pos hc] at h
        obtain ⟨s2, h2, h3⟩ := (Out.bind_eq_done _ _ _).1 h
        have ht := scan_read_key_trace s s2 h2
        by_cases hk2 : s2.key = 0
        · obtain ⟨ks, hks, hcase⟩ := ih s2 h3 hk2
          refine ⟨Ev.keys s2.key :: ks, by rw [hks, ht]; simp, ?_⟩
          rw [afterKey, if_neg (by rw [hk2]; simp)]
          exact hcase
        · cases n with
          | zero => cases h3
          | succ n =>
              rw [scan_tick_wait, if_neg (fun hx => hk2 hx.2)] at h3
              simp only [Out.done.injEq] at h3
              subst h3
              refine ⟨[Ev.keys s2.key], ht, Or.inr ⟨hk2, ?_⟩⟩
              rw [afterKey, if_pos hk2]
      · rw [if_neg hc] at h
        simp only [Out.done.injEq] at h
        subst h
        exact ⟨[], by simp, Or.inl ⟨hk, rfl⟩⟩

/-- The dwell loop, entered without a key: when it ends without a key no call of `get_keys`
has reported one; when it ends with a key, what it recorded after the first call of
`get_keys` that reported a key is exactly one sample, the final `sval`. -/
theorem scan_mem_dwell_afterKey (n : Nat) (s s1 : Scan) (h : scan_mem_dwell n s = .done s1)
    (hk : s.key = 0) :
    ∃ new, s1.sys.trace = s.sys.trace ++ new ∧
      ((s1.key = 0 ∧ afterKey new = none) ∨
        (s1.key ≠ 0 ∧ afterKey new = some [Ev.adc2 s1.sval])) := by
  induction n generalizing s with
  | zero => cases h
  | succ n ih =>
      rw [scan_mem_dwell] at h
      by_cases hc : s.sval > s.sys.g.s_threshold ∧ s.key = 0
      · rw [if_pos hc] at h
        obtain ⟨s4, h4, h5⟩ := (Out.bind_eq_done _ _ _).1 h
        obtain ⟨s3, h3, hs4⟩ := (Out.bind_eq_done _ _ _).1 h4
        obtain ⟨s2, h2, hs3⟩ := (Out.bind_eq_done _ _ _).1 h3
        have ht2 := scan_read_key_trace _ s2 h2
        rw [mark_time_sys] at ht2
        obtain ⟨ht4, hk4, _⟩ := scan_sample_step s3 s4 hs4
        have hstop : s4.key ≠ 0 → s1 = s4 := by
          intro hne
          cases n with
          | zero => cases h5
          | succ n =>
              rw [scan_mem_dwell, if_neg (fun hx => hne hx.2)] at h5
              simp only [Out.done.injEq] at h5
              exact h5.symm
        by_cases hk2 : s2.key = 0
        · obtain ⟨ks, hks, hcase⟩ := scan_tick_wait_afterKey n s2 s3 hs3 hk2
          have hk0 : afterKey [Ev.keys s2.key] = none := by
            rw [afterKey, if_neg (by rw [hk2]; simp)]
            rfl
          rcases hcase with ⟨hz, hnone⟩ | ⟨hne, hsome⟩
          · obtain ⟨new, hn, hres⟩ := ih s4 h5 (by rw [hk4]; exact hz)
            refine ⟨[Ev.keys s2.key] ++ (ks ++ ([Ev.adc2 s4.sval] ++ new)), ?_, ?_⟩
            · rw [hn, ht4, hks, ht2]
              simp
            · rw [afterKey_append_none _ _ hk0, afterKey_append_none _ _ hnone,
                afterKey_append_none _ _ (by rfl)]
              exact hres
          · have hs14 := hstop (by rw [hk4]; exact hne)
            subst hs14
            refine ⟨[Ev.keys s2.key] ++ (ks ++ [Ev.adc2 s1.sval]), ?_, Or.inr ⟨?_, ?_⟩⟩
            · rw [ht4, hks, ht2]
              simp
            · rw [hk4]; exact hne
            · rw [afterKey_append_none _ _ hk0, afterKey_append_some _ _ _ hsome]
              rfl
        · have hs32 : s3 = s2 := by
            cases n with
            | zero => cases hs3
            | succ n =>
                rw [scan_tick_wait, if_neg (fun hx => hk2 hx.2)] at hs3
                simp only [Out.done.injEq] at hs3
                exact hs3.symm
          subst hs32
          have hs14 := hstop (by rw [hk4]; exact hk2)
          subst hs14
          refine ⟨[Ev.keys s3.key, Ev.adc2 s1.sval], ?_, Or.inr ⟨by rw [hk4]; exact hk2, ?_⟩⟩
          · rw [ht4, ht2]
            simp
          · rw [afterKey, if_pos hk2]
      · rw [if_neg hc] at h
        simp only [Out.done.injEq] at h
        subst h
        exact ⟨[], by simp, Or.inl ⟨hk, rfl⟩⟩

set_option maxRecDepth 100000 in
/-- C27 (counterexample): with threshold 30, the sample 40 on entry and key 1 read in the
first iteration, the dwell loop takes the sample 50 and ends there: the latest sample is
strictly greater than the threshold, yet the loop does not re-sample again (the next poll is
left unread). -/
theorem C27_dwell_key_counterexample :
    (scan_mem_dwell 5 (scanDwell 30 40 [pollKey 1, pollOf 0 50, pollOf 0 60])).result.map
      (fun s => (samplesOf s.sys.trace, s.sval, s.key, s.sys.input)) =
        some ([50], 50, 1, [pollOf 0 60]) ∧
    (50 : Int) > (scanDwell 30 40 [pollKey 1, pollOf 0 50, pollOf 0 60]).sys.g.s_threshold := by
  decide

set_option maxRecDepth 100000 in
/-- C27 (amended): whenever the dwell loop `while(sval > s_threshold && !key)` of the memory scan ends,
the samples it has seen (the one on entry, then the re-samples it recorded) are all strictly
above the threshold except the last, which is the final `sval` and is at most the threshold
unless a key ended the loop; a sample on entry that is not above the threshold (equal
included) ends the loop without any call; and when the loop is entered without a key, it
ends without one only if no call of `get_keys` reported a key, and otherwise what it
recorded after the first call that reported a key is exactly one sample, the final `sval`.
With threshold 30, the sample 40 on entry and 20 next, the loop re-samples exactly once (the
third poll is left unread); with the sample 30 on entry it makes no call at all. -/
theorem C27_dwell_threshold_tie_break (n : Nat) (s s1 : Scan)
    (h : scan_mem_dwell n s = .done s1) :
    (∃ new, s1.sys.trace = s.sys.trace ++ new ∧
      (∀ v ∈ (s.sval :: samplesOf new).dropLast, v > s.sys.g.s_threshold) ∧
      (s.sval :: samplesOf new).getLast? = some s1.sval ∧
      (s1.key = 0 → s1.sval ≤ s.sys.g.s_threshold) ∧
      (s.sval ≤ s.sys.g.s_threshold → new = [] ∧ s1.sys.input = s.sys.input) ∧
      (s.key = 0 → (s1.key = 0 ∧ afterKey new = none) ∨
        (s1.key ≠ 0 ∧ afterKey new = some [Ev.adc2 s1.sval]))) ∧
    (scan_mem_dwell 5 (scanDwell 30 40 [pollOf 0 0, pollOf 0 20, pollOf 0 99])).result.map
      (fun s => (samplesOf s.sys.trace, s.sval, s.sys.input)) =
        some ([20], 20, [pollOf 0 99]) ∧
    (scan_mem_dwell 5 (scanDwell 30 30 [pollOf 0 0, pollOf 0 20, pollOf 0 99])).result.map
      (fun s => (s.sys.trace, s.sval, s.sys.input)) =
        some ([], 30, [pollOf 0 0, pollOf 0 20, pollOf 0 99]) := by
  refine ⟨?_, by decide, by decide⟩
  obtain ⟨_, new, hn, q1, q2, q3⟩ := scan_mem_dwell_seq n s s1 h
  refine ⟨new, hn, q1, q2, q3, ?_, ?_⟩
  · intro hle
    cases n with
    | zero => cases h
    | succ n =>
        rw [scan_mem_dwell] at h
        have hc : ¬ (s.sval > s.sys.g.s_threshold ∧ s.key = 0) := fun hc => by omega
        rw [if_neg hc] at h
        simp only [Out.done.injEq] at h
        subst h
        exact ⟨List.append_cancel_left (by rw [List.append_nil]; exact hn.symm), rfl⟩
  · intro hk
    obtain ⟨new2, hn2, hcase⟩ := scan_mem_dwell_afterKey n s s1 h hk
    have he : new = new2 := List.append_cancel_left (hn.symm.trans hn2)
    rw [he]
    exact hcase

set_option maxRecDepth 100000 in
theorem C27_dwell_threshold_tie_break_witness :
    ∃ new, scanDwellEnd.sys.trace =
        (scanDwell 30 40 [pollOf 0 0, pollOf 0 20, pollOf 0 99]).sys.trace ++ new ∧
      (∀ v ∈ ((scanDwell 30 40 [pollOf 0 0, pollOf 0 20, pollOf 0 99]).sval ::
          samplesOf new).dropLast,
        v > (scanDwell 30 40 [pollOf 0 0, pollOf 0 20, pollOf 0 99]).sys.g.s_threshold) ∧
      ((scanDwell 30 40 [pollOf 0 0, pollOf 0 20, pollOf 0 99]).sval ::
          samplesOf new).getLast? = some scanDwellEnd.sval ∧
      (scanDwellEnd.key = 0 → scanDwellEnd.sval ≤
        (scanDwell 30 40 [pollOf 0 0, pollOf 0 20, pollOf 0 99]).sys.g.s_threshold) ∧
      ((scanDwell 30 40 [pollOf 0 0, pollOf 0 20, pollOf 0 99]).sval ≤
          (scanDwell 30 40 [pollOf 0 0, pollOf 0 20, pollOf 0 99]).sys.g.s_threshold →
        new = [] ∧
          scanDwellEnd.sys.input =
            (scanDwell 30 40 [pollOf 0 0, pollOf 0 20, pollOf 0 99]).sys.input) ∧
      ((scanDwell 30 40 [pollOf 0 0, pollOf 0 20, pollOf 0 99]).key = 0 →
        (scanDwellEnd.key = 0 ∧ afterKey new = none) ∨
          (scanDwellEnd.key ≠ 0 ∧ afterKey new = some [Ev.adc2 scanDwellEnd.sval])) :=
  (C27_dwell_threshold_tie_break 5 (scanDwell 30 40 [pollOf 0 0, pollOf 0 20, pollOf 0 99])
    scanDwellEnd (by rfl)).1

/-! ## Memory scan and key 3: proofs -/

theorem scan_mem_passes_spin (n : Nat) (s : Scan) (h0 : s.key ≠ 0) (h1 : s.key ≠ 1)
    (h2 : s.key ≠ 2) : scan_mem_passes n s = .nofuel := by
  induction n generalizing s with
  | zero => rfl
  | succ n ih =>
      rw [scan_mem_passes, if_pos ⟨h1, h2⟩]
      cases n with
      | zero => rfl
      | succ m =>
          rw [scan_mem_pass_stop m { s with t1 := 0 } h0]
          exact ih { s with t1 := 0 } h0 h1 h2

theorem scan_mem_resume_spin (m : Nat) (s s1 : Scan) (hk : s.key = 0) (h15 : s.t1 < 15)
    (hl : scan_mem_listen m s = .done s1) (h3 : s1.key = 3) :
    scan_mem_resume (m + 1) s = .nofuel := by
  cases m with
  | zero => exact absurd hl (fun h => scan_mem_listen_fuel s s1 h)
  | succ m =>
      have hkey : (scan_mem_next s1).key = 3 := by
        rw [scan_mem_next_key, if_neg (by omega)]
        exact h3
      have e1 : scan_mem_pass (m + 1 + 1) s = .done (scan_mem_next s1) := by
        rw [scan_mem_pass, if_pos ⟨h15, hk⟩]
        unfold scan_mem_slot
        rw [hl]
        show scan_mem_pass (m + 1) (scan_mem_next s1) = _
        exact scan_mem_pass_stop m _ (by rw [hkey]; omega)
      unfold scan_mem_resume
      rw [e1]
      show scan_mem_passes (m + 1 + 1) (scan_mem_next s1) = _
      exact scan_mem_passes_spin _ _ (by rw [hkey]; omega) (by rw [hkey]; omega)
        (by rw [hkey]; omega)

theorem scan_mem_listen_unusable (n : Nat) (s : Scan) (p q : Poll) (rest : List Poll)
    (hu : ¬ scan_mem_usable (scan_mem_load s))
    (hin : s.sys.input = p :: q :: rest) (hq : get_keys q.adc0 = 0) :
    ∃ s1, scan_mem_listen (n + 1) s = .done s1 ∧ s1.key = get_keys p.adc0 := by
  have hin1 : (scan_mem_load s).sys.input = p :: q :: rest := by
    rw [scan_mem_load_sys, log_input]
    exact hin
  unfold scan_mem_listen
  rw [if_neg hu]
  unfold Scan.read_key
  rw [call_get_keys_cons _ p (q :: rest) hin1]
  show ∃ s1, Scan.drain (n + 1) _ = .done s1 ∧ _
  unfold Scan.drain
  rw [drain_keys_zero n _ q rest rfl hq]
  exact ⟨_, rfl, rfl⟩

theorem scan_mem_resume_key3 (n : Nat) (s : Scan) (p q : Poll) (rest : List Poll)
    (hk : s.key = 0) (ht : s.t1 = 0) (hbad : is_mem_freq_ok (load_frequency 0 s.sys.e) = 0)
    (hin : s.sys.input = p :: q :: rest) (h3 : get_keys p.adc0 = 3)
    (hq : get_keys q.adc0 = 0) : scan_mem_resume n s = .nofuel := by
  have hu : ¬ scan_mem_usable (scan_mem_load s) :=
    scan_mem_unusable s (Or.inl (by rw [ht]; exact hbad))
  cases n with
  | zero => rfl
  | succ m =>
      cases m with
      | zero =>
          have hin1 : (scan_mem_load s).sys.input = p :: q :: rest := by
            rw [scan_mem_load_sys, log_input]
            exact hin
          unfold scan_mem_resume
          rw [scan_mem_pass, if_pos ⟨by omega, hk⟩]
          unfold scan_mem_slot scan_mem_listen
          rw [if_neg hu]
          unfold Scan.read_key
          rw [call_get_keys_cons _ p (q :: rest) hin1]
          rfl
      | succ k =>
          obtain ⟨s1, hl, hkey⟩ := scan_mem_listen_unusable k s p q rest hu hin hq
          exact scan_mem_resume_spin (k + 1) s s1 hk (by omega) hl (hkey.trans h3)

set_option maxRecDepth 100000 in
/-- C28 (the code at the failing input): once the variable `key` holds 3 at the test of
`while(key != 1 && key != 2)`, the loops of the memory scan never end, whatever the bound on
the iterations, and they read no further input (the slot loop is skipped because `key` is not
0, and nothing else changes `key`).  So for every input stream in which slot 0 holds no valid
frequency and key 3 is reported on it and released, `scan(0)` never returns, whatever
follows, keys 1 and 2 included: with key 1 held for 20 polls afterwards the run still uses up
any iteration bound. -/
theorem C28_key3_never_ends_memory_scan (fuel : Nat) (stack : List Int) (sys : Sys)
    (p0 p1 p2 : Poll) (rest : List Poll) (hin : sys.input = p0 :: p1 :: p2 :: rest)
    (h0 : get_keys p0.adc0 = 0) (hbad : is_mem_freq_ok (load_frequency 0 sys.e) = 0)
    (h3 : get_keys p1.adc0 = 3) (h2 : get_keys p2.adc0 = 0) :
    scan fuel 0 stack sys = .nofuel ∧
    (∀ (n : Nat) (s : Scan), s.key = 3 → scan_mem_passes n s = .nofuel) ∧
    (∃ p ∈ (sysKey3 20).input, get_keys p.adc0 = 1) ∧
    (scan 40 0 (List.replicate 15 0) (sysKey3 20)).stuck = true := by
  refine ⟨?_, ?_, ⟨pollKey 1, by decide, by decide⟩, by decide⟩
  · cases fuel with
    | zero => rfl
    | succ n =>
        unfold scan Scan.drain
        rw [drain_keys_zero n (scan_entry stack sys).sys p0 (p1 :: p2 :: rest) hin h0]
        rw [Out.bind_done, Out.bind_done, if_pos rfl]
        unfold scan_mem
        rw [scan_mem_passes, if_pos]
        · have hr := scan_mem_resume_key3 n
            { sys := { g := irq p0 (scan_entry stack sys).sys.g,
                       e := (scan_entry stack sys).sys.e,
                       input := p1 :: p2 :: rest,
                       trace := (scan_entry stack sys).sys.trace ++ [Ev.keys 0] },
              t1 := 0, key := 0, sval := (scan_entry stack sys).sval,
              f0 := (scan_entry stack sys).f0, f1 := (scan_entry stack sys).f1,
              df := (scan_entry stack sys).df,
              runsecsold10scan := (scan_entry stack sys).runsecsold10scan,
              scan_skip := (scan_entry stack sys).scan_skip }
            p1 p2 rest rfl rfl hbad rfl h3 h2
          unfold scan_mem_resume at hr
          show ((scan_mem_pass n _).bind (scan_mem_passes n)).bind _ = _
          rw [hr]
          rfl
        · constructor
          · show (0 : Int) ≠ 1
            decide
          · show (0 : Int) ≠ 2
            decide
  · intro n s h3
    exact scan_mem_passes_spin n s (by omega) (by omega) (by omega)

set_option maxRecDepth 100000 in
theorem C28_key3_never_ends_memory_scan_witness :
    scan 1000 0 (List.replicate 15 0) (sysKey3 20) = .nofuel :=
  (C28_key3_never_ends_memory_scan 1000 (List.replicate 15 0) (sysKey3 20) (pollOf 0 0)
    (pollKey 3) (pollOf 0 0) (List.replicate 20 (pollKey 1)) rfl (by decide) (by decide)
    (by decide) (by decide)).1

/-! ## Menu action 20: proofs -/

theorem main_action20_spec (fuel : Nat) (stack : List Int) (cur_vfo : Int) (sys sys1 : Sys)
    (h : main_action20 fuel stack cur_vfo sys = .done sys1) :
    ∃ r sys0, scan fuel 0 stack sys = .done (r, sys0) ∧
      ((keySinceLoad sys0.trace = 2 ∧ 0 ≤ r ∧ r ≤ 14) ∨ (keySinceLoad sys0.trace = 1 ∧ r = -1)) ∧
      ∃ rest, sys1.trace = sys0.trace ++ Ev.load r :: rest ∧ ∀ m, Ev.load m ∉ rest := by
  unfold main_action20 at h
  obtain ⟨r, hr, hfin⟩ := (Out.bind_eq_done _ _ _).1 h
  obtain ⟨r1, sys0⟩ := r
  have a := scan_all (fun _ => True) (fun _ _ _ _ => trivial) (fun _ _ => trivial)
    (fun r => (keySinceLoad r.2.trace = 2 ∧ curSlot r.2.trace = some r.1 ∧ 0 ≤ r.1 ∧ r.1 ≤ 14) ∨
      (keySinceLoad r.2.trace = 1 ∧ r.1 = -1)) fuel stack sys
    (fun s ht _ => scan_mem_result fuel s (by omega) (by omega))
  have hres := (Out.All_of_eq_done a hr).2
  have hrange : -1 ≤ r1 ∧ r1 ≤ 14 := by
    rcases hres with ⟨_, _, h0, h14⟩ | ⟨_, hm⟩
    · exact ⟨by omega, h14⟩
    · have hm1 : r1 = -1 := hm
      omega
  have ht : toInt16 r1 = r1 := toInt16_small _ (by omega) (by omega)
  refine ⟨r1, sys0, hr, ?_, ?_⟩
  · rcases hres with ⟨h2, _, h0, h14⟩ | ⟨h1, hm⟩
    · exact Or.inl ⟨h2, h0, h14⟩
    · exact Or.inr ⟨h1, hm⟩
  · dsimp only at hfin
    rw [ht] at hfin
    by_cases hok : is_mem_freq_ok (load_frequency r1 (sys0.log (Ev.load r1)).e) ≠ 0
    · rw [if_pos hok] at hfin
      simp only [Out.done.injEq] at hfin
      subst hfin
      refine ⟨[Ev.setf1 (load_frequency r1 (sys0.log (Ev.load r1)).e)], ?_, ?_⟩
      · show (sys0.trace ++ [Ev.load r1]) ++ _ = _
        simp
      · intro m hm
        simp at hm
    · rw [if_neg hok] at hfin
      simp only [Out.done.injEq] at hfin
      subst hfin
      exact ⟨[], rfl, fun m hm => by cases hm⟩

set_option maxRecDepth 100000 in
/-- C30 (the code at the failing input): whenever menu action 20 runs to its end, the slot
index it passes to `load_frequency` is the value `scan(0)` returned, and that value is -1
whenever the scan was ended by the abort key 1 (it is in 0..14 only when the scan was ended
by the confirm key 2).  With a scan aborted on slot 0 the recorded calls of `load_frequency`
are for the slots 0 and -1; slot -1 is read from the cells 65532..65535, outside every slot of the
layout, and when those cells hold 14,200,000 Hz the aborted scan sets f_vfo[0] to it. -/
theorem C30_aborted_scan_loads_slot_minus_one :
    (∀ (fuel : Nat) (stack : List Int) (cur_vfo : Int) (sys sys1 : Sys),
      main_action20 fuel stack cur_vfo sys = .done sys1 →
      ∃ r sys0, scan fuel 0 stack sys = .done (r, sys0) ∧
        ((keySinceLoad sys0.trace = 2 ∧ 0 ≤ r ∧ r ≤ 14) ∨
          (keySinceLoad sys0.trace = 1 ∧ r = -1)) ∧
        ∃ rest, sys1.trace = sys0.trace ++ Ev.load r :: rest ∧ ∀ m, Ev.load m ∉ rest) ∧
    (scan 10 0 (List.replicate 15 0) (sysOf eeZero abortInput)).ret = some (-1) ∧
    (main_action20 10 (List.replicate 15 0) 0 (sysOf eeZero abortInput)).result.map
      (fun s => loadsOf s.trace) = some [0, -1] ∧
    (List.range 4).map (eeAddr (toInt16 (-1 * 4))) = [65532, 65533, 65534, 65535] ∧
    (main_action20 10 (List.replicate 15 0) 0 (sysOf eeEnd abortInput)).result.map
      (fun s => (loadsOf s.trace, progsOf s.trace, s.g.f_vfo)) =
        some ([0, -1], [14200000], (14200000, 0)) :=
  ⟨main_action20_spec, by decide, by decide, by decide, by decide⟩

end Mini22
